import Mathlib

/-! The adaptor `sorted_sequence::adaptor`, a shallow embedding.

The container adaptor of `lib/sorted_sequence/sorted_sequence.h` is modelled over lists:
`Container` is `List T`, an iterator is its offset from `begin()` (a natural number),
`index` (`difference_type`) is `Int`.  Operations whose C++ precondition can be violated by the
caller (an index or an iterator outside the container) return `Option`, `none` standing for the
undefined behaviour / the exception of the original.
-/

namespace sorted_sequence

/-! ## Comparators -/

/-- The `Compare` template parameter: a callable `bool operator()(const T&, const T&)` together
with the `operator==` the adaptor uses to detect an unchanged comparator and the `operator!=`
that `merge` uses. -/
class CompareConcept (Compare : Type) (T : outParam Type) where
  /-- The call operator, `comp(x, y)`. -/
  call : Compare → T → T → Bool
  /-- The equality operator, `comp1 == comp2`. -/
  eq : Compare → Compare → Bool
  /-- The inequality operator, `comp1 != comp2`. -/
  ne : Compare → Compare → Bool

/-- Glossary, strict weak ordering: irreflexive, asymmetric, transitive, and the induced
incomparability relation is transitive. -/
structure StrictWeakOrdering {T : Type} (comp : T → T → Bool) : Prop where
  irrefl : ∀ a, comp a a = false
  asymm : ∀ a b, comp a b = true → comp b a = false
  trans : ∀ a b c, comp a b = true → comp b c = true → comp a c = true
  incomp_trans : ∀ a b c, comp a b = false → comp b a = false → comp b c = false →
    comp c b = false → comp a c = false ∧ comp c a = false

/-- The struct `default_compare<T>`, an empty wrapper of `std::less<T>`. -/
structure default_compare (T : Type) where
  deriving DecidableEq

/-- The call operator of `default_compare<T>` is `std::less<T>`, its `operator==` is constantly
true, its `operator!=` constantly false. -/
instance instCompareDefault (T : Type) [LT T] [DecidableRel (fun x y : T => x < y)] :
    CompareConcept (default_compare T) T where
  call _ x y := decide (x < y)
  eq _ _ := true
  ne _ _ := false

/-- The implicit default constructor `default_compare<T>()`. -/
instance instInhabitedDefaultCompare (T : Type) : Inhabited (default_compare T) where
  default := {}

/-- A `std::shared_ptr<const X>`: the address of the control block / object and the (immutable)
object it points to.  Pointer comparison looks at the address only. -/
structure shared_ptr (X : Type) where
  address : Nat
  target : X

/-- The class `lambda_compare<T>`: a shared pointer `m_f` to the wrapped predicate. -/
structure lambda_compare (T : Type) where
  m_f : shared_ptr (T → T → Bool)

/-- The call operator of `lambda_compare<T>` is `(*m_f)(x, y)`, its `operator==` is
`m_f == other.m_f`, its `operator!=` is `!operator==(other)`. -/
instance instCompareLambda (T : Type) : CompareConcept (lambda_compare T) T where
  call f x y := f.m_f.target x y
  eq f g := decide (f.m_f.address = g.m_f.address)
  ne f g := !decide (f.m_f.address = g.m_f.address)

/-! ## The standard algorithms the adaptor calls -/

/-- The loop shared by `std::lower_bound` and `std::upper_bound` over `[first, first + count)`:
halve `count`, look at the middle element `it`, continue right of it when `goRight *it` holds and
left of it otherwise.  `fuel` bounds the number of iterations; `count` iterations always suffice
because `count` strictly decreases. -/
def bound_loop {T : Type} (goRight : T → Bool) (c : List T) :
    (fuel first count : Nat) → first + count ≤ c.length → Nat
  | 0, first, _, _ => first
  | fuel + 1, first, count, h =>
    if hc : 0 < count then
      let step := count / 2
      let it := first + step
      if goRight (c.get ⟨it, by omega⟩) then
        bound_loop goRight c fuel (it + 1) (count - (step + 1)) (by omega)
      else
        bound_loop goRight c fuel first step (by omega)
    else first

/-- The algorithm `std::lower_bound(begin + first, begin + last, value, comp)`, as an offset from
`begin`: the loop goes right while `comp(*it, value)`. -/
def lower_bound {T : Type} (comp : T → T → Bool) (c : List T) (first last : Nat)
    (h : first ≤ last ∧ last ≤ c.length) (value : T) : Nat :=
  bound_loop (fun x => comp x value) c (last - first) first (last - first) (by omega)

/-- The algorithm `std::upper_bound(begin + first, begin + last, value, comp)`, as an offset from
`begin`: the loop goes right while `!comp(value, *it)`. -/
def upper_bound {T : Type} (comp : T → T → Bool) (c : List T) (first last : Nat)
    (h : first ≤ last ∧ last ≤ c.length) (value : T) : Nat :=
  bound_loop (fun x => !comp value x) c (last - first) first (last - first) (by omega)

/-- One insertion step of a stable sort: `x`, which precedes every element of the already sorted
`l` in the input, goes before the first element that is not less than it. -/
def stable_insert {T : Type} (comp : T → T → Bool) (x : T) : List T → List T
  | [] => [x]
  | y :: l => if comp y x then y :: stable_insert comp x l else x :: y :: l

/-- The algorithm `std::stable_sort(begin, end, comp)` of `default_sort_algorithm::sort`: the
sorted arrangement in which equivalent elements keep their input order (computed by insertion). -/
def stable_sort {T : Type} (comp : T → T → Bool) : List T → List T
  | [] => []
  | x :: l => stable_insert comp x (stable_sort comp l)

/-- The algorithm `std::merge` / `std::inplace_merge` of two consecutive sorted ranges: stable,
an element of the second range is taken only when it is less than the head of the first. -/
def merge {T : Type} (comp : T → T → Bool) : List T → List T → List T
  | [], l2 => l2
  | x :: l1, l2 => mergeInto comp x (merge comp l1) l2
where
  /-- Emit the elements of the second range that are less than `x`, then `x`, then the rest. -/
  mergeInto (comp : T → T → Bool) (x : T) (rest : List T → List T) : List T → List T
    | [] => x :: rest []
    | y :: l2 => if comp y x then y :: mergeInto comp x rest l2 else x :: rest (y :: l2)

end sorted_sequence

namespace sorted_sequence

/-- The call `SortAlgorithm::sort(begin + first, begin + last, comp)` with the default
`default_sort_algorithm`, which forwards to `std::stable_sort`. -/
def default_sort_algorithm.sort {T : Type} (comp : T → T → Bool) (c : List T)
    (first last : Nat) : List T :=
  c.take first ++ stable_sort comp ((c.take last).drop first) ++ c.drop last

/-- The call `std::inplace_merge(begin + first, begin + middle, begin + last, comp)`. -/
def inplace_merge {T : Type} (comp : T → T → Bool) (c : List T) (first middle last : Nat) :
    List T :=
  c.take first ++ merge comp ((c.take middle).drop first) ((c.take last).drop middle)
    ++ c.drop last

/-! ## Element access of the underlying sequence -/

/-- Read `c[i]` / `c.at(i)` for a signed index; `none` when `i` is outside `[0, size)`. -/
def readAt {X : Type} (c : List X) (i : Int) : Option X :=
  if i < 0 then none else c.get? i.toNat

/-- The assignment `c[i] = x` for a signed index; `none` when `i` is outside `[0, size)`. -/
def writeAt {X : Type} (c : List X) (i : Int) (x : X) : Option (List X) :=
  if 0 ≤ i ∧ i < c.length then some (c.set i.toNat x) else none

/-- The call `c.insert(c.begin() + pos, value)`; `none` when `pos` is outside `[0, size]`. -/
def vec_insert {X : Type} (c : List X) (pos : Int) (value : X) : Option (List X) :=
  if 0 ≤ pos ∧ pos ≤ c.length then some (c.take pos.toNat ++ value :: c.drop pos.toNat)
  else none

/-- The call `c.erase(c.begin() + first, c.begin() + last)`; `none` unless
`0 <= first <= last <= size`. -/
def vec_erase_range {X : Type} (c : List X) (first last : Int) : Option (List X) :=
  if 0 ≤ first ∧ first ≤ last ∧ last ≤ c.length then
    some (c.take first.toNat ++ c.drop last.toNat)
  else none

/-- The call `c.erase(c.begin() + i)`; `none` when `i` is outside `[0, size)`. -/
def vec_erase {X : Type} (c : List X) (i : Int) : Option (List X) :=
  if 0 ≤ i ∧ i < c.length then some (c.eraseIdx i.toNat) else none

/-! ## Move assignment and reference arguments -/

/-- What the move assignment of the element type leaves in its source.  The standard only asks
for a valid state; the adaptor can observe it when an argument refers to an element of the
container, or when an element is move-assigned to itself. -/
class MoveConcept (T : Type) where
  /-- The value `y = std::move(x)` leaves in `x`, for distinct objects `y` and `x`; the
  arguments are the values `y` and `x` had before. -/
  moved_from : T → T → T
  /-- The value `x = std::move(x)` leaves in `x`. -/
  self_moved : T → T

/-- Arithmetic types are copied by a move. -/
instance instMoveInt : MoveConcept Int where
  moved_from _ x := x
  self_moved x := x

/-- The move assignment of `std::pair` and of `QPair` moves both members. -/
instance instMovePair {A B : Type} [MoveConcept A] [MoveConcept B] : MoveConcept (A × B) where
  moved_from y x := (MoveConcept.moved_from y.1 x.1, MoveConcept.moved_from y.2 x.2)
  self_moved x := (MoveConcept.self_moved x.1, MoveConcept.self_moved x.2)

/-- An argument of type `const value_type&`: a reference to an object that is not an element of
the container, given by the value of the object, or a reference to the element of the container
at an index (as in `a.change(i, a.at(j))`). -/
inductive const_ref (T : Type) where
  | object (value : T)
  | element (index : Int)

/-- A value passed where a reference is expected refers to an object outside the container. -/
instance instCoeConstRef {T : Type} : Coe T (const_ref T) := ⟨const_ref.object⟩

/-- Read through the reference while the container holds `c`. -/
def const_ref.read {T : Type} (c : List T) : const_ref T → Option T
  | const_ref.object value => some value
  | const_ref.element index => readAt c index

/-- The move assignment `c[dst] = std::move(c[src])` inside one sequence. -/
def move_assign {X : Type} [MoveConcept X] (c : List X) (dst src : Int) : Option (List X) := do
  let x ← readAt c src
  if dst = src then writeAt c src (MoveConcept.self_moved x)
  else do
    let y ← readAt c dst
    let c1 ← writeAt c dst x
    writeAt c1 src (MoveConcept.moved_from y x)

/-- The algorithm `std::move(begin + first, begin + first + count, begin + d_first)` inside one
sequence: the loop `*d_first++ = std::move(*first++)`, front to back.  (With `d_first` inside
the source range the standard leaves the call undefined; the loop is what the implementations
run for element types that are not trivially copyable, and for `d_first == first` it assigns
every element to itself.) -/
def std_move {X : Type} [MoveConcept X] : (count : Nat) → (c : List X) → (first d_first : Int) →
    Option (List X)
  | 0, c, _, _ => some c
  | count + 1, c, first, d_first => do
    let c1 ← move_assign c d_first first
    std_move count c1 (first + 1) (d_first + 1)

/-- The algorithm `std::move_backward(begin + last - count, begin + last, begin + d_last)` inside
one sequence: the loop `*--d_last = std::move(*--last)`, back to front. -/
def std_move_backward {X : Type} [MoveConcept X] : (count : Nat) → (c : List X) →
    (last d_last : Int) → Option (List X)
  | 0, c, _, _ => some c
  | count + 1, c, last, d_last => do
    let c1 ← move_assign c (d_last - 1) (last - 1)
    std_move_backward count c1 (last - 1) (d_last - 1)

/-- The search `std::find(begin + first, begin + first + count, value)` with which
`std::remove` starts: the offset of the first element `== value`, or of the end of the range.
Nothing is written, so the reference is read once. -/
def find_first {X : Type} [DecidableEq X] (c : List X) (value : X) :
    (count : Nat) → (first : Int) → Option Int
  | 0, first => some first
  | count + 1, first => do
    let x ← readAt c first
    if x = value then some first else find_first c value count (first + 1)

/-- The loop of `std::remove` behind the first match,
`for (i = first; ++i != last;) if (!(*i == value)) *first++ = std::move(*i);`: `i` is the
element looked at, `result` the slot the next kept element goes to; `value` is read through the
reference at every comparison.  Returns the sequence and the final `result`. -/
def std_remove_loop {X : Type} [DecidableEq X] [MoveConcept X] (value : const_ref X) :
    (count : Nat) → (c : List X) → (i result : Int) → Option (List X × Int)
  | 0, c, _, result => some (c, result)
  | count + 1, c, i, result => do
    let x ← readAt c i
    let v ← value.read c
    if x = v then std_remove_loop value count c (i + 1) result
    else do
      let c1 ← move_assign c result i
      std_remove_loop value count c1 (i + 1) (result + 1)

/-- The algorithm `std::remove(begin + first, begin + first + count, value)`: find the first
element `== value`, then move every later element of the range that is not `== value` down.
Returns the sequence and the new end of the range. -/
def std_remove {X : Type} [DecidableEq X] [MoveConcept X] (value : const_ref X) (count : Nat)
    (c : List X) (first : Int) : Option (List X × Int) := do
  let v ← value.read c
  let found ← find_first c v count first
  if found = first + count then some (c, found)
  else std_remove_loop value (count - ((found - first).toNat + 1)) c (found + 1) found

/-! ## The adaptor -/

inductive InsertMode where
  /-- Insert at first possible position -/
  | InsertFirst
  /-- Insert at last possible position -/
  | InsertLast
  deriving DecidableEq, Repr

/-- The class `adaptor<Container, Compare, SortAlgorithm>`: its only member is `Data d`, the
comparator (base class of `Data`) and the container `d.c`. -/
structure adaptor (T : Type) (Compare : Type) where
  d : Compare
  c : List T

variable {T Compare : Type} [CompareConcept Compare T]

/-- The comparator call `d(x, y)`. -/
def adaptor.comp (a : adaptor T Compare) : T → T → Bool := CompareConcept.call a.d

/-- The member `size()`. -/
def adaptor.size (a : adaptor T Compare) : Nat := a.c.length

/-- The member `compareOperator()`. -/
def adaptor.compareOperator (a : adaptor T Compare) : Compare := a.d

/-- The member `at(i)`. -/
def adaptor.at_ (a : adaptor T Compare) (i : Int) : Option T := readAt a.c i

/-- The private member `sort()`: sort the whole container with the stored comparator. -/
def adaptor.sort (a : adaptor T Compare) : adaptor T Compare :=
  { a with c := default_sort_algorithm.sort a.comp a.c 0 a.c.length }

/-- The constructor `adaptor(container, compare)`: store both, then `sort()`. -/
def adaptor.fromContainer (container : List T) (compare : Compare) : adaptor T Compare :=
  adaptor.sort { d := compare, c := container }

/-- The constructor `adaptor(compare)`: an empty container. -/
def adaptor.fromCompare (compare : Compare) : adaptor T Compare :=
  { d := compare, c := [] }

/-- Invariant I1: `compare(next, prev)` is false for all adjacent pairs. -/
def adaptor.I1 (a : adaptor T Compare) : Prop :=
  List.Chain' (fun prev next => a.comp next prev = false) a.c

/-- Checking the adjacent pairs one after the other decides sortedness. -/
def decideSorted {X : Type} (comp : X → X → Bool) :
    (l : List X) → Decidable (List.Chain' (fun prev next => comp next prev = false) l)
  | [] => isTrue List.chain'_nil
  | [x] => isTrue (List.chain'_singleton x)
  | x :: y :: l =>
    match h : comp y x with
    | true => isFalse (fun hc => by
        have := (List.chain'_cons.1 hc).1
        rw [h] at this
        exact absurd this (by decide))
    | false =>
      match decideSorted comp (y :: l) with
      | isTrue h1 => isTrue (List.chain'_cons.2 ⟨h, h1⟩)
      | isFalse h1 => isFalse (fun hc => h1 (List.chain'_cons.1 hc).2)

instance adaptor.decidableI1 (a : adaptor T Compare) : Decidable a.I1 :=
  decideSorted a.comp a.c

/-- The default `positionHint = -1`. -/
def noHint : Int := -1

/-- The member `insertPosition(value, mode, positionHint)`. -/
def adaptor.insertPosition (a : adaptor T Compare) (value : T) (mode : InsertMode)
    (positionHint : Int) : Int :=
  let n : Int := a.c.length
  let d := a.comp
  -- the two `return offset(std::lower_bound / upper_bound(begin(), end(), value, d))` at the end
  let full : Int :=
    if mode = InsertMode.InsertFirst then
      lower_bound d a.c 0 a.c.length ⟨Nat.zero_le _, Nat.le_refl _⟩ value
    else
      upper_bound d a.c 0 a.c.length ⟨Nat.zero_le _, Nat.le_refl _⟩ value
  if h : 0 ≤ positionHint ∧ positionHint ≤ n then
    if he : a.c.length = 0 then 0
    else if positionHint = 0 then
      if mode = InsertMode.InsertFirst ∧ d (a.c.get ⟨0, by omega⟩) value = false then
        positionHint
      else if mode = InsertMode.InsertLast ∧ d value (a.c.get ⟨0, by omega⟩) = true then
        positionHint
      else full
    else if hn : positionHint = n then
      if mode = InsertMode.InsertFirst ∧
          d (a.c.get ⟨a.c.length - 1, by omega⟩) value = true then
        positionHint
      else if mode = InsertMode.InsertLast ∧
          d value (a.c.get ⟨a.c.length - 1, by omega⟩) = false then
        positionHint
      else full
    else
      if mode = InsertMode.InsertFirst ∧
          d (a.c.get ⟨(positionHint - 1).toNat, by omega⟩) value = true then
        if d (a.c.get ⟨positionHint.toNat, by omega⟩) value = false then
          positionHint
        else
          lower_bound d a.c positionHint.toNat a.c.length ⟨by omega, Nat.le_refl _⟩ value
      else if mode = InsertMode.InsertLast ∧
          d value (a.c.get ⟨positionHint.toNat, by omega⟩) = true then
        if d value (a.c.get ⟨(positionHint - 1).toNat, by omega⟩) = false then
          positionHint
        else
          upper_bound d a.c 0 positionHint.toNat ⟨Nat.zero_le _, by omega⟩ value
      else full
  else full

/-- The member `insert(value, mode, positionHint)`: returns the position and the new adaptor. -/
def adaptor.insert (a : adaptor T Compare) (value : T) (mode : InsertMode)
    (positionHint : Int) : Option (Int × adaptor T Compare) := do
  let pos := a.insertPosition value mode positionHint
  let c1 ← vec_insert a.c pos value
  return (pos, { a with c := c1 })

/-- The private member `changeFwdAssign(i, newValue, mode, newPositionHintBeforeRemove)`
(both overloads of `change` forward to it).  `newValue` is a reference: it is read when the
insert position is computed and again, after the elements have been moved, when it is
assigned. -/
def adaptor.changeFwdAssign [MoveConcept T] (a : adaptor T Compare) (i : Int)
    (newValue : const_ref T) (mode : InsertMode) (newPositionHintBeforeRemove : Int) :
    Option (Int × adaptor T Compare) :=
  -- assert(i >= 0 && i < index(size()));
  if 0 ≤ i ∧ i < a.c.length then do
    let v ← newValue.read a.c
    let pos := a.insertPosition v mode newPositionHintBeforeRemove
    if pos = i ∨ pos = i + 1 then do
      -- d.c[i] = std::forward<T>(newValue);
      let c1 ← writeAt a.c i v
      return (i, { a with c := c1 })
    else if pos < i then do
      let c1 ← std_move_backward (i - pos).toNat a.c i (i + 1)
      -- d.c[pos] = std::forward<T>(newValue);
      let v1 ← newValue.read c1
      let c2 ← writeAt c1 pos v1
      return (pos, { a with c := c2 })
    else do
      let c1 ← std_move (pos - (i + 1)).toNat a.c (i + 1) i
      -- d.c[pos - 1] = std::forward<T>(newValue);
      let v1 ← newValue.read c1
      let c2 ← writeAt c1 (pos - 1) v1
      return (pos - 1, { a with c := c2 })
  else none

/-- The member `change(i, newValue, mode, newPositionHintBeforeRemove)`. -/
def adaptor.change [MoveConcept T] (a : adaptor T Compare) (i : Int) (newValue : const_ref T)
    (mode : InsertMode) (newPositionHintBeforeRemove : Int) :
    Option (Int × adaptor T Compare) :=
  a.changeFwdAssign i newValue mode newPositionHintBeforeRemove

/-- The member `removeAt(i)`. -/
def adaptor.removeAt (a : adaptor T Compare) (i : Int) : Option (adaptor T Compare) := do
  let c1 ← vec_erase a.c i
  return { a with c := c1 }

/-- The member `removeRange(begin, end)`. -/
def adaptor.removeRange (a : adaptor T Compare) (first last : Int) :
    Option (adaptor T Compare) := do
  let c1 ← vec_erase_range a.c first last
  return { a with c := c1 }

/-- The member `takeAt(i)`: the removed value and the new adaptor. -/
def adaptor.takeAt (a : adaptor T Compare) (i : Int) : Option (T × adaptor T Compare) := do
  let tmp ← readAt a.c i
  let a1 ← a.removeAt i
  return (tmp, a1)

/-- The algorithm `std::equal_range(begin + first, end, value, d)`: the pair of `lower_bound`
and `upper_bound` over the same range. -/
def adaptor.equal_range (a : adaptor T Compare) (first : Nat) (h : first ≤ a.c.length)
    (value : T) : Nat × Nat :=
  (lower_bound a.comp a.c first a.c.length ⟨h, Nat.le_refl _⟩ value,
   upper_bound a.comp a.c first a.c.length ⟨h, Nat.le_refl _⟩ value)

/-- The loop of `lastIndexOf`: step `second` down to `first`, return the first position whose
element is `== value`, or `-1`. -/
def lastIndexOf_loop [DecidableEq T] (c : List T) (value : T) (first : Nat) :
    (steps : Nat) → Option Int
  | 0 => some (-1)
  | steps + 1 => do
    -- --range.second, which now is first + steps
    let x ← c.get? (first + steps)
    if x = value then some ((first + steps : Nat) : Int)
    else lastIndexOf_loop c value first steps

/-- The member `lastIndexOf(value, from)`. -/
def adaptor.lastIndexOf [DecidableEq T] (a : adaptor T Compare) (value : T) (from_ : Int) :
    Option Int :=
  let start : Int := max 0 (min from_ a.c.length)
  let range := a.equal_range start.toNat (by omega) value
  lastIndexOf_loop a.c value range.1 (range.2 - range.1)

/-- The member `findLast(value)`. -/
def adaptor.findLast [DecidableEq T] (a : adaptor T Compare) (value : T) : Option Int :=
  a.lastIndexOf value (-1)

/-- The member `removeOne(value)`: whether an element was removed, and the new adaptor. -/
def adaptor.removeOne [DecidableEq T] (a : adaptor T Compare) (value : T) :
    Option (Bool × adaptor T Compare) := do
  let i ← a.findLast value
  if i < 0 then return (false, a)
  else
    let a1 ← a.removeAt i
    return (true, a1)

/-- The member `removeAll(value)`: the number of removed elements and the new adaptor.
`value` is a reference, which `std::remove` reads while it moves elements. -/
def adaptor.removeAll [DecidableEq T] [MoveConcept T] (a : adaptor T Compare)
    (value : const_ref T) : Option (Int × adaptor T Compare) := do
  let v ← value.read a.c
  let r := a.equal_range 0 (Nat.zero_le _) v
  let (c1, it) ← std_remove value (r.2 - r.1) a.c r.1
  -- auto newEnd = std::move(r.second, d.c.end(), it);
  let c2 ← std_move (a.c.length - r.2) c1 r.2 it
  let newEnd : Int := it + ((a.c.length - r.2 : Nat) : Int)
  let count : Int := (r.2 : Int) - it
  let c3 ← vec_erase_range c2 newEnd c2.length
  return (count, { a with c := c3 })

/-- The member `operator<<(const value_type& value)`: `insert(value)` with the default mode
and hint. -/
def adaptor.appendValue (a : adaptor T Compare) (value : T) : Option (adaptor T Compare) := do
  let r ← a.insert value InsertMode.InsertLast noHint
  return r.2

/-- The member `operator<<(const Container& container)`: push back every element, sort the
appended range, merge the two ranges. -/
def adaptor.appendContainer (a : adaptor T Compare) (container : List T) :
    adaptor T Compare :=
  let i := a.c.length
  let c1 := a.c ++ container
  let c2 := default_sort_algorithm.sort a.comp c1 i c1.length
  { a with c := inplace_merge a.comp c2 0 i c2.length }

/-- The member `operator<<(const adaptor& other)`. -/
def adaptor.appendAdaptor (a other : adaptor T Compare) : adaptor T Compare :=
  if other.c.isEmpty then a
  else if CompareConcept.eq other.d a.d then
    let i := a.c.length
    let c1 := a.c ++ other.c
    { a with c := inplace_merge a.comp c1 0 i c1.length }
  else a.appendContainer other.c

/-- The member `setCompareOperator(comparison)`. -/
def adaptor.setCompareOperator (a : adaptor T Compare) (comparison : Compare) :
    adaptor T Compare :=
  if CompareConcept.eq a.d comparison then a
  else adaptor.sort { a with d := comparison }

end sorted_sequence

namespace sorted_sequence

/-! ## The reorder map -/

/-- The two `Map` types for which the header provides the `key` / `value_ref` wrappers. -/
inductive MapKind where
  /-- The Qt container `QHash<int, int>` (SORTEDSEQUENCE_ENABLE_QHASH_WRAPPER). -/
  | QHash
  /-- The container `std::unordered_map<ptrdiff_t, ptrdiff_t>`
  (SORTEDSEQUENCE_ENABLE_STD_HASH_WRAPPER). -/
  | unordered_map
  deriving DecidableEq, Repr

/-- A hash map from index to index: its entries `(key, value)` in iteration order.  An iterator
is the position of an entry. -/
structure ReorderMap where
  kind : MapKind
  entries : List (Int × Int)

/-- The wrapper `key(it)`, applied to the entry the iterator points to:
`return it.value();` for the `QHash` iterator, `return it->first;` for the `unordered_map`
iterator. -/
def key : MapKind → Int × Int → Int
  | MapKind.QHash, entry => entry.2
  | MapKind.unordered_map, entry => entry.1

/-- The assignment `value_ref(it) = v` (`*it` for `QHash`, `it->second` for `unordered_map`):
the entry after the assignment. -/
def value_ref_assign (entry : Int × Int) (v : Int) : Int × Int := (entry.1, v)

/-- The member `size()` of the map. -/
def ReorderMap.size (m : ReorderMap) : Nat := m.entries.length

/-- The member `find(k)` of the map: the iterator of the entry with key `k`, `none` for
`end()`. -/
def ReorderMap.find (m : ReorderMap) (k : Int) : Option Nat :=
  let it := m.entries.findIdx (fun entry => entry.1 == k)
  if it < m.entries.length then some it else none

/-- The value stored under key `k` (`map[k]` for a key that is present). -/
def ReorderMap.lookup (m : ReorderMap) (k : Int) : Option Int :=
  (m.entries.find? (fun entry => entry.1 == k)).map Prod.snd

/-- The keys of the map, in iteration order. -/
def ReorderMap.keys (m : ReorderMap) : List Int := m.entries.map Prod.fst

/-- The assignment `value_ref(it) = v` for the iterator at position `it`. -/
def ReorderMap.assign (m : ReorderMap) (it : Nat) (v : Int) : ReorderMap :=
  { m with entries := m.entries.modify (fun entry => value_ref_assign entry v) it }

/-- The loop of the unchanged-comparator branch:
`for (it = begin; it != end; ++it) value_ref(it) = key(it);`. -/
def ReorderMap.identityFill (m : ReorderMap) : ReorderMap :=
  { m with entries := m.entries.map (fun entry => value_ref_assign entry (key m.kind entry)) }

/-- The loop "fill out oldToNew with reorderList":
`for (i = 0; i < n && mapLeft > 0; ++i)`, with `todo = n - i`. -/
def fillLoop (reorderList : List Int) : (todo : Nat) → (i : Int) → (oldToNew : ReorderMap) →
    (mapLeft : Int) → Option ReorderMap
  | 0, _, oldToNew, _ => some oldToNew
  | todo + 1, i, oldToNew, mapLeft =>
    if 0 < mapLeft then do
      let r ← readAt reorderList i
      match oldToNew.find r with
      | some it => fillLoop reorderList todo (i + 1) (oldToNew.assign it i) (mapLeft - 1)
      | none => fillLoop reorderList todo (i + 1) oldToNew mapLeft
    else some oldToNew

/-- The `do { ... } while (j != i)` loop that shifts the values of one permutation cycle.
`fuel` bounds the number of iterations (`none` when it runs out); returns the container, the
reorder list and the final `k`. -/
def cycleLoop {T : Type} (i : Int) : (fuel : Nat) → (c : List T) → (reorderList : List Int) →
    (k j : Int) → Option (List T × List Int × Int)
  | 0, _, _, _, _ => none
  | fuel + 1, c, reorderList, k, j => do
    -- d.c[k] = std::move(d.c[j]);
    let x ← readAt c j
    let c1 ← writeAt c k x
    -- k = j; j = reorderList.at(j); reorderList[k] = -1;
    let k1 := j
    let j1 ← readAt reorderList j
    let reorderList1 ← writeAt reorderList k1 (-1)
    if j1 ≠ i then cycleLoop i fuel c1 reorderList1 k1 j1
    else some (c1, reorderList1, k1)

/-- The loop "sort actual container with reorderList": `for (i = 0; i < n; ++i)`, with
`todo = n - i`.  Every cycle gets `cycleFuel` iterations. -/
def permuteLoop {T : Type} (cycleFuel : Nat) : (todo : Nat) → (i : Int) → (c : List T) →
    (reorderList : List Int) → Option (List T × List Int)
  | 0, _, c, reorderList => some (c, reorderList)
  | todo + 1, i, c, reorderList => do
    let j ← readAt reorderList i
    if i = j ∨ j < 0 then permuteLoop cycleFuel todo (i + 1) c reorderList
    else
      let tmp ← readAt c i
      let (c1, reorderList1, k) ← cycleLoop i cycleFuel c reorderList i j
      let c2 ← writeAt c1 k tmp
      permuteLoop cycleFuel todo (i + 1) c2 reorderList1

/-- The call `std::iota(reorderList.begin(), reorderList.end(), 0)` on a vector of size `n`. -/
def iota (n : Nat) : List Int := (List.range n).map Int.ofNat

variable {T Compare : Type} [CompareConcept Compare T]

/-- The lambda `f = [this](index lhs, index rhs) { return d(at(lhs), at(rhs)); }`; `at` throws
for an index outside the container, which the model renders as `false`. -/
def adaptor.indexCompare (a : adaptor T Compare) (lhs rhs : Int) : Bool :=
  match a.at_ lhs, a.at_ rhs with
  | some x, some y => a.comp x y
  | _, _ => false

/-- The member `setCompareOperatorGetReorderMap(comparison, oldToNew)` with `cycleFuel`
iterations allowed to every run of the cycle loop: the new adaptor and the new map. -/
def adaptor.setCompareOperatorGetReorderMapFuel (cycleFuel : Nat) (a : adaptor T Compare)
    (comparison : Compare) (oldToNew : ReorderMap) :
    Option (adaptor T Compare × ReorderMap) :=
  if CompareConcept.eq a.d comparison then
    some (a, oldToNew.identityFill)
  else do
    let a1 : adaptor T Compare := { a with d := comparison }
    let n := a1.size
    let reorderList := default_sort_algorithm.sort a1.indexCompare (iota n) 0 n
    let map1 ← fillLoop reorderList n 0 oldToNew oldToNew.size
    let (c1, _) ← permuteLoop cycleFuel n 0 a1.c reorderList
    return ({ a1 with c := c1 }, map1)

/-- The member `setCompareOperatorGetReorderMap(comparison, oldToNew)`; the cycle loop is given
`size()` iterations, which always suffice. -/
def adaptor.setCompareOperatorGetReorderMap (a : adaptor T Compare) (comparison : Compare)
    (oldToNew : ReorderMap) : Option (adaptor T Compare × ReorderMap) :=
  a.setCompareOperatorGetReorderMapFuel a.size comparison oldToNew

end sorted_sequence

namespace sorted_sequence

/-! ## Specification vocabulary -/

/-- What a binary search computes on a partitioned range: a position `p` of `[first, last]` with
`goRight` true on `[first, p)` and false on `[p, last)`. -/
def IsPartitionPoint {T : Type} (goRight : T → Bool) (c : List T) (first last p : Nat) : Prop :=
  first ≤ p ∧ p ≤ last ∧
    (∀ i (hi : i < c.length), first ≤ i → i < p → goRight (c.get ⟨i, hi⟩) = true) ∧
    (∀ i (hi : i < c.length), p ≤ i → i < last → goRight (c.get ⟨i, hi⟩) = false)

variable {T Compare : Type} [CompareConcept Compare T]

/-- Inserting `value` at index `q` is possible and keeps the sequence sorted. -/
def adaptor.SortedInsertAt (a : adaptor T Compare) (value : T) (q : Int) : Prop :=
  ∃ c1, vec_insert a.c q value = some c1 ∧ adaptor.I1 { a with c := c1 }

end sorted_sequence

namespace sorted_sequence

/-! ## Invariants of the in-place permutation

`σ p` is the old index whose element has to end at position `p` (the initial `reorderList[p]`),
`c0` is the container before the loop. -/

/-- The number of entries of the reorder list not yet marked as processed. -/
def unmarked (rl : List Int) : Nat := rl.countP (fun x => x != -1)

/-- The state before iteration `i` of the loop over the positions: marked positions and
positions before `i` hold their final value; an unmarked position from `i` on is untouched, and
so is the position its element comes from. -/
structure PermuteInv {T : Type} (σ : Nat → Nat) (c0 : List T) (i : Nat) (cur : List T)
    (rl : List Int) : Prop where
  len_cur : cur.length = c0.length
  len_rl : rl.length = c0.length
  entry : ∀ p < c0.length, rl[p]? = some (-1) ∨ rl[p]? = some (σ p : Int)
  placed : ∀ p < c0.length, (rl[p]? = some (-1) ∨ p < i) → cur[p]? = c0[σ p]?
  pending : ∀ p < c0.length, rl[p]? ≠ some (-1) → i ≤ p →
    cur[p]? = c0[p]? ∧ rl[σ p]? ≠ some (-1) ∧ i ≤ σ p

/-- The state before an iteration of the cycle loop started at `i`: `k` is the slot to fill
next, `j = σ k` the untouched position its value comes from. -/
structure CycleInv {T : Type} (σ : Nat → Nat) (c0 : List T) (i : Nat) (cur : List T)
    (rl : List Int) (k j : Nat) : Prop where
  len_cur : cur.length = c0.length
  len_rl : rl.length = c0.length
  k_lt : k < c0.length
  j_lt : j < c0.length
  k_j : σ k = j
  i_lt_j : i < j
  k_marked : k = i ∨ rl[k]? = some (-1)
  j_unmarked : rl[j]? ≠ some (-1)
  i_unmarked : rl[i]? ≠ some (-1)
  entry : ∀ p < c0.length, rl[p]? = some (-1) ∨ rl[p]? = some (σ p : Int)
  placed : ∀ p < c0.length, p ≠ k → (rl[p]? = some (-1) ∨ p ≤ i) → cur[p]? = c0[σ p]?
  pending : ∀ p < c0.length, rl[p]? ≠ some (-1) → i < p →
    cur[p]? = c0[p]? ∧ rl[σ p]? ≠ some (-1) ∧ i ≤ σ p

/-- The state when the cycle loop started at `i` exits: every slot of the cycle but the last
one, `k`, is filled; `k` waits for the saved value of position `i`. -/
structure CycleDone {T : Type} (σ : Nat → Nat) (c0 : List T) (i : Nat) (cur : List T)
    (rl : List Int) (k : Nat) : Prop where
  len_cur : cur.length = c0.length
  len_rl : rl.length = c0.length
  k_lt : k < c0.length
  k_i : σ k = i
  k_marked : rl[k]? = some (-1)
  i_unmarked : rl[i]? ≠ some (-1)
  entry : ∀ p < c0.length, rl[p]? = some (-1) ∨ rl[p]? = some (σ p : Int)
  placed : ∀ p < c0.length, p ≠ k → (rl[p]? = some (-1) ∨ p ≤ i) → cur[p]? = c0[σ p]?
  pending : ∀ p < c0.length, rl[p]? ≠ some (-1) → i < p →
    cur[p]? = c0[p]? ∧ rl[σ p]? ≠ some (-1) ∧ i ≤ σ p

end sorted_sequence

namespace sorted_sequence

/-! ## Concrete instances used as examples -/

/-- The scenario of the specification: `[5,3,1,4,1]` under ascending integer order, which the
constructor sorts to `[1,1,3,4,5]`. -/
def exampleAdaptor : adaptor Int (default_compare Int) :=
  adaptor.fromContainer [5, 3, 1, 4, 1] {}

/-- A `lambda_compare` wrapping "less than"; its predicate object lives at address 0. -/
def ascending : lambda_compare Int := { m_f := { address := 0, target := fun x y => decide (x < y) } }

/-- A `lambda_compare` wrapping "greater than"; its predicate object lives at address 1. -/
def descending : lambda_compare Int := { m_f := { address := 1, target := fun x y => decide (y < x) } }

/-- A bag as `FormGenBagModel` keeps it: an adaptor with a `lambda_compare` comparator. -/
def exampleBag : adaptor Int (lambda_compare Int) :=
  adaptor.fromContainer [5, 3, 1, 4, 1] ascending

/-- The map `FormGenBagModel::setCompareOperator` builds for persistent indexes at rows 0 and 3:
a `QHash<int, int>` with the value `-1` under every key. -/
def persistentRows : ReorderMap := { kind := MapKind.QHash, entries := [(0, -1), (3, -1)] }

end sorted_sequence

namespace sorted_sequence

/-! ## Lookup operations and `merge` -/

/-- The algorithm `std::find(begin + first, begin + first + count, value)`: the offset of the
first element `== value`, or of the end of the range. -/
def std_find {X : Type} [DecidableEq X] (l : List X) (value : X) :
    (count first : Nat) → Option Nat
  | 0, first => some first
  | count + 1, first => do
    let x ← l.get? first
    if x = value then some first else std_find l value count (first + 1)

/-- The algorithm `std::count(begin + first, begin + first + count, value)`, with the running
result `ret`. -/
def std_count {X : Type} [DecidableEq X] (l : List X) (value : X) :
    (count first ret : Nat) → Option Nat
  | 0, _, ret => some ret
  | count + 1, first, ret => do
    let x ← l.get? first
    std_count l value count (first + 1) (if x = value then ret + 1 else ret)

variable {T Compare : Type} [CompareConcept Compare T]

/-- The member `contains(value)`. -/
def adaptor.contains [DecidableEq T] (a : adaptor T Compare) (value : T) : Option Bool := do
  let range := a.equal_range 0 (Nat.zero_le _) value
  let it ← std_find a.c value (range.2 - range.1) range.1
  return decide (it ≠ range.2)

/-- The member `count(value)`. -/
def adaptor.count [DecidableEq T] (a : adaptor T Compare) (value : T) : Option Nat :=
  let range := a.equal_range 0 (Nat.zero_le _) value
  std_count a.c value (range.2 - range.1) range.1 0

/-- The member `indexOf(value, from)`:
`return it == range.second ? -1 : offset(range.first);`. -/
def adaptor.indexOf [DecidableEq T] (a : adaptor T Compare) (value : T) (from_ : Int) :
    Option Int := do
  let start : Int := max 0 (min from_ a.c.length)
  let range := a.equal_range start.toNat (by omega) value
  let it ← std_find a.c value (range.2 - range.1) range.1
  return if it = range.2 then -1 else (range.1 : Int)

/-- The member `findFirst(value)`: `indexOf` with the default `from = 0`. -/
def adaptor.findFirst [DecidableEq T] (a : adaptor T Compare) (value : T) : Option Int :=
  a.indexOf value 0

/-- The member `range(value)`: the offsets of `std::equal_range(begin(), end(), value, d)`. -/
def adaptor.range (a : adaptor T Compare) (value : T) : Int × Int :=
  let range := a.equal_range 0 (Nat.zero_le _) value
  ((range.1 : Int), (range.2 : Int))

/-- The static member `merge(l1, l2)`: `return {}` (the default-constructed adaptor) when
`l1.d != l2.d`, else `std::merge` into a fresh adaptor constructed from `l1.d`. -/
def adaptor.merge [Inhabited Compare] (l1 l2 : adaptor T Compare) : adaptor T Compare :=
  if CompareConcept.ne l1.d l2.d then { d := default, c := [] }
  else
    let result : adaptor T Compare := adaptor.fromCompare l1.d
    { result with c := result.c ++ sorted_sequence.merge result.comp l1.c l2.c }

/-- Comparator equivalence of the glossary: neither `x` less than `v` nor `v` less than `x`. -/
def adaptor.equivalent (a : adaptor T Compare) (x v : T) : Bool :=
  !a.comp x v && !a.comp v x

end sorted_sequence

namespace sorted_sequence

/-! ## More concrete instances -/

/-- The comparator of `FormGenBagModel`, which looks at the first component of a pair only;
its predicate object lives at address 2. -/
def byFirst : lambda_compare (Int × Int) :=
  { m_f := { address := 2, target := fun lhs rhs => decide (lhs.1 < rhs.1) } }

/-- A bag of two pairs that are equivalent under `byFirst` without being equal. -/
def examplePairs : adaptor (Int × Int) (lambda_compare (Int × Int)) :=
  adaptor.fromContainer [(1, 0), (1, 1)] byFirst

/-- A bag of three pairs, equivalent under `byFirst`, the first and the last being equal. -/
def exampleTriple : adaptor (Int × Int) (lambda_compare (Int × Int)) :=
  adaptor.fromContainer [(1, 0), (1, 1), (1, 0)] byFirst

/-- A `std::unordered_map<ptrdiff_t, ptrdiff_t>` with arbitrary values, two of its keys not
being indexes of a five element container. -/
def staleRows : ReorderMap :=
  { kind := MapKind.unordered_map, entries := [(1, 5), (7, 8), (-2, 4)] }

/-- The scenario of the specification after `insert(2)`: `[1,1,2,3,4,5]`. -/
def exampleAdaptor6 : adaptor Int (default_compare Int) :=
  adaptor.fromContainer [1, 1, 2, 3, 4, 5] {}

/-- The scenario of the specification after `removeAll(1)`: `[2,3,4,5]`. -/
def exampleAdaptor4 : adaptor Int (default_compare Int) :=
  adaptor.fromContainer [2, 3, 4, 5] {}

/-- An example of a comparator type a user of the template can supply: default constructible,
ordering integers upwards or downwards, two comparators being equal when they order alike. -/
structure direction_compare where
  descending : Bool := false
  deriving DecidableEq

instance instCompareDirection : CompareConcept direction_compare Int where
  call d x y := if d.descending then decide (y < x) else decide (x < y)
  eq d e := decide (d = e)
  ne d e := decide (d ≠ e)

/-- The default constructor `direction_compare()`. -/
instance instInhabitedDirection : Inhabited direction_compare where
  default := {}

/-- An adaptor `[1,2,3]` sorted upwards with a `direction_compare`. -/
def exampleUp : adaptor Int direction_compare :=
  adaptor.fromContainer [1, 2, 3] { descending := false }

/-- An adaptor `[9,8]` sorted downwards with a `direction_compare`. -/
def exampleDown : adaptor Int direction_compare :=
  adaptor.fromContainer [8, 9] { descending := true }

end sorted_sequence

namespace sorted_sequence

/-! ## Equality of adaptors -/

/-- The algorithm `std::equal(first1, last1, first2)` on two ranges of the same length: every
pair of corresponding elements is `==`. -/
def std_equal {X : Type} [BEq X] : List X → List X → Bool
  | x :: l1, y :: l2 => if !(x == y) then false else std_equal l1 l2
  | _, _ => true

/-- The `operator==` of the container (`std::vector`, `QVector`, `QList`): the sizes are equal
and the elements are pairwise `==`. -/
def container_eq {X : Type} [BEq X] (l1 l2 : List X) : Bool :=
  l1.length == l2.length && std_equal l1 l2

variable {T Compare : Type} [CompareConcept Compare T]

/-- The member `operator==(other)`: `d == other.d && d.c == other.d.c`. -/
def adaptor.eq [BEq T] (a other : adaptor T Compare) : Bool :=
  CompareConcept.eq a.d other.d && container_eq a.c other.c

/-- The member `operator!=(other)`: `! operator==(other)`. -/
def adaptor.ne [BEq T] (a other : adaptor T Compare) : Bool :=
  !a.eq other

/-! ## Construction and copies of `lambda_compare` -/

/-- The free store, as far as `std::make_shared` is concerned: the object at address `i` is
`objects[i]`.  An object lives as long as a `shared_ptr` to it exists, so an address a pointer
holds is never given out again. -/
structure free_store (X : Type) where
  objects : List X

/-- The call `std::make_shared<const X>(x)`: a new object, at an address no live object has;
returns the store after the allocation and the pointer. -/
def make_shared {X : Type} (heap : free_store X) (x : X) : free_store X × shared_ptr X :=
  ({ objects := heap.objects ++ [x] }, { address := heap.objects.length, target := x })

/-- The pointer refers to an object of the store: the object at its address is its target. -/
def shared_ptr.pointsInto {X : Type} (p : shared_ptr X) (heap : free_store X) : Prop :=
  heap.objects.get? p.address = some p.target

/-- The constructors `lambda_compare(const Func& f)` and `lambda_compare(Func&& f)`:
`m_f(std::make_shared<const Func>(f))`, then `assert(*m_f)`; an empty `std::function` is
`none` and fails the assertion. -/
def lambda_compare.construct (heap : free_store (T → T → Bool)) (f : Option (T → T → Bool)) :
    Option (free_store (T → T → Bool) × lambda_compare T) :=
  match f with
  | none => none
  | some g =>
    let r := make_shared heap g
    some (r.1, { m_f := r.2 })

/-- The defaulted copy constructor and copy assignment of `lambda_compare`: the shared pointer
is copied. -/
def lambda_compare.copy (other : lambda_compare T) : lambda_compare T :=
  { m_f := other.m_f }

end sorted_sequence

/-! ## The bag model of `formgencompositionmodels.cpp` -/

/-- The signals and notifications of `QAbstractItemModel` the bag model sends, with their row
arguments; a `QModelIndex` argument is its row, `none` for an invalid index. -/
inductive ModelSignal where
  | beginInsertRows (first last : Int)
  | endInsertRows
  | beginMoveRows (sourceFirst sourceLast destinationChild : Int)
  | endMoveRows
  | dataChanged (topLeft bottomRight : Option Int)
  | beginResetModel
  | endResetModel
  deriving DecidableEq, Repr

/-- The class `FormGenBagModel`: the sorted items `mItems` (`DataElement` is
`QPair<QString, QVariant>`, `Compare` is `lambda_compare<DataElement>`), and the signals sent so
far, oldest first. -/
structure FormGenBagModel (QString QVariant : Type) where
  mItems : sorted_sequence.adaptor (QString × QVariant)
    (sorted_sequence.lambda_compare (QString × QVariant))
  emitted : List ModelSignal

namespace FormGenBagModel

open sorted_sequence

variable {QString QVariant : Type}

/-- The member `rowCount(parent)` for the root: `mItems.size()`. -/
def rowCount (m : FormGenBagModel QString QVariant) : Int := m.mItems.size

/-- The member `index(row)` of `QAbstractListModel`: the index of an existing row, an invalid
index for any other row. -/
def index (m : FormGenBagModel QString QVariant) (row : Int) : Option Int :=
  if 0 ≤ row ∧ row < m.rowCount then some row else none

/-- The member `insertRow(display, data)`: the row of the new pair and the model after the
call. -/
def insertRow (m : FormGenBagModel QString QVariant) (display : QString) (data : QVariant) :
    Option (Int × FormGenBagModel QString QVariant) := do
  let pair := (display, data)
  let row := m.mItems.insertPosition pair InsertMode.InsertLast noHint
  -- beginInsertRows(QModelIndex(), row, row);
  let emitted1 := m.emitted ++ [ModelSignal.beginInsertRows row row]
  let r ← m.mItems.insert pair InsertMode.InsertLast row
  -- endInsertRows();
  return (row, { mItems := r.2, emitted := emitted1 ++ [ModelSignal.endInsertRows] })

/-- The member `editRow(row, newDisplay, newData)`: the returned row and the model after the
call.  The pair handed to `change` is a local object of `editRow`. -/
def editRow [MoveConcept QString] [MoveConcept QVariant] (m : FormGenBagModel QString QVariant)
    (row : Int) (newDisplay : QString)
    (newData : QVariant) : Option (Int × FormGenBagModel QString QVariant) :=
  if row < 0 ∨ row ≥ m.mItems.size then some (-1, m)
  else do
    let pair := (newDisplay, newData)
    let newRow := m.mItems.insertPosition pair InsertMode.InsertLast noHint
    let newRowAfterRemove := if newRow > row then newRow - 1 else newRow
    let needMove : Bool := decide (newRowAfterRemove ≠ row)
    let emitted1 :=
      if needMove then m.emitted ++ [ModelSignal.beginMoveRows row row newRow] else m.emitted
    let r ← m.mItems.change row pair InsertMode.InsertLast newRow
    let emitted2 := if needMove then emitted1 ++ [ModelSignal.endMoveRows] else emitted1
    let m1 : FormGenBagModel QString QVariant := { mItems := r.2, emitted := emitted2 }
    -- emit dataChanged(index(newRow), index(newRow));
    return (newRowAfterRemove,
      { m1 with emitted := emitted2 ++ [ModelSignal.dataChanged (m1.index newRow)
          (m1.index newRow)] })

/-- The member `clear()`. -/
def clear (m : FormGenBagModel QString QVariant) : FormGenBagModel QString QVariant :=
  { mItems := { m.mItems with c := [] },
    emitted := m.emitted ++ [ModelSignal.beginResetModel, ModelSignal.endResetModel] }

/-- The loop `for( const auto &v : list ) mModel.bag->insertRow(valueString, v)` of
`FormGenListBagComposition::setVaidatedValueImpl`, `valueString v` being the string the element
widget reports for `v`. -/
def insertRows (valueString : QVariant → QString) :
    List QVariant → FormGenBagModel QString QVariant → Option (FormGenBagModel QString QVariant)
  | [], m => some m
  | v :: list, m => do
    let r ← m.insertRow (valueString v) v
    insertRows valueString list r.2

/-- The bag branch of `FormGenListBagComposition::setVaidatedValueImpl(val)`, `list` being
`val.toList()`. -/
def setVaidatedValueImpl (valueString : QVariant → QString)
    (bag : FormGenBagModel QString QVariant) (list : List QVariant) :
    Option (FormGenBagModel QString QVariant) :=
  if list.length = 0 ∧ bag.rowCount = 0 then some bag
  else insertRows valueString list bag.clear

end FormGenBagModel

namespace sorted_sequence

/-! ## A concrete store -/

/-- An empty free store. -/
def emptyStore : free_store (Int → Int → Bool) := { objects := [] }

end sorted_sequence

/-! ## The variants of Qt, as far as `MathUtils` and the integer widget use them -/

namespace Qt

/-- The enum `QMetaType::Type`, restricted to the invalid type, the number types and
`QString`. -/
inductive QMetaType where
  | UnknownType
  | Bool
  | Int
  | UInt
  | LongLong
  | ULongLong
  | Double
  | Long
  | Short
  | Char
  | ULong
  | UShort
  | UChar
  | Float
  | SChar
  | QString
  deriving DecidableEq, Repr

/-- A `QVariant`: its type, its null flag and, for a variant of an integer type, the integer it
stores. -/
structure QVariant where
  type : QMetaType
  is_null : Bool
  number : Int
  deriving DecidableEq, Repr

/-- The default constructor `QVariant()`: an invalid, null variant. -/
def QVariant.invalid : QVariant := { type := QMetaType.UnknownType, is_null := true, number := 0 }

/-- The constructor `QVariant(qlonglong val)`. -/
def QVariant.fromLongLong (val : Int) : QVariant :=
  { type := QMetaType.LongLong, is_null := false, number := val }

/-- The constructor `QVariant(qulonglong val)`. -/
def QVariant.fromULongLong (val : Int) : QVariant :=
  { type := QMetaType.ULongLong, is_null := false, number := val }

/-- The constructor `QVariant(int val)`. -/
def QVariant.fromInt (val : Int) : QVariant :=
  { type := QMetaType.Int, is_null := false, number := val }

/-- The call `QVariant::fromValue(val)` for a `signed char`. -/
def QVariant.fromSChar (val : Int) : QVariant :=
  { type := QMetaType.SChar, is_null := false, number := val }

/-- The member `isNull()`. -/
def QVariant.isNull (v : QVariant) : Bool := v.is_null

/-- The member `isValid()`. -/
def QVariant.isValid (v : QVariant) : Bool := decide (v.type ≠ QMetaType.UnknownType)

/-- The conversion of an integer to `qulonglong`: the value modulo `2^64`. -/
def toUnsigned64 (n : Int) : Int := n % 18446744073709551616

/-- The conversion of an integer to `qlonglong`: the value modulo `2^64`, in
`[-2^63, 2^63)`. -/
def toSigned64 (n : Int) : Int :=
  if n % 18446744073709551616 < 9223372036854775808 then n % 18446744073709551616
  else n % 18446744073709551616 - 18446744073709551616

/-- The conversion of an integer to `int`: the value modulo `2^32`, in `[-2^31, 2^31)`. -/
def toSigned32 (n : Int) : Int :=
  if n % 4294967296 < 2147483648 then n % 4294967296 else n % 4294967296 - 4294967296

/-- The ten integer types `QVariant` converts between by integral conversion. -/
def isIntegerMetaType : QMetaType → Bool
  | QMetaType.SChar | QMetaType.UChar | QMetaType.Short | QMetaType.UShort | QMetaType.Int
  | QMetaType.UInt | QMetaType.Long | QMetaType.ULong | QMetaType.LongLong
  | QMetaType.ULongLong => true
  | _ => false

/-- The member `toLongLong()` on a variant of an integer type: the stored integer converted to
`qlonglong`; `none` for a variant of another type, whose value is not part of the model. -/
def QVariant.toLongLong (v : QVariant) : Option Int :=
  if isIntegerMetaType v.type then some (toSigned64 v.number) else none

/-- The member `toULongLong()` on a variant of an integer type: the stored integer converted to
`qulonglong`; `none` for a variant of another type. -/
def QVariant.toULongLong (v : QVariant) : Option Int :=
  if isIntegerMetaType v.type then some (toUnsigned64 v.number) else none

/-- The member `toInt(&ok)` on a variant of an integer type: the stored integer converted to
`int`, with `ok` true; `none` for a variant of another type. -/
def QVariant.toInt (v : QVariant) : Option (Int × Bool) :=
  if isIntegerMetaType v.type then some (toSigned32 v.number, true) else none

/-- The least and the greatest value of an integer type (`long` with 64 bits); `(0, 0)` for the
other types. -/
def metaTypeLimits : QMetaType → Int × Int
  | QMetaType.SChar => (-128, 127)
  | QMetaType.UChar => (0, 255)
  | QMetaType.Short => (-32768, 32767)
  | QMetaType.UShort => (0, 65535)
  | QMetaType.Int => (-2147483648, 2147483647)
  | QMetaType.UInt => (0, 4294967295)
  | QMetaType.Long => (-9223372036854775808, 9223372036854775807)
  | QMetaType.ULong => (0, 18446744073709551615)
  | QMetaType.LongLong => (-9223372036854775808, 9223372036854775807)
  | QMetaType.ULongLong => (0, 18446744073709551615)
  | _ => (0, 0)

/-- A variant of an integer type that stores a value of its type. -/
def QVariant.IsInteger (v : QVariant) : Prop :=
  isIntegerMetaType v.type = true ∧ (metaTypeLimits v.type).1 ≤ v.number ∧ v.number ≤ (metaTypeLimits v.type).2

instance (v : QVariant) : Decidable v.IsInteger := by
  unfold QVariant.IsInteger; infer_instance

end Qt

namespace MathUtils

open Qt

/-- The function `MathUtils::isIntegerType(value)`. -/
def isIntegerType (value : QVariant) : Bool :=
  match value.type with
  | QMetaType.SChar => true
  | QMetaType.UChar => true
  | QMetaType.Short => true
  | QMetaType.UShort => true
  | QMetaType.Int => true
  | QMetaType.UInt => true
  | QMetaType.Long => true
  | QMetaType.ULong => true
  | QMetaType.LongLong => true
  | QMetaType.ULongLong => true
  | _ => false

/-- The function `MathUtils::isSmallerZero(integerVariant)`. -/
def isSmallerZero (integerVariant : QVariant) : Option Bool :=
  match integerVariant.type with
  | QMetaType.Short | QMetaType.Int | QMetaType.Long | QMetaType.LongLong => do
    let n ← integerVariant.toLongLong
    return decide (n < 0)
  | _ => some false

/-- The function `MathUtils::minLeqValLeqMax(min, val, max)`. -/
def minLeqValLeqMax (min val max : QVariant) : Option Bool := do
  -- std::numeric_limits<qint64>::min() and std::numeric_limits<quint64>::max()
  let min := if min.isNull then QVariant.fromLongLong (-9223372036854775808) else min
  let max := if max.isNull then QVariant.fromULongLong 18446744073709551615 else max
  if !(← isSmallerZero min) then
    if !(← isSmallerZero val) then
      if !(← isSmallerZero max) then
        return decide ((← min.toULongLong) ≤ (← val.toULongLong)) &&
          decide ((← val.toULongLong) ≤ (← max.toULongLong))
      else return false
    else return false
  else
    if !(← isSmallerZero val) then
      if !(← isSmallerZero max) then
        return decide ((← val.toULongLong) ≤ (← max.toULongLong))
      else return false
    else
      if (← min.toLongLong) ≤ (← val.toLongLong) then
        if !(← isSmallerZero max) then return true
        else return decide ((← val.toLongLong) ≤ (← max.toLongLong))
      else return false

/-- A variant the sign test of `isSmallerZero` misses: a `signed char` below zero. -/
def NegativeSChar (v : QVariant) : Prop := v.type = QMetaType.SChar ∧ v.number < 0

/-- The integer a bound stands for: a null `min` stands for `-2^63`, a null `max` for
`2^64 - 1`, any other variant for the integer it stores. -/
def boundValue (null : Int) (bound : QVariant) : Int :=
  if bound.isNull then null else bound.number

/-- The range check as the mathematical integers see it: `min <= val <= max`. -/
def InRange (min val max : QVariant) : Prop :=
  boundValue (-9223372036854775808) min ≤ val.number ∧
    val.number ≤ boundValue 18446744073709551615 max

instance (min val max : QVariant) : Decidable (InRange min val max) := by
  unfold InRange; infer_instance

end MathUtils

/-! ## The integer widget of `formgenregularwidgets.cpp` -/

namespace Qt

/-- The function template `qMax(a, b)`. -/
def qMax (a b : Int) : Int := if a < b then b else a

/-- The function template `qMin(a, b)`. -/
def qMin (a b : Int) : Int := if a < b then a else b

/-- The function template `qBound(min, val, max)`: `qMax(min, qMin(max, val))`. -/
def qBound (min val max : Int) : Int := qMax min (qMin max val)

/-! ### The input widgets of Qt

Each setter returns the widget it leaves and whether it emits `valueChanged` (for the check box,
`toggled`); the emission is the last thing the setter does. -/

/-- A `QSpinBox`: the properties `minimum`, `maximum` and `value`. -/
structure QSpinBox where
  minimum : Int
  maximum : Int
  value : Int
  deriving DecidableEq, Repr

namespace QSpinBox

/-- A new `QSpinBox`: range 0 to 99, value 0. -/
def construct : QSpinBox := { minimum := 0, maximum := 99, value := 0 }

/-- The helper `QAbstractSpinBoxPrivate::bound(val)` of a spin box that does not wrap. -/
def bound (sb : QSpinBox) (val : Int) : Int :=
  let v := if val < sb.minimum then sb.minimum else val
  if v > sb.maximum then sb.maximum else v

/-- The slot `setValue(val)`: the value is bound to the range, and `valueChanged` is emitted
when the value is not the old one. -/
def setValue (sb : QSpinBox) (val : Int) : QSpinBox × Bool :=
  let v := sb.bound val
  ({ sb with value := v }, decide (v ≠ sb.value))

/-- The helper `QAbstractSpinBoxPrivate::setRange(min, max)`: the maximum is at least the
minimum, and a value outside the new range is set to its bound. -/
def setRange (sb : QSpinBox) (min max : Int) : QSpinBox × Bool :=
  let sb1 : QSpinBox := { sb with minimum := min, maximum := if min < max then max else min }
  if sb1.bound sb1.value ≠ sb1.value then sb1.setValue (sb1.bound sb1.value) else (sb1, false)

/-- The member `setMinimum(minimum)`. -/
def setMinimum (sb : QSpinBox) (minimum : Int) : QSpinBox × Bool :=
  sb.setRange minimum (if sb.maximum > minimum then sb.maximum else minimum)

/-- The member `setMaximum(maximum)`. -/
def setMaximum (sb : QSpinBox) (maximum : Int) : QSpinBox × Bool :=
  sb.setRange (if sb.minimum < maximum then sb.minimum else maximum) maximum

end QSpinBox

/-- A `QSlider` that nobody is dragging: the properties `minimum`, `maximum` and `value` of
`QAbstractSlider` (the slider position is the value). -/
structure QSlider where
  minimum : Int
  maximum : Int
  value : Int
  deriving DecidableEq, Repr

namespace QSlider

/-- A new `QSlider`: range 0 to 99, value 0. -/
def construct : QSlider := { minimum := 0, maximum := 99, value := 0 }

/-- The helper `QAbstractSliderPrivate::bound(val)`. -/
def bound (sl : QSlider) (val : Int) : Int := qMax sl.minimum (qMin sl.maximum val)

/-- The slot `QAbstractSlider::setValue(value)`: the value is bound to the range; nothing
happens when it is the old value, otherwise `valueChanged` is emitted. -/
def setValue (sl : QSlider) (value : Int) : QSlider × Bool :=
  let v := sl.bound value
  if sl.value = v then (sl, false) else ({ sl with value := v }, true)

/-- The slot `QAbstractSlider::setRange(min, max)`: when the range changes, the value is bound
again. -/
def setRange (sl : QSlider) (min max : Int) : QSlider × Bool :=
  let sl1 : QSlider := { sl with minimum := min, maximum := qMax min max }
  if sl.minimum ≠ sl1.minimum ∨ sl.maximum ≠ sl1.maximum then sl1.setValue sl1.value
  else (sl1, false)

/-- The member `QAbstractSlider::setMinimum(min)`. -/
def setMinimum (sl : QSlider) (min : Int) : QSlider × Bool :=
  sl.setRange min (qMax sl.maximum min)

/-- The member `QAbstractSlider::setMaximum(max)`. -/
def setMaximum (sl : QSlider) (max : Int) : QSlider × Bool :=
  sl.setRange (qMin sl.minimum max) max

end QSlider

/-- A `QLineEdit`, reduced to what `text().toInt(&ok)` gives for its text: the number read, or
nothing when `ok` is false.  The text `QString::number(v)` reads as `v`. -/
structure QLineEdit where
  textToInt : Option Int
  deriving DecidableEq, Repr

/-- A `QCheckBox`: the property `checked`. -/
structure QCheckBox where
  checked : Bool
  deriving DecidableEq, Repr

/-- The slot `QAbstractButton::setChecked(checked)`: `toggled` is emitted when the state
changes. -/
def QCheckBox.setChecked (cb : QCheckBox) (checked : Bool) : QCheckBox × Bool :=
  ({ checked := checked }, decide (cb.checked ≠ checked))

end Qt

/-- The enum `FormGenElement::ElementType`. -/
inductive ElementType where
  | Required
  | Optional
  deriving DecidableEq, Repr

/-- The enum `FormGenIntWidget::InputStyle`. -/
inductive InputStyle where
  | Spinner
  | Slider
  | SpinnerSlider
  | Plain
  deriving DecidableEq, Repr

/-- The class `FormGenIntWidget` with the members of its bases `FormGenElement` and
`FormGenUnframedBase` that take part in a change of the value: the fields, the check box
`FormGenUnframedBase::mValueSet` of an optional element, and the input widgets, `none` for a
null pointer.  The signals `minimumChanged`, `maximumChanged` and `inputStyleChanged` have no
slot of the widget connected and are left out. -/
structure FormGenIntWidget where
  mType : ElementType
  mValueSet : Bool
  mValueSetBox : Option Qt.QCheckBox
  mStyle : InputStyle
  mMinimum : Int
  mMaximum : Int
  mValue : Int
  mSpinBox : Option Qt.QSpinBox
  mSlider : Option Qt.QSlider
  mPlain : Option Qt.QLineEdit
  deriving DecidableEq, Repr

namespace FormGenIntWidget

open Qt

/-- The member `minimum()`. -/
def minimum (w : FormGenIntWidget) : Int := w.mMinimum

/-- The member `maximum()`. -/
def maximum (w : FormGenIntWidget) : Int := w.mMaximum

/-! ### The slots that run while a value changes

Qt delivers a signal by calling the connected slots before `emit` returns.  `valueChanged` of
the element is connected to `updateInputWidgets` (constructor of `FormGenUnframedBase`),
`valueChanged` of the spin box and of the slider to `checkNewValue` (`setSpinBox`,
`setSlider`).  The first argument of every member bounds the depth of the calls nested in it;
`none` means that the bound was too small. -/

/-- The connection of `valueChanged` of the spin box to a slot: `r` is what a setter of the spin
box returned; the spin box is stored, and the slot runs when the signal was emitted. -/
def spinBoxChanged (slot : FormGenIntWidget → Option FormGenIntWidget) (w : FormGenIntWidget)
    (r : QSpinBox × Bool) : Option FormGenIntWidget :=
  if r.2 then slot { w with mSpinBox := some r.1 } else some { w with mSpinBox := some r.1 }

/-- The connection of `valueChanged` of the slider to a slot: `r` is what a setter of the slider
returned; the slider is stored, and the slot runs when the signal was emitted. -/
def sliderChanged (slot : FormGenIntWidget → Option FormGenIntWidget) (w : FormGenIntWidget)
    (r : QSlider × Bool) : Option FormGenIntWidget :=
  if r.2 then slot { w with mSlider := some r.1 } else some { w with mSlider := some r.1 }

/-- The connection of `toggled` of the check box to a slot with the new state as argument: `r`
is what `setChecked` returned. -/
def valueSetBoxChanged (slot : FormGenIntWidget → Bool → Option FormGenIntWidget)
    (w : FormGenIntWidget) (r : QCheckBox × Bool) : Option FormGenIntWidget :=
  if r.2 then slot { w with mValueSetBox := some r.1 } r.1.checked
  else some { w with mValueSetBox := some r.1 }

/-! The blocks `if( mSpinBox ) ...`, `if( mSlider ) ...` and `if( mPlain ) ...` of the members.
A block that can emit a signal has the connected slot as its first argument, a block that calls
`setIntValue` has that member as its first argument. -/

/-- The block of `updateInputWidgets` for the spin box: `mSpinBox->setValue(mValue)`. -/
def updateSpinBox (slot : FormGenIntWidget → Option FormGenIntWidget) (w : FormGenIntWidget) :
    Option FormGenIntWidget :=
  match w.mSpinBox with
  | some sb => spinBoxChanged slot w (sb.setValue w.mValue)
  | none => some w

/-- The block of `updateInputWidgets` for the slider: `mSlider->setValue(mValue)`. -/
def updateSlider (slot : FormGenIntWidget → Option FormGenIntWidget) (w : FormGenIntWidget) :
    Option FormGenIntWidget :=
  match w.mSlider with
  | some sl => sliderChanged slot w (sl.setValue w.mValue)
  | none => some w

/-- The block of `updateInputWidgets` for the line edit:
`mPlain->setText(valueStringImpl())`, the text being `QString::number(mValue)`. -/
def updatePlain (w : FormGenIntWidget) : FormGenIntWidget :=
  match w.mPlain with
  | some _ => { w with mPlain := some { textToInt := some w.mValue } }
  | none => w

/-- The block of `checkNewValue` for the spin box. -/
def checkSpinBox (setIntValue : FormGenIntWidget → Int → Option FormGenIntWidget)
    (w : FormGenIntWidget) : Option FormGenIntWidget :=
  match w.mSpinBox with
  | some sb =>
    let v := sb.value
    if v ≠ w.mValue ∧ v = qBound w.minimum v w.maximum then setIntValue w v else some w
  | none => some w

/-- The block of `checkNewValue` for the slider. -/
def checkSlider (setIntValue : FormGenIntWidget → Int → Option FormGenIntWidget)
    (w : FormGenIntWidget) : Option FormGenIntWidget :=
  match w.mSlider with
  | some sl =>
    let v := sl.value
    if v ≠ w.mValue ∧ v = qBound w.minimum v w.maximum then setIntValue w v else some w
  | none => some w

/-- The block of `checkNewValue` for the line edit. -/
def checkPlain (setIntValue : FormGenIntWidget → Int → Option FormGenIntWidget)
    (w : FormGenIntWidget) : Option FormGenIntWidget :=
  match w.mPlain with
  | some le =>
    match le.textToInt with
    | some v => if v = qBound w.minimum v w.maximum then setIntValue w v else some w
    | none => some w
  | none => some w

/-- The block `if( mSpinBox ) mSpinBox->setMinimum(min)` of `setMinimum`. -/
def spinBoxSetMinimum (slot : FormGenIntWidget → Option FormGenIntWidget)
    (w : FormGenIntWidget) (min : Int) : Option FormGenIntWidget :=
  match w.mSpinBox with
  | some sb => spinBoxChanged slot w (sb.setMinimum min)
  | none => some w

/-- The block `if( mSlider ) mSlider->setMinimum(min)` of `setMinimum`. -/
def sliderSetMinimum (slot : FormGenIntWidget → Option FormGenIntWidget)
    (w : FormGenIntWidget) (min : Int) : Option FormGenIntWidget :=
  match w.mSlider with
  | some sl => sliderChanged slot w (sl.setMinimum min)
  | none => some w

/-- The block `if( mSpinBox ) mSpinBox->setMaximum(max)` of `setMaximum`. -/
def spinBoxSetMaximum (slot : FormGenIntWidget → Option FormGenIntWidget)
    (w : FormGenIntWidget) (max : Int) : Option FormGenIntWidget :=
  match w.mSpinBox with
  | some sb => spinBoxChanged slot w (sb.setMaximum max)
  | none => some w

/-- The block `if( mSlider ) mSlider->setMaximum(max)` of `setMaximum`. -/
def sliderSetMaximum (slot : FormGenIntWidget → Option FormGenIntWidget)
    (w : FormGenIntWidget) (max : Int) : Option FormGenIntWidget :=
  match w.mSlider with
  | some sl => sliderChanged slot w (sl.setMaximum max)
  | none => some w

/-- The check box of an optional element receives `setChecked(checked)`; its signal `toggled`
is connected to the slot. -/
def valueSetBoxSetChecked (slot : FormGenIntWidget → Bool → Option FormGenIntWidget)
    (w : FormGenIntWidget) (checked : Bool) : Option FormGenIntWidget :=
  match w.mValueSetBox with
  | some cb => valueSetBoxChanged slot w (cb.setChecked checked)
  | none => some w

mutual

/-- The member `updateInputWidgets()`. -/
def updateInputWidgets : Nat → FormGenIntWidget → Option FormGenIntWidget
  | 0, _ => none
  | fuel + 1, w => do
    let w1 ← updateSpinBox (checkNewValue fuel) w
    let w2 ← updateSlider (checkNewValue fuel) w1
    some (updatePlain w2)

/-- The slot `checkNewValue()`. -/
def checkNewValue : Nat → FormGenIntWidget → Option FormGenIntWidget
  | 0, _ => none
  | fuel + 1, w => do
    let w1 ← checkSpinBox (setIntValue fuel) w
    let w2 ← checkSlider (setIntValue fuel) w1
    let w3 ← checkPlain (setIntValue fuel) w2
    updateInputWidgets fuel w3

/-- The member `setIntValue(val)`; `emit valueChanged()` runs `updateInputWidgets`. -/
def setIntValue : Nat → FormGenIntWidget → Int → Option FormGenIntWidget
  | 0, _, _ => none
  | fuel + 1, w, val =>
    if w.mValue = val then some w
    else updateInputWidgets fuel { w with mValue := val }

end

mutual

/-- The member `setMinimum(min)`. -/
def setMinimum : Nat → FormGenIntWidget → Int → Option FormGenIntWidget
  | 0, _, _ => none
  | fuel + 1, w, min =>
    if w.mMinimum = min then some w
    else do
      let w1 ← spinBoxSetMinimum (checkNewValue fuel) { w with mMinimum := min } min
      let w2 ← sliderSetMinimum (checkNewValue fuel) w1 min
      -- emit minimumChanged();
      let w3 ← setMaximum fuel w2 (qMax w2.minimum w2.maximum)
      setIntValue fuel w3 (qBound w3.minimum w3.mValue w3.maximum)

/-- The member `setMaximum(max)`. -/
def setMaximum : Nat → FormGenIntWidget → Int → Option FormGenIntWidget
  | 0, _, _ => none
  | fuel + 1, w, max =>
    if w.mMaximum = max then some w
    else do
      let w1 ← spinBoxSetMaximum (checkNewValue fuel) { w with mMaximum := max } max
      let w2 ← sliderSetMaximum (checkNewValue fuel) w1 max
      -- emit maximumChanged();
      let w3 ← setMinimum fuel w2 (qMin w2.minimum w2.maximum)
      setIntValue fuel w3 (qBound w3.minimum w3.mValue w3.maximum)

end

/-- The member `acceptsValueImpl(val)`, reduced to the flag `acceptable` of its result. -/
def acceptsValueImpl (w : FormGenIntWidget) (val : QVariant) : Bool :=
  if MathUtils.isIntegerType val then
    match val.toInt with
    | some (v, ok) => if ok then decide (v = qBound w.minimum v w.maximum) else false
    | none => false
  else false

/-- The member `FormGenElement::acceptsValue(val)`, reduced to the flag `acceptable`. -/
def acceptsValue (w : FormGenIntWidget) (val : QVariant) : Bool :=
  if w.mType = ElementType.Optional ∧ !val.isValid then true
  else w.acceptsValueImpl val

/-- The member `FormGenElement::setValueSet(valueSet)`.  The signal `valueSetChanged` is
connected to the signal `valueChanged`, which runs `updateInputWidgets`, and then, for an
optional element, to `setChecked` of the check box, whose signal `toggled` is connected to
`setValueSet`. -/
def setValueSet : Nat → FormGenIntWidget → Bool → Option FormGenIntWidget
  | 0, _, _ => none
  | fuel + 1, w, valueSet =>
    if w.mValueSet = valueSet then some w
    else do
      -- emit valueSetChanged(mValueSet);
      let w1 ← updateInputWidgets fuel { w with mValueSet := valueSet }
      valueSetBoxSetChecked (setValueSet fuel) w1 valueSet

/-- The member `setVaidatedValueImpl(val)`: `setIntValue(val.toInt())`. -/
def setVaidatedValueImpl (fuel : Nat) (w : FormGenIntWidget) (val : QVariant) :
    Option FormGenIntWidget := do
  let r ← val.toInt
  setIntValue fuel w r.1

/-- The member `FormGenElement::setValidatedValue(val)`. -/
def setValidatedValue (fuel : Nat) (w : FormGenIntWidget) (val : QVariant) :
    Option FormGenIntWidget :=
  if !val.isValid then setValueSet fuel w false
  else do
    let w1 ← setVaidatedValueImpl fuel w val
    setValueSet fuel w1 true

/-- The member `FormGenElement::setValue(val)`. -/
def setValue (fuel : Nat) (w : FormGenIntWidget) (val : QVariant) : Option FormGenIntWidget :=
  if !w.acceptsValue val then some w
  else setValidatedValue fuel w val

/-! ### Construction -/

/-- The member `setSpinBox(set)`; the signal of a new spin box is connected after its range and
value have been set. -/
def setSpinBox (w : FormGenIntWidget) (set : Bool) : FormGenIntWidget :=
  match set, w.mSpinBox with
  | true, none =>
    let sb := ((QSpinBox.construct.setMinimum w.minimum).1.setMaximum w.maximum).1
    { w with mSpinBox := some (sb.setValue w.mValue).1 }
  | false, some _ => { w with mSpinBox := none }
  | _, _ => w

/-- The member `setSlider(set)`; the signal of a new slider is connected after its range and
value have been set. -/
def setSlider (w : FormGenIntWidget) (set : Bool) : FormGenIntWidget :=
  match set, w.mSlider with
  | true, none =>
    let sl := ((QSlider.construct.setMinimum w.minimum).1.setMaximum w.maximum).1
    { w with mSlider := some (sl.setValue w.mValue).1 }
  | false, some _ => { w with mSlider := none }
  | _, _ => w

/-- The member `setPlain(set)`.  The text of a new line edit is `valueString()`, the text for
an unset value when no value is set. -/
def setPlain (w : FormGenIntWidget) (set : Bool) : FormGenIntWidget :=
  match set, w.mPlain with
  | true, none =>
    { w with mPlain := some { textToInt := if w.mValueSet then some w.mValue else none } }
  | false, some _ => { w with mPlain := none }
  | _, _ => w

/-- The member `setupStyle()`. -/
def setupStyle (fuel : Nat) (w : FormGenIntWidget) : Option FormGenIntWidget :=
  let w1 :=
    match w.mStyle with
    | InputStyle.Spinner => ((w.setSpinBox true).setSlider false).setPlain false
    | InputStyle.Slider => ((w.setSpinBox false).setSlider true).setPlain false
    | InputStyle.SpinnerSlider =>
      let w0 := if w.mSlider.isSome ∧ w.mSpinBox.isNone then w.setSpinBox false else w
      ((w0.setSlider true).setSpinBox true).setPlain false
    | InputStyle.Plain => ((w.setSpinBox false).setSlider false).setPlain true
  updateInputWidgets fuel w1

/-- The constructor `FormGenIntWidget(inputStyle, type)`: the constructors of the bases set
`mValueSet` and create the check box of an optional element; then minimum 0, maximum 100,
value 0, null pointers, and `setupStyle()`. -/
def construct (fuel : Nat) (inputStyle : InputStyle) (type : ElementType) :
    Option FormGenIntWidget :=
  setupStyle fuel
    { mType := type
      mValueSet := decide (type = ElementType.Required)
      mValueSetBox :=
        if type = ElementType.Optional then
          some { checked := decide (type = ElementType.Required) }
        else none
      mStyle := inputStyle
      mMinimum := 0
      mMaximum := 100
      mValue := 0
      mSpinBox := none
      mSlider := none
      mPlain := none }

/-! ### Calls from outside -/

/-- The spin box, when there is one, receives `setValue(val)`: the user steps or types, or a
program calls the slot. -/
def spinBoxSetValue (slot : FormGenIntWidget → Option FormGenIntWidget) (w : FormGenIntWidget)
    (val : Int) : Option FormGenIntWidget :=
  match w.mSpinBox with
  | some sb => spinBoxChanged slot w (sb.setValue val)
  | none => some w

/-- The slider, when there is one, receives `setValue(value)`. -/
def sliderSetValue (slot : FormGenIntWidget → Option FormGenIntWidget) (w : FormGenIntWidget)
    (value : Int) : Option FormGenIntWidget :=
  match w.mSlider with
  | some sl => sliderChanged slot w (sl.setValue value)
  | none => some w

/-- The user leaves the line edit, when there is one, with a text that reads as `textToInt`:
the signal `editingFinished` runs the slot. -/
def plainEdited (slot : FormGenIntWidget → Option FormGenIntWidget) (w : FormGenIntWidget)
    (textToInt : Option Int) : Option FormGenIntWidget :=
  match w.mPlain with
  | some _ => slot { w with mPlain := some { textToInt := textToInt } }
  | none => some w

/-- What can happen to the widget from outside: a call of `setMinimum`, `setMaximum` or
`setValue`; the user or a program changing the value an input widget shows, which runs the slot
`checkNewValue` through the signal of the input widget (for the line edit, `editingFinished`,
with any text); the user switching the check box of an optional element; the slot
`checkNewValue` on its own. -/
inductive Call where
  | setMinimum (min : Int)
  | setMaximum (max : Int)
  | setValue (val : QVariant)
  | spinBoxSetValue (val : Int)
  | sliderSetValue (value : Int)
  | plainEdited (textToInt : Option Int)
  | valueSetBoxSetChecked (checked : Bool)
  | checkNewValue

/-- Perform one call. -/
def step (fuel : Nat) (w : FormGenIntWidget) : Call → Option FormGenIntWidget
  | Call.setMinimum min => setMinimum fuel w min
  | Call.setMaximum max => setMaximum fuel w max
  | Call.setValue val => setValue fuel w val
  | Call.spinBoxSetValue val => spinBoxSetValue (checkNewValue fuel) w val
  | Call.sliderSetValue value => sliderSetValue (checkNewValue fuel) w value
  | Call.plainEdited textToInt => plainEdited (checkNewValue fuel) w textToInt
  | Call.valueSetBoxSetChecked checked => valueSetBoxSetChecked (setValueSet fuel) w checked
  | Call.checkNewValue => checkNewValue fuel w

/-- Perform a sequence of calls, first to last. -/
def run (fuel : Nat) : List Call → FormGenIntWidget → Option FormGenIntWidget
  | [], w => some w
  | call :: calls, w => do
    let w1 ← step fuel w call
    run fuel calls w1

/-- The state in which the input widgets agree with the fields: the check box of an optional
element shows `mValueSet`; the spin box and the slider of the style have the range
`mMinimum` to `mMaximum` and the value `mValue`; the line edit of the plain style shows
`mValue`. -/
def synced (style : InputStyle) (type : ElementType) (valueSet : Bool) (min max value : Int) :
    FormGenIntWidget :=
  { mType := type
    mValueSet := valueSet
    mValueSetBox := if type = ElementType.Optional then some { checked := valueSet } else none
    mStyle := style
    mMinimum := min
    mMaximum := max
    mValue := value
    mSpinBox :=
      if style = InputStyle.Spinner ∨ style = InputStyle.SpinnerSlider then
        some { minimum := min, maximum := max, value := value }
      else none
    mSlider :=
      if style = InputStyle.Slider ∨ style = InputStyle.SpinnerSlider then
        some { minimum := min, maximum := max, value := value }
      else none
    mPlain := if style = InputStyle.Plain then some { textToInt := some value } else none }

end FormGenIntWidget

/-! ## The decimal literal check of `mathutils.cpp` -/

namespace Qt

/-- A pattern of `QRegularExpression`, restricted to the constructs `s_decimalLiteral` uses.
Groups only capture, so they do not appear. -/
inductive Pattern where
  /-- The assertion `\A`: at the start of the subject. -/
  | startOfSubject
  /-- The assertion `\z`: at the very end of the subject. -/
  | endOfSubject
  /-- A literal character, like `-` or `\.`. -/
  | char (c : Char)
  /-- A character class of one range, like `[0-9]`. -/
  | range (lo hi : Char)
  /-- A character class listing its characters, like `[eE]`. -/
  | set (cs : List Char)
  /-- One pattern after the other. -/
  | seq (p q : Pattern)
  /-- The alternation `p|q`. -/
  | alt (p q : Pattern)
  /-- The quantifier `p?`. -/
  | opt (p : Pattern)
  /-- The quantifier `p*`. -/
  | star (p : Pattern)
  /-- The quantifier `p+`. -/
  | plus (p : Pattern)

/-- A position in the subject: the number of characters before it and the characters from it
on. -/
abbrev Position := Nat × List Char

/-- Match one character that satisfies `accept` at a position: the position behind it, or
nothing. -/
def classStep (accept : Char → Bool) : Position → List Position
  | (_, []) => []
  | (n, c :: rest) => if accept c then [(n + 1, rest)] else []

/-- Repeat a pattern, given by the positions `f` reaches from a position, any number of times;
a repetition that matches the empty string is not repeated.  `fuel` bounds the number of
repetitions. -/
def iterate (f : Position → List Position) : Nat → Position → List Position
  | 0, at_ => [at_]
  | fuel + 1, at_ =>
    at_ :: ((f at_).filter (fun next => decide (next.2.length < at_.2.length))).flatMap
      (iterate f fuel)

/-- The positions at which a match of the pattern that starts at the given position can end. -/
def Pattern.ends : Pattern → Position → List Position
  | startOfSubject, at_ => if at_.1 = 0 then [at_] else []
  | endOfSubject, at_ => if at_.2.isEmpty then [at_] else []
  | char c, at_ => classStep (fun x => x == c) at_
  | range lo hi, at_ => classStep (fun x => decide (lo ≤ x) && decide (x ≤ hi)) at_
  | set cs, at_ => classStep (fun x => cs.contains x) at_
  | seq p q, at_ => (p.ends at_).flatMap q.ends
  | alt p q, at_ => p.ends at_ ++ q.ends at_
  | opt p, at_ => p.ends at_ ++ [at_]
  | star p, at_ => iterate p.ends (at_.2.length + 1) at_
  | plus p, at_ => (p.ends at_).flatMap (fun next => iterate p.ends (next.2.length + 1) next)

/-- The call `re.match(subject).hasMatch()`: some match of the pattern starts at some offset of
the subject. -/
def hasMatch (re : Pattern) (subject : List Char) : Bool :=
  (List.range (subject.length + 1)).any
    (fun offset => !(re.ends (offset, subject.drop offset)).isEmpty)

/-- The pattern matches, between two positions, exactly the strings of a language: a match
from one position to another consumes a string of the language, and every string of the
language in front of a position is matched. -/
def Recognises (p : Pattern) (language : List Char → Prop) : Prop :=
  ∀ first last : Position, last ∈ p.ends first ↔
    ∃ consumed, first.2 = consumed ++ last.2 ∧ last.1 = first.1 + consumed.length ∧
      language consumed

end Qt

namespace MathUtils

open Qt

/-- The enum `MathUtils::RoundingMode`. -/
inductive RoundingMode where
  | RoundNearestEven
  | RoundToInf
  | RoundToMinusInf
  deriving DecidableEq, Repr

/-- The enum `MathUtils::ConversionResult`. -/
inductive ConversionResult where
  | NoError
  | RangeError
  | StringFormatError
  deriving DecidableEq, Repr

/-- The character class `[0-9]`. -/
def digit : Pattern := Pattern.range '0' '9'

/-- The part `-?` of `s_decimalLiteral`. -/
def signPart : Pattern := Pattern.opt (Pattern.char '-')

/-- The part `(0|[1-9][0-9]*)` of `s_decimalLiteral`. -/
def wholePart : Pattern :=
  Pattern.alt (Pattern.char '0') (Pattern.seq (Pattern.range '1' '9') (Pattern.star digit))

/-- The part `(\.[0-9]+)?` of `s_decimalLiteral`. -/
def fractionPart : Pattern :=
  Pattern.opt (Pattern.seq (Pattern.char '.') (Pattern.plus digit))

/-- The part `([eE][\+-]?[0-9]+)?` of `s_decimalLiteral`. -/
def exponentPart : Pattern :=
  Pattern.opt
    (Pattern.seq (Pattern.set ['e', 'E'])
      (Pattern.seq (Pattern.opt (Pattern.set ['+', '-'])) (Pattern.plus digit)))

/-- The static `s_decimalLiteral`:
`\A-?(0|[1-9][0-9]*)(\.[0-9]+)?([eE][\+-]?[0-9]+)?\z`. -/
def s_decimalLiteral : Pattern :=
  Pattern.seq Pattern.startOfSubject
    (Pattern.seq signPart
      (Pattern.seq wholePart
        (Pattern.seq fractionPart (Pattern.seq exponentPart Pattern.endOfSubject))))

/-- The function `MathUtils::decimalToFloatB64(src, round, dst)`: the result and the value of
`*dst` after the call.  `toDouble round src` is what `src.toDouble(&ok)` returns under the
rounding mode the function sets for `round` (and resets afterwards): the number and `ok`. -/
def decimalToFloatB64 {Double : Type} (toDouble : RoundingMode → List Char → Double × Bool)
    (src : List Char) (round : RoundingMode) (dst : Double) : ConversionResult × Double :=
  if !hasMatch s_decimalLiteral src then (ConversionResult.StringFormatError, dst)
  else
    -- *dst = src.toDouble(&ok);
    let r := toDouble round src
    if !r.2 then (ConversionResult.RangeError, r.1) else (ConversionResult.NoError, r.1)

/-- The function `MathUtils::decimalToFloatB32(src, round, dst)`: the result and the value of
`*dst` after the call.  `toFloat round src` is what `src.toFloat(&ok)` returns under the
rounding mode the function sets for `round` (and resets afterwards): the number and `ok`. -/
def decimalToFloatB32 {Float32 : Type} (toFloat : RoundingMode → List Char → Float32 × Bool)
    (src : List Char) (round : RoundingMode) (dst : Float32) : ConversionResult × Float32 :=
  if !hasMatch s_decimalLiteral src then (ConversionResult.StringFormatError, dst)
  else
    -- *dst = src.toFloat(&ok);
    let r := toFloat round src
    if !r.2 then (ConversionResult.RangeError, r.1) else (ConversionResult.NoError, r.1)

/-- A digit `0`-`9`. -/
def IsDigit (c : Char) : Prop := '0' ≤ c ∧ c ≤ '9'

/-- An optional `-`. -/
def IsSign (sign : List Char) : Prop := sign = [] ∨ sign = ['-']

/-- Either `0` or a digit 1-9 followed by any digits. -/
def IsWhole (whole : List Char) : Prop :=
  whole = ['0'] ∨
    ∃ first rest, whole = first :: rest ∧ ('1' ≤ first ∧ first ≤ '9') ∧ ∀ c ∈ rest, IsDigit c

/-- Optionally `.` followed by at least one digit. -/
def IsFraction (fraction : List Char) : Prop :=
  fraction = [] ∨ ∃ digits, fraction = '.' :: digits ∧ digits ≠ [] ∧ ∀ c ∈ digits, IsDigit c

/-- Optionally `e` or `E`, an optional `+` or `-`, and at least one digit. -/
def IsExponent (exponent : List Char) : Prop :=
  exponent = [] ∨
    ∃ e sign digits, exponent = e :: (sign ++ digits) ∧ (e = 'e' ∨ e = 'E') ∧
      (sign = [] ∨ sign = ['+'] ∨ sign = ['-']) ∧ digits ≠ [] ∧ ∀ c ∈ digits, IsDigit c

/-- The decimal literals: the source in its entirety is an optional `-`, then
either `0` or a digit 1-9 followed by any digits, then optionally `.` followed by at least one
digit, then optionally `e` or `E`, an optional `+` or `-`, and at least one digit. -/
def IsDecimalLiteral (src : List Char) : Prop :=
  ∃ sign whole fraction exponent : List Char,
    src = sign ++ whole ++ fraction ++ exponent ∧
    IsSign sign ∧ IsWhole whole ∧ IsFraction fraction ∧ IsExponent exponent

end MathUtils

namespace sorted_sequence

open Qt

/-! ## A concrete bag model -/

/-- The move assignment of `QString` swaps the data of the two strings: the source is left with
what the destination held. -/
instance instMoveQString : MoveConcept String where
  moved_from y _ := y
  self_moved x := x

/-- The move assignment of `QVariant` swaps the data of the two variants. -/
instance instMoveQVariant : MoveConcept QVariant where
  moved_from y _ := y
  self_moved x := x

/-- The code points of a string. -/
def codePoints (s : String) : List Nat := s.toList.map Char.toNat

/-- A comparator like the one `FormGenBagModel` constructs: it looks at the display strings
only, which it compares by code points, as `QString::localeAwareCompare` does in the C
locale; its predicate object lives at address 3. -/
def byDisplay : lambda_compare (String × QVariant) :=
  { m_f := { address := 3,
             target := fun lhs rhs => decide (codePoints lhs.1 < codePoints rhs.1) } }

/-- A bag of three rows with the display strings `a`, `b` and `c`. -/
def exampleModel : FormGenBagModel String QVariant :=
  { mItems := adaptor.fromContainer
      [("a", QVariant.fromInt 1), ("b", QVariant.fromInt 2), ("c", QVariant.fromInt 3)]
      byDisplay,
    emitted := [] }

end sorted_sequence

namespace sorted_sequence

/-! ## Strings of the standard library as elements -/

/-- A `std::string`, given by its characters. -/
structure std_string where
  chars : String
  deriving DecidableEq

/-- The comparison `operator<` of `std::string`: lexicographic on the characters. -/
instance instLTStdString : LT std_string :=
  ⟨fun lhs rhs => codePoints lhs.chars < codePoints rhs.chars⟩

/-- The comparison of two strings can be computed. -/
instance instDecidableLTStdString : DecidableRel (fun lhs rhs : std_string => lhs < rhs) :=
  fun lhs rhs => inferInstanceAs (Decidable (codePoints lhs.chars < codePoints rhs.chars))

/-- The move assignment of `std::string` in libstdc++, `basic_string::operator=(basic_string&&)`,
ends with `__str.clear()`: the source is left empty, also when it is the destination. -/
instance instMoveStdString : MoveConcept std_string where
  moved_from _ _ := { chars := "" }
  self_moved _ := { chars := "" }

/-- An `adaptor<std::vector<std::string>>` holding `a`, `c` and `d`. -/
def exampleStrings : adaptor std_string (default_compare std_string) :=
  adaptor.fromContainer [{ chars := "a" }, { chars := "c" }, { chars := "d" }] {}

end sorted_sequence


namespace sorted_sequence

/-! ## Strict weak orderings and sortedness -/

theorem StrictWeakOrdering.neg_trans {T : Type} {comp : T → T → Bool}
    (h : StrictWeakOrdering comp) {a b c : T} (hab : comp a b = false)
    (hbc : comp b c = false) : comp a c = false := by
  cases hac : comp a c with
  | false => rfl
  | true =>
    have hba : comp b a = false := by
      cases hba : comp b a with
      | false => rfl
      | true => rw [h.trans b a c hba hac] at hbc; exact hbc
    have hcb : comp c b = false := by
      cases hcb : comp c b with
      | false => rfl
      | true => rw [h.trans a c b hac hcb] at hab; exact hab
    have hfalse := (h.incomp_trans a b c hab hba hbc hcb).1
    rw [hac] at hfalse
    exact hfalse

/-- The order `x` before-or-equivalent `y` that a sorted sequence keeps between neighbours. -/
theorem sorted_rel_trans {T : Type} {comp : T → T → Bool} (h : StrictWeakOrdering comp) :
    IsTrans T (fun prev next => comp next prev = false) :=
  ⟨fun _ _ _ hab hbc => h.neg_trans hbc hab⟩

theorem chain_iff_pairwise {T : Type} {comp : T → T → Bool} (h : StrictWeakOrdering comp)
    (l : List T) :
    List.Chain' (fun prev next => comp next prev = false) l ↔
      List.Pairwise (fun prev next => comp next prev = false) l := by
  haveI := sorted_rel_trans h
  exact List.chain'_iff_pairwise

theorem sorted_get {T : Type} {comp : T → T → Bool} (h : StrictWeakOrdering comp)
    {l : List T} (hs : List.Chain' (fun prev next => comp next prev = false) l)
    {i j : Nat} (hij : i < j) (hj : j < l.length) :
    comp (l.get ⟨j, hj⟩) (l.get ⟨i, by omega⟩) = false := by
  have hp := (chain_iff_pairwise h l).1 hs
  exact (List.pairwise_iff_getElem.1 hp) i j (by omega) hj hij

/-! ## Binary search -/

theorem IsPartitionPoint.unique {T : Type} {goRight : T → Bool} {c : List T}
    {first last p q : Nat} (hl : last ≤ c.length)
    (hp : IsPartitionPoint goRight c first last p)
    (hq : IsPartitionPoint goRight c first last q) : p = q := by
  obtain ⟨hp1, hp2, hp3, hp4⟩ := hp
  obtain ⟨hq1, hq2, hq3, hq4⟩ := hq
  rcases Nat.lt_trichotomy p q with hlt | heq | hgt
  · have h1 := hq3 p (by omega) hp1 hlt
    have h2 := hp4 p (by omega) (Nat.le_refl _) (by omega)
    rw [h1] at h2; exact absurd h2 (by decide)
  · exact heq
  · have h1 := hp3 q (by omega) hq1 hgt
    have h2 := hq4 q (by omega) (Nat.le_refl _) (by omega)
    rw [h1] at h2; exact absurd h2 (by decide)

theorem bound_loop_eq {T : Type} (goRight : T → Bool) (c : List T) (p : Nat) :
    ∀ (fuel first count : Nat) (h : first + count ≤ c.length), count ≤ fuel →
      IsPartitionPoint goRight c first (first + count) p →
      bound_loop goRight c fuel first count h = p := by
  intro fuel
  induction fuel with
  | zero =>
    intro first count h hf hp
    obtain ⟨hp1, hp2, -, -⟩ := hp
    simp only [bound_loop]; omega
  | succ fuel ih =>
    intro first count h hf hp
    obtain ⟨hp1, hp2, hp3, hp4⟩ := hp
    simp only [bound_loop]
    split
    · rename_i hc
      split
      · rename_i hg
        apply ih
        · omega
        · have hlt : first + count / 2 < p := by
            by_contra hcon
            have := hp4 (first + count / 2) (by omega) (by omega) (by omega)
            rw [hg] at this; exact absurd this (by decide)
          refine ⟨by omega, by omega, fun i hi h1 h2 => hp3 i hi (by omega) h2,
            fun i hi h1 h2 => hp4 i hi h1 (by omega)⟩
      · rename_i hg
        apply ih
        · omega
        · have hle : p ≤ first + count / 2 := by
            by_contra hcon
            have := hp3 (first + count / 2) (by omega) (by omega) (by omega)
            exact hg this
          refine ⟨hp1, hle, fun i hi h1 h2 => hp3 i hi h1 h2,
            fun i hi h1 h2 => hp4 i hi h1 (by omega)⟩
    · omega

theorem exists_partitionPoint {T : Type} (goRight : T → Bool) (c : List T) (first : Nat)
    (hanti : ∀ i j (hj : j < c.length), first ≤ i → (hij : i < j) →
      goRight (c.get ⟨j, hj⟩) = true → goRight (c.get ⟨i, by omega⟩) = true) :
    ∀ last, first ≤ last → last ≤ c.length →
      ∃ p, IsPartitionPoint goRight c first last p := by
  intro last hfl
  induction last, hfl using Nat.le_induction with
  | base =>
    intro _
    exact ⟨first, Nat.le_refl _, Nat.le_refl _, fun i _ h1 h2 => by omega,
      fun i _ h1 h2 => by omega⟩
  | succ last hfl ih =>
    intro hl
    obtain ⟨p, hp1, hp2, hp3, hp4⟩ := ih (by omega)
    by_cases hg : goRight (c.get ⟨last, by omega⟩) = true
    · refine ⟨last + 1, by omega, Nat.le_refl _, fun i hi h1 h2 => ?_, fun i _ h1 h2 => by omega⟩
      by_cases hil : i = last
      · subst hil; exact hg
      · exact hanti i last (by omega) h1 (by omega) hg
    · refine ⟨p, hp1, by omega, hp3, fun i hi h1 h2 => ?_⟩
      by_cases hil : i = last
      · subst hil; simpa using hg
      · exact hp4 i hi h1 (by omega)

theorem lower_bound_isPartitionPoint {T : Type} {comp : T → T → Bool}
    (hswo : StrictWeakOrdering comp) {c : List T}
    (hs : List.Chain' (fun prev next => comp next prev = false) c) (first last : Nat)
    (h : first ≤ last ∧ last ≤ c.length) (value : T) :
    IsPartitionPoint (fun x => comp x value) c first last
      (lower_bound comp c first last h value) := by
  obtain ⟨p, hp⟩ := exists_partitionPoint (fun x => comp x value) c first
    (fun i j hj _ hij hgj => by
      cases hgi : comp (c.get ⟨i, by omega⟩) value with
      | true => exact hgi
      | false =>
        have := hswo.neg_trans (sorted_get hswo hs hij hj) hgi
        simp only [this] at hgj
        exact absurd hgj (by decide)) last h.1 h.2
  have hp' : IsPartitionPoint (fun x => comp x value) c first (first + (last - first)) p := by
    have : first + (last - first) = last := by omega
    rw [this]; exact hp
  have := bound_loop_eq (fun x => comp x value) c p (last - first) first (last - first)
    (by omega) (Nat.le_refl _) hp'
  unfold lower_bound
  rw [this]; exact hp

theorem upper_bound_isPartitionPoint {T : Type} {comp : T → T → Bool}
    (hswo : StrictWeakOrdering comp) {c : List T}
    (hs : List.Chain' (fun prev next => comp next prev = false) c) (first last : Nat)
    (h : first ≤ last ∧ last ≤ c.length) (value : T) :
    IsPartitionPoint (fun x => !comp value x) c first last
      (upper_bound comp c first last h value) := by
  obtain ⟨p, hp⟩ := exists_partitionPoint (fun x => !comp value x) c first
    (fun i j hj _ hij hgj => by
      have hvj : comp value (c.get ⟨j, hj⟩) = false := by simpa using hgj
      have := hswo.neg_trans hvj (sorted_get hswo hs hij hj)
      show (!comp value (c.get ⟨i, _⟩)) = true
      rw [this]; rfl) last h.1 h.2
  have hp' : IsPartitionPoint (fun x => !comp value x) c first (first + (last - first)) p := by
    have : first + (last - first) = last := by omega
    rw [this]; exact hp
  have := bound_loop_eq (fun x => !comp value x) c p (last - first) first (last - first)
    (by omega) (Nat.le_refl _) hp'
  unfold upper_bound
  rw [this]; exact hp

/-- The binary search stays inside its range, whatever the sequence holds. -/
theorem bound_loop_range {T : Type} (goRight : T → Bool) (c : List T) :
    ∀ (fuel first count : Nat) (h : first + count ≤ c.length),
      first ≤ bound_loop goRight c fuel first count h ∧
        bound_loop goRight c fuel first count h ≤ first + count := by
  intro fuel
  induction fuel with
  | zero => intro first count h; simp only [bound_loop]; omega
  | succ fuel ih =>
    intro first count h
    simp only [bound_loop]
    split
    · split
      · have := ih (first + count / 2 + 1) (count - (count / 2 + 1)) (by omega)
        omega
      · have := ih first (count / 2) (by omega)
        omega
    · omega

end sorted_sequence


namespace sorted_sequence

variable {T Compare : Type} [CompareConcept Compare T]

theorem insertPosition_first_eq (a : adaptor T Compare) (hswo : StrictWeakOrdering a.comp)
    (hs : a.I1) (value : T) (positionHint : Int) :
    a.insertPosition value InsertMode.InsertFirst positionHint =
      ((lower_bound a.comp a.c 0 a.c.length ⟨Nat.zero_le _, Nat.le_refl _⟩ value : Nat) :
        Int) := by
  have hL := lower_bound_isPartitionPoint hswo hs 0 a.c.length
    ⟨Nat.zero_le _, Nat.le_refl _⟩ value
  unfold adaptor.insertPosition
  simp only [true_and, reduceCtorEq, false_and, if_false, if_true]
  generalize lower_bound a.comp a.c 0 a.c.length _ value = p at hL ⊢
  obtain ⟨hp1, hp2, hp3, hp4⟩ := hL
  split
  · rename_i h
    split
    · omega
    · rename_i he
      split
      · rename_i h0
        split
        · rename_i hc
          subst h0
          by_contra hne
          have := hp3 0 (by omega) (Nat.le_refl _) (by omega)
          simp only [] at this
          rw [hc] at this
          exact absurd this (by decide)
        · rfl
      · rename_i h0
        split
        · rename_i hn
          split
          · rename_i hc
            by_contra hne
            have := hp4 (a.c.length - 1) (by omega) (by omega) (by omega)
            simp only [] at this
            rw [hc] at this
            exact absurd this (by decide)
          · rfl
        · rename_i hn
          split
          · rename_i hc1
            split
            · rename_i hc2
              have h1 : ¬ p ≤ (positionHint - 1).toNat := fun hle => by
                have := hp4 (positionHint - 1).toNat (by omega) hle (by omega)
                simp only [] at this
                rw [hc1] at this
                exact absurd this (by decide)
              have h2 : ¬ positionHint.toNat < p := fun hlt => by
                have := hp3 positionHint.toNat (by omega) (by omega) hlt
                simp only [] at this
                rw [hc2] at this
                exact absurd this (by decide)
              omega
            · rename_i hc2
              have hq := lower_bound_isPartitionPoint hswo hs positionHint.toNat a.c.length
                ⟨by omega, Nat.le_refl _⟩ value
              have hpq : IsPartitionPoint (fun x => a.comp x value) a.c positionHint.toNat
                  a.c.length p := by
                refine ⟨?_, hp2, fun i hi h1 h2 => hp3 i hi (by omega) h2, hp4⟩
                by_contra hcon
                have := hp4 positionHint.toNat (by omega) (by omega) (by omega)
                simp only [] at this
                exact hc2 this
              have := IsPartitionPoint.unique (Nat.le_refl _) hq hpq
              rw [this]
          · rfl
  · rfl

theorem insertPosition_last_eq (a : adaptor T Compare) (hswo : StrictWeakOrdering a.comp)
    (hs : a.I1) (value : T) (positionHint : Int) :
    a.insertPosition value InsertMode.InsertLast positionHint =
      ((upper_bound a.comp a.c 0 a.c.length ⟨Nat.zero_le _, Nat.le_refl _⟩ value : Nat) :
        Int) := by
  have hU := upper_bound_isPartitionPoint hswo hs 0 a.c.length
    ⟨Nat.zero_le _, Nat.le_refl _⟩ value
  unfold adaptor.insertPosition
  simp only [true_and, reduceCtorEq, false_and, if_false, if_true]
  generalize upper_bound a.comp a.c 0 a.c.length _ value = p at hU ⊢
  obtain ⟨hp1, hp2, hp3, hp4⟩ := hU
  split
  · rename_i h
    split
    · omega
    · rename_i he
      split
      · rename_i h0
        split
        · rename_i hc
          subst h0
          by_contra hne
          have := hp3 0 (by omega) (Nat.le_refl _) (by omega)
          simp only [] at this
          rw [hc] at this
          exact absurd this (by decide)
        · rfl
      · rename_i h0
        split
        · rename_i hn
          split
          · rename_i hc
            by_contra hne
            have := hp4 (a.c.length - 1) (by omega) (by omega) (by omega)
            simp only [] at this
            rw [hc] at this
            exact absurd this (by decide)
          · rfl
        · rename_i hn
          split
          · rename_i hc1
            split
            · rename_i hc2
              have h1 : ¬ p ≤ (positionHint - 1).toNat := fun hle => by
                have := hp4 (positionHint - 1).toNat (by omega) hle (by omega)
                simp only [] at this
                rw [hc2] at this
                exact absurd this (by decide)
              have h2 : ¬ positionHint.toNat < p := fun hlt => by
                have := hp3 positionHint.toNat (by omega) (by omega) hlt
                simp only [] at this
                rw [hc1] at this
                exact absurd this (by decide)
              omega
            · rename_i hc2
              have hq := upper_bound_isPartitionPoint hswo hs 0 positionHint.toNat
                ⟨Nat.zero_le _, by omega⟩ value
              have hpq : IsPartitionPoint (fun x => !a.comp value x) a.c 0
                  positionHint.toNat p := by
                refine ⟨hp1, ?_, hp3, fun i hi h1 h2 => hp4 i hi h1 (by omega)⟩
                by_contra hcon
                have := hp3 (positionHint - 1).toNat (by omega) (by omega) (by omega)
                simp only [] at this
                have hc3 : a.comp value (a.c.get ⟨(positionHint - 1).toNat, by omega⟩) = true := by
                  simpa using hc2
                rw [hc3] at this
                exact absurd this (by decide)
              have := IsPartitionPoint.unique (by omega) hq hpq
              rw [this]
          · rfl
  · rfl

/-- With the default hint the two binary searches at the end of `insertPosition` decide. -/
theorem insertPosition_noHint (a : adaptor T Compare) (value : T) (mode : InsertMode) :
    a.insertPosition value mode noHint =
      if mode = InsertMode.InsertFirst then
        ((lower_bound a.comp a.c 0 a.c.length ⟨Nat.zero_le _, Nat.le_refl _⟩ value : Nat) : Int)
      else
        ((upper_bound a.comp a.c 0 a.c.length ⟨Nat.zero_le _, Nat.le_refl _⟩ value : Nat) :
          Int) := by
  unfold adaptor.insertPosition noHint
  simp

theorem insertPosition_hint_irrelevant (a : adaptor T Compare)
    (hswo : StrictWeakOrdering a.comp) (hs : a.I1) (value : T) (mode : InsertMode)
    (positionHint : Int) :
    a.insertPosition value mode positionHint = a.insertPosition value mode noHint := by
  cases mode
  · rw [insertPosition_first_eq a hswo hs, insertPosition_first_eq a hswo hs]
  · rw [insertPosition_last_eq a hswo hs, insertPosition_last_eq a hswo hs]

/-- The position `insertPosition` returns lies in `[0, size]`, whatever the sequence holds. -/
theorem insertPosition_range (a : adaptor T Compare) (value : T) (mode : InsertMode)
    (positionHint : Int) :
    0 ≤ a.insertPosition value mode positionHint ∧
      a.insertPosition value mode positionHint ≤ a.c.length := by
  have hL := fun first (h : first + (a.c.length - first) ≤ a.c.length) =>
    bound_loop_range (fun x => a.comp x value) a.c (a.c.length - first) first
      (a.c.length - first) h
  have hU := fun first last (h : first + (last - first) ≤ a.c.length) =>
    bound_loop_range (fun x => !a.comp value x) a.c (last - first) first (last - first) h
  unfold adaptor.insertPosition lower_bound upper_bound
  simp only []
  have hL0 := hL 0 (by omega)
  have hU0 := hU 0 a.c.length (by omega)
  split
  · rename_i h
    have hLh := hL positionHint.toNat (by omega)
    have hUh := hU 0 positionHint.toNat (by omega)
    repeat' split
    all_goals omega
  · split <;> omega

end sorted_sequence


namespace sorted_sequence

variable {T Compare : Type} [CompareConcept Compare T]

theorem mem_take_get {X : Type} {l : List X} {k : Nat} {x : X} :
    x ∈ l.take k ↔ ∃ i, ∃ (hi : i < l.length), i < k ∧ l.get ⟨i, hi⟩ = x := by
  rw [List.mem_take_iff_getElem]
  constructor
  · rintro ⟨i, hm, rfl⟩
    exact ⟨i, by omega, by omega, rfl⟩
  · rintro ⟨i, hi, hk, rfl⟩
    exact ⟨i, by omega, rfl⟩

theorem mem_drop_get {X : Type} {l : List X} {k : Nat} {x : X} :
    x ∈ l.drop k ↔ ∃ i, ∃ (hi : i < l.length), k ≤ i ∧ l.get ⟨i, hi⟩ = x := by
  rw [List.mem_iff_getElem]
  constructor
  · rintro ⟨i, hm, rfl⟩
    rw [List.length_drop] at hm
    refine ⟨k + i, by omega, by omega, ?_⟩
    simp [List.getElem_drop]
  · rintro ⟨i, hi, hk, rfl⟩
    refine ⟨i - k, by rw [List.length_drop]; omega, ?_⟩
    simp only [List.getElem_drop, List.get_eq_getElem]
    congr 1
    omega

/-- Inserting at `k` keeps a sorted sequence sorted exactly when nothing before `k` is greater
than the value and nothing from `k` on is less than it. -/
theorem sortedInsertAt_iff (a : adaptor T Compare) (hswo : StrictWeakOrdering a.comp)
    (hs : a.I1) (value : T) (q : Int) :
    a.SortedInsertAt value q ↔
      0 ≤ q ∧ q ≤ a.c.length ∧
        (∀ i (hi : i < a.c.length), (i : Int) < q → a.comp value (a.c.get ⟨i, hi⟩) = false) ∧
        (∀ i (hi : i < a.c.length), q ≤ (i : Int) → a.comp (a.c.get ⟨i, hi⟩) value = false) := by
  have hp := (chain_iff_pairwise hswo a.c).1 hs
  unfold adaptor.SortedInsertAt vec_insert adaptor.I1
  constructor
  · rintro ⟨c1, hc1, hch⟩
    split at hc1
    · rename_i hq
      simp only [Option.some.injEq] at hc1
      subst hc1
      have hch' : List.Chain' (fun prev next => a.comp next prev = false)
          (List.take q.toNat a.c ++ value :: List.drop q.toNat a.c) := hch
      rw [chain_iff_pairwise hswo, List.pairwise_append, List.pairwise_cons] at hch'
      obtain ⟨-, ⟨h2, -⟩, h3⟩ := hch'
      refine ⟨hq.1, hq.2, fun i hi hlt => ?_, fun i hi hle => ?_⟩
      · exact h3 _ (mem_take_get.2 ⟨i, hi, by omega, rfl⟩) value (List.mem_cons_self _ _)
      · exact h2 _ (mem_drop_get.2 ⟨i, hi, by omega, rfl⟩)
    · exact absurd hc1 (by simp)
  · rintro ⟨h0, hn, hlt, hge⟩
    refine ⟨_, if_pos ⟨h0, hn⟩, ?_⟩
    show List.Chain' (fun prev next => a.comp next prev = false)
          (List.take q.toNat a.c ++ value :: List.drop q.toNat a.c)
    rw [chain_iff_pairwise hswo, List.pairwise_append, List.pairwise_cons]
    have hp' := hp
    rw [← List.take_append_drop q.toNat a.c, List.pairwise_append] at hp'
    obtain ⟨ht, hd, hcross⟩ := hp'
    refine ⟨ht, ⟨fun y hy => ?_, hd⟩, fun x hx y hy => ?_⟩
    · obtain ⟨i, hi, hki, rfl⟩ := mem_drop_get.1 hy
      exact hge i hi (by omega)
    · rcases List.mem_cons.1 hy with rfl | hy
      · obtain ⟨i, hi, hki, rfl⟩ := mem_take_get.1 hx
        exact hlt i hi (by omega)
      · exact hcross x hx y hy

end sorted_sequence


namespace sorted_sequence

variable {T Compare : Type} [CompareConcept Compare T]

/-- The comparator `std::less` of a linear order is a strict weak ordering. -/
theorem default_compare_strictWeakOrdering {T : Type} [LinearOrder T] (a : adaptor T (default_compare T)) :
    StrictWeakOrdering a.comp := by
  refine ⟨fun x => ?_, fun x y h => ?_, fun x y z h1 h2 => ?_, fun x y z h1 h2 h3 h4 => ?_⟩
  · simp [adaptor.comp, CompareConcept.call]
  · simp only [adaptor.comp, CompareConcept.call, decide_eq_true_eq, decide_eq_false_iff_not,
      not_lt] at h ⊢
    exact le_of_lt h
  · simp only [adaptor.comp, CompareConcept.call, decide_eq_true_eq] at h1 h2 ⊢
    exact lt_trans h1 h2
  · simp only [adaptor.comp, CompareConcept.call, decide_eq_false_iff_not, not_lt] at h1 h2 h3 h4 ⊢
    exact ⟨le_trans h3 h1, le_trans h2 h4⟩

theorem readAt_eq_some {X : Type} {c : List X} {i : Int} {x : X} :
    readAt c i = some x ↔ ∃ (k : Nat) (hk : k < c.length), i = k ∧ c.get ⟨k, hk⟩ = x := by
  unfold readAt
  constructor
  · intro h
    split at h
    · exact absurd h (by simp)
    · rename_i hi
      rw [List.get?_eq_some] at h
      obtain ⟨hk, hx⟩ := h
      exact ⟨i.toNat, hk, by omega, hx⟩
  · rintro ⟨k, hk, rfl, hx⟩
    rw [if_neg (by omega)]
    simp only [Int.toNat_ofNat]
    rw [List.get?_eq_some]
    exact ⟨hk, hx⟩

/-- The position returned without hint is the lower bound for `InsertFirst` and the upper
bound for `InsertLast`, and these are the extreme positions at which the value can go. -/
theorem insertPosition_lower_upper (a : adaptor T Compare)
    (hswo : StrictWeakOrdering a.comp) (hs : a.I1) (v : T) :
    (a.SortedInsertAt v (a.insertPosition v InsertMode.InsertFirst noHint) ∧
      (∀ q, a.SortedInsertAt v q → a.insertPosition v InsertMode.InsertFirst noHint ≤ q) ∧
      (∀ i x, a.at_ i = some x →
        (a.comp x v = true ↔ i < a.insertPosition v InsertMode.InsertFirst noHint))) ∧
    (a.SortedInsertAt v (a.insertPosition v InsertMode.InsertLast noHint) ∧
      (∀ q, a.SortedInsertAt v q → q ≤ a.insertPosition v InsertMode.InsertLast noHint) ∧
      (∀ i x, a.at_ i = some x →
        (a.comp v x = true ↔ a.insertPosition v InsertMode.InsertLast noHint ≤ i))) := by
  have hL := lower_bound_isPartitionPoint hswo hs 0 a.c.length
    ⟨Nat.zero_le _, Nat.le_refl _⟩ v
  have hU := upper_bound_isPartitionPoint hswo hs 0 a.c.length
    ⟨Nat.zero_le _, Nat.le_refl _⟩ v
  rw [insertPosition_first_eq a hswo hs, insertPosition_last_eq a hswo hs]
  generalize lower_bound a.comp a.c 0 a.c.length _ v = p at hL ⊢
  generalize upper_bound a.comp a.c 0 a.c.length _ v = u at hU ⊢
  obtain ⟨-, hp2, hp3, hp4⟩ := hL
  obtain ⟨-, hu2, hu3, hu4⟩ := hU
  have hu3' : ∀ i (hi : i < a.c.length), i < u → a.comp v (a.c.get ⟨i, hi⟩) = false :=
    fun i hi h => by simpa using hu3 i hi (Nat.zero_le _) h
  have hu4' : ∀ i (hi : i < a.c.length), u ≤ i → a.comp v (a.c.get ⟨i, hi⟩) = true :=
    fun i hi h => by simpa using hu4 i hi h hi
  refine ⟨⟨?_, ?_, ?_⟩, ?_, ?_, ?_⟩
  · rw [sortedInsertAt_iff a hswo hs]
    refine ⟨by omega, by omega, fun i hi h => ?_, fun i hi h => ?_⟩
    · exact hswo.asymm _ _ (hp3 i hi (Nat.zero_le _) (by omega))
    · exact hp4 i hi (by omega) hi
  · intro q hq
    rw [sortedInsertAt_iff a hswo hs] at hq
    obtain ⟨hq0, hqn, -, hq2⟩ := hq
    by_contra hcon
    have h1 := hq2 q.toNat (by omega) (by omega)
    have h2 := hp3 q.toNat (by omega) (Nat.zero_le _) (by omega)
    simp only [] at h2
    rw [h1] at h2
    exact absurd h2 (by decide)
  · intro i x hx
    obtain ⟨k, hk, rfl, rfl⟩ := readAt_eq_some.1 hx
    constructor
    · intro h
      by_contra hcon
      have := hp4 k hk (by omega) hk
      simp only [] at this
      rw [h] at this
      exact absurd this (by decide)
    · intro h
      exact hp3 k hk (Nat.zero_le _) (by omega)
  · rw [sortedInsertAt_iff a hswo hs]
    refine ⟨by omega, by omega, fun i hi h => ?_, fun i hi h => ?_⟩
    · exact hu3' i hi (by omega)
    · exact hswo.asymm _ _ (hu4' i hi (by omega))
  · intro q hq
    rw [sortedInsertAt_iff a hswo hs] at hq
    obtain ⟨hq0, hqn, hq1, -⟩ := hq
    by_contra hcon
    have h1 := hq1 u (by omega) (by omega)
    have h2 := hu4' u (by omega) (Nat.le_refl _)
    rw [h1] at h2
    exact absurd h2 (by decide)
  · intro i x hx
    obtain ⟨k, hk, rfl, rfl⟩ := readAt_eq_some.1 hx
    constructor
    · intro h
      by_contra hcon
      have := hu3' k hk (by omega)
      rw [h] at this
      exact absurd this (by decide)
    · intro h
      exact hu4' k hk (by omega)

/-- C2: on a sorted adaptor with a strict weak ordering, `insertPosition(v, InsertFirst)` without
hint is the smallest index at which `v` can be inserted keeping the sequence sorted, and it is
the lower bound (exactly the elements before it are less than `v`);
`insertPosition(v, InsertLast)` is the largest such index, and it is the upper bound (exactly the
elements from it on are greater than `v`). -/
theorem C2_insertPosition_lower_upper (a : adaptor T Compare)
    (hswo : StrictWeakOrdering a.comp) (hs : a.I1) (v : T) :
    (a.SortedInsertAt v (a.insertPosition v InsertMode.InsertFirst noHint) ∧
      (∀ q, a.SortedInsertAt v q → a.insertPosition v InsertMode.InsertFirst noHint ≤ q) ∧
      (∀ i x, a.at_ i = some x →
        (a.comp x v = true ↔ i < a.insertPosition v InsertMode.InsertFirst noHint))) ∧
    (a.SortedInsertAt v (a.insertPosition v InsertMode.InsertLast noHint) ∧
      (∀ q, a.SortedInsertAt v q → q ≤ a.insertPosition v InsertMode.InsertLast noHint) ∧
      (∀ i x, a.at_ i = some x →
        (a.comp v x = true ↔ a.insertPosition v InsertMode.InsertLast noHint ≤ i))) :=
  insertPosition_lower_upper a hswo hs v

/-- Witness for C2 on `[1,1,3,4,5]` with value 1: the lower bound is 0, the upper bound is 2. -/
theorem C2_insertPosition_lower_upper_witness :
    StrictWeakOrdering exampleAdaptor.comp ∧ exampleAdaptor.I1 ∧
      exampleAdaptor.insertPosition 1 InsertMode.InsertFirst noHint = 0 ∧
      exampleAdaptor.insertPosition 1 InsertMode.InsertLast noHint = 2 ∧
      exampleAdaptor.SortedInsertAt 1 0 ∧ exampleAdaptor.SortedInsertAt 1 2 :=
  ⟨default_compare_strictWeakOrdering _, by decide, by decide, by decide,
    (C2_insertPosition_lower_upper exampleAdaptor (default_compare_strictWeakOrdering _)
      (by decide) 1).1.1,
    (C2_insertPosition_lower_upper exampleAdaptor (default_compare_strictWeakOrdering _)
      (by decide) 1).2.1⟩

/-- C3: hint equivalence.  On a sorted adaptor (the empty one included), for every value, both
modes and every integer hint, `insertPosition(v, mode, positionHint)` is the index
`insertPosition(v, mode)` returns without hint. -/
theorem C3_insertPosition_hint_equivalence (a : adaptor T Compare)
    (hswo : StrictWeakOrdering a.comp) (hs : a.I1) (v : T) (mode : InsertMode)
    (positionHint : Int) :
    a.insertPosition v mode positionHint = a.insertPosition v mode noHint :=
  insertPosition_hint_irrelevant a hswo hs v mode positionHint

/-- Witness for C3 on `[1,1,3,4,5]`: the hint 4 does not change the position of 3. -/
theorem C3_insertPosition_hint_equivalence_witness :
    StrictWeakOrdering exampleAdaptor.comp ∧ exampleAdaptor.I1 ∧
      exampleAdaptor.insertPosition 3 InsertMode.InsertFirst 4 =
        exampleAdaptor.insertPosition 3 InsertMode.InsertFirst noHint :=
  ⟨default_compare_strictWeakOrdering _, by decide,
    C3_insertPosition_hint_equivalence exampleAdaptor (default_compare_strictWeakOrdering _)
      (by decide) 3 InsertMode.InsertFirst 4⟩

end sorted_sequence


namespace sorted_sequence

variable {T Compare : Type} [CompareConcept Compare T]

theorem readAt_natCast {X : Type} (l : List X) (k : Nat) : readAt l (k : Int) = l[k]? := by
  unfold readAt
  rw [if_neg (by omega)]
  simp

/-- What `insert` returns and leaves behind. -/
theorem insert_result (a : adaptor T Compare) (v : T) (mode : InsertMode) (hint : Int) :
    0 ≤ a.insertPosition v mode hint ∧ a.insertPosition v mode hint ≤ a.size ∧
    a.insert v mode hint =
      some (a.insertPosition v mode hint,
        { d := a.d,
          c := a.c.take (a.insertPosition v mode hint).toNat ++
            v :: a.c.drop (a.insertPosition v mode hint).toNat }) ∧
    ∀ p a1, a.insert v mode hint = some (p, a1) →
      a1.at_ p = some v ∧ a1.size = a.size + 1 ∧ a1.d = a.d := by
  have hr := insertPosition_range a v mode hint
  have hins : a.insert v mode hint =
      some (a.insertPosition v mode hint,
        { d := a.d,
          c := a.c.take (a.insertPosition v mode hint).toNat ++
            v :: a.c.drop (a.insertPosition v mode hint).toNat }) := by
    unfold adaptor.insert vec_insert
    simp only []
    rw [if_pos hr]
    rfl
  refine ⟨hr.1, hr.2, hins, ?_⟩
  intro p a1 h
  rw [hins] at h
  simp only [Option.some.injEq, Prod.mk.injEq] at h
  obtain ⟨rfl, rfl⟩ := h
  generalize a.insertPosition v mode hint = pos at hr
  obtain ⟨k, rfl⟩ := Int.eq_ofNat_of_zero_le hr.1
  have hk : k ≤ a.c.length := by omega
  refine ⟨?_, ?_, rfl⟩
  · simp only [adaptor.at_, Int.toNat_ofNat]
    rw [readAt_natCast, List.getElem?_append_right (by simp [hk])]
    simp [hk]
  · simp only [adaptor.size, Int.toNat_ofNat, List.length_append, List.length_take,
      List.length_cons, List.length_drop]
    omega

/-- C4: `insert(v, mode, hint)` returns `p = insertPosition(v, mode, hint)`, computed on the
sequence `S` before the call, `p` lies in `[0, size]`, and the sequence afterwards is
`S[0..p) ++ [v] ++ S[p..)`: `at(p) == v`, the other elements keep their order, the size grows by
one and the comparator is untouched.  (Sortedness of `S` is not needed for this.) -/
theorem C4_insert_result (a : adaptor T Compare) (v : T) (mode : InsertMode) (hint : Int) :
    0 ≤ a.insertPosition v mode hint ∧ a.insertPosition v mode hint ≤ a.size ∧
    a.insert v mode hint =
      some (a.insertPosition v mode hint,
        { d := a.d,
          c := a.c.take (a.insertPosition v mode hint).toNat ++
            v :: a.c.drop (a.insertPosition v mode hint).toNat }) ∧
    ∀ p a1, a.insert v mode hint = some (p, a1) →
      a1.at_ p = some v ∧ a1.size = a.size + 1 ∧ a1.d = a.d :=
  insert_result a v mode hint

/-- Witness for C4, the scenario of the specification: on `[1,1,3,4,5]`,
`insert(2, InsertLast)` returns 2 and gives `[1,1,2,3,4,5]`. -/
theorem C4_insert_result_witness :
    exampleAdaptor.c = [1, 1, 3, 4, 5] ∧
      exampleAdaptor.insert 2 InsertMode.InsertLast noHint =
        some (2, { d := {}, c := [1, 1, 2, 3, 4, 5] }) := by
  refine ⟨by decide, ?_⟩
  rw [(C4_insert_result exampleAdaptor 2 InsertMode.InsertLast noHint).2.2.1]
  have h2 : exampleAdaptor.insertPosition 2 InsertMode.InsertLast noHint = 2 := by decide
  rw [h2]
  rfl

end sorted_sequence


namespace sorted_sequence

theorem writeAt_natCast {X : Type} (l : List X) (k : Nat) (x : X) (hk : k < l.length) :
    writeAt l (k : Int) x = some (l.set k x) := by
  unfold writeAt
  rw [if_pos ⟨by omega, by omega⟩]
  simp

/-- A move assignment between two different slots writes the source value to the destination and
leaves the moved-from value in the source. -/
theorem move_assign_natCast {X : Type} [MoveConcept X] (l : List X) (dst src : Nat)
    (hd : dst < l.length) (hs : src < l.length) (hne : dst ≠ src) :
    move_assign l (dst : Int) (src : Int) =
      some ((l.set dst l[src]).set src (MoveConcept.moved_from l[dst] l[src])) := by
  have hne' : ¬ ((dst : Int) = (src : Int)) := by omega
  simp only [move_assign, readAt_natCast, List.getElem?_eq_getElem hs,
    List.getElem?_eq_getElem hd, Option.bind_eq_bind, Option.some_bind, if_neg hne',
    writeAt_natCast l dst _ hd]
  rw [writeAt_natCast _ src _ (by simpa using hs)]

/-- A move assignment of a slot to itself leaves the self-moved value. -/
theorem move_assign_self {X : Type} [MoveConcept X] (l : List X) (src : Nat)
    (hs : src < l.length) :
    move_assign l (src : Int) (src : Int) = some (l.set src (MoveConcept.self_moved l[src])) := by
  simp only [move_assign, readAt_natCast, List.getElem?_eq_getElem hs,
    Option.bind_eq_bind, Option.some_bind, if_true, writeAt_natCast l src _ hs]

/-- Moving a range towards the front, element by element from the front, shifts it; the slots
in front of the destination and behind the source range keep their values. -/
theorem std_move_spec {X : Type} [MoveConcept X] : ∀ (count : Nat) (l : List X)
    (first d_first : Nat), d_first < first → first + count ≤ l.length →
    ∃ l', std_move count l (first : Int) (d_first : Int) = some l' ∧ l'.length = l.length ∧
      ∀ k, (d_first ≤ k ∧ k < d_first + count → l'[k]? = l[k + (first - d_first)]?) ∧
        (k < d_first ∨ first + count ≤ k → l'[k]? = l[k]?) := by
  intro count
  induction count with
  | zero =>
    intro l first d_first _ _
    exact ⟨l, rfl, rfl, fun k => ⟨fun h => by omega, fun _ => rfl⟩⟩
  | succ count ih =>
    intro l first d_first hle hlen
    have hf : first < l.length := by omega
    have hd : d_first < l.length := by omega
    obtain ⟨l', h1, h2, h3⟩ := ih
      ((l.set d_first l[first]).set first (MoveConcept.moved_from l[d_first] l[first]))
      (first + 1) (d_first + 1) (by omega) (by simp; omega)
    refine ⟨l', ?_, by simpa using h2, fun k => ⟨fun hk => ?_, fun hk => ?_⟩⟩
    · simp only [std_move, move_assign_natCast l d_first first hd hf (by omega),
        Option.bind_eq_bind, Option.some_bind]
      exact_mod_cast h1
    · by_cases hk2 : d_first = k
      · subst hk2
        rw [(h3 d_first).2 (Or.inl (by omega)), List.getElem?_set_ne (by omega),
          List.getElem?_set_self (by omega), ← List.getElem?_eq_getElem]
        congr 1; omega
      · rw [(h3 k).1 (by omega), List.getElem?_set_ne (by omega),
          List.getElem?_set_ne (by omega)]
        congr 1; omega
    · rw [(h3 k).2 (by omega), List.getElem?_set_ne (by omega),
        List.getElem?_set_ne (by omega)]

/-- Moving a range onto itself assigns every element of the range to itself. -/
theorem std_move_self_spec {X : Type} [MoveConcept X] : ∀ (count : Nat) (l : List X)
    (first : Nat), first + count ≤ l.length →
    ∃ l', std_move count l (first : Int) (first : Int) = some l' ∧ l'.length = l.length ∧
      ∀ k, l'[k]? =
        if first ≤ k ∧ k < first + count then l[k]?.map MoveConcept.self_moved else l[k]? := by
  intro count
  induction count with
  | zero =>
    intro l first _
    exact ⟨l, rfl, rfl, fun k => by
      by_cases h : first ≤ k ∧ k < first + 0
      · omega
      · rw [if_neg h]⟩
  | succ count ih =>
    intro l first hlen
    have hf : first < l.length := by omega
    obtain ⟨l', h1, h2, h3⟩ := ih (l.set first (MoveConcept.self_moved l[first])) (first + 1)
      (by simp; omega)
    refine ⟨l', ?_, by simpa using h2, fun k => ?_⟩
    · simp only [std_move, move_assign_self l first hf, Option.bind_eq_bind, Option.some_bind]
      exact_mod_cast h1
    · rw [h3]
      by_cases hk : first + 1 ≤ k ∧ k < first + 1 + count
      · have hk' : first ≤ k ∧ k < first + (count + 1) := by omega
        rw [if_pos hk, if_pos hk', List.getElem?_set_ne (by omega)]
      · rw [if_neg hk]
        by_cases hk2 : first = k
        · subst hk2
          have hk' : first ≤ first ∧ first < first + (count + 1) := by omega
          rw [if_pos hk', List.getElem?_set_self (by omega), List.getElem?_eq_getElem hf]
          rfl
        · have hk' : ¬ (first ≤ k ∧ k < first + (count + 1)) := by omega
          rw [if_neg hk', List.getElem?_set_ne hk2]

/-- Moving a range towards the back, element by element from the back, shifts it; the slots
in front of the source range and behind the destination keep their values. -/
theorem std_move_backward_spec {X : Type} [MoveConcept X] : ∀ (count : Nat) (l : List X)
    (last d_last : Nat), count ≤ last → last < d_last → d_last ≤ l.length →
    ∃ l', std_move_backward count l (last : Int) (d_last : Int) = some l' ∧
      l'.length = l.length ∧
      ∀ k, (d_last - count ≤ k ∧ k < d_last → l'[k]? = l[k - (d_last - last)]?) ∧
        (k < last - count ∨ d_last ≤ k → l'[k]? = l[k]?) := by
  intro count
  induction count with
  | zero =>
    intro l last d_last _ _ _
    exact ⟨l, rfl, rfl, fun k => ⟨fun h => by omega, fun _ => rfl⟩⟩
  | succ count ih =>
    intro l last d_last hc hle hlen
    have hf : last - 1 < l.length := by omega
    have hd : d_last - 1 < l.length := by omega
    obtain ⟨l', h1, h2, h3⟩ := ih
      ((l.set (d_last - 1) l[last - 1]).set (last - 1)
        (MoveConcept.moved_from l[d_last - 1] l[last - 1]))
      (last - 1) (d_last - 1) (by omega) (by omega) (by simp; omega)
    have e1 : ((last : Int) - 1) = ((last - 1 : Nat) : Int) := by omega
    have e2 : ((d_last : Int) - 1) = ((d_last - 1 : Nat) : Int) := by omega
    refine ⟨l', ?_, by simpa using h2, fun k => ⟨fun hk => ?_, fun hk => ?_⟩⟩
    · simp only [std_move_backward, e1, e2,
        move_assign_natCast l (d_last - 1) (last - 1) hd hf (by omega),
        Option.bind_eq_bind, Option.some_bind]
      exact h1
    · by_cases hk2 : d_last - 1 = k
      · subst hk2
        rw [(h3 (d_last - 1)).2 (Or.inr (by omega)), List.getElem?_set_ne (by omega),
          List.getElem?_set_self (by omega), ← List.getElem?_eq_getElem]
        congr 1; omega
      · rw [(h3 k).1 (by omega), List.getElem?_set_ne (by omega),
          List.getElem?_set_ne (by omega)]
        congr 1; omega
    · rw [(h3 k).2 (by omega), List.getElem?_set_ne (by omega),
        List.getElem?_set_ne (by omega)]

end sorted_sequence


namespace sorted_sequence

variable {T Compare : Type} [CompareConcept Compare T]

/-- The index at which a value whose insert position in `S` is `pos` sits once the element at
`i` has been taken out of `S`. -/
theorem erase_insert_getElem? {X : Type} (l : List X) (i r : Nat) (v : X) (hi : i < l.length)
    (hr : r ≤ l.length - 1) (k : Nat) :
    ((l.eraseIdx i).take r ++ v :: (l.eraseIdx i).drop r)[k]? =
      if k < r then (if k < i then l[k]? else l[k + 1]?)
      else if k = r then some v
      else (if k - 1 < i then l[k - 1]? else l[k]?) := by
  have hlen : (l.eraseIdx i).length = l.length - 1 := List.length_eraseIdx_of_lt hi
  rw [List.getElem?_append, List.length_take, hlen, Nat.min_eq_left hr]
  by_cases hk : k < r
  · rw [if_pos hk, if_pos hk, List.getElem?_take_of_lt hk, List.getElem?_eraseIdx]
  · rw [if_neg hk, if_neg hk, List.getElem?_cons]
    by_cases hk2 : k = r
    · rw [if_pos (by omega), if_pos hk2]
    · rw [if_neg (by omega), if_neg hk2, List.getElem?_drop, List.getElem?_eraseIdx]
      have e1 : r + (k - r - 1) = k - 1 := by omega
      have e2 : k - 1 + 1 = k := by omega
      rw [e1, e2]

/-- The sequence `change` leaves when its argument is an object outside the container: the old
sequence without element `i`, with the value put in at its insert position. -/
theorem changeFwdAssign_seq [MoveConcept T] (a : adaptor T Compare) (i : Nat)
    (hi : i < a.c.length) (v : T)
    (mode : InsertMode) (hint : Int) (p : Nat)
    (hp : a.insertPosition v mode hint = (p : Int)) :
    a.changeFwdAssign i (const_ref.object v) mode hint =
      some (((if p ≤ i then p else p - 1 : Nat) : Int),
        { d := a.d,
          c := (a.c.eraseIdx i).take (if p ≤ i then p else p - 1) ++
            v :: (a.c.eraseIdx i).drop (if p ≤ i then p else p - 1) }) := by
  have hr := insertPosition_range a v mode hint
  rw [hp] at hr
  have hpn : p ≤ a.c.length := by omega
  unfold adaptor.changeFwdAssign
  rw [if_pos ⟨by omega, by omega⟩]
  simp only [const_ref.read, Option.bind_eq_bind, Option.some_bind, hp]
  by_cases h1 : (p : Int) = i ∨ (p : Int) = i + 1
  · rw [if_pos h1]
    have hri : (if p ≤ i then p else p - 1) = i := by
      rcases h1 with h | h
      · rw [if_pos (by omega)]; omega
      · rw [if_neg (by omega)]; omega
    rw [hri, writeAt_natCast _ _ _ hi]
    simp only [Option.bind_eq_bind, Option.some_bind, pure, Option.some.injEq, Prod.mk.injEq,
      true_and, adaptor.mk.injEq]
    apply List.ext_getElem?
    intro k
    rw [erase_insert_getElem? _ _ _ _ hi (by omega), List.getElem?_set]
    split_ifs <;> first | rfl | (exfalso; omega)
  · rw [if_neg h1]
    by_cases h2 : (p : Int) < i
    · rw [if_pos h2]
      have hri : (if p ≤ i then p else p - 1) = p := by rw [if_pos (by omega)]
      rw [hri]
      have hc : ((i : Int) - p).toNat = i - p := by omega
      have hi1 : ((i : Int) + 1) = ((i + 1 : Nat) : Int) := by omega
      obtain ⟨l1, hm1, hm2, hm3⟩ := std_move_backward_spec (i - p) a.c i (i + 1) (by omega)
        (by omega) (by omega)
      rw [hc, hi1, hm1]
      simp only [Option.bind_eq_bind, Option.some_bind]
      rw [writeAt_natCast _ _ _ (by omega)]
      simp only [Option.some_bind, pure, Option.some.injEq, Prod.mk.injEq,
        true_and, adaptor.mk.injEq]
      apply List.ext_getElem?
      intro k
      rw [erase_insert_getElem? _ _ _ _ hi (by omega), List.getElem?_set]
      by_cases hk1 : p = k
      · subst hk1
        have hpl : p < l1.length := by omega
        simp [hpl]
      · rw [if_neg hk1]
        by_cases hk2 : p < k ∧ k < i + 1
        · rw [(hm3 k).1 (by omega)]
          split_ifs <;> first | rfl | (exfalso; omega) | (congr 1; omega)
        · rw [(hm3 k).2 (by omega)]
          split_ifs <;> first | rfl | (exfalso; omega)
    · rw [if_neg h2]
      have hri : (if p ≤ i then p else p - 1) = p - 1 := by rw [if_neg (by omega)]
      rw [hri]
      have hc : ((p : Int) - (i + 1)).toNat = p - (i + 1) := by omega
      have hi1 : ((i : Int) + 1) = ((i + 1 : Nat) : Int) := by omega
      have hp1 : ((p : Int) - 1) = ((p - 1 : Nat) : Int) := by omega
      obtain ⟨l1, hm1, hm2, hm3⟩ := std_move_spec (p - (i + 1)) a.c (i + 1) i (by omega)
        (by omega)
      rw [hc, hi1, hm1, hp1]
      simp only [Option.bind_eq_bind, Option.some_bind]
      rw [writeAt_natCast _ _ _ (by omega)]
      simp only [Option.some_bind, pure, Option.some.injEq, Prod.mk.injEq,
        true_and, adaptor.mk.injEq]
      apply List.ext_getElem?
      intro k
      rw [erase_insert_getElem? _ _ _ _ hi (by omega), List.getElem?_set]
      by_cases hk1 : p - 1 = k
      · subst hk1
        have hpl : p - 1 < l1.length := by omega
        simp [hpl]
      · rw [if_neg hk1]
        by_cases hk2 : i ≤ k ∧ k < p - 1
        · rw [(hm3 k).1 (by omega)]
          split_ifs <;> first | rfl | (exfalso; omega) | (congr 1; omega)
        · rw [(hm3 k).2 (by omega)]
          split_ifs <;> first | rfl | (exfalso; omega)

end sorted_sequence


namespace sorted_sequence

variable {T Compare : Type} [CompareConcept Compare T]

theorem isPartitionPoint_eraseIdx {X : Type} (goRight : X → Bool) (l : List X) (i p : Nat)
    (hi : i < l.length) (hp : IsPartitionPoint goRight l 0 l.length p) :
    IsPartitionPoint goRight (l.eraseIdx i) 0 (l.eraseIdx i).length
      (if p ≤ i then p else p - 1) := by
  obtain ⟨-, hp2, hp3, hp4⟩ := hp
  have hlen : (l.eraseIdx i).length = l.length - 1 := List.length_eraseIdx_of_lt hi
  refine ⟨Nat.zero_le _, ?_, fun k hk _ hkr => ?_, fun k hk hkr _ => ?_⟩
  · rw [hlen]; split <;> omega
  · show goRight ((l.eraseIdx i)[k]) = true
    by_cases hki : k < i
    · rw [List.getElem_eraseIdx_of_lt _ _ _ _ hki]
      exact hp3 k (by omega) (Nat.zero_le _) (by split at hkr <;> omega)
    · rw [List.getElem_eraseIdx_of_ge _ _ _ _ (by omega)]
      exact hp3 (k + 1) (by omega) (Nat.zero_le _) (by split at hkr <;> omega)
  · show goRight ((l.eraseIdx i)[k]) = false
    by_cases hki : k < i
    · rw [List.getElem_eraseIdx_of_lt _ _ _ _ hki]
      exact hp4 k (by omega) (by split at hkr <;> omega) (by omega)
    · rw [List.getElem_eraseIdx_of_ge _ _ _ _ (by omega)]
      exact hp4 (k + 1) (by omega) (by split at hkr <;> omega) (by omega)

theorem sorted_sublist {X : Type} {comp : X → X → Bool} (hswo : StrictWeakOrdering comp)
    {l1 l2 : List X} (hsub : l1.Sublist l2)
    (hs : List.Chain' (fun prev next => comp next prev = false) l2) :
    List.Chain' (fun prev next => comp next prev = false) l1 := by
  rw [chain_iff_pairwise hswo] at hs ⊢
  exact hs.sublist hsub

/-- The heart of change atomicity: called with an object outside the container, `change`
produces what `removeAt` followed by `insert` produces, position and sequence. -/
theorem change_eq_remove_insert [MoveConcept T] (a : adaptor T Compare)
    (hswo : StrictWeakOrdering a.comp)
    (hs : a.I1) (i : Nat) (hi : i < a.c.length) (v : T) (mode : InsertMode) (hint : Int) :
    ∃ r : Nat, r < a.c.length ∧
      a.change i (const_ref.object v) mode hint =
        some ((r : Int),
          { d := a.d, c := (a.c.eraseIdx i).take r ++ v :: (a.c.eraseIdx i).drop r }) ∧
      a.removeAt i = some { d := a.d, c := a.c.eraseIdx i } ∧
      adaptor.insert { d := a.d, c := a.c.eraseIdx i } v mode noHint =
        some ((r : Int),
          { d := a.d, c := (a.c.eraseIdx i).take r ++ v :: (a.c.eraseIdx i).drop r }) := by
  have hr := insertPosition_range a v mode hint
  obtain ⟨p, hp⟩ := Int.eq_ofNat_of_zero_le hr.1
  have hpn : p ≤ a.c.length := by
    have := hr.2; rw [hp] at this; exact_mod_cast this
  have hlen : (a.c.eraseIdx i).length = a.c.length - 1 := List.length_eraseIdx_of_lt hi
  -- the adaptor after `removeAt(i)`
  have hswo2 : StrictWeakOrdering (adaptor.comp { d := a.d, c := a.c.eraseIdx i }) := hswo
  have hs2 : adaptor.I1 { d := a.d, c := a.c.eraseIdx i } :=
    sorted_sublist hswo (List.eraseIdx_sublist a.c i) hs
  have hpos2 : adaptor.insertPosition { d := a.d, c := a.c.eraseIdx i } v mode noHint =
      ((if p ≤ i then p else p - 1 : Nat) : Int) := by
    cases mode
    · rw [insertPosition_first_eq a hswo hs] at hp
      rw [insertPosition_first_eq _ hswo2 hs2]
      have h1 := lower_bound_isPartitionPoint hswo hs 0 a.c.length
        ⟨Nat.zero_le _, Nat.le_refl _⟩ v
      have h2 := lower_bound_isPartitionPoint hswo2 hs2 0 (a.c.eraseIdx i).length
        ⟨Nat.zero_le _, Nat.le_refl _⟩ v
      have hp' : lower_bound a.comp a.c 0 a.c.length ⟨Nat.zero_le _, Nat.le_refl _⟩ v = p := by
        exact_mod_cast hp
      rw [hp'] at h1
      have h3 := isPartitionPoint_eraseIdx _ a.c i p hi h1
      exact_mod_cast IsPartitionPoint.unique (Nat.le_refl _) h2 h3
    · rw [insertPosition_last_eq a hswo hs] at hp
      rw [insertPosition_last_eq _ hswo2 hs2]
      have h1 := upper_bound_isPartitionPoint hswo hs 0 a.c.length
        ⟨Nat.zero_le _, Nat.le_refl _⟩ v
      have h2 := upper_bound_isPartitionPoint hswo2 hs2 0 (a.c.eraseIdx i).length
        ⟨Nat.zero_le _, Nat.le_refl _⟩ v
      have hp' : upper_bound a.comp a.c 0 a.c.length ⟨Nat.zero_le _, Nat.le_refl _⟩ v = p := by
        exact_mod_cast hp
      rw [hp'] at h1
      have h3 := isPartitionPoint_eraseIdx _ a.c i p hi h1
      exact_mod_cast IsPartitionPoint.unique (Nat.le_refl _) h2 h3
  refine ⟨if p ≤ i then p else p - 1, by split <;> omega, ?_, ?_, ?_⟩
  · exact changeFwdAssign_seq a i hi v mode hint p hp
  · unfold adaptor.removeAt vec_erase
    rw [if_pos ⟨by omega, by omega⟩]
    rfl
  · have h4 := (insert_result { d := a.d, c := a.c.eraseIdx i } v mode noHint).2.2.1
    rw [h4, hpos2]
    rfl

/-- The comparator of the bag of pairs is a strict weak ordering. -/
theorem byFirst_strictWeakOrdering : StrictWeakOrdering examplePairs.comp := by
  have hcomp : examplePairs.comp = fun lhs rhs => decide (lhs.1 < rhs.1) := rfl
  rw [hcomp]
  refine ⟨fun x => ?_, fun x y h => ?_, fun x y z h1 h2 => ?_, fun x y z h1 h2 h3 h4 => ?_⟩
  · simp
  · simp only [decide_eq_true_eq, decide_eq_false_iff_not, not_lt] at h ⊢
    omega
  · simp only [decide_eq_true_eq] at h1 h2 ⊢
    omega
  · simp only [decide_eq_false_iff_not, not_lt] at h1 h2 h3 h4 ⊢
    omega

end sorted_sequence


namespace sorted_sequence

variable {T Compare : Type} [CompareConcept Compare T]

/-- Change atomicity for an argument outside the container.  On a sorted adaptor, for a valid
index `i`, any mode and hint, and a value held by an object that is not an element of the
adaptor, `change(i, v, mode, hint)` succeeds and leaves exactly the adaptor (same comparator,
same sequence element by element) that `removeAt(i)` followed by `insert(v, mode)` leaves,
whatever a move leaves in its source. -/
theorem change_object_atomicity [MoveConcept T] (a : adaptor T Compare)
    (hswo : StrictWeakOrdering a.comp)
    (hs : a.I1) (i : Int) (hi : 0 ≤ i ∧ i < a.size) (v : T) (mode : InsertMode) (hint : Int) :
    ∃ r a1 a2 p a3, a.change i (const_ref.object v) mode hint = some (r, a1) ∧
      a.removeAt i = some a2 ∧ a2.insert v mode noHint = some (p, a3) ∧
      a1 = a3 ∧ a1.c = a3.c := by
  obtain ⟨k, rfl⟩ := Int.eq_ofNat_of_zero_le hi.1
  have hk : k < a.c.length := by
    have := hi.2; unfold adaptor.size at this; omega
  obtain ⟨r, -, h1, h2, h3⟩ := change_eq_remove_insert a hswo hs k hk v mode hint
  exact ⟨_, _, _, _, _, h1, h2, h3, rfl, rfl⟩

/-- The index `change` returns for an argument outside the container.  On a sorted adaptor, for
a valid index `i`, `change(i, v, mode, hint)` returns the new index `r` of the changed element:
`0 <= r < size`, `at(r) == v` afterwards, the size is unchanged, and `r` is the index
`insert(v, mode)` returns when applied after `removeAt(i)`. -/
theorem change_object_returns_new_index [MoveConcept T] (a : adaptor T Compare)
    (hswo : StrictWeakOrdering a.comp) (hs : a.I1) (i : Int) (hi : 0 ≤ i ∧ i < a.size) (v : T)
    (mode : InsertMode) (hint : Int) :
    ∃ r a1, a.change i (const_ref.object v) mode hint = some (r, a1) ∧
      0 ≤ r ∧ r < a1.size ∧ a1.at_ r = some v ∧ a1.size = a.size ∧
      ∃ a2 a3, a.removeAt i = some a2 ∧ a2.insert v mode noHint = some (r, a3) := by
  obtain ⟨k, rfl⟩ := Int.eq_ofNat_of_zero_le hi.1
  have hk : k < a.c.length := by
    have := hi.2; unfold adaptor.size at this; omega
  obtain ⟨r, hr, h1, h2, h3⟩ := change_eq_remove_insert a hswo hs k hk v mode hint
  have hlen : (a.c.eraseIdx k).length = a.c.length - 1 := List.length_eraseIdx_of_lt hk
  have h4 := (insert_result { d := a.d, c := a.c.eraseIdx k } v mode noHint).2.2.2 _ _ h3
  have hsize : adaptor.size
      { d := a.d, c := (a.c.eraseIdx k).take r ++ v :: (a.c.eraseIdx k).drop r } = a.size := by
    rw [h4.2.1]
    simp only [adaptor.size, hlen]
    omega
  refine ⟨_, _, h1, by omega, ?_, h4.1, hsize, _, _, h2, h3⟩
  rw [hsize]
  unfold adaptor.size
  omega

/-- C5 (failing input): `change` is not `removeAt` followed by `insert` when its argument
refers to an element of the adaptor.  On the sorted bag `[(1,0), (1,1)]`, whose comparator looks
at the first component only, `change(1, at(1), InsertFirst)` has the insert position 0, moves
`(1,0)` onto slot 1, which the argument refers to, and then assigns the argument to slot 0: the
sequence is `[(1,0), (1,0)]`, whereas `removeAt(1)` followed by `insert((1,1), InsertFirst)`
gives `[(1,1), (1,0)]`, which `change` also gives when the argument is a copy of `at(1)`.
Likewise on `[(1,0), (1,1), (1,0)]`, `change(2, at(1), InsertFirst)` gives
`[(1,0), (1,0), (1,1)]` and not `[(1,1), (1,0), (1,1)]`. -/
theorem C5_change_aliased_argument :
    StrictWeakOrdering examplePairs.comp ∧ examplePairs.I1 ∧
      examplePairs.c = [(1, 0), (1, 1)] ∧ examplePairs.at_ 1 = some (1, 1) ∧
      (examplePairs.change 1 (const_ref.element 1) InsertMode.InsertFirst noHint).map
          (fun r => r.2.c) = some [(1, 0), (1, 0)] ∧
      ((examplePairs.removeAt 1).bind
          (fun a2 => a2.insert (1, 1) InsertMode.InsertFirst noHint)).map
          (fun r => r.2.c) = some [(1, 1), (1, 0)] ∧
      (examplePairs.change 1 (const_ref.object (1, 1)) InsertMode.InsertFirst noHint).map
          (fun r => r.2.c) = some [(1, 1), (1, 0)] ∧
      exampleTriple.I1 ∧ exampleTriple.c = [(1, 0), (1, 1), (1, 0)] ∧
      (exampleTriple.change 2 (const_ref.element 1) InsertMode.InsertFirst noHint).map
          (fun r => r.2.c) = some [(1, 0), (1, 0), (1, 1)] ∧
      ((exampleTriple.removeAt 2).bind
          (fun a2 => a2.insert (1, 1) InsertMode.InsertFirst noHint)).map
          (fun r => r.2.c) = some [(1, 1), (1, 0), (1, 1)] :=
  ⟨byFirst_strictWeakOrdering, by decide, by decide, by decide, by decide, by decide,
    by decide, by decide, by decide, by decide, by decide⟩

/-- C6 (failing input): the index `change` returns does not hold the new value when the
argument refers to an element of the adaptor.  On the sorted bag `[(1,0), (1,1)]`, whose
comparator looks at the first component only, `change(1, at(1), InsertFirst)` returns 0, the
index `insert((1,1), InsertFirst)` returns after `removeAt(1)`, and the size stays 2, but
afterwards `at(0)` is `(1,0)`, not the value `(1,1)` the argument had when `change` was called,
and no element of the adaptor is `(1,1)`. -/
theorem C6_change_aliased_index_holds_other_value :
    StrictWeakOrdering examplePairs.comp ∧ examplePairs.I1 ∧
      examplePairs.size = 2 ∧ examplePairs.at_ 1 = some (1, 1) ∧
      (examplePairs.change 1 (const_ref.element 1) InsertMode.InsertFirst noHint).map
          (fun r => (r.1, r.2.size, r.2.at_ r.1, r.2.c)) =
        some (0, 2, some (1, 0), [(1, 0), (1, 0)]) ∧
      ((examplePairs.removeAt 1).bind
          (fun a2 => a2.insert (1, 1) InsertMode.InsertFirst noHint)).map
          (fun r => (r.1, r.2.at_ r.1)) = some (0, some (1, 1)) :=
  ⟨byFirst_strictWeakOrdering, by decide, by decide, by decide, by decide, by decide⟩

end sorted_sequence


namespace sorted_sequence

/-! ## Stable sort and merge -/

theorem stable_insert_perm {X : Type} (comp : X → X → Bool) (x : X) (l : List X) :
    (stable_insert comp x l).Perm (x :: l) := by
  induction l with
  | nil => exact List.Perm.refl _
  | cons y l ih =>
    simp only [stable_insert]
    split
    · exact ((List.Perm.cons y ih).trans (List.Perm.swap x y l))
    · exact List.Perm.refl _

theorem stable_sort_perm {X : Type} (comp : X → X → Bool) (l : List X) :
    (stable_sort comp l).Perm l := by
  induction l with
  | nil => exact List.Perm.refl _
  | cons x l ih =>
    simp only [stable_sort]
    exact (stable_insert_perm comp x _).trans (List.Perm.cons x ih)

theorem stable_insert_pairwise {X : Type} {comp : X → X → Bool}
    (hswo : StrictWeakOrdering comp) (x : X) (l : List X)
    (hl : List.Pairwise (fun prev next => comp next prev = false) l) :
    List.Pairwise (fun prev next => comp next prev = false) (stable_insert comp x l) := by
  induction l with
  | nil => simp [stable_insert]
  | cons y l ih =>
    rw [List.pairwise_cons] at hl
    simp only [stable_insert]
    split
    · rename_i hyx
      rw [List.pairwise_cons]
      refine ⟨fun z hz => ?_, ih hl.2⟩
      rcases List.mem_cons.1 ((stable_insert_perm comp x l).subset hz) with rfl | hz
      · exact hswo.asymm _ _ hyx
      · exact hl.1 z hz
    · rename_i hyx
      have hyx' : comp y x = false := by simpa using hyx
      rw [List.pairwise_cons, List.pairwise_cons]
      refine ⟨fun z hz => ?_, hl.1, hl.2⟩
      rcases List.mem_cons.1 hz with rfl | hz
      · exact hyx'
      · exact hswo.neg_trans (hl.1 z hz) hyx'

theorem stable_sort_sorted {X : Type} {comp : X → X → Bool} (hswo : StrictWeakOrdering comp)
    (l : List X) :
    List.Chain' (fun prev next => comp next prev = false) (stable_sort comp l) := by
  rw [chain_iff_pairwise hswo]
  induction l with
  | nil => simp [stable_sort]
  | cons x l ih =>
    simp only [stable_sort]
    exact stable_insert_pairwise hswo x _ ih

/-- Sorting is natural in the element type: sorting indices by what they point to and sorting
the values themselves go through the same steps. -/
theorem stable_insert_forall₂ {X Y : Type} (R : X → Y → Prop) (f : X → X → Bool)
    (g : Y → Y → Bool) (hfg : ∀ x1 y1 x2 y2, R x1 y1 → R x2 y2 → f x1 x2 = g y1 y2)
    (x : X) (y : Y) (hxy : R x y) (l1 : List X) (l2 : List Y) (h : List.Forall₂ R l1 l2) :
    List.Forall₂ R (stable_insert f x l1) (stable_insert g y l2) := by
  induction h with
  | nil => exact List.Forall₂.cons hxy List.Forall₂.nil
  | cons hab hl ih =>
    simp only [stable_insert]
    rw [hfg _ _ _ _ hab hxy]
    split
    · exact List.Forall₂.cons hab ih
    · exact List.Forall₂.cons hxy (List.Forall₂.cons hab hl)

theorem stable_sort_forall₂ {X Y : Type} (R : X → Y → Prop) (f : X → X → Bool)
    (g : Y → Y → Bool) (hfg : ∀ x1 y1 x2 y2, R x1 y1 → R x2 y2 → f x1 x2 = g y1 y2)
    (l1 : List X) (l2 : List Y) (h : List.Forall₂ R l1 l2) :
    List.Forall₂ R (stable_sort f l1) (stable_sort g l2) := by
  induction h with
  | nil => exact List.Forall₂.nil
  | cons hab _ ih =>
    simp only [stable_sort]
    exact stable_insert_forall₂ R f g hfg _ _ hab _ _ ih

theorem mergeInto_spec {X : Type} {comp : X → X → Bool} (hswo : StrictWeakOrdering comp)
    (x : X) (l1 : List X) (rest : List X → List X)
    (hx : ∀ z ∈ l1, comp z x = false)
    (hrest : ∀ l2, List.Pairwise (fun prev next => comp next prev = false) l2 →
      List.Pairwise (fun prev next => comp next prev = false) (rest l2) ∧
        (rest l2).Perm (l1 ++ l2))
    (l2 : List X) (hl2 : List.Pairwise (fun prev next => comp next prev = false) l2) :
    List.Pairwise (fun prev next => comp next prev = false) (merge.mergeInto comp x rest l2) ∧
      (merge.mergeInto comp x rest l2).Perm (x :: l1 ++ l2) := by
  induction l2 with
  | nil =>
    simp only [merge.mergeInto]
    obtain ⟨h1, h2⟩ := hrest [] List.Pairwise.nil
    refine ⟨List.pairwise_cons.2 ⟨fun z hz => ?_, h1⟩, List.Perm.cons x h2⟩
    have := h2.subset hz
    simp only [List.append_nil] at this
    exact hx z this
  | cons y l2 ih =>
    rw [List.pairwise_cons] at hl2
    simp only [merge.mergeInto]
    split
    · rename_i hyx
      obtain ⟨h1, h2⟩ := ih hl2.2
      refine ⟨List.pairwise_cons.2 ⟨fun z hz => ?_, h1⟩, ?_⟩
      · have hz' := h2.subset hz
        simp only [List.cons_append, List.mem_cons, List.mem_append] at hz'
        rcases hz' with rfl | hz' | hz'
        · exact hswo.asymm _ _ hyx
        · exact hswo.neg_trans (hx z hz') (hswo.asymm _ _ hyx)
        · exact hl2.1 z hz'
      · exact (List.Perm.cons y h2).trans (List.perm_middle.symm)
    · rename_i hyx
      have hyx' : comp y x = false := by simpa using hyx
      obtain ⟨h1, h2⟩ := hrest (y :: l2) (List.pairwise_cons.2 hl2)
      refine ⟨List.pairwise_cons.2 ⟨fun z hz => ?_, h1⟩, List.Perm.cons x h2⟩
      have hz' := h2.subset hz
      simp only [List.mem_cons, List.mem_append] at hz'
      rcases hz' with hz' | rfl | hz'
      · exact hx z hz'
      · exact hyx'
      · exact hswo.neg_trans (hl2.1 z hz') hyx'

theorem merge_spec {X : Type} {comp : X → X → Bool} (hswo : StrictWeakOrdering comp)
    (l1 : List X) (hl1 : List.Pairwise (fun prev next => comp next prev = false) l1) :
    ∀ l2, List.Pairwise (fun prev next => comp next prev = false) l2 →
      List.Pairwise (fun prev next => comp next prev = false) (merge comp l1 l2) ∧
        (merge comp l1 l2).Perm (l1 ++ l2) := by
  induction l1 with
  | nil =>
    intro l2 hl2
    exact ⟨hl2, List.Perm.refl _⟩
  | cons x l1 ih =>
    intro l2 hl2
    rw [List.pairwise_cons] at hl1
    simp only [merge]
    exact mergeInto_spec hswo x l1 (merge comp l1) hl1.1 (ih hl1.2) l2 hl2

theorem merge_sorted {X : Type} {comp : X → X → Bool} (hswo : StrictWeakOrdering comp)
    {l1 l2 : List X} (hl1 : List.Chain' (fun prev next => comp next prev = false) l1)
    (hl2 : List.Chain' (fun prev next => comp next prev = false) l2) :
    List.Chain' (fun prev next => comp next prev = false) (merge comp l1 l2) := by
  rw [chain_iff_pairwise hswo] at hl1 hl2 ⊢
  exact (merge_spec hswo l1 hl1 l2 hl2).1

theorem sort_whole {X : Type} (comp : X → X → Bool) (l : List X) :
    default_sort_algorithm.sort comp l 0 l.length = stable_sort comp l := by
  simp [default_sort_algorithm.sort]

end sorted_sequence


namespace sorted_sequence

/-! ## The in-place permutation -/

theorem unmarked_le_length (rl : List Int) : unmarked rl ≤ rl.length :=
  List.countP_le_length _

theorem unmarked_set (rl : List Int) (j : Nat) (x : Int) (hx : x ≠ -1)
    (hj : rl[j]? = some x) : unmarked (rl.set j (-1)) + 1 = unmarked rl := by
  induction rl generalizing j with
  | nil => simp at hj
  | cons y rl ih =>
    cases j with
    | zero =>
      simp only [List.getElem?_cons_zero, Option.some.injEq] at hj
      subst hj
      simp [unmarked, List.countP_cons, hx]
    | succ j =>
      simp only [List.getElem?_cons_succ] at hj
      have := ih j hj
      simp only [unmarked, List.set_cons_succ, List.countP_cons] at this ⊢
      omega

theorem cycleLoop_spec {T : Type} (σ : Nat → Nat) (c0 : List T) (i : Nat)
    (hσi : ∀ p q, p < c0.length → q < c0.length → σ p = σ q → p = q)
    (hσr : ∀ p, p < c0.length → σ p < c0.length) :
    ∀ (fuel : Nat) (cur : List T) (rl : List Int) (k j : Nat),
      CycleInv σ c0 i cur rl k j → unmarked rl ≤ fuel →
      ∃ cur1 rl1 k1, cycleLoop (i : Int) fuel cur rl (k : Int) (j : Int) =
          some (cur1, rl1, ((k1 : Nat) : Int)) ∧ CycleDone σ c0 i cur1 rl1 k1 := by
  intro fuel
  induction fuel with
  | zero =>
    intro cur rl k j hinv hfuel
    exfalso
    have hj : j < rl.length := by rw [hinv.len_rl]; exact hinv.j_lt
    rcases hinv.entry j hinv.j_lt with h | h
    · exact hinv.j_unmarked h
    · have := unmarked_set rl j _ (by omega) h
      omega
  | succ fuel ih =>
    intro cur rl k j hinv hfuel
    have hjr : j < rl.length := by rw [hinv.len_rl]; exact hinv.j_lt
    have hjc : j < cur.length := by rw [hinv.len_cur]; exact hinv.j_lt
    have hkc : k < cur.length := by rw [hinv.len_cur]; exact hinv.k_lt
    have hj0 : j < c0.length := hinv.j_lt
    -- what the iteration reads
    have hrlj : rl[j]? = some (σ j : Int) := by
      rcases hinv.entry j hinv.j_lt with h | h
      · exact absurd h hinv.j_unmarked
      · exact h
    have hcurj := (hinv.pending j hinv.j_lt hinv.j_unmarked hinv.i_lt_j)
    have hcj : cur[j]? = some c0[j] := by
      rw [hcurj.1, List.getElem?_eq_getElem hj0]
    have hkj : k ≠ j := by
      rcases hinv.k_marked with h | h
      · have := hinv.i_lt_j; omega
      · intro hkj; rw [hkj] at h; exact hinv.j_unmarked h
    have hσjj : σ j ≠ j := by
      intro h
      have := hσi k j hinv.k_lt hinv.j_lt (by rw [hinv.k_j, h])
      exact hkj this
    have hfuel' : unmarked (rl.set j (-1)) ≤ fuel := by
      have := unmarked_set rl j _ (by omega) hrlj
      omega
    have hstep : cycleLoop (i : Int) (fuel + 1) cur rl (k : Int) (j : Int) =
        if (σ j : Int) ≠ (i : Int) then
          cycleLoop (i : Int) fuel (cur.set k c0[j]) (rl.set j (-1)) (j : Int) (σ j : Int)
        else some (cur.set k c0[j], rl.set j (-1), (j : Int)) := by
      simp only [cycleLoop, readAt_natCast, hcj, hrlj, Option.bind_eq_bind, Option.some_bind,
        writeAt_natCast cur k _ hkc, writeAt_natCast rl j _ hjr]
    -- facts about the new state shared by both exits
    have hentry : ∀ p < c0.length, (rl.set j (-1))[p]? = some (-1) ∨
        (rl.set j (-1))[p]? = some (σ p : Int) := by
      intro p hp
      by_cases hpj : j = p
      · subst hpj; left; rw [List.getElem?_set_self hjr]
      · rw [List.getElem?_set_ne hpj]; exact hinv.entry p hp
    have hplaced : ∀ p < c0.length, p ≠ j → ((rl.set j (-1))[p]? = some (-1) ∨ p ≤ i) →
        (cur.set k c0[j])[p]? = c0[σ p]? := by
      intro p hp hpj hm
      rw [List.getElem?_set_ne (Ne.symm hpj)] at hm
      by_cases hpk : k = p
      · subst hpk
        rw [List.getElem?_set_self hkc, hinv.k_j, List.getElem?_eq_getElem hj0]
      · rw [List.getElem?_set_ne hpk]
        exact hinv.placed p hp (Ne.symm hpk) hm
    have hpending : ∀ p < c0.length, (rl.set j (-1))[p]? ≠ some (-1) → i < p →
        (cur.set k c0[j])[p]? = c0[p]? ∧ (rl.set j (-1))[σ p]? ≠ some (-1) ∧ i ≤ σ p := by
      intro p hp hm hip
      have hpj : j ≠ p := by
        intro h; subst h; exact hm (List.getElem?_set_self hjr)
      rw [List.getElem?_set_ne hpj] at hm
      have hpk : k ≠ p := by
        rcases hinv.k_marked with h | h
        · omega
        · intro hkp; rw [hkp] at h; exact hm h
      obtain ⟨h1, h2, h3⟩ := hinv.pending p hp hm hip
      have hσp : j ≠ σ p := by
        intro h
        exact hpk (hσi k p hinv.k_lt hp (by rw [hinv.k_j, h]))
      refine ⟨?_, ?_, h3⟩
      · rw [List.getElem?_set_ne hpk]; exact h1
      · rw [List.getElem?_set_ne hσp]; exact h2
    have hiu : (rl.set j (-1))[i]? ≠ some (-1) := by
      have := hinv.i_lt_j
      rw [List.getElem?_set_ne (by omega)]
      exact hinv.i_unmarked
    rw [hstep]
    by_cases hji : (σ j : Int) ≠ (i : Int)
    · rw [if_pos hji]
      have hji' : σ j ≠ i := by omega
      apply ih _ _ _ _ _ hfuel'
      exact
        { len_cur := by rw [List.length_set]; exact hinv.len_cur
          len_rl := by rw [List.length_set]; exact hinv.len_rl
          k_lt := hinv.j_lt
          j_lt := hσr j hinv.j_lt
          k_j := rfl
          i_lt_j := by have := hcurj.2.2; omega
          k_marked := Or.inr (List.getElem?_set_self hjr)
          j_unmarked := by
            rw [List.getElem?_set_ne (Ne.symm hσjj)]
            exact hcurj.2.1
          i_unmarked := hiu
          entry := hentry
          placed := hplaced
          pending := hpending }
    · rw [if_neg hji]
      have hji' : σ j = i := by omega
      exact ⟨_, _, j, rfl,
        { len_cur := by rw [List.length_set]; exact hinv.len_cur
          len_rl := by rw [List.length_set]; exact hinv.len_rl
          k_lt := hinv.j_lt
          k_i := hji'
          k_marked := List.getElem?_set_self hjr
          i_unmarked := hiu
          entry := hentry
          placed := hplaced
          pending := hpending }⟩

end sorted_sequence


namespace sorted_sequence

theorem permuteLoop_spec {T : Type} (σ : Nat → Nat) (c0 : List T) (cycleFuel : Nat)
    (hσi : ∀ p q, p < c0.length → q < c0.length → σ p = σ q → p = q)
    (hσr : ∀ p, p < c0.length → σ p < c0.length) (hfuel : c0.length ≤ cycleFuel) :
    ∀ (todo i : Nat) (cur : List T) (rl : List Int), i + todo = c0.length →
      PermuteInv σ c0 i cur rl →
      ∃ cur1 rl1, permuteLoop cycleFuel todo (i : Int) cur rl = some (cur1, rl1) ∧
        PermuteInv σ c0 c0.length cur1 rl1 := by
  intro todo
  induction todo with
  | zero =>
    intro i cur rl hi hinv
    have : i = c0.length := by omega
    subst this
    exact ⟨cur, rl, rfl, hinv⟩
  | succ todo ih =>
    intro i cur rl hi hinv
    have hi0 : i < c0.length := by omega
    have hir : i < rl.length := by rw [hinv.len_rl]; exact hi0
    have hic : i < cur.length := by rw [hinv.len_cur]; exact hi0
    have hcast : ((i : Int) + 1) = ((i + 1 : Nat) : Int) := by omega
    rcases hinv.entry i hi0 with hm | hu
    · -- already processed
      have hstep : permuteLoop cycleFuel (todo + 1) (i : Int) cur rl =
          permuteLoop cycleFuel todo ((i + 1 : Nat) : Int) cur rl := by
        simp only [permuteLoop, readAt_natCast, hm, Option.bind_eq_bind, Option.some_bind]
        rw [if_pos (Or.inr (by omega)), hcast]
      rw [hstep]
      apply ih (i + 1) cur rl (by omega)
      exact
        { len_cur := hinv.len_cur
          len_rl := hinv.len_rl
          entry := hinv.entry
          placed := fun p hp h => by
            by_cases hpi : p = i
            · subst hpi; exact hinv.placed p hp (Or.inl hm)
            · exact hinv.placed p hp (h.imp id (fun h => by omega))
          pending := fun p hp h hip => by
            obtain ⟨h1, h2, h3⟩ := hinv.pending p hp h (by omega)
            refine ⟨h1, h2, ?_⟩
            by_contra hcon
            have : σ p = i := by omega
            rw [this] at h2
            exact h2 hm }
    · have hunm : rl[i]? ≠ some (-1) := by
        rw [hu]; intro h; simp only [Option.some.injEq] at h; omega
      obtain ⟨hci, hσm, hσge⟩ := hinv.pending i hi0 hunm (Nat.le_refl _)
      by_cases hfix : σ i = i
      · -- trivial permutation cycle
        have hstep : permuteLoop cycleFuel (todo + 1) (i : Int) cur rl =
            permuteLoop cycleFuel todo ((i + 1 : Nat) : Int) cur rl := by
          simp only [permuteLoop, readAt_natCast, hu, Option.bind_eq_bind, Option.some_bind]
          rw [if_pos (Or.inl (by omega)), hcast]
        rw [hstep]
        apply ih (i + 1) cur rl (by omega)
        exact
          { len_cur := hinv.len_cur
            len_rl := hinv.len_rl
            entry := hinv.entry
            placed := fun p hp h => by
              by_cases hpi : p = i
              · subst hpi; rw [hfix]; exact hci
              · exact hinv.placed p hp (h.imp id (fun h => by omega))
            pending := fun p hp h hip => by
              obtain ⟨h1, h2, h3⟩ := hinv.pending p hp h (by omega)
              refine ⟨h1, h2, ?_⟩
              by_contra hcon
              have h4 : σ p = σ i := by omega
              have := hσi p i hp hi0 h4
              omega }
      · -- a proper cycle
        have hcyc : CycleInv σ c0 i cur rl i (σ i) :=
          { len_cur := hinv.len_cur
            len_rl := hinv.len_rl
            k_lt := hi0
            j_lt := hσr i hi0
            k_j := rfl
            i_lt_j := by omega
            k_marked := Or.inl rfl
            j_unmarked := hσm
            i_unmarked := hunm
            entry := hinv.entry
            placed := fun p hp hpi h => hinv.placed p hp (h.imp id (fun h => by omega))
            pending := fun p hp h hip => hinv.pending p hp h (by omega) }
        obtain ⟨cur1, rl1, k1, hloop, hdone⟩ := cycleLoop_spec σ c0 i hσi hσr cycleFuel cur rl
          i (σ i) hcyc (by
            have := unmarked_le_length rl
            rw [hinv.len_rl] at this
            omega)
        have hk1c : k1 < cur1.length := by rw [hdone.len_cur]; exact hdone.k_lt
        have hstep : permuteLoop cycleFuel (todo + 1) (i : Int) cur rl =
            permuteLoop cycleFuel todo ((i + 1 : Nat) : Int) (cur1.set k1 c0[i]) rl1 := by
          simp only [permuteLoop, readAt_natCast, hu, Option.bind_eq_bind, Option.some_bind]
          rw [if_neg (by omega), hci, List.getElem?_eq_getElem hi0]
          simp only [Option.some_bind, hloop, writeAt_natCast cur1 k1 _ hk1c, hcast]
        rw [hstep]
        apply ih (i + 1) _ rl1 (by omega)
        exact
          { len_cur := by rw [List.length_set]; exact hdone.len_cur
            len_rl := hdone.len_rl
            entry := hdone.entry
            placed := fun p hp h => by
              by_cases hpk : k1 = p
              · subst hpk
                rw [List.getElem?_set_self hk1c, hdone.k_i, List.getElem?_eq_getElem hi0]
              · rw [List.getElem?_set_ne hpk]
                exact hdone.placed p hp (Ne.symm hpk) (h.imp id (fun h => by omega))
            pending := fun p hp h hip => by
              have hpk : k1 ≠ p := by
                intro hkp; subst hkp; exact h hdone.k_marked
              obtain ⟨h1, h2, h3⟩ := hdone.pending p hp h (by omega)
              refine ⟨?_, h2, ?_⟩
              · rw [List.getElem?_set_ne hpk]; exact h1
              · by_contra hcon
                have h4 : σ k1 = σ p := by rw [hdone.k_i]; omega
                exact hpk (hσi k1 p hdone.k_lt hp h4) }

end sorted_sequence


namespace sorted_sequence

theorem mem_iota {n : Nat} {x : Int} : x ∈ iota n ↔ ∃ q, q < n ∧ x = (q : Int) := by
  unfold iota
  rw [List.mem_map]
  constructor
  · rintro ⟨q, hq, rfl⟩
    exact ⟨q, List.mem_range.1 hq, rfl⟩
  · rintro ⟨q, hq, rfl⟩
    exact ⟨q, List.mem_range.2 hq, rfl⟩

theorem nodup_iota (n : Nat) : (iota n).Nodup :=
  List.Nodup.map (fun _ _ h => Int.ofNat.inj h) (List.nodup_range n)

theorem length_iota (n : Nat) : (iota n).length = n := by
  simp [iota]

/-- What it means for the sorted index list to be a permutation of `0, ..., n-1`. -/
theorem perm_iota_facts {rl0 : List Int} {n : Nat} (h : rl0.Perm (iota n)) :
    rl0.length = n ∧ (∀ p, p < n → ∃ q, q < n ∧ rl0[p]? = some (q : Int)) ∧
      (∀ (p q : Nat) (x : Int), rl0[p]? = some x → rl0[q]? = some x → p = q) ∧
      (∀ k, k < n → ∃ p, p < n ∧ rl0[p]? = some (k : Int)) := by
  have hlen : rl0.length = n := by rw [h.length_eq, length_iota]
  have hnd : rl0.Nodup := (h.nodup_iff).2 (nodup_iota n)
  refine ⟨hlen, fun p hp => ?_, fun p q x hp hq => ?_, fun k hk => ?_⟩
  · have hp' : p < rl0.length := by omega
    have hmem : rl0[p] ∈ iota n := (h.mem_iff).1 (List.getElem_mem hp')
    obtain ⟨q, hq, hq2⟩ := mem_iota.1 hmem
    exact ⟨q, hq, by rw [List.getElem?_eq_getElem hp', hq2]⟩
  · obtain ⟨hp1, hp2⟩ := List.getElem?_eq_some.1 hp
    obtain ⟨hq1, hq2⟩ := List.getElem?_eq_some.1 hq
    exact (hnd.getElem_inj_iff).1 (hp2.trans hq2.symm)
  · have hmem : (k : Int) ∈ rl0 := (h.mem_iff).2 (mem_iota.2 ⟨k, hk, rfl⟩)
    obtain ⟨p, hp⟩ := List.mem_iff_getElem?.1 hmem
    obtain ⟨hp1, -⟩ := List.getElem?_eq_some.1 hp
    exact ⟨p, by omega, hp⟩

/-- The cycle-following loop applies the permutation held by the reorder list: when position `p`
of `target` is the element of `l` at index `reorderList[p]`, the loop turns `l` into
`target`, and any fuel of at least `size` is enough for every cycle. -/
theorem permuteLoop_applies {T : Type} (l : List T) (rl0 : List Int) (target : List T)
    (hperm : rl0.Perm (iota l.length))
    (hrel : List.Forall₂ (fun idx x => readAt l idx = some x) rl0 target) (fuel : Nat)
    (hfuel : l.length ≤ fuel) :
    ∃ rl1, permuteLoop fuel l.length 0 l rl0 = some (target, rl1) := by
  obtain ⟨hlen, hrange, hinj, -⟩ := perm_iota_facts hperm
  have hσ : ∀ p, p < l.length → ∃ q, q < l.length ∧ rl0[p]? = some (q : Int) ∧
      (rl0[p]?.getD 0).toNat = q := by
    intro p hp
    obtain ⟨q, hq, hq2⟩ := hrange p hp
    exact ⟨q, hq, hq2, by rw [hq2]; simp⟩
  have hinit : PermuteInv (fun p => (rl0[p]?.getD 0).toNat) l 0 l rl0 :=
    { len_cur := rfl
      len_rl := hlen
      entry := fun p hp => by
        obtain ⟨q, -, hq2, hq3⟩ := hσ p hp
        right; rw [hq3]; exact hq2
      placed := fun p hp h => by
        obtain ⟨q, -, hq2, -⟩ := hσ p hp
        rcases h with h | h
        · rw [hq2] at h; simp only [Option.some.injEq] at h; omega
        · omega
      pending := fun p hp _ _ => by
        obtain ⟨q, hq, -, hq3⟩ := hσ p hp
        obtain ⟨q', -, hq2', -⟩ := hσ q hq
        refine ⟨rfl, ?_, Nat.zero_le _⟩
        show rl0[(rl0[p]?.getD 0).toNat]? ≠ some (-1)
        rw [hq3, hq2']
        intro h; simp only [Option.some.injEq] at h; omega }
  obtain ⟨cur1, rl1, hloop, hfin⟩ := permuteLoop_spec (fun p => (rl0[p]?.getD 0).toNat) l fuel
    (fun p q hp hq h => by
      obtain ⟨a, -, ha2, ha3⟩ := hσ p hp
      obtain ⟨b, -, hb2, hb3⟩ := hσ q hq
      simp only [ha3, hb3] at h
      subst h
      exact hinj p q _ ha2 hb2)
    (fun p hp => by
      obtain ⟨q, hq, -, hq3⟩ := hσ p hp
      show (rl0[p]?.getD 0).toNat < l.length
      rw [hq3]; exact hq)
    hfuel l.length 0 l rl0 (by omega) hinit
  refine ⟨rl1, ?_⟩
  have hcur : cur1 = target := by
    have htl : rl0.length = target.length := hrel.length_eq
    apply List.ext_getElem?
    intro p
    by_cases hp : p < l.length
    · rw [hfin.placed p hp (Or.inr hp)]
      obtain ⟨q, hq, hq2, hq3⟩ := hσ p hp
      have hr := hrel.get (by omega : p < rl0.length) (by omega : p < target.length)
      simp only [List.get_eq_getElem] at hr
      have hrl : rl0[p] = (q : Int) := by
        have := List.getElem?_eq_getElem (by omega : p < rl0.length)
        rw [hq2] at this
        exact (Option.some.inj this).symm
      rw [hrl, readAt_natCast] at hr
      show l[(rl0[p]?.getD 0).toNat]? = target[p]?
      rw [hq3, hr, List.getElem?_eq_getElem (by omega : p < target.length)]
    · rw [List.getElem?_eq_none (by rw [hfin.len_cur]; omega),
        List.getElem?_eq_none (by omega)]
  rw [← hcur]
  exact_mod_cast hloop

end sorted_sequence


namespace sorted_sequence

/-! ## The reorder map -/

theorem entries_find_modify (es : List (Int × Int)) (k v : Int) :
    ∀ it, es.findIdx (fun entry => entry.1 == k) = it → it < es.length →
      ∀ k1, ((es.modify (fun entry => value_ref_assign entry v) it).find?
          (fun entry => entry.1 == k1)).map Prod.snd =
        if k1 = k then some v else (es.find? (fun entry => entry.1 == k1)).map Prod.snd := by
  induction es with
  | nil => intro it _ h; simp at h
  | cons e es ih =>
    intro it hit hlt k1
    rw [List.findIdx_cons] at hit
    by_cases hek : e.1 = k
    · have : (e.1 == k) = true := by simpa using hek
      rw [this] at hit
      simp only [cond_true] at hit
      subst hit
      simp only [List.modify_zero_cons, value_ref_assign, List.find?_cons]
      by_cases hk1 : k1 = k
      · subst hk1
        simp [hek]
      · have : (e.1 == k1) = false := by
          rw [hek]; simpa using Ne.symm hk1
        simp [this, hk1]
    · have : (e.1 == k) = false := by simpa using hek
      rw [this] at hit
      simp only [cond_false] at hit
      subst hit
      simp only [List.modify_succ_cons, List.find?_cons]
      by_cases hk1 : e.1 = k1
      · have h1 : (e.1 == k1) = true := by simpa using hk1
        have h2 : k1 ≠ k := by rw [← hk1]; exact hek
        simp [h1, h2]
      · have h1 : (e.1 == k1) = false := by simpa using hk1
        simp only [h1]
        exact ih _ rfl (by simpa using hlt) k1

theorem entries_modify_keys (es : List (Int × Int)) (v : Int) (it : Nat) :
    (es.modify (fun entry => value_ref_assign entry v) it).map Prod.fst = es.map Prod.fst := by
  induction es generalizing it with
  | nil => simp
  | cons e es ih =>
    cases it with
    | zero => simp [value_ref_assign]
    | succ it => simp [ih]

theorem find_eq_none (m : ReorderMap) (k : Int) : m.find k = none ↔ k ∉ m.keys := by
  unfold ReorderMap.find ReorderMap.keys
  simp only []
  constructor
  · intro h hmem
    split at h
    · exact absurd h (by simp)
    · rename_i hlt
      apply hlt
      apply List.findIdx_lt_length_of_exists
      obtain ⟨e, he, hek⟩ := List.mem_map.1 hmem
      exact ⟨e, he, by simpa using hek⟩
  · intro h
    rw [if_neg]
    intro hlt
    apply h
    have := List.findIdx_getElem (w := hlt)
    simp only [beq_iff_eq] at this
    rw [← this]
    exact List.mem_map.2 ⟨_, List.getElem_mem hlt, rfl⟩

theorem find_eq_some (m : ReorderMap) (k : Int) (it : Nat) (h : m.find k = some it) (v : Int) :
    (m.assign it v).kind = m.kind ∧ (m.assign it v).keys = m.keys ∧
      ∀ k1, (m.assign it v).lookup k1 = if k1 = k then some v else m.lookup k1 := by
  unfold ReorderMap.find at h
  simp only [] at h
  split at h
  · rename_i hlt
    simp only [Option.some.injEq] at h
    refine ⟨rfl, entries_modify_keys _ _ _, fun k1 => ?_⟩
    exact entries_find_modify m.entries k v it h (by rw [← h]; exact hlt) k1
  · exact absurd h (by simp)

theorem lookup_eq_none (m : ReorderMap) (k : Int) : m.lookup k = none ↔ k ∉ m.keys := by
  unfold ReorderMap.lookup ReorderMap.keys
  simp only [Option.map_eq_none', List.find?_eq_none, beq_iff_eq, List.mem_map, not_exists,
    not_and]

/-- The number of map entries whose key still is to come in the reorder list. -/
theorem keys_filter_cons (ks : List Int) (r : Int) (s : List Int) (hr : r ∉ s)
    (hmem : r ∈ ks) :
    (ks.filter (fun k => decide (k ∈ s))).length + 1 ≤
      (ks.filter (fun k => decide (k ∈ r :: s))).length := by
  induction ks with
  | nil => simp at hmem
  | cons k ks ih =>
    simp only [List.filter_cons]
    by_cases hkr : k = r
    · subst hkr
      have h1 : decide (k ∈ s) = false := by simpa using hr
      have h2 : decide (k ∈ k :: s) = true := by simp
      rw [h1, h2]
      simp only [Bool.false_eq_true, if_false, if_true, List.length_cons]
      have : (ks.filter (fun k => decide (k ∈ s))).length ≤
          (ks.filter (fun x => decide (x ∈ k :: s))).length := by
        apply List.Sublist.length_le
        apply List.monotone_filter_right
        intro x hx
        simp only [decide_eq_true_eq] at hx ⊢
        exact List.mem_cons_of_mem _ hx
      omega
    · have hmem' : r ∈ ks := by
        rcases List.mem_cons.1 hmem with h | h
        · exact absurd h.symm hkr
        · exact h
      have := ih hmem'
      by_cases hks : k ∈ s
      · have h1 : decide (k ∈ s) = true := by simpa using hks
        have h2 : decide (k ∈ r :: s) = true := by simp [hks]
        rw [h1, h2]
        simp only [if_true, List.length_cons]
        omega
      · have h1 : decide (k ∈ s) = false := by simpa using hks
        have h2 : decide (k ∈ r :: s) = false := by simp [hks, hkr]
        rw [h1, h2]
        simp only [Bool.false_eq_true, if_false]
        omega

theorem keys_filter_cons_not_mem (ks : List Int) (r : Int) (s : List Int) (hmem : r ∉ ks) :
    ks.filter (fun k => decide (k ∈ r :: s)) = ks.filter (fun k => decide (k ∈ s)) := by
  apply List.filter_congr
  intro k hk
  have : k ≠ r := fun h => hmem (h ▸ hk)
  simp [this]

/-- The loop that fills the map: every key of the map that occurs in the reorder list from
position `i` on receives the position at which it occurs; nothing else changes. -/
theorem fillLoop_spec (rl0 : List Int) (hnd : rl0.Nodup) :
    ∀ (todo i : Nat) (m : ReorderMap) (mapLeft : Int), i + todo = rl0.length →
      (((m.keys.filter (fun k => decide (k ∈ rl0.drop i))).length : Nat) : Int) ≤ mapLeft →
      ∃ m1, fillLoop rl0 todo (i : Int) m mapLeft = some m1 ∧ m1.kind = m.kind ∧
        m1.keys = m.keys ∧
        (∀ (k : Int) (p : Nat), rl0[p]? = some k → i ≤ p → k ∈ m.keys →
          m1.lookup k = some (p : Int)) ∧
        (∀ k, k ∉ rl0.drop i → m1.lookup k = m.lookup k) := by
  intro todo
  induction todo with
  | zero =>
    intro i m mapLeft hi _
    refine ⟨m, rfl, rfl, rfl, fun k p hp hip _ => ?_, fun _ _ => rfl⟩
    obtain ⟨hp1, -⟩ := List.getElem?_eq_some.1 hp
    omega
  | succ todo ih =>
    intro i m mapLeft hi hcount
    have hil : i < rl0.length := by omega
    have hdrop : rl0.drop i = rl0[i] :: rl0.drop (i + 1) := List.drop_eq_getElem_cons hil
    have hnd' : (rl0.drop i).Nodup := hnd.sublist (List.drop_sublist _ _)
    rw [hdrop] at hnd'
    have hri : rl0[i] ∉ rl0.drop (i + 1) := (List.nodup_cons.1 hnd').1
    have hcast : ((i : Int) + 1) = ((i + 1 : Nat) : Int) := by omega
    by_cases hleft : 0 < mapLeft
    · cases hfind : m.find rl0[i] with
      | none =>
        have hnk : rl0[i] ∉ m.keys := (find_eq_none m _).1 hfind
        have hstep : fillLoop rl0 (todo + 1) (i : Int) m mapLeft =
            fillLoop rl0 todo ((i + 1 : Nat) : Int) m mapLeft := by
          simp only [fillLoop, if_pos hleft, readAt_natCast, List.getElem?_eq_getElem hil,
            Option.bind_eq_bind, Option.some_bind, hfind, hcast]
        rw [hdrop, keys_filter_cons_not_mem _ _ _ hnk] at hcount
        obtain ⟨m1, h1, h2, h3, h4, h5⟩ := ih (i + 1) m mapLeft (by omega) hcount
        refine ⟨m1, hstep.trans h1, h2, h3, fun k p hp hip hk => ?_, fun k hk => ?_⟩
        · by_cases hpi : p = i
          · subst hpi
            rw [List.getElem?_eq_getElem hil] at hp
            rw [← Option.some.inj hp] at hk
            exact absurd hk hnk
          · exact h4 k p hp (by omega) hk
        · apply h5
          rw [hdrop] at hk
          exact fun h => hk (List.mem_cons_of_mem _ h)
      | some it =>
        have hmem : rl0[i] ∈ m.keys := by
          by_contra hcon
          rw [(find_eq_none m _).2 hcon] at hfind
          exact absurd hfind (by simp)
        obtain ⟨ha1, ha2, ha3⟩ := find_eq_some m _ it hfind (i : Int)
        have hstep : fillLoop rl0 (todo + 1) (i : Int) m mapLeft =
            fillLoop rl0 todo ((i + 1 : Nat) : Int) (m.assign it (i : Int)) (mapLeft - 1) := by
          simp only [fillLoop, if_pos hleft, readAt_natCast, List.getElem?_eq_getElem hil,
            Option.bind_eq_bind, Option.some_bind, hfind, hcast]
        have hcount' : ((((m.assign it (i : Int)).keys.filter
            (fun k => decide (k ∈ rl0.drop (i + 1)))).length : Nat) : Int) ≤ mapLeft - 1 := by
          rw [ha2]
          rw [hdrop] at hcount
          have := keys_filter_cons m.keys rl0[i] (rl0.drop (i + 1)) hri hmem
          omega
        obtain ⟨m1, h1, h2, h3, h4, h5⟩ := ih (i + 1) (m.assign it (i : Int)) (mapLeft - 1)
          (by omega) hcount'
        refine ⟨m1, hstep.trans h1, h2.trans ha1, h3.trans ha2, fun k p hp hip hk => ?_,
          fun k hk => ?_⟩
        · by_cases hpi : p = i
          · subst hpi
            rw [List.getElem?_eq_getElem hil] at hp
            have hk' : k = rl0[p] := (Option.some.inj hp).symm
            subst hk'
            rw [h5 _ hri, ha3, if_pos rfl]
          · exact h4 k p hp (by omega) (by rw [ha2]; exact hk)
        · rw [hdrop] at hk
          rw [h5 k (fun h => hk (List.mem_cons_of_mem _ h)), ha3, if_neg]
          intro h
          exact hk (h ▸ List.mem_cons_self _ _)
    · have hstep : fillLoop rl0 (todo + 1) (i : Int) m mapLeft = some m := by
        simp only [fillLoop, if_neg hleft]
      have hzero : (m.keys.filter (fun k => decide (k ∈ rl0.drop i))).length = 0 := by omega
      have hnone : ∀ k ∈ m.keys, k ∉ rl0.drop i := by
        intro k hk hkd
        have : k ∈ m.keys.filter (fun k => decide (k ∈ rl0.drop i)) :=
          List.mem_filter.2 ⟨hk, by simpa using hkd⟩
        rw [List.length_eq_zero.1 hzero] at this
        exact absurd this (List.not_mem_nil _)
      refine ⟨m, hstep, rfl, rfl, fun k p hp hip hk => ?_, fun _ _ => rfl⟩
      exfalso
      apply hnone k hk
      obtain ⟨hp1, hp2⟩ := List.getElem?_eq_some.1 hp
      rw [← hp2]
      rw [List.mem_iff_getElem]
      refine ⟨p - i, by rw [List.length_drop]; omega, ?_⟩
      rw [List.getElem_drop]
      congr 1
      omega

end sorted_sequence


namespace sorted_sequence

variable {T Compare : Type} [CompareConcept Compare T]

theorem forall₂_iota {X : Type} (l : List X) :
    List.Forall₂ (fun idx x => readAt l idx = some x) (iota l.length) l := by
  rw [List.forall₂_iff_get]
  refine ⟨length_iota _, fun i h1 h2 => ?_⟩
  simp only [iota, List.get_eq_getElem, List.getElem_map, List.getElem_range]
  exact (readAt_natCast l i).trans (List.getElem?_eq_getElem h2)

/-- The sorted index array against the sorted container: position by position, the index points
to the element the plain sort puts there. -/
theorem reorderList_forall₂ (a : adaptor T Compare) :
    List.Forall₂ (fun idx x => readAt a.c idx = some x)
      (stable_sort a.indexCompare (iota a.c.length)) (stable_sort a.comp a.c) := by
  apply stable_sort_forall₂ _ _ _ _ _ _ (forall₂_iota a.c)
  intro x1 y1 x2 y2 h1 h2
  simp only [adaptor.indexCompare, adaptor.at_, h1, h2]

theorem setCompareOperator_changed (a : adaptor T Compare) (newCmp : Compare)
    (hne : CompareConcept.eq a.d newCmp = false) :
    a.setCompareOperator newCmp =
      { d := newCmp, c := stable_sort (CompareConcept.call newCmp) a.c } := by
  unfold adaptor.setCompareOperator adaptor.sort
  rw [if_neg (by simp [hne])]
  simp only [sort_whole]
  rfl

theorem setCompareOperator_unchanged (a : adaptor T Compare) (cmp : Compare)
    (heq : CompareConcept.eq a.d cmp = true) : a.setCompareOperator cmp = a := by
  unfold adaptor.setCompareOperator
  rw [if_pos heq]

/-- What `setCompareOperatorGetReorderMap` does when the comparator changes: the adaptor ends
as after `setCompareOperator`, and the map receives, under every key that is an index of the
container, the position the sorted index array gives it. -/
theorem setCompareOperatorGetReorderMap_changed (a : adaptor T Compare) (newCmp : Compare)
    (m : ReorderMap) (hne : CompareConcept.eq a.d newCmp = false) (fuel : Nat)
    (hfuel : a.size ≤ fuel) :
    ∃ m1, a.setCompareOperatorGetReorderMapFuel fuel newCmp m =
        some (a.setCompareOperator newCmp, m1) ∧
      m1.kind = m.kind ∧ m1.keys = m.keys ∧
      (∀ (k : Int) (p : Nat),
        (stable_sort (adaptor.indexCompare { d := newCmp, c := a.c }) (iota a.c.length))[p]? =
          some k → k ∈ m.keys → m1.lookup k = some (p : Int)) ∧
      (∀ k, k ∉ stable_sort (adaptor.indexCompare { d := newCmp, c := a.c })
          (iota a.c.length) → m1.lookup k = m.lookup k) := by
  have hperm := stable_sort_perm (adaptor.indexCompare { d := newCmp, c := a.c })
    (iota a.c.length)
  have hlen := hperm.length_eq
  rw [length_iota] at hlen
  have hnd := (hperm.nodup_iff).2 (nodup_iota a.c.length)
  obtain ⟨m1, hf1, hf2, hf3, hf4, hf5⟩ := fillLoop_spec _ hnd a.c.length 0 m m.size
    (by omega) (by
      have := List.length_filter_le (fun k => decide (k ∈ List.drop 0
        (stable_sort (adaptor.indexCompare { d := newCmp, c := a.c }) (iota a.c.length))))
        m.keys
      simp only [ReorderMap.keys, List.length_map] at this
      simp only [ReorderMap.size, ReorderMap.keys]
      exact_mod_cast this)
  obtain ⟨rl1, hp1⟩ := permuteLoop_applies a.c _ _ hperm
    (reorderList_forall₂ { d := newCmp, c := a.c }) fuel hfuel
  refine ⟨m1, ?_, hf2, hf3, fun k p hp hk => hf4 k p hp (Nat.zero_le _) hk,
    fun k hk => hf5 k (by simpa using hk)⟩
  rw [setCompareOperator_changed a newCmp hne]
  unfold adaptor.setCompareOperatorGetReorderMapFuel
  rw [if_neg (by simp [hne])]
  simp only [adaptor.size]
  have hsort : default_sort_algorithm.sort (adaptor.indexCompare { d := newCmp, c := a.c })
      (iota a.c.length) 0 a.c.length =
      stable_sort (adaptor.indexCompare { d := newCmp, c := a.c }) (iota a.c.length) := by
    have := sort_whole (adaptor.indexCompare { d := newCmp, c := a.c }) (iota a.c.length)
    rw [length_iota] at this
    exact this
  rw [hsort]
  have hf1' : fillLoop (stable_sort (adaptor.indexCompare { d := newCmp, c := a.c })
      (iota a.c.length)) a.c.length 0 m m.size = some m1 := by exact_mod_cast hf1
  simp only [Option.bind_eq_bind, hf1', Option.some_bind, hp1, pure]
  rfl

end sorted_sequence


namespace sorted_sequence

variable {T Compare : Type} [CompareConcept Compare T]

/-- C7: reorder-map correctness.  When the new comparator is not equal to the current one,
`setCompareOperatorGetReorderMap(newCmp, &map)` succeeds, keeps the keys of the map, and for
every key `k` of the map with `0 <= k < n` the new value `map[k]` lies in `[0, n)` and
`at(map[k])` is the element that was at index `k` before the call; distinct such keys receive
distinct positions. -/
theorem C7_reorder_map_correct (a : adaptor T Compare) (newCmp : Compare) (m : ReorderMap)
    (hne : CompareConcept.eq a.d newCmp = false) :
    ∃ a1 m1, a.setCompareOperatorGetReorderMap newCmp m = some (a1, m1) ∧
      m1.keys = m.keys ∧
      (∀ k ∈ m.keys, 0 ≤ k → k < a.size →
        ∃ v old, m1.lookup k = some v ∧ 0 ≤ v ∧ v < a.size ∧
          a.at_ k = some old ∧ a1.at_ v = some old) ∧
      (∀ k1 ∈ m.keys, ∀ k2 ∈ m.keys, 0 ≤ k1 → k1 < a.size → 0 ≤ k2 → k2 < a.size →
        k1 ≠ k2 → m1.lookup k1 ≠ m1.lookup k2) := by
  obtain ⟨m1, h1, -, h3, h4, -⟩ :=
    setCompareOperatorGetReorderMap_changed a newCmp m hne a.size (Nat.le_refl _)
  have hperm := stable_sort_perm (adaptor.indexCompare { d := newCmp, c := a.c })
    (iota a.c.length)
  obtain ⟨hlen, -, -, hsurj⟩ := perm_iota_facts hperm
  have hrel := reorderList_forall₂ ({ d := newCmp, c := a.c } : adaptor T Compare)
  have hkey : ∀ k ∈ m.keys, 0 ≤ k → k < a.size → ∃ p : Nat, p < a.c.length ∧
      (stable_sort (adaptor.indexCompare { d := newCmp, c := a.c }) (iota a.c.length))[p]? =
        some k ∧ m1.lookup k = some (p : Int) := by
    intro k hk hk0 hkn
    obtain ⟨q, rfl⟩ := Int.eq_ofNat_of_zero_le hk0
    have hq : q < a.c.length := by unfold adaptor.size at hkn; omega
    obtain ⟨p, hp, hp2⟩ := hsurj q hq
    exact ⟨p, hp, hp2, h4 _ p hp2 hk⟩
  refine ⟨_, m1, h1, h3, fun k hk hk0 hkn => ?_, fun k1 hk1 k2 hk2 h10 h1n h20 h2n hne12 => ?_⟩
  · obtain ⟨p, hp, hp2, hp3⟩ := hkey k hk hk0 hkn
    have hp' : p < (stable_sort (adaptor.indexCompare { d := newCmp, c := a.c })
        (iota a.c.length)).length := by omega
    have hpt : p < (stable_sort (adaptor.comp { d := newCmp, c := a.c }) a.c).length := by
      rw [← hrel.length_eq]; exact hp'
    have hr := hrel.get hp' hpt
    simp only [List.get_eq_getElem] at hr
    have hkk : (stable_sort (adaptor.indexCompare { d := newCmp, c := a.c })
        (iota a.c.length))[p] = k := by
      rw [List.getElem?_eq_getElem hp'] at hp2
      exact Option.some.inj hp2
    rw [hkk] at hr
    refine ⟨p, _, hp3, by omega, by unfold adaptor.size; omega, hr, ?_⟩
    rw [setCompareOperator_changed a newCmp hne]
    simp only [adaptor.at_, readAt_natCast]
    exact List.getElem?_eq_getElem hpt
  · obtain ⟨p1, -, hp12, hp13⟩ := hkey k1 hk1 h10 h1n
    obtain ⟨p2, -, hp22, hp23⟩ := hkey k2 hk2 h20 h2n
    rw [hp13, hp23]
    intro h
    have : p1 = p2 := by
      have := Option.some.inj h
      omega
    subst this
    rw [hp12] at hp22
    exact hne12 (Option.some.inj hp22)

/-- Witness for C7: the bag `[1,1,3,4,5]` re-sorted in descending order with rows 0 and 3
tracked. -/
theorem C7_reorder_map_correct_witness :
    CompareConcept.eq exampleBag.d descending = false ∧
      ∃ a1 m1, exampleBag.setCompareOperatorGetReorderMap descending persistentRows =
          some (a1, m1) ∧
        m1.keys = persistentRows.keys ∧
        (∀ k ∈ persistentRows.keys, 0 ≤ k → k < exampleBag.size →
          ∃ v old, m1.lookup k = some v ∧ 0 ≤ v ∧ v < exampleBag.size ∧
            exampleBag.at_ k = some old ∧ a1.at_ v = some old) ∧
        (∀ k1 ∈ persistentRows.keys, ∀ k2 ∈ persistentRows.keys, 0 ≤ k1 →
          k1 < exampleBag.size → 0 ≤ k2 → k2 < exampleBag.size →
          k1 ≠ k2 → m1.lookup k1 ≠ m1.lookup k2) :=
  ⟨by decide, C7_reorder_map_correct exampleBag descending persistentRows (by decide)⟩

/-- C8: for every adaptor, comparator and map, `setCompareOperatorGetReorderMap` (index-array
sort followed by the in-place cycle-following permutation) succeeds and leaves exactly the
adaptor, comparator and element sequence, that `setCompareOperator` leaves.  The cycle loop
terminates within `size` iterations per cycle and never reads an index marked `-1` (either would
make the model return `none`); more fuel does not change the result. -/
theorem C8_reorder_map_refines_setCompareOperator (a : adaptor T Compare) (newCmp : Compare)
    (m : ReorderMap) :
    (∃ m1, a.setCompareOperatorGetReorderMap newCmp m =
      some (a.setCompareOperator newCmp, m1)) ∧
    ∀ fuel, a.size ≤ fuel →
      a.setCompareOperatorGetReorderMapFuel fuel newCmp m =
        a.setCompareOperatorGetReorderMap newCmp m := by
  cases hne : CompareConcept.eq a.d newCmp with
  | true =>
    have hfuel : ∀ fuel, a.setCompareOperatorGetReorderMapFuel fuel newCmp m =
        some (a.setCompareOperator newCmp, m.identityFill) := by
      intro fuel
      rw [setCompareOperator_unchanged a newCmp hne]
      unfold adaptor.setCompareOperatorGetReorderMapFuel
      rw [if_pos hne]
    exact ⟨⟨_, hfuel _⟩, fun fuel _ => by
      unfold adaptor.setCompareOperatorGetReorderMap
      rw [hfuel, hfuel]⟩
  | false =>
    obtain ⟨m1, h1, -, -, h4, h5⟩ :=
      setCompareOperatorGetReorderMap_changed a newCmp m hne a.size (Nat.le_refl _)
    refine ⟨⟨m1, h1⟩, fun fuel hfuel => ?_⟩
    -- the map is filled before the permutation loop runs and does not depend on the fuel
    unfold adaptor.setCompareOperatorGetReorderMap
    obtain ⟨m2, h2, -⟩ := setCompareOperatorGetReorderMap_changed a newCmp m hne fuel hfuel
    rw [h1, h2]
    unfold adaptor.setCompareOperatorGetReorderMapFuel at h1 h2
    rw [if_neg (by simp [hne])] at h1 h2
    simp only [Option.bind_eq_bind, Option.bind_eq_some, pure, Option.some.injEq,
      Prod.mk.injEq, Prod.exists] at h1 h2
    obtain ⟨x1, hx1, _, _, _, _, rfl⟩ := h1
    obtain ⟨x2, hx2, _, _, _, _, rfl⟩ := h2
    rw [hx1] at hx2
    rw [Option.some.inj hx2]

/-- Witness for C8: the bag re-sorted in descending order, with the default fuel and with
more fuel than needed. -/
theorem C8_reorder_map_refines_setCompareOperator_witness :
    (∃ m1, exampleBag.setCompareOperatorGetReorderMap descending persistentRows =
      some (exampleBag.setCompareOperator descending, m1)) ∧
    (exampleBag.size ≤ 9 ∧
      exampleBag.setCompareOperatorGetReorderMapFuel 9 descending persistentRows =
        exampleBag.setCompareOperatorGetReorderMap descending persistentRows) :=
  ⟨(C8_reorder_map_refines_setCompareOperator exampleBag descending persistentRows).1,
    by decide,
    (C8_reorder_map_refines_setCompareOperator exampleBag descending persistentRows).2 9
      (by decide)⟩

/-- C9: a comparator that compares equal to the current one changes nothing: both
`setCompareOperator` and `setCompareOperatorGetReorderMap` leave the element sequence and the
stored comparator exactly as they were. -/
theorem C9_equal_comparator_is_noop (a : adaptor T Compare) (cmp : Compare) (m : ReorderMap)
    (heq : CompareConcept.eq a.d cmp = true) :
    a.setCompareOperator cmp = a ∧
      (a.setCompareOperator cmp).c = a.c ∧ (a.setCompareOperator cmp).d = a.d ∧
      ∃ a1 m1, a.setCompareOperatorGetReorderMap cmp m = some (a1, m1) ∧
        a1 = a ∧ a1.c = a.c ∧ a1.d = a.d := by
  have h := setCompareOperator_unchanged a cmp heq
  refine ⟨h, by rw [h], by rw [h], a, m.identityFill, ?_, rfl, rfl, rfl⟩
  unfold adaptor.setCompareOperatorGetReorderMap adaptor.setCompareOperatorGetReorderMapFuel
  rw [if_pos heq]

/-- Witness for C9: the bag re-sorted with the comparator it already has. -/
theorem C9_equal_comparator_is_noop_witness :
    CompareConcept.eq exampleBag.d ascending = true ∧
      exampleBag.setCompareOperator ascending = exampleBag ∧
      (exampleBag.setCompareOperator ascending).c = [1, 1, 3, 4, 5] :=
  ⟨by decide,
    (C9_equal_comparator_is_noop exampleBag ascending persistentRows (by decide)).1,
    by
      rw [(C9_equal_comparator_is_noop exampleBag ascending persistentRows (by decide)).2.1]
      decide⟩

/-- With the `QHash` wrapper `key(it)` is `it.value()`, so the loop of the unchanged-comparator
branch assigns every value to itself: the map comes back as it went in. -/
theorem identityFill_QHash (m : ReorderMap) (hk : m.kind = MapKind.QHash) :
    m.identityFill = m := by
  cases m with
  | mk kind entries =>
    simp only at hk
    subst hk
    simp only [ReorderMap.identityFill, key, value_ref_assign, Prod.mk.eta, List.map_id']

/-- C10 (failing input): `setCompareOperatorGetReorderMap` called on a bag with the comparator
it already has and the `QHash` map `{0: -1, 3: -1}` returns with `map[0] == -1` and
`map[3] == -1`, not `map[k] == k`. -/
theorem C10_qhash_noop_leaves_minus_one :
    CompareConcept.eq exampleBag.d ascending = true ∧
      (exampleBag.setCompareOperatorGetReorderMap ascending persistentRows).map
        (fun r => (r.2.lookup 0, r.2.lookup 3)) = some (some (-1), some (-1)) := by
  decide

end sorted_sequence


namespace sorted_sequence

variable {T Compare : Type} [CompareConcept Compare T]

/-- The search at the start of `std::remove` stops at the first element `== value` of the
range, or at its end. -/
theorem find_first_spec {X : Type} [DecidableEq X] (value : X) :
    ∀ (count : Nat) (l : List X) (first : Nat), first + count ≤ l.length →
      ∃ j, j ≤ count ∧ find_first l value count (first : Int) = some ((first + j : Nat) : Int) ∧
        ((l.drop first).take j).filter (fun x => decide (x ≠ value)) = (l.drop first).take j ∧
        (j < count → l[first + j]? = some value) := by
  intro count
  induction count with
  | zero =>
    intro l first _
    exact ⟨0, Nat.le_refl _, by simp [find_first], by simp, fun h => by omega⟩
  | succ count ih =>
    intro l first hlen
    have hf : first < l.length := by omega
    have hcast : ((first : Int) + 1) = ((first + 1 : Nat) : Int) := by omega
    by_cases hx : l[first] = value
    · refine ⟨0, by omega, ?_, by simp, fun _ => ?_⟩
      · simp only [find_first, readAt_natCast, List.getElem?_eq_getElem hf, Option.bind_eq_bind,
          Option.some_bind, if_pos hx, Nat.add_zero]
      · rw [Nat.add_zero, List.getElem?_eq_getElem hf, hx]
    · obtain ⟨j, hj1, hj2, hj3, hj4⟩ := ih l (first + 1) (by omega)
      refine ⟨j + 1, by omega, ?_, ?_, fun h => ?_⟩
      · simp only [find_first, readAt_natCast, List.getElem?_eq_getElem hf, Option.bind_eq_bind,
          Option.some_bind, if_neg hx, hcast]
        rw [hj2]
        congr 2
        omega
      · rw [List.drop_eq_getElem_cons hf, List.take_succ_cons,
          List.filter_cons_of_pos (by simpa using hx), hj3]
      · have := hj4 (by omega)
        rw [← this]
        congr 1
        omega

/-- The compaction loop of `std::remove`, for a value outside the sequence: the kept elements of
the range end up, in order, from `result` on; the slots in front of `result` and behind the
range are untouched. -/
theorem std_remove_loop_spec {X : Type} [DecidableEq X] [MoveConcept X] (value : X) :
    ∀ (count : Nat) (l : List X) (i result : Nat), result < i →
      i + count ≤ l.length →
      ∃ l', std_remove_loop (const_ref.object value) count l (i : Int) (result : Int) =
          some (l', ((result + (((l.drop i).take count).filter
            (fun x => decide (x ≠ value))).length : Nat) : Int)) ∧
        l'.length = l.length ∧
        ∀ k, (result ≤ k ∧ k < result + (((l.drop i).take count).filter
              (fun x => decide (x ≠ value))).length →
            l'[k]? = (((l.drop i).take count).filter
              (fun x => decide (x ≠ value)))[k - result]?) ∧
          (k < result ∨ i + count ≤ k → l'[k]? = l[k]?) := by
  intro count
  induction count with
  | zero =>
    intro l i result _ _
    refine ⟨l, by simp [std_remove_loop], rfl, fun k => ⟨fun h => ?_, fun _ => rfl⟩⟩
    simp only [List.take_zero, List.filter_nil, List.length_nil, Nat.add_zero] at h
    omega
  | succ count ih =>
    intro l i result hle hlen
    have hf : i < l.length := by omega
    have hr : result < l.length := by omega
    have hdrop : (l.drop i).take (count + 1) =
        l[i] :: (l.drop (i + 1)).take count := by
      rw [List.drop_eq_getElem_cons hf, List.take_succ_cons]
    have hcast : ((i : Int) + 1) = ((i + 1 : Nat) : Int) := by omega
    have hcastr : ((result : Int) + 1) = ((result + 1 : Nat) : Int) := by omega
    by_cases hx : l[i] = value
    · obtain ⟨l', h1, h2, h3⟩ := ih l (i + 1) result (by omega) (by omega)
      have hfilter : ((l.drop i).take (count + 1)).filter (fun x => decide (x ≠ value)) =
          ((l.drop (i + 1)).take count).filter (fun x => decide (x ≠ value)) := by
        rw [hdrop, List.filter_cons_of_neg (by simpa using hx)]
      rw [hfilter]
      refine ⟨l', ?_, h2, fun k => ⟨(h3 k).1, fun hk => (h3 k).2 (by omega)⟩⟩
      simp only [std_remove_loop, readAt_natCast, List.getElem?_eq_getElem hf,
        const_ref.read, Option.bind_eq_bind, Option.some_bind, if_pos hx, hcast]
      exact h1
    · obtain ⟨l', h1, h2, h3⟩ := ih
        ((l.set result l[i]).set i (MoveConcept.moved_from l[result] l[i]))
        (i + 1) (result + 1) (by omega) (by simp only [List.length_set]; omega)
      rw [List.drop_set_of_lt _ _ (by omega), List.drop_set_of_lt _ _ (by omega)] at h1 h3
      have hfilter : ((l.drop i).take (count + 1)).filter (fun x => decide (x ≠ value)) =
          l[i] :: ((l.drop (i + 1)).take count).filter
            (fun x => decide (x ≠ value)) := by
        rw [hdrop, List.filter_cons_of_pos (by simpa using hx)]
      rw [hfilter]
      generalize ((l.drop (i + 1)).take count).filter (fun x => decide (x ≠ value)) = kept
        at h1 h3 ⊢
      refine ⟨l', ?_, by simpa using h2, fun k => ⟨fun hk => ?_, fun hk => ?_⟩⟩
      · simp only [std_remove_loop, readAt_natCast, List.getElem?_eq_getElem hf,
          const_ref.read, Option.bind_eq_bind, Option.some_bind, if_neg hx,
          move_assign_natCast l result i hr hf (by omega), hcast, hcastr]
        rw [h1]
        simp only [List.length_cons, Option.some.injEq, Prod.mk.injEq, true_and]
        omega
      · rw [List.length_cons] at hk
        by_cases hk3 : k = result
        · subst hk3
          rw [(h3 k).2 (Or.inl (by omega)), List.getElem?_set_ne (by omega),
            List.getElem?_set_self (by omega)]
          simp
        · rw [(h3 k).1 (by omega)]
          have : k - result = (k - (result + 1)) + 1 := by omega
          rw [this, List.getElem?_cons_succ]
      · rw [(h3 k).2 (by omega), List.getElem?_set_ne (by omega),
          List.getElem?_set_ne (by omega)]

/-- The algorithm `std::remove` for a value outside the sequence: the kept elements of the
range end up, in order, at the front of the range; the slots in front of and behind the range
are untouched, and nothing is written when nothing is removed. -/
theorem std_remove_spec {X : Type} [DecidableEq X] [MoveConcept X] (value : X) (count : Nat)
    (l : List X) (first : Nat) (hlen : first + count ≤ l.length) :
    ∃ l', std_remove (const_ref.object value) count l (first : Int) =
        some (l', ((first + (((l.drop first).take count).filter
          (fun x => decide (x ≠ value))).length : Nat) : Int)) ∧
      l'.length = l.length ∧
      (∀ k, (first ≤ k ∧ k < first + (((l.drop first).take count).filter
            (fun x => decide (x ≠ value))).length →
          l'[k]? = (((l.drop first).take count).filter
            (fun x => decide (x ≠ value)))[k - first]?) ∧
        (k < first ∨ first + count ≤ k → l'[k]? = l[k]?)) ∧
      ((((l.drop first).take count).filter (fun x => decide (x ≠ value))).length = count →
        l' = l) := by
  obtain ⟨j, hj1, hj2, hj3, hj4⟩ := find_first_spec value count l first hlen
  unfold std_remove
  simp only [const_ref.read, Option.bind_eq_bind, Option.some_bind, hj2]
  by_cases hjc : j = count
  · subst hjc
    rw [if_pos (by push_cast; ring), hj3]
    have hl : ((l.drop first).take j).length = j := by
      rw [List.length_take, List.length_drop]; omega
    refine ⟨l, by rw [hl], rfl, fun k => ⟨fun hk => ?_, fun _ => rfl⟩, fun _ => rfl⟩
    rw [hl] at hk
    rw [List.getElem?_take_of_lt (by omega), List.getElem?_drop]
    congr 1
    omega
  · have hjlt : j < count := by omega
    rw [if_neg (by omega)]
    have hfj : first + j < l.length := by omega
    have hval : l[first + j] = value := by
      have := hj4 hjlt
      rw [List.getElem?_eq_getElem hfj] at this
      exact Option.some.inj this
    have hsplit : (l.drop first).take count =
        (l.drop first).take j ++ value :: (l.drop (first + j + 1)).take (count - (j + 1)) := by
      have e1 : count = j + (count - j) := by omega
      conv_lhs => rw [e1, List.take_add]
      congr 1
      rw [List.drop_drop]
      have e2 : count - j = (count - (j + 1)) + 1 := by omega
      rw [e2, List.drop_eq_getElem_cons hfj, List.take_succ_cons, hval]
    have hfilter : ((l.drop first).take count).filter (fun x => decide (x ≠ value)) =
        (l.drop first).take j ++
          ((l.drop (first + j + 1)).take (count - (j + 1))).filter
            (fun x => decide (x ≠ value)) := by
      rw [hsplit, List.filter_append, hj3, List.filter_cons_of_neg (by simp)]
    have hl : ((l.drop first).take j).length = j := by
      rw [List.length_take, List.length_drop]; omega
    have hc1 : ((((first + j : Nat) : Int) - (first : Int)).toNat + 1) = j + 1 := by omega
    have hc2 : (((first + j : Nat) : Int) + 1) = ((first + j + 1 : Nat) : Int) := by omega
    obtain ⟨l', h1, h2, h3⟩ := std_remove_loop_spec value (count - (j + 1)) l (first + j + 1)
      (first + j) (by omega) (by omega)
    rw [hc1, hc2, h1, hfilter, List.length_append, hl]
    have hkl := List.length_filter_le (fun x => decide (x ≠ value))
      ((l.drop (first + j + 1)).take (count - (j + 1)))
    have hkl2 : ((l.drop (first + j + 1)).take (count - (j + 1))).length = count - (j + 1) := by
      rw [List.length_take, List.length_drop]; omega
    rw [hkl2] at hkl
    generalize ((l.drop (first + j + 1)).take (count - (j + 1))).filter
      (fun x => decide (x ≠ value)) = kept at h1 h3 hkl ⊢
    refine ⟨l', by simp only [Option.some.injEq, Prod.mk.injEq, true_and]; omega, h2,
      fun k => ⟨fun hk => ?_, fun hk => (h3 k).2 (by omega)⟩, fun h => by omega⟩
    rw [List.getElem?_append, hl]
    by_cases hk1 : k - first < j
    · rw [if_pos hk1, (h3 k).2 (Or.inl (by omega)), List.getElem?_take_of_lt hk1,
        List.getElem?_drop]
      congr 1
      omega
    · rw [if_neg hk1, (h3 k).1 (by omega)]
      congr 1
      omega

theorem lower_le_upper {X : Type} {comp : X → X → Bool} (hswo : StrictWeakOrdering comp)
    {l : List X} (hs : List.Chain' (fun prev next => comp next prev = false) l)
    (first last : Nat) (h : first ≤ last ∧ last ≤ l.length) (value : X) :
    lower_bound comp l first last h value ≤ upper_bound comp l first last h value := by
  obtain ⟨hl1, hl2, hl3, -⟩ := lower_bound_isPartitionPoint hswo hs first last h value
  obtain ⟨hu1, hu2, -, hu4⟩ := upper_bound_isPartitionPoint hswo hs first last h value
  by_contra hcon
  have h1 := hl3 (upper_bound comp l first last h value) (by omega) hu1 (by omega)
  have h2 := hu4 (upper_bound comp l first last h value) (by omega) (Nat.le_refl _) (by omega)
  simp only [Bool.not_eq_false'] at h2
  have := hswo.asymm _ _ h1
  rw [h2] at this
  exact absurd this (by decide)

/-- The sequence `removeAll` leaves when its argument is an object outside the container: the
elements of the comparator equal-range that are `== value` are gone, the other elements of the
range and the elements in front of it stay in place and order, and so do the elements behind
it when an element was removed; when none was removed, every element behind the range has been
move-assigned to itself. -/
theorem removeAll_object_spec [DecidableEq T] [MoveConcept T] (a : adaptor T Compare)
    (hswo : StrictWeakOrdering a.comp) (hs : a.I1) (value : T) :
    a.removeAll (const_ref.object value) =
      some ((((((a.c.take (a.equal_range 0 (Nat.zero_le _) value).2).drop
            (a.equal_range 0 (Nat.zero_le _) value).1).filter
              (fun x => decide (x = value))).length : Nat) : Int),
        { d := a.d,
          c := a.c.take (a.equal_range 0 (Nat.zero_le _) value).1 ++
            ((a.c.take (a.equal_range 0 (Nat.zero_le _) value).2).drop
              (a.equal_range 0 (Nat.zero_le _) value).1).filter
                (fun x => decide (x ≠ value)) ++
            if (((a.c.take (a.equal_range 0 (Nat.zero_le _) value).2).drop
                (a.equal_range 0 (Nat.zero_le _) value).1).filter
                  (fun x => decide (x = value))).length = 0 then
              (a.c.drop (a.equal_range 0 (Nat.zero_le _) value).2).map MoveConcept.self_moved
            else a.c.drop (a.equal_range 0 (Nat.zero_le _) value).2 }) := by
  have h12 : (a.equal_range 0 (Nat.zero_le _) value).1 ≤
      (a.equal_range 0 (Nat.zero_le _) value).2 :=
    lower_le_upper hswo hs 0 a.c.length ⟨Nat.zero_le _, Nat.le_refl _⟩ value
  have h2n : (a.equal_range 0 (Nat.zero_le _) value).2 ≤ a.c.length :=
    (upper_bound_isPartitionPoint hswo hs 0 a.c.length ⟨Nat.zero_le _, Nat.le_refl _⟩
      value).2.1
  unfold adaptor.removeAll
  simp only [const_ref.read, Option.bind_eq_bind, Option.some_bind]
  generalize (a.equal_range 0 (Nat.zero_le _) value).1 = r1 at h12 ⊢
  generalize (a.equal_range 0 (Nat.zero_le _) value).2 = r2 at h12 h2n ⊢
  have hseg : (a.c.drop r1).take (r2 - r1) = (a.c.take r2).drop r1 := by
    rw [List.take_drop]
    congr 2
    omega
  obtain ⟨c1, hr1, hr2, hr3, hr4⟩ := std_remove_spec value (r2 - r1) a.c r1 (by omega)
  rw [hseg] at hr1 hr3 hr4
  have hkl : (((a.c.take r2).drop r1).filter (fun x => decide (x ≠ value))).length ≤
      r2 - r1 := by
    have := List.length_filter_le (fun x => decide (x ≠ value)) ((a.c.take r2).drop r1)
    simp only [List.length_drop, List.length_take] at this
    omega
  have hcount : (((a.c.take r2).drop r1).filter (fun x => decide (x = value))).length +
      (((a.c.take r2).drop r1).filter (fun x => decide (x ≠ value))).length = r2 - r1 := by
    have h1 := @List.length_eq_length_filter_add _ ((a.c.take r2).drop r1)
      (fun x => decide (x = value))
    have h2 : ((a.c.take r2).drop r1).filter (fun x => !decide (x = value)) =
        ((a.c.take r2).drop r1).filter (fun x => decide (x ≠ value)) := by
      apply List.filter_congr
      intro x _
      simp
    rw [h2] at h1
    simp only [List.length_drop, List.length_take] at h1
    omega
  generalize ((a.c.take r2).drop r1).filter (fun x => decide (x ≠ value)) = kept
    at hr1 hr3 hr4 hkl hcount ⊢
  generalize (((a.c.take r2).drop r1).filter (fun x => decide (x = value))).length = gone
    at hcount ⊢
  simp only [hr1, Option.some_bind]
  by_cases hg : gone = 0
  · -- nothing is removed: the tail is moved onto itself
    rw [if_pos hg]
    have hkeq : r1 + kept.length = r2 := by omega
    have hc1 : c1 = a.c := hr4 (by omega)
    rw [hc1] at hr3 ⊢
    obtain ⟨c2, hm1, hm2, hm3⟩ := std_move_self_spec (a.c.length - r2) a.c r2 (by omega)
    simp only [hkeq, hm1, Option.some_bind]
    unfold vec_erase_range
    rw [if_pos ⟨by omega, by omega, by omega⟩]
    simp only [Option.some_bind, pure, Option.some.injEq, Prod.mk.injEq, adaptor.mk.injEq,
      true_and]
    refine ⟨by omega, ?_⟩
    apply List.ext_getElem?
    intro k
    have e1 : ((r2 : Nat) : Int) + ((a.c.length - r2 : Nat) : Int) = ((c2.length : Nat) : Int) := by
      omega
    rw [e1]
    simp only [Int.toNat_ofNat, List.drop_length, List.append_nil, List.take_length]
    rw [hm3, List.append_assoc, List.getElem?_append, List.getElem?_append,
      List.getElem?_take, List.getElem?_map, List.getElem?_drop]
    simp only [List.length_take, Nat.min_eq_left (by omega : r1 ≤ a.c.length)]
    by_cases hk1 : k < r1
    · rw [if_neg (by omega), if_pos hk1, if_pos hk1]
    · rw [if_neg hk1]
      by_cases hk2 : k - r1 < kept.length
      · rw [if_neg (by omega), if_pos hk2, ← (hr3 k).1 (by omega)]
      · rw [if_neg hk2]
        by_cases hk3 : k < a.c.length
        · rw [if_pos (by omega)]
          congr 2
          omega
        · rw [if_neg (by omega)]
          rw [List.getElem?_eq_none (by omega), List.getElem?_eq_none (by omega)]
          rfl
  · rw [if_neg hg]
    obtain ⟨c2, hm1, hm2, hm3⟩ := std_move_spec (a.c.length - r2) c1 r2 (r1 + kept.length)
      (by omega) (by omega)
    simp only [hm1, Option.some_bind]
    unfold vec_erase_range
    rw [if_pos ⟨by omega, by omega, by omega⟩]
    simp only [Option.some_bind, pure, Option.some.injEq, Prod.mk.injEq, adaptor.mk.injEq,
      true_and]
    refine ⟨by omega, ?_⟩
    apply List.ext_getElem?
    intro k
    have e1 : ((r1 + kept.length : Nat) : Int) + ((a.c.length - r2 : Nat) : Int) =
        ((r1 + kept.length + (a.c.length - r2) : Nat) : Int) := by omega
    rw [e1]
    simp only [Int.toNat_ofNat, List.drop_length, List.append_nil]
    rw [List.getElem?_take, List.append_assoc, List.getElem?_append, List.getElem?_append,
      List.getElem?_take, List.getElem?_drop]
    simp only [List.length_take, Nat.min_eq_left (by omega : r1 ≤ a.c.length)]
    by_cases hk1 : k < r1
    · rw [if_pos (by omega), (hm3 k).2 (Or.inl (by omega)), (hr3 k).2 (Or.inl hk1),
        if_pos hk1, if_pos hk1]
    · rw [if_neg hk1]
      by_cases hk2 : k - r1 < kept.length
      · rw [if_pos (by omega), (hm3 k).2 (Or.inl (by omega)), (hr3 k).1 (by omega),
          if_pos hk2]
      · rw [if_neg hk2]
        by_cases hk3 : k < r1 + kept.length + (a.c.length - r2)
        · rw [if_pos hk3, (hm3 k).1 (by omega), (hr3 _).2 (Or.inr (by omega))]
          congr 1
          omega
        · rw [if_neg hk3]
          symm
          apply List.getElem?_eq_none
          omega

/-- The sequence `removeAll` leaves for an argument outside the container when assigning an
element to itself keeps its value. -/
theorem removeAll_spec [DecidableEq T] [MoveConcept T] (a : adaptor T Compare)
    (hswo : StrictWeakOrdering a.comp) (hs : a.I1)
    (hself : ∀ x : T, MoveConcept.self_moved x = x) (value : T) :
    a.removeAll (const_ref.object value) =
      some ((((((a.c.take (a.equal_range 0 (Nat.zero_le _) value).2).drop
            (a.equal_range 0 (Nat.zero_le _) value).1).filter
              (fun x => decide (x = value))).length : Nat) : Int),
        { d := a.d,
          c := a.c.take (a.equal_range 0 (Nat.zero_le _) value).1 ++
            ((a.c.take (a.equal_range 0 (Nat.zero_le _) value).2).drop
              (a.equal_range 0 (Nat.zero_le _) value).1).filter
                (fun x => decide (x ≠ value)) ++
            a.c.drop (a.equal_range 0 (Nat.zero_le _) value).2 }) := by
  rw [removeAll_object_spec a hswo hs value]
  have hmap : ∀ l : List T, l.map MoveConcept.self_moved = l := by
    intro l
    conv_rhs => rw [← List.map_id l]
    exact List.map_congr_left (fun x _ => hself x)
  rw [hmap, ite_self]

end sorted_sequence


namespace sorted_sequence

variable {T Compare : Type} [CompareConcept Compare T]

theorem lastIndexOf_loop_range [DecidableEq T] (l : List T) (value : T) (first : Nat) :
    ∀ steps, first + steps ≤ l.length →
      ∃ r, lastIndexOf_loop l value first steps = some r ∧
        (r = -1 ∨ ((first : Int) ≤ r ∧ r < (first : Int) + steps)) := by
  intro steps
  induction steps with
  | zero => intro _; exact ⟨-1, rfl, Or.inl rfl⟩
  | succ steps ih =>
    intro h
    have hlt : first + steps < l.length := by omega
    simp only [lastIndexOf_loop, List.get?_eq_getElem?, List.getElem?_eq_getElem hlt,
      Option.bind_eq_bind, Option.some_bind]
    split
    · exact ⟨_, rfl, Or.inr ⟨by omega, by omega⟩⟩
    · obtain ⟨r, hr, hr2⟩ := ih (by omega)
      exact ⟨r, hr, hr2.imp id (fun h => ⟨h.1, by omega⟩)⟩

theorem equal_range_loop [DecidableEq T] (a : adaptor T Compare) (value : T) (start : Nat)
    (h : start ≤ a.c.length) :
    ∃ r, lastIndexOf_loop a.c value (a.equal_range start h value).1
        ((a.equal_range start h value).2 - (a.equal_range start h value).1) = some r ∧
      (r = -1 ∨ (0 ≤ r ∧ r < a.c.length)) := by
  have h1 := bound_loop_range (fun x => a.comp x value) a.c (a.c.length - start) start
    (a.c.length - start) (by omega)
  have h2 := bound_loop_range (fun x => !a.comp value x) a.c (a.c.length - start) start
    (a.c.length - start) (by omega)
  have e1 : (a.equal_range start h value).1 = bound_loop (fun x => a.comp x value) a.c
      (a.c.length - start) start (a.c.length - start) (by omega) := rfl
  have e2 : (a.equal_range start h value).2 = bound_loop (fun x => !a.comp value x) a.c
      (a.c.length - start) start (a.c.length - start) (by omega) := rfl
  obtain ⟨r, hr, hr2⟩ := lastIndexOf_loop_range a.c value (a.equal_range start h value).1
    ((a.equal_range start h value).2 - (a.equal_range start h value).1) (by omega)
  exact ⟨r, hr, hr2.imp id (fun h => ⟨by omega, by omega⟩)⟩

theorem lastIndexOf_range [DecidableEq T] (a : adaptor T Compare) (value : T) (from_ : Int) :
    ∃ r, a.lastIndexOf value from_ = some r ∧ (r = -1 ∨ (0 ≤ r ∧ r < a.c.length)) :=
  equal_range_loop a value _ _

theorem drop_take_append {X : Type} (l1 l2 : List X) :
    List.drop l1.length (List.take (l1 ++ l2).length (l1 ++ l2)) = l2 := by
  rw [List.take_length, List.drop_left]

theorem removeOne_sublist [DecidableEq T] (a : adaptor T Compare) (value : T) :
    ∃ b a1, a.removeOne value = some (b, a1) ∧ a1.d = a.d ∧ a1.c.Sublist a.c := by
  obtain ⟨r, hr, hr2⟩ := lastIndexOf_range a value (-1)
  unfold adaptor.removeOne adaptor.findLast
  simp only [hr, Option.bind_eq_bind, Option.some_bind]
  by_cases hneg : r < 0
  · rw [if_pos hneg]
    exact ⟨false, a, rfl, rfl, List.Sublist.refl _⟩
  · rw [if_neg hneg]
    have hin : 0 ≤ r ∧ r < a.c.length := by
      rcases hr2 with h | h
      · omega
      · exact h
    unfold adaptor.removeAt vec_erase
    rw [if_pos hin]
    exact ⟨true, _, rfl, rfl, List.eraseIdx_sublist _ _⟩

theorem inplace_merge_whole {X : Type} (comp : X → X → Bool) (l1 l2 : List X) :
    inplace_merge comp (l1 ++ l2) 0 l1.length (l1 ++ l2).length = merge comp l1 l2 := by
  unfold inplace_merge
  rw [drop_take_append]
  simp

theorem sort_tail {X : Type} (comp : X → X → Bool) (l1 l2 : List X) :
    default_sort_algorithm.sort comp (l1 ++ l2) l1.length (l1 ++ l2).length =
      l1 ++ stable_sort comp l2 := by
  unfold default_sort_algorithm.sort
  rw [drop_take_append]
  simp

theorem appendContainer_eq (a : adaptor T Compare) (container : List T) :
    a.appendContainer container =
      { d := a.d, c := merge a.comp a.c (stable_sort a.comp container) } := by
  unfold adaptor.appendContainer
  dsimp only
  rw [sort_tail]
  have := inplace_merge_whole a.comp a.c (stable_sort a.comp container)
  rw [this]

end sorted_sequence


namespace sorted_sequence

variable {T Compare : Type} [CompareConcept Compare T]

theorem take_append_drop_sublist {X : Type} (l : List X) (first last : Nat)
    (h : first ≤ last) : (l.take first ++ l.drop last).Sublist l := by
  have h1 : (l.take first ++ l.drop last).Sublist (l.take first ++ l.drop first) :=
    List.Sublist.append (List.Sublist.refl _) (List.drop_sublist_drop_left l h)
  rw [List.take_append_drop] at h1
  exact h1

theorem insert_sorted (a : adaptor T Compare) (hswo : StrictWeakOrdering a.comp) (hs : a.I1)
    (v : T) (mode : InsertMode) (hint : Int) :
    ∃ p a1, a.insert v mode hint = some (p, a1) ∧ a1.d = a.d ∧ a1.I1 := by
  have h4 := (insert_result a v mode hint).2.2.1
  refine ⟨_, _, h4, rfl, ?_⟩
  have hpos := insertPosition_lower_upper a hswo hs v
  have hsia : a.SortedInsertAt v (a.insertPosition v mode hint) := by
    rw [insertPosition_hint_irrelevant a hswo hs]
    cases mode
    · exact hpos.1.1
    · exact hpos.2.1
  obtain ⟨c1, hc1, hc1s⟩ := hsia
  unfold vec_insert at hc1
  split at hc1
  · simp only [Option.some.injEq] at hc1
    rw [hc1]
    exact hc1s
  · exact absurd hc1 (by simp)

theorem sublist_sorted (a a1 : adaptor T Compare) (hswo : StrictWeakOrdering a.comp)
    (hs : a.I1) (hd : a1.d = a.d) (hsub : a1.c.Sublist a.c) : a1.I1 := by
  have hcomp : a1.comp = a.comp := by unfold adaptor.comp; rw [hd]
  unfold adaptor.I1
  rw [hcomp]
  exact sorted_sublist hswo hsub hs

theorem fromContainer_sorted (container : List T) (compare : Compare)
    (hswo : StrictWeakOrdering (CompareConcept.call compare)) :
    (adaptor.fromContainer container compare).I1 := by
  unfold adaptor.fromContainer adaptor.sort adaptor.I1
  simp only [sort_whole]
  exact stable_sort_sorted hswo container

theorem appendContainer_sorted (a : adaptor T Compare) (hswo : StrictWeakOrdering a.comp)
    (hs : a.I1) (container : List T) : (a.appendContainer container).I1 := by
  rw [appendContainer_eq]
  exact merge_sorted hswo hs (stable_sort_sorted hswo container)

theorem appendAdaptor_sorted (a other : adaptor T Compare) (hswo : StrictWeakOrdering a.comp)
    (hs : a.I1) (hso : other.I1)
    (hlaw : CompareConcept.eq other.d a.d = true → other.comp = a.comp) :
    (a.appendAdaptor other).I1 := by
  unfold adaptor.appendAdaptor
  split
  · exact hs
  · split
    · rename_i heq
      dsimp only
      rw [inplace_merge_whole]
      have hso' : List.Chain' (fun prev next => a.comp next prev = false) other.c := by
        rw [← hlaw heq]; exact hso
      exact merge_sorted hswo hs hso'
    · exact appendContainer_sorted a hswo hs other.c

theorem setCompareOperator_sorted (a : adaptor T Compare) (hs : a.I1) (newCmp : Compare)
    (hswo : StrictWeakOrdering (CompareConcept.call newCmp)) :
    (a.setCompareOperator newCmp).I1 := by
  cases heq : CompareConcept.eq a.d newCmp with
  | true => rw [setCompareOperator_unchanged a newCmp heq]; exact hs
  | false =>
    rw [setCompareOperator_changed a newCmp heq]
    exact stable_sort_sorted hswo a.c

/-- Sortedness is kept by the constructors and by every mutating operation whose argument does
not refer into the adaptor.  With a strict weak ordering as comparator, the adaptor constructed
from any sequence satisfies I1 (`compare(next, prev)` is false for all adjacent pairs), the
adaptor constructed from a comparator alone does, and every mutating operation (`insert`,
`change`, `removeAt`, `removeRange`, `removeOne`, `removeAll`, `takeAt`, the three forms of
`operator<<`, `setCompareOperator`, `setCompareOperatorGetReorderMap`), called with in-range
indices and with values held by objects outside the container on an adaptor that satisfies I1,
succeeds and leaves an adaptor that satisfies I1 under the comparator it then stores; for
`removeAll` this needs an element type that keeps its value when it is move-assigned to itself.
For `operator<<` with another adaptor, the other adaptor satisfies I1 under its own comparator,
and comparators that compare equal order alike (as `default_compare` and `lambda_compare`
do). -/
theorem mutators_keep_sorted [DecidableEq T] [MoveConcept T] :
    (∀ (container : List T) (compare : Compare),
      StrictWeakOrdering (CompareConcept.call compare) →
        (adaptor.fromContainer container compare).I1) ∧
    (∀ compare : Compare, (adaptor.fromCompare compare : adaptor T Compare).I1) ∧
    ∀ a : adaptor T Compare, StrictWeakOrdering a.comp → a.I1 →
      (∀ v mode hint, ∃ p a1, a.insert v mode hint = some (p, a1) ∧ a1.I1) ∧
      (∀ (i : Int) (v : T) mode hint, 0 ≤ i → i < a.size →
        ∃ r a1, a.change i (const_ref.object v) mode hint = some (r, a1) ∧ a1.I1) ∧
      (∀ i : Int, 0 ≤ i → i < a.size → ∃ a1, a.removeAt i = some a1 ∧ a1.I1) ∧
      (∀ first last : Int, 0 ≤ first → first ≤ last → last ≤ a.size →
        ∃ a1, a.removeRange first last = some a1 ∧ a1.I1) ∧
      (∀ v, ∃ removed a1, a.removeOne v = some (removed, a1) ∧ a1.I1) ∧
      ((∀ x : T, MoveConcept.self_moved x = x) →
        ∀ v : T, ∃ count a1, a.removeAll (const_ref.object v) = some (count, a1) ∧ a1.I1) ∧
      (∀ i : Int, 0 ≤ i → i < a.size → ∃ x a1, a.takeAt i = some (x, a1) ∧ a1.I1) ∧
      (∀ v, ∃ a1, a.appendValue v = some a1 ∧ a1.I1) ∧
      (∀ container, (a.appendContainer container).I1) ∧
      (∀ other : adaptor T Compare, other.I1 →
        (CompareConcept.eq other.d a.d = true → other.comp = a.comp) →
        (a.appendAdaptor other).I1) ∧
      (∀ newCmp, StrictWeakOrdering (CompareConcept.call newCmp) →
        (a.setCompareOperator newCmp).I1) ∧
      (∀ newCmp m, StrictWeakOrdering (CompareConcept.call newCmp) →
        ∃ a1 m1, a.setCompareOperatorGetReorderMap newCmp m = some (a1, m1) ∧ a1.I1) := by
  refine ⟨fromContainer_sorted, fun compare => List.chain'_nil, fun a hswo hs => ?_⟩
  have herase : ∀ i : Int, 0 ≤ i → i < a.size → ∃ a1, a.removeAt i = some a1 ∧ a1.I1 := by
    intro i h0 hn
    unfold adaptor.size at hn
    unfold adaptor.removeAt vec_erase
    rw [if_pos ⟨h0, hn⟩]
    exact ⟨_, rfl, sublist_sorted a _ hswo hs rfl (List.eraseIdx_sublist _ _)⟩
  refine ⟨?_, ?_, herase, ?_, ?_, ?_, ?_, ?_, ?_, ?_, ?_, ?_⟩
  · intro v mode hint
    obtain ⟨p, a1, h1, -, h2⟩ := insert_sorted a hswo hs v mode hint
    exact ⟨p, a1, h1, h2⟩
  · intro i v mode hint h0 hn
    obtain ⟨k, rfl⟩ := Int.eq_ofNat_of_zero_le h0
    have hk : k < a.c.length := by unfold adaptor.size at hn; omega
    obtain ⟨r, -, h1, -, h3⟩ := change_eq_remove_insert a hswo hs k hk v mode hint
    refine ⟨_, _, h1, ?_⟩
    obtain ⟨p, a1, h4, -, h5⟩ := insert_sorted { d := a.d, c := a.c.eraseIdx k } hswo
      (sublist_sorted a _ hswo hs rfl (List.eraseIdx_sublist _ _)) v mode noHint
    rw [h3] at h4
    simp only [Option.some.injEq, Prod.mk.injEq] at h4
    rw [h4.2]
    exact h5
  · intro first last h0 hfl hn
    unfold adaptor.size at hn
    unfold adaptor.removeRange vec_erase_range
    rw [if_pos ⟨h0, hfl, hn⟩]
    exact ⟨_, rfl, sublist_sorted a _ hswo hs rfl
      (take_append_drop_sublist _ _ _ (by omega))⟩
  · intro v
    obtain ⟨b, a1, h1, h2, h3⟩ := removeOne_sublist a v
    exact ⟨b, a1, h1, sublist_sorted a a1 hswo hs h2 h3⟩
  · intro hself v
    refine ⟨_, _, removeAll_spec a hswo hs hself v, sublist_sorted a _ hswo hs rfl ?_⟩
    have h12 : (a.equal_range 0 (Nat.zero_le _) v).1 ≤ (a.equal_range 0 (Nat.zero_le _) v).2 :=
      lower_le_upper hswo hs 0 a.c.length ⟨Nat.zero_le _, Nat.le_refl _⟩ v
    generalize (a.equal_range 0 (Nat.zero_le _) v).1 = r1 at h12 ⊢
    generalize (a.equal_range 0 (Nat.zero_le _) v).2 = r2 at h12 ⊢
    have hsplit : a.c = a.c.take r1 ++ (a.c.take r2).drop r1 ++ a.c.drop r2 := by
      have h1 : a.c.take r1 ++ (a.c.take r2).drop r1 = a.c.take r2 := by
        have := List.take_append_drop r1 (a.c.take r2)
        rw [List.take_take, Nat.min_eq_left h12] at this
        exact this
      rw [h1, List.take_append_drop]
    show (a.c.take r1 ++ ((a.c.take r2).drop r1).filter (fun x => decide (x ≠ v)) ++
      a.c.drop r2).Sublist a.c
    conv_rhs => rw [hsplit]
    exact List.Sublist.append (List.Sublist.append (List.Sublist.refl _)
      (List.filter_sublist _)) (List.Sublist.refl _)
  · intro i h0 hn
    obtain ⟨a1, h1, h2⟩ := herase i h0 hn
    obtain ⟨k, rfl⟩ := Int.eq_ofNat_of_zero_le h0
    have hk : k < a.c.length := by unfold adaptor.size at hn; omega
    refine ⟨a.c[k], a1, ?_, h2⟩
    unfold adaptor.takeAt
    rw [readAt_natCast, List.getElem?_eq_getElem hk, h1]
    rfl
  · intro v
    obtain ⟨p, a1, h1, -, h2⟩ := insert_sorted a hswo hs v InsertMode.InsertLast noHint
    refine ⟨a1, ?_, h2⟩
    unfold adaptor.appendValue
    rw [h1]
    rfl
  · exact appendContainer_sorted a hswo hs
  · intro other hso hlaw
    exact appendAdaptor_sorted a other hswo hs hso hlaw
  · intro newCmp hn
    exact setCompareOperator_sorted a hs newCmp hn
  · intro newCmp m hn
    cases heq : CompareConcept.eq a.d newCmp with
    | true =>
      refine ⟨a, m.identityFill, ?_, hs⟩
      unfold adaptor.setCompareOperatorGetReorderMap
        adaptor.setCompareOperatorGetReorderMapFuel
      rw [if_pos heq]
    | false =>
      obtain ⟨m1, h1, -⟩ :=
        setCompareOperatorGetReorderMap_changed a newCmp m heq a.size (Nat.le_refl _)
      exact ⟨_, m1, h1, setCompareOperator_sorted a hs newCmp hn⟩

end sorted_sequence


namespace sorted_sequence

variable {T Compare : Type} [CompareConcept Compare T]

theorem identityFill_keys (m : ReorderMap) : m.identityFill.keys = m.keys := by
  unfold ReorderMap.identityFill ReorderMap.keys
  simp only [List.map_map]
  apply List.map_congr_left
  intro entry _
  rfl

theorem identityFill_kind (m : ReorderMap) : m.identityFill.kind = m.kind := rfl

/-- With the `unordered_map` wrapper `key(it)` is `it->first`, so the loop of the
unchanged-comparator branch stores every key as its own value. -/
theorem identityFill_unordered_map_lookup (m : ReorderMap)
    (hk : m.kind = MapKind.unordered_map) (k : Int) (hmem : k ∈ m.keys) :
    m.identityFill.lookup k = some k := by
  cases m with
  | mk kind entries =>
    simp only at hk
    subst hk
    simp only [ReorderMap.identityFill, ReorderMap.lookup, ReorderMap.keys, key,
      value_ref_assign] at hmem ⊢
    induction entries with
    | nil => simp at hmem
    | cons e es ih =>
      simp only [List.map_cons, List.find?_cons]
      by_cases he : e.1 = k
      · have : (e.1 == k) = true := by simpa using he
        rw [this]
        simp [he]
      · have : (e.1 == k) = false := by simpa using he
        rw [this]
        apply ih
        simp only [List.map_cons, List.mem_cons] at hmem
        rcases hmem with h | h
        · exact absurd h.symm he
        · exact h

theorem setCompareOperatorGetReorderMap_unchanged (a : adaptor T Compare) (cmp : Compare)
    (m : ReorderMap) (heq : CompareConcept.eq a.d cmp = true) :
    a.setCompareOperatorGetReorderMap cmp m = some (a, m.identityFill) := by
  unfold adaptor.setCompareOperatorGetReorderMap adaptor.setCompareOperatorGetReorderMapFuel
  rw [if_pos heq]

/-- C11: no-op comparator change with the `std::unordered_map` wrapper.  When the new
comparator equals the current one, `setCompareOperatorGetReorderMap` succeeds, keeps the keys
of the map, and afterwards `map[k] == k` for every key `k` of the map, whatever value it held
before and whether or not `k` is an index of the container. -/
theorem C11_unordered_map_noop_identity (a : adaptor T Compare) (cmp : Compare)
    (m : ReorderMap) (heq : CompareConcept.eq a.d cmp = true)
    (hk : m.kind = MapKind.unordered_map) :
    ∃ a1 m1, a.setCompareOperatorGetReorderMap cmp m = some (a1, m1) ∧
      m1.keys = m.keys ∧ ∀ k ∈ m.keys, m1.lookup k = some k :=
  ⟨a, m.identityFill, setCompareOperatorGetReorderMap_unchanged a cmp m heq,
    identityFill_keys m, fun k hmem => identityFill_unordered_map_lookup m hk k hmem⟩

/-- Witness for C11: the bag with the comparator it already has and an `unordered_map` holding
the keys 1, 7 and -2 with arbitrary values. -/
theorem C11_unordered_map_noop_identity_witness :
    CompareConcept.eq exampleBag.d ascending = true ∧
      staleRows.kind = MapKind.unordered_map ∧
      ∃ a1 m1, exampleBag.setCompareOperatorGetReorderMap ascending staleRows =
          some (a1, m1) ∧
        m1.keys = staleRows.keys ∧ ∀ k ∈ staleRows.keys, m1.lookup k = some k :=
  ⟨by decide, by decide,
    C11_unordered_map_noop_identity exampleBag ascending staleRows (by decide) (by decide)⟩

/-- C12: the frame condition of `setCompareOperatorGetReorderMap` on the map.  For every
adaptor, comparator and map the call succeeds and the map has the same keys afterwards, in the
same iteration order (no entry is added or removed); when the comparator changes, every key
outside `[0, n)` keeps the value it had. -/
theorem C12_reorder_map_frame (a : adaptor T Compare) (cmp : Compare) (m : ReorderMap) :
    ∃ a1 m1, a.setCompareOperatorGetReorderMap cmp m = some (a1, m1) ∧
      m1.keys = m.keys ∧ m1.size = m.size ∧ m1.kind = m.kind ∧
      (CompareConcept.eq a.d cmp = false →
        ∀ k : Int, (k < 0 ∨ (a.size : Int) ≤ k) → m1.lookup k = m.lookup k) := by
  have hsize : ∀ m1 : ReorderMap, m1.keys = m.keys → m1.size = m.size := by
    intro m1 h
    have := congrArg List.length h
    simpa [ReorderMap.keys, ReorderMap.size] using this
  cases heq : CompareConcept.eq a.d cmp with
  | true =>
    exact ⟨a, m.identityFill, setCompareOperatorGetReorderMap_unchanged a cmp m heq,
      identityFill_keys m, hsize _ (identityFill_keys m), rfl, fun h => absurd h (by simp)⟩
  | false =>
    obtain ⟨m1, h1, h2, h3, -, h5⟩ :=
      setCompareOperatorGetReorderMap_changed a cmp m heq a.size (Nat.le_refl _)
    refine ⟨_, m1, h1, h3, hsize _ h3, h2, fun _ k hk => h5 k ?_⟩
    intro hmem
    have hperm := stable_sort_perm (adaptor.indexCompare { d := cmp, c := a.c })
      (iota a.c.length)
    obtain ⟨q, hq, rfl⟩ := mem_iota.1 ((hperm.mem_iff).1 hmem)
    unfold adaptor.size at hk
    omega

/-- Witness for C12: the bag re-sorted in descending order with a map holding the keys 1, 7
and -2; the keys 7 and -2 keep their values 8 and 4. -/
theorem C12_reorder_map_frame_witness :
    CompareConcept.eq exampleBag.d descending = false ∧
      ∃ a1 m1, exampleBag.setCompareOperatorGetReorderMap descending staleRows =
          some (a1, m1) ∧
        m1.keys = [1, 7, -2] ∧ m1.lookup 7 = some 8 ∧ m1.lookup (-2) = some 4 := by
  refine ⟨by decide, ?_⟩
  obtain ⟨a1, m1, h1, h2, -, -, h5⟩ := C12_reorder_map_frame exampleBag descending staleRows
  refine ⟨a1, m1, h1, h2, ?_, ?_⟩
  · rw [h5 (by decide) 7 (by decide)]; decide
  · rw [h5 (by decide) (-2) (by decide)]; decide

end sorted_sequence


namespace sorted_sequence

variable {T Compare : Type} [CompareConcept Compare T]

/-! ## The equal range and the scans over it -/

/-- On a sorted sequence `std::equal_range` over `[start, end)` delimits, among the indexes from
`start` on, those whose element is less than the value (before `first`) and those whose element
is not greater (before `second`). -/
theorem equal_range_spec (a : adaptor T Compare) (hswo : StrictWeakOrdering a.comp)
    (hs : a.I1) (start : Nat) (h : start ≤ a.c.length) (v : T) :
    start ≤ (a.equal_range start h v).1 ∧
      (a.equal_range start h v).1 ≤ (a.equal_range start h v).2 ∧
      (a.equal_range start h v).2 ≤ a.c.length ∧
      ∀ i (hi : i < a.c.length), start ≤ i →
        (i < (a.equal_range start h v).1 ↔ a.comp (a.c.get ⟨i, hi⟩) v = true) ∧
        (i < (a.equal_range start h v).2 ↔ a.comp v (a.c.get ⟨i, hi⟩) = false) := by
  have hl := lower_bound_isPartitionPoint hswo hs start a.c.length ⟨h, Nat.le_refl _⟩ v
  have hu := upper_bound_isPartitionPoint hswo hs start a.c.length ⟨h, Nat.le_refl _⟩ v
  have hlu := lower_le_upper hswo hs start a.c.length ⟨h, Nat.le_refl _⟩ v
  have e1 : (a.equal_range start h v).1 =
      lower_bound a.comp a.c start a.c.length ⟨h, Nat.le_refl _⟩ v := rfl
  have e2 : (a.equal_range start h v).2 =
      upper_bound a.comp a.c start a.c.length ⟨h, Nat.le_refl _⟩ v := rfl
  rw [e1, e2]
  obtain ⟨hl1, hl2, hl3, hl4⟩ := hl
  obtain ⟨hu1, hu2, hu3, hu4⟩ := hu
  refine ⟨hl1, hlu, hu2, fun i hi hsi => ⟨⟨fun hlt => hl3 i hi hsi hlt, fun hc => ?_⟩,
    ⟨fun hlt => by simpa using hu3 i hi hsi hlt, fun hc => ?_⟩⟩⟩
  · by_contra hcon
    have := hl4 i hi (by omega) hi
    simp only [] at this
    rw [hc] at this
    exact absurd this (by decide)
  · by_contra hcon
    have := hu4 i hi (by omega) hi
    simp only [hc] at this
    exact absurd this (by decide)

/-- The indexes of the equal range are exactly those, from `start` on, whose element is
equivalent to the value. -/
theorem equal_range_equivalent (a : adaptor T Compare) (hswo : StrictWeakOrdering a.comp)
    (hs : a.I1) (start : Nat) (h : start ≤ a.c.length) (v : T) (i : Nat)
    (hi : i < a.c.length) (hsi : start ≤ i) :
    ((a.equal_range start h v).1 ≤ i ∧ i < (a.equal_range start h v).2) ↔
      a.equivalent (a.c.get ⟨i, hi⟩) v = true := by
  obtain ⟨-, -, -, hr⟩ := equal_range_spec a hswo hs start h v
  obtain ⟨h1, h2⟩ := hr i hi hsi
  unfold adaptor.equivalent
  simp only [Bool.and_eq_true, Bool.not_eq_true']
  rw [← h2]
  constructor
  · rintro ⟨h3, h4⟩
    refine ⟨?_, h4⟩
    cases hc : a.comp (a.c.get ⟨i, hi⟩) v with
    | false => rfl
    | true => have := h1.2 hc; omega
  · rintro ⟨h3, h4⟩
    refine ⟨?_, h4⟩
    by_contra hcon
    have := h1.1 (by omega)
    rw [h3] at this
    exact absurd this (by decide)

theorem lastIndexOf_loop_spec [DecidableEq T] (l : List T) (value : T) (first : Nat) :
    ∀ steps, first + steps ≤ l.length →
      ∃ r, lastIndexOf_loop l value first steps = some r ∧
        ((r = -1 ∧ ∀ i (hi : i < l.length), first ≤ i → i < first + steps →
            l.get ⟨i, hi⟩ ≠ value) ∨
          (∃ k : Nat, ∃ hk : k < l.length, r = (k : Int) ∧ first ≤ k ∧ k < first + steps ∧
            l.get ⟨k, hk⟩ = value ∧
            ∀ i (hi : i < l.length), k < i → i < first + steps → l.get ⟨i, hi⟩ ≠ value)) := by
  intro steps
  induction steps with
  | zero =>
    intro _
    exact ⟨-1, rfl, Or.inl ⟨rfl, fun i _ h1 h2 => by omega⟩⟩
  | succ steps ih =>
    intro h
    have hlt : first + steps < l.length := by omega
    simp only [lastIndexOf_loop, List.get?_eq_getElem?, List.getElem?_eq_getElem hlt,
      Option.bind_eq_bind, Option.some_bind]
    by_cases hx : l[first + steps] = value
    · rw [if_pos hx]
      exact ⟨_, rfl, Or.inr ⟨first + steps, hlt, rfl, by omega, by omega, hx,
        fun i _ h1 h2 => by omega⟩⟩
    · rw [if_neg hx]
      obtain ⟨r, hr, hr2⟩ := ih (by omega)
      refine ⟨r, hr, ?_⟩
      rcases hr2 with ⟨h1, h2⟩ | ⟨k, hk, h1, h2, h3, h4, h5⟩
      · refine Or.inl ⟨h1, fun i hi hfi hlt2 => ?_⟩
        by_cases hil : i = first + steps
        · subst hil; exact hx
        · exact h2 i hi hfi (by omega)
      · refine Or.inr ⟨k, hk, h1, h2, by omega, h4, fun i hi hki hlt2 => ?_⟩
        by_cases hil : i = first + steps
        · subst hil; exact hx
        · exact h5 i hi hki (by omega)

theorem std_find_spec {X : Type} [DecidableEq X] (l : List X) (value : X) :
    ∀ count first, first + count ≤ l.length →
      ∃ it, std_find l value count first = some it ∧ first ≤ it ∧ it ≤ first + count ∧
        (∀ i (hi : i < l.length), first ≤ i → i < it → l.get ⟨i, hi⟩ ≠ value) ∧
        (it < first + count → l[it]? = some value) := by
  intro count
  induction count with
  | zero =>
    intro first _
    exact ⟨first, rfl, Nat.le_refl _, Nat.le_refl _, fun i _ h1 h2 => by omega,
      fun hit => by omega⟩
  | succ count ih =>
    intro first h
    have hlt : first < l.length := by omega
    simp only [std_find, List.get?_eq_getElem?, List.getElem?_eq_getElem hlt,
      Option.bind_eq_bind, Option.some_bind]
    by_cases hx : l[first] = value
    · rw [if_pos hx]
      exact ⟨first, rfl, Nat.le_refl _, by omega, fun i _ h1 h2 => by omega,
        fun _ => by rw [List.getElem?_eq_getElem hlt, hx]⟩
    · rw [if_neg hx]
      obtain ⟨it, h1, h2, h3, h4, h5⟩ := ih (first + 1) (by omega)
      refine ⟨it, h1, by omega, by omega, fun i hi hfi hlt2 => ?_, fun hit => h5 (by omega)⟩
      by_cases hif : i = first
      · subst hif; exact hx
      · exact h4 i hi (by omega) hlt2

theorem std_count_spec {X : Type} [DecidableEq X] (l : List X) (value : X) :
    ∀ count first ret, first + count ≤ l.length →
      std_count l value count first ret =
        some (ret + (((l.drop first).take count).filter
          (fun x => decide (x = value))).length) := by
  intro count
  induction count with
  | zero => intro first ret _; simp [std_count]
  | succ count ih =>
    intro first ret h
    have hlt : first < l.length := by omega
    have hdrop : (l.drop first).take (count + 1) =
        l[first] :: (l.drop (first + 1)).take count := by
      rw [List.drop_eq_getElem_cons hlt, List.take_succ_cons]
    simp only [std_count, List.get?_eq_getElem?, List.getElem?_eq_getElem hlt,
      Option.bind_eq_bind, Option.some_bind]
    rw [ih (first + 1) _ (by omega), hdrop]
    by_cases hx : l[first] = value
    · rw [if_pos hx, List.filter_cons_of_pos (by simpa using hx), List.length_cons]
      congr 1; omega
    · rw [if_neg hx, List.filter_cons_of_neg (by simpa using hx)]

end sorted_sequence


namespace sorted_sequence

variable {T Compare : Type} [CompareConcept Compare T]

theorem readAt_get {X : Type} (l : List X) (k : Nat) (hk : k < l.length) :
    readAt l (k : Int) = some (l.get ⟨k, hk⟩) := by
  rw [readAt_natCast, List.getElem?_eq_getElem hk]
  rfl

/-- The result of `lastIndexOf` in terms of the start of the search, a natural number. -/
theorem lastIndexOf_spec [DecidableEq T] (a : adaptor T Compare)
    (hswo : StrictWeakOrdering a.comp) (hs : a.I1) (v : T) (start : Nat)
    (h : start ≤ a.c.length) :
    ∃ r, lastIndexOf_loop a.c v (a.equal_range start h v).1
        ((a.equal_range start h v).2 - (a.equal_range start h v).1) = some r ∧
      ((r = -1 ∧ ∀ i (hi : i < a.c.length), start ≤ i →
          a.equivalent (a.c.get ⟨i, hi⟩) v = true → a.c.get ⟨i, hi⟩ ≠ v) ∨
        (∃ k : Nat, ∃ hk : k < a.c.length, r = (k : Int) ∧ start ≤ k ∧
          a.c.get ⟨k, hk⟩ = v ∧ a.equivalent v v = true ∧
          ∀ i (hi : i < a.c.length), k < i →
            a.equivalent (a.c.get ⟨i, hi⟩) v = true → a.c.get ⟨i, hi⟩ ≠ v)) := by
  obtain ⟨h1, h2, h3, -⟩ := equal_range_spec a hswo hs start h v
  have heq := equal_range_equivalent a hswo hs start h v
  obtain ⟨r, hr, hr2⟩ := lastIndexOf_loop_spec a.c v (a.equal_range start h v).1
    ((a.equal_range start h v).2 - (a.equal_range start h v).1) (by omega)
  refine ⟨r, hr, ?_⟩
  rcases hr2 with ⟨hneg, hnone⟩ | ⟨k, hk, hrk, hk1, hk2, hk3, hk4⟩
  · refine Or.inl ⟨hneg, fun i hi hsi hequiv => ?_⟩
    have := (heq i hi hsi).2 hequiv
    exact hnone i hi this.1 (by omega)
  · refine Or.inr ⟨k, hk, hrk, by omega, hk3, ?_, fun i hi hki hequiv => ?_⟩
    · have := (heq k hk (by omega)).1 ⟨hk1, by omega⟩
      rw [hk3] at this
      exact this
    · have := (heq i hi (by omega)).2 hequiv
      exact hk4 i hi hki (by omega)

/-- C14: on a sorted adaptor, `lastIndexOf(v, from)` returns the largest index `i` with
`max(0, min(from, size)) <= i < size` whose element is equivalent to `v` under the comparator
and `== v`, and `-1` when there is no such index. -/
theorem C14_lastIndexOf_last_match [DecidableEq T] (a : adaptor T Compare)
    (hswo : StrictWeakOrdering a.comp) (hs : a.I1) (v : T) (from_ : Int) :
    ∃ r, a.lastIndexOf v from_ = some r ∧
      ((r = -1 ∧ ∀ (i : Int) x, max 0 (min from_ (a.size : Int)) ≤ i → a.at_ i = some x →
          a.equivalent x v = true → x ≠ v) ∨
        (max 0 (min from_ (a.size : Int)) ≤ r ∧ r < a.size ∧ a.at_ r = some v ∧
          a.equivalent v v = true ∧
          ∀ (i : Int) x, r < i → a.at_ i = some x → a.equivalent x v = true → x ≠ v)) := by
  have hstart : (max 0 (min from_ (a.c.length : Int))).toNat ≤ a.c.length := by omega
  obtain ⟨r, hr, hr2⟩ := lastIndexOf_spec a hswo hs v _ hstart
  refine ⟨r, hr, ?_⟩
  unfold adaptor.size
  rcases hr2 with ⟨hneg, hnone⟩ | ⟨k, hk, hrk, hk1, hk2, hk3, hk4⟩
  · refine Or.inl ⟨hneg, fun i x hi hx hequiv => ?_⟩
    obtain ⟨j, hj, rfl, rfl⟩ := readAt_eq_some.1 hx
    exact hnone j hj (by omega) hequiv
  · subst hrk
    refine Or.inr ⟨by omega, by omega, ?_, hk3, fun i x hi hx hequiv => ?_⟩
    · unfold adaptor.at_
      rw [readAt_get a.c k hk, hk2]
    · obtain ⟨j, hj, rfl, rfl⟩ := readAt_eq_some.1 hx
      exact hk4 j hj (by omega) hequiv

/-- Witness for C14 on `[1,1,3,4,5]`: the last index holding 1 is 1. -/
theorem C14_lastIndexOf_last_match_witness :
    StrictWeakOrdering exampleAdaptor.comp ∧ exampleAdaptor.I1 ∧
      exampleAdaptor.lastIndexOf 1 (-1) = some 1 ∧
      ∃ r, exampleAdaptor.lastIndexOf 1 (-1) = some r ∧
        ((r = -1 ∧ ∀ (i : Int) x, max 0 (min (-1) (exampleAdaptor.size : Int)) ≤ i →
            exampleAdaptor.at_ i = some x → exampleAdaptor.equivalent x 1 = true → x ≠ 1) ∨
          (max 0 (min (-1) (exampleAdaptor.size : Int)) ≤ r ∧ r < exampleAdaptor.size ∧
            exampleAdaptor.at_ r = some 1 ∧ exampleAdaptor.equivalent 1 1 = true ∧
            ∀ (i : Int) x, r < i → exampleAdaptor.at_ i = some x →
              exampleAdaptor.equivalent x 1 = true → x ≠ 1)) :=
  ⟨default_compare_strictWeakOrdering _, by decide, by decide,
    C14_lastIndexOf_last_match exampleAdaptor (default_compare_strictWeakOrdering _)
      (by decide) 1 (-1)⟩

/-- C16: `removeOne(v)` returns true exactly when `lastIndexOf(v)` is not `-1`; it then removes
precisely the element at the index `lastIndexOf(v)` returns; when it returns false the adaptor is
unchanged. -/
theorem C16_removeOne_removes_lastIndexOf [DecidableEq T] (a : adaptor T Compare) (v : T) :
    ∃ r, a.lastIndexOf v (-1) = some r ∧ (r = -1 ∨ (0 ≤ r ∧ r < a.size)) ∧
      (r = -1 → a.removeOne v = some (false, a)) ∧
      (r ≠ -1 →
        a.removeAt r = some { d := a.d, c := a.c.eraseIdx r.toNat } ∧
        a.removeOne v = some (true, { d := a.d, c := a.c.eraseIdx r.toNat })) := by
  obtain ⟨r, hr, hr2⟩ := lastIndexOf_range a v (-1)
  refine ⟨r, hr, hr2, fun hneg => ?_, fun hpos => ?_⟩
  · unfold adaptor.removeOne adaptor.findLast
    simp only [hr, Option.bind_eq_bind, Option.some_bind]
    rw [if_pos (by omega)]
    rfl
  · have hin : 0 ≤ r ∧ r < a.c.length := by
      rcases hr2 with h | h
      · exact absurd h hpos
      · exact h
    have herase : a.removeAt r = some { d := a.d, c := a.c.eraseIdx r.toNat } := by
      unfold adaptor.removeAt vec_erase
      rw [if_pos hin]
      rfl
    refine ⟨herase, ?_⟩
    unfold adaptor.removeOne adaptor.findLast
    simp only [hr, Option.bind_eq_bind, Option.some_bind]
    rw [if_neg (by omega), herase]
    rfl

/-- Witness for C16 on the pairs `[(1,0),(1,1),(1,0)]` compared by first component:
`removeOne((1,0))` removes the occurrence at index 2, the last one. -/
theorem C16_removeOne_removes_lastIndexOf_witness :
    exampleTriple.lastIndexOf (1, 0) (-1) = some 2 ∧
      ∃ a1, exampleTriple.removeOne (1, 0) = some (true, a1) ∧ a1.c = [(1, 0), (1, 1)] := by
  have h2 : exampleTriple.lastIndexOf (1, 0) (-1) = some 2 := by decide
  obtain ⟨r, hr, -, -, hpos⟩ := C16_removeOne_removes_lastIndexOf exampleTriple (1, 0)
  rw [h2] at hr
  have hr2 : r = 2 := (Option.some.inj hr).symm
  subst hr2
  exact ⟨h2, _, (hpos (by decide)).2, by decide⟩

theorem range_eq (a : adaptor T Compare) (v : T) :
    a.range v = (((a.equal_range 0 (Nat.zero_le _) v).1 : Int),
      ((a.equal_range 0 (Nat.zero_le _) v).2 : Int)) := rfl

/-- C18: on a sorted adaptor `range(v)` is the pair of `insertPosition(v, InsertFirst)` and
`insertPosition(v, InsertLast)`, with `0 <= first <= last <= size`; exactly the indexes in
`[first, last)` hold elements equivalent to `v`, exactly the indexes before `first` hold
elements less than `v`, and exactly the indexes from `last` on hold elements greater than
`v`. -/
theorem C18_range_is_equal_range (a : adaptor T Compare) (hswo : StrictWeakOrdering a.comp)
    (hs : a.I1) (v : T) :
    a.range v = (a.insertPosition v InsertMode.InsertFirst noHint,
        a.insertPosition v InsertMode.InsertLast noHint) ∧
      0 ≤ (a.range v).1 ∧ (a.range v).1 ≤ (a.range v).2 ∧ (a.range v).2 ≤ a.size ∧
      ∀ (i : Int) x, a.at_ i = some x →
        (((a.range v).1 ≤ i ∧ i < (a.range v).2) ↔ a.equivalent x v = true) ∧
        (i < (a.range v).1 ↔ a.comp x v = true) ∧
        ((a.range v).2 ≤ i ↔ a.comp v x = true) := by
  obtain ⟨h1, h2, h3, h4⟩ := equal_range_spec a hswo hs 0 (Nat.zero_le _) v
  have heq := equal_range_equivalent a hswo hs 0 (Nat.zero_le _) v
  rw [range_eq]
  refine ⟨?_, by omega, by omega, by unfold adaptor.size; omega, fun i x hx => ?_⟩
  · rw [insertPosition_first_eq a hswo hs, insertPosition_last_eq a hswo hs]
    rfl
  · obtain ⟨k, hk, rfl, rfl⟩ := readAt_eq_some.1 hx
    obtain ⟨h5, h6⟩ := h4 k hk (Nat.zero_le _)
    simp only []
    refine ⟨?_, ?_, ?_⟩
    · rw [← heq k hk (Nat.zero_le _)]
      omega
    · rw [← h5]
      omega
    · constructor
      · intro hle
        cases hc : a.comp v (a.c.get ⟨k, hk⟩) with
        | true => rfl
        | false => have := h6.2 hc; omega
      · intro hc
        by_contra hcon
        have := h6.1 (by omega)
        rw [hc] at this
        exact absurd this (by decide)

/-- Witness for C18 on `[1,1,3,4,5]`: `range(1)` is `(0, 2)`. -/
theorem C18_range_is_equal_range_witness :
    StrictWeakOrdering exampleAdaptor.comp ∧ exampleAdaptor.I1 ∧
      exampleAdaptor.range 1 = (0, 2) ∧
      exampleAdaptor.range 1 = (exampleAdaptor.insertPosition 1 InsertMode.InsertFirst noHint,
        exampleAdaptor.insertPosition 1 InsertMode.InsertLast noHint) :=
  ⟨default_compare_strictWeakOrdering _, by decide, by decide,
    (C18_range_is_equal_range exampleAdaptor (default_compare_strictWeakOrdering _)
      (by decide) 1).1⟩

end sorted_sequence


namespace sorted_sequence

variable {T Compare : Type} [CompareConcept Compare T]

theorem mem_segment_get {X : Type} {l : List X} {r1 r2 : Nat} {x : X} (h2 : r2 ≤ l.length) :
    x ∈ (l.take r2).drop r1 ↔
      ∃ i, ∃ (hi : i < l.length), r1 ≤ i ∧ i < r2 ∧ l.get ⟨i, hi⟩ = x := by
  rw [mem_drop_get]
  constructor
  · rintro ⟨i, hi, hri, rfl⟩
    rw [List.length_take] at hi
    refine ⟨i, by omega, hri, by omega, ?_⟩
    simp [List.getElem_take]
  · rintro ⟨i, hi, hri, hir, rfl⟩
    refine ⟨i, by rw [List.length_take]; omega, hri, ?_⟩
    simp [List.getElem_take]

theorem split_at_range {X : Type} (l : List X) (r1 r2 : Nat) (h12 : r1 ≤ r2) :
    l = l.take r1 ++ (l.take r2).drop r1 ++ l.drop r2 := by
  have h1 : l.take r1 ++ (l.take r2).drop r1 = l.take r2 := by
    have := List.take_append_drop r1 (l.take r2)
    rw [List.take_take, Nat.min_eq_left h12] at this
    exact this
  rw [h1, List.take_append_drop]

/-- The three parts of a sorted sequence around the equal range of `v`: less than `v`,
equivalent to `v`, greater than `v`. -/
theorem range_parts (a : adaptor T Compare) (hswo : StrictWeakOrdering a.comp) (hs : a.I1)
    (v : T) :
    (∀ x ∈ a.c.take (a.equal_range 0 (Nat.zero_le _) v).1, a.equivalent x v = false) ∧
      (∀ x ∈ (a.c.take (a.equal_range 0 (Nat.zero_le _) v).2).drop
        (a.equal_range 0 (Nat.zero_le _) v).1, a.equivalent x v = true) ∧
      (∀ x ∈ a.c.drop (a.equal_range 0 (Nat.zero_le _) v).2, a.equivalent x v = false) := by
  obtain ⟨-, h2, h3, -⟩ := equal_range_spec a hswo hs 0 (Nat.zero_le _) v
  have heq := equal_range_equivalent a hswo hs 0 (Nat.zero_le _) v
  refine ⟨fun x hx => ?_, fun x hx => ?_, fun x hx => ?_⟩
  · obtain ⟨i, hi, hlt, rfl⟩ := mem_take_get.1 hx
    cases hc : a.equivalent (a.c.get ⟨i, hi⟩) v with
    | false => rfl
    | true => have := (heq i hi (Nat.zero_le _)).2 hc; omega
  · obtain ⟨i, hi, h1, h2, rfl⟩ := (mem_segment_get h3).1 hx
    exact (heq i hi (Nat.zero_le _)).1 ⟨h1, h2⟩
  · obtain ⟨i, hi, hle, rfl⟩ := mem_drop_get.1 hx
    cases hc : a.equivalent (a.c.get ⟨i, hi⟩) v with
    | false => rfl
    | true => have := (heq i hi (Nat.zero_le _)).2 hc; omega

/-- Filtering the whole sorted sequence with a predicate that, on elements equivalent to `v`,
is `inside` and, on the others, is constantly `outside`. -/
theorem filter_by_range (a : adaptor T Compare) (hswo : StrictWeakOrdering a.comp) (hs : a.I1)
    (v : T) (p inside : T → Bool) (outside : Bool)
    (hin : ∀ x, a.equivalent x v = true → p x = inside x)
    (hout : ∀ x, a.equivalent x v = false → p x = outside) :
    a.c.filter p =
      (if outside then a.c.take (a.equal_range 0 (Nat.zero_le _) v).1 else []) ++
        ((a.c.take (a.equal_range 0 (Nat.zero_le _) v).2).drop
          (a.equal_range 0 (Nat.zero_le _) v).1).filter inside ++
        (if outside then a.c.drop (a.equal_range 0 (Nat.zero_le _) v).2 else []) := by
  obtain ⟨-, h12, -, -⟩ := equal_range_spec a hswo hs 0 (Nat.zero_le _) v
  obtain ⟨hp1, hp2, hp3⟩ := range_parts a hswo hs v
  generalize (a.equal_range 0 (Nat.zero_le _) v).1 = r1 at h12 hp1 hp2 ⊢
  generalize (a.equal_range 0 (Nat.zero_le _) v).2 = r2 at h12 hp2 hp3 ⊢
  conv_lhs => rw [split_at_range a.c r1 r2 h12]
  rw [List.filter_append, List.filter_append]
  have e1 : (a.c.take r1).filter p = if outside then a.c.take r1 else [] := by
    cases outside with
    | true =>
      simp only [if_true]
      exact List.filter_eq_self.2 (fun x hx => hout x (hp1 x hx))
    | false =>
      simp only [Bool.false_eq_true, if_false]
      exact List.filter_eq_nil_iff.2 (fun x hx => by rw [hout x (hp1 x hx)]; decide)
  have e3 : (a.c.drop r2).filter p = if outside then a.c.drop r2 else [] := by
    cases outside with
    | true =>
      simp only [if_true]
      exact List.filter_eq_self.2 (fun x hx => hout x (hp3 x hx))
    | false =>
      simp only [Bool.false_eq_true, if_false]
      exact List.filter_eq_nil_iff.2 (fun x hx => by rw [hout x (hp3 x hx)]; decide)
  have e2 : ((a.c.take r2).drop r1).filter p = ((a.c.take r2).drop r1).filter inside :=
    List.filter_congr (fun x hx => hin x (hp2 x hx))
  rw [e1, e2, e3]

end sorted_sequence


namespace sorted_sequence

variable {T Compare : Type} [CompareConcept Compare T]

theorem segment_eq {X : Type} (l : List X) (r1 r2 : Nat) (h12 : r1 ≤ r2) :
    (l.drop r1).take (r2 - r1) = (l.take r2).drop r1 := by
  rw [List.take_drop]
  congr 2
  omega

/-- What `count` and `contains` compute on a sorted adaptor, in terms of the equal range. -/
theorem count_contains_spec [DecidableEq T] (a : adaptor T Compare)
    (hswo : StrictWeakOrdering a.comp) (hs : a.I1) (v : T) :
    a.count v = some (((a.c.take (a.equal_range 0 (Nat.zero_le _) v).2).drop
        (a.equal_range 0 (Nat.zero_le _) v).1).filter (fun x => decide (x = v))).length ∧
      a.contains v = some (decide (0 < (((a.c.take (a.equal_range 0 (Nat.zero_le _) v).2).drop
        (a.equal_range 0 (Nat.zero_le _) v).1).filter (fun x => decide (x = v))).length)) := by
  obtain ⟨-, h12, h2n, -⟩ := equal_range_spec a hswo hs 0 (Nat.zero_le _) v
  unfold adaptor.count adaptor.contains
  dsimp only
  generalize (a.equal_range 0 (Nat.zero_le _) v).1 = r1 at h12 ⊢
  generalize (a.equal_range 0 (Nat.zero_le _) v).2 = r2 at h12 h2n ⊢
  constructor
  · rw [std_count_spec a.c v (r2 - r1) r1 0 (by omega), segment_eq _ _ _ h12, Nat.zero_add]
  · obtain ⟨it, hf1, hf2, hf3, hf4, hf5⟩ := std_find_spec a.c v (r2 - r1) r1 (by omega)
    simp only [hf1, Option.bind_eq_bind, Option.some_bind, pure, Option.some.injEq]
    have hlast : r1 + (r2 - r1) = r2 := by omega
    rw [hlast] at hf3 hf5
    by_cases hit : it = r2
    · subst hit
      have hnil : ((a.c.take it).drop r1).filter (fun x => decide (x = v)) = [] := by
        apply List.filter_eq_nil_iff.2
        intro x hx
        obtain ⟨i, hi, h1, h2, rfl⟩ := (mem_segment_get h2n).1 hx
        simpa using hf4 i hi h1 h2
      rw [hnil]
      simp
    · have hmem : v ∈ ((a.c.take r2).drop r1).filter (fun x => decide (x = v)) := by
        rw [List.mem_filter]
        refine ⟨(mem_segment_get h2n).2 ⟨it, by omega, hf2, by omega, ?_⟩, by simp⟩
        have := hf5 (by omega)
        rw [List.getElem?_eq_getElem (by omega)] at this
        exact Option.some.inj this
      have hpos := List.length_pos_of_mem hmem
      simp [hit, hpos]

/-- C17: on a sorted adaptor `count(v)` is the number of positions of the comparator
equal-range of `v` whose element is `== v`, which is the number of elements of the sequence that
are equivalent to `v` and `== v`; `contains(v)` is true exactly when `count(v) > 0`; and when
every element `== v` is equivalent to `v`, `count(v)` is the number of elements of the whole
sequence that are `== v`. -/
theorem C17_count_contains [DecidableEq T] (a : adaptor T Compare)
    (hswo : StrictWeakOrdering a.comp) (hs : a.I1) (v : T) :
    ∃ (first last n : Nat), a.range v = ((first : Int), (last : Int)) ∧
      a.count v = some n ∧
      n = (((a.c.take last).drop first).filter (fun x => decide (x = v))).length ∧
      n = (a.c.filter (fun x => a.equivalent x v && decide (x = v))).length ∧
      a.contains v = some (decide (0 < n)) ∧
      ((∀ x ∈ a.c, x = v → a.equivalent x v = true) →
        n = (a.c.filter (fun x => decide (x = v))).length) := by
  obtain ⟨hc1, hc2⟩ := count_contains_spec a hswo hs v
  have hfil := filter_by_range a hswo hs v (fun x => a.equivalent x v && decide (x = v))
    (fun x => decide (x = v)) false (fun x hx => by simp [hx]) (fun x hx => by simp [hx])
  simp only [Bool.false_eq_true, if_false, List.nil_append, List.append_nil] at hfil
  refine ⟨_, _, _, range_eq a v, hc1, rfl, by rw [hfil], hc2, fun hall => ?_⟩
  rw [← hfil]
  congr 1
  apply List.filter_congr
  intro x hx
  by_cases hxv : x = v
  · have := hall x hx hxv
    subst hxv
    simp [this]
  · simp [hxv]

/-- Witness for C17 on `[1,1,3,4,5]`: `count(1)` is 2 and `contains(1)` is true. -/
theorem C17_count_contains_witness :
    StrictWeakOrdering exampleAdaptor.comp ∧ exampleAdaptor.I1 ∧
      exampleAdaptor.count 1 = some 2 ∧ exampleAdaptor.contains 1 = some true ∧
      ∃ (first last n : Nat), exampleAdaptor.range 1 = ((first : Int), (last : Int)) ∧
        exampleAdaptor.count 1 = some n ∧
        n = (((exampleAdaptor.c.take last).drop first).filter
          (fun x => decide (x = 1))).length ∧
        n = (exampleAdaptor.c.filter
          (fun x => exampleAdaptor.equivalent x 1 && decide (x = 1))).length ∧
        exampleAdaptor.contains 1 = some (decide (0 < n)) ∧
        ((∀ x ∈ exampleAdaptor.c, x = 1 → exampleAdaptor.equivalent x 1 = true) →
          n = (exampleAdaptor.c.filter (fun x => decide (x = 1))).length) :=
  ⟨default_compare_strictWeakOrdering _, by decide, by decide, by decide,
    C17_count_contains exampleAdaptor (default_compare_strictWeakOrdering _) (by decide) 1⟩

end sorted_sequence


namespace sorted_sequence

variable {T Compare : Type} [CompareConcept Compare T]

/-- The result of `removeAll` for an argument outside the container, when assigning an element
to itself keeps its value: on a sorted adaptor with sequence `S`, `removeAll(v)` returns the
number of elements of the comparator equal-range `[first, last)` of `v` that are `== v`, and
leaves `S[0..first)`, then the elements of the range that are not `== v`, then `S[last..)`: that
is `S` without exactly the elements that are equivalent to `v` and `== v`, every other element
being kept once and in its place; the size drops by the returned count and the comparator
stays. -/
theorem removeAll_object_result [DecidableEq T] [MoveConcept T] (a : adaptor T Compare)
    (hswo : StrictWeakOrdering a.comp) (hs : a.I1)
    (hself : ∀ x : T, MoveConcept.self_moved x = x) (v : T) :
    ∃ (first last count : Nat) (a1 : adaptor T Compare),
      a.range v = ((first : Int), (last : Int)) ∧
      a.removeAll (const_ref.object v) = some ((count : Int), a1) ∧
      count = (((a.c.take last).drop first).filter (fun x => decide (x = v))).length ∧
      a1.d = a.d ∧
      a1.c = a.c.take first ++
        ((a.c.take last).drop first).filter (fun x => decide (x ≠ v)) ++ a.c.drop last ∧
      a1.c = a.c.filter (fun x => !(a.equivalent x v && decide (x = v))) ∧
      a1.size + count = a.size := by
  have hspec := removeAll_spec a hswo hs hself v
  have hfil := filter_by_range a hswo hs v
    (fun x => !(a.equivalent x v && decide (x = v))) (fun x => decide (x ≠ v)) true
    (fun x hx => by simp [hx]) (fun x hx => by simp [hx])
  simp only [if_true] at hfil
  obtain ⟨-, h12, h2n, -⟩ := equal_range_spec a hswo hs 0 (Nat.zero_le _) v
  refine ⟨_, _, _, _, range_eq a v, hspec, rfl, rfl, rfl, hfil.symm, ?_⟩
  generalize (a.equal_range 0 (Nat.zero_le _) v).1 = r1 at h12 ⊢
  generalize (a.equal_range 0 (Nat.zero_le _) v).2 = r2 at h12 h2n ⊢
  have h1 := @List.length_eq_length_filter_add _ ((a.c.take r2).drop r1)
    (fun x => decide (x = v))
  have h2 : ((a.c.take r2).drop r1).filter (fun x => !decide (x = v)) =
      ((a.c.take r2).drop r1).filter (fun x => decide (x ≠ v)) := by
    apply List.filter_congr
    intro x _
    simp
  rw [h2] at h1
  simp only [List.length_drop, List.length_take] at h1
  simp only [adaptor.size, List.length_append, List.length_take, List.length_drop]
  omega

/-- What `indexOf` returns on a sorted adaptor: `-1` when no element of the equal range (taken
from the start of the search on) is `== value`, and otherwise the offset of `range.first`, the
first element of that equal range, whether or not it is the one that is `== value`. -/
theorem indexOf_spec [DecidableEq T] (a : adaptor T Compare)
    (hswo : StrictWeakOrdering a.comp) (hs : a.I1) (v : T) (from_ : Int) :
    a.indexOf v from_ = some
      (if v ∈ (a.c.take (a.equal_range (max 0 (min from_ (a.c.length : Int))).toNat
            (by omega) v).2).drop
          (a.equal_range (max 0 (min from_ (a.c.length : Int))).toNat (by omega) v).1
        then ((a.equal_range (max 0 (min from_ (a.c.length : Int))).toNat (by omega) v).1 : Int)
        else -1) := by
  have hstart : (max 0 (min from_ (a.c.length : Int))).toNat ≤ a.c.length := by omega
  obtain ⟨-, h12, h2n, -⟩ := equal_range_spec a hswo hs _ hstart v
  unfold adaptor.indexOf
  dsimp only
  obtain ⟨it, hf1, hf2, hf3, hf4, hf5⟩ := std_find_spec a.c v
    ((a.equal_range _ hstart v).2 - (a.equal_range _ hstart v).1)
    (a.equal_range _ hstart v).1 (by omega)
  simp only [hf1, Option.bind_eq_bind, Option.some_bind, pure, Option.some.injEq]
  have hlast : (a.equal_range _ hstart v).1 +
      ((a.equal_range _ hstart v).2 - (a.equal_range _ hstart v).1) =
      (a.equal_range _ hstart v).2 := by omega
  rw [hlast] at hf3 hf5
  by_cases hit : it = (a.equal_range _ hstart v).2
  · rw [if_pos hit, if_neg]
    intro hmem
    obtain ⟨i, hi, h1, h2, hiv⟩ := (mem_segment_get h2n).1 hmem
    exact hf4 i hi h1 (by omega) hiv
  · rw [if_neg hit, if_pos]
    refine (mem_segment_get h2n).2 ⟨it, by omega, hf2, by omega, ?_⟩
    have := hf5 (by omega)
    rw [List.getElem?_eq_getElem (by omega)] at this
    exact Option.some.inj this

/-- C13 (failing input): on the sorted bag `[(1,0), (1,1)]`, whose comparator looks at the first
component only, `indexOf((1,1))` returns 0, the start of the equal range, although `at(0)` is
`(1,0)` and the first index holding `(1,1)` is 1 (which `lastIndexOf` does return).  On
`[2,3,4,5]` under integer order `indexOf(4)` is 2. -/
theorem C13_indexOf_returns_range_start :
    StrictWeakOrdering examplePairs.comp ∧ examplePairs.I1 ∧
      examplePairs.c = [(1, 0), (1, 1)] ∧
      examplePairs.indexOf (1, 1) 0 = some 0 ∧
      examplePairs.at_ 0 = some (1, 0) ∧ examplePairs.at_ 1 = some (1, 1) ∧
      examplePairs.lastIndexOf (1, 1) (-1) = some 1 ∧
      exampleAdaptor4.indexOf 4 0 = some 2 :=
  ⟨byFirst_strictWeakOrdering, by decide, by decide, by decide, by decide, by decide,
    by decide, by decide⟩

end sorted_sequence


namespace sorted_sequence

variable {T Compare : Type} [CompareConcept Compare T]

/-! ## Stability -/

theorem stable_insert_of_le {X : Type} (comp : X → X → Bool) (x : X) (l : List X)
    (h : ∀ z ∈ l, comp z x = false) : stable_insert comp x l = x :: l := by
  cases l with
  | nil => rfl
  | cons y l =>
    simp only [stable_insert]
    rw [if_neg]
    rw [h y (List.mem_cons_self _ _)]
    decide

theorem stable_sort_of_sorted {X : Type} (comp : X → X → Bool) (l : List X)
    (h : List.Pairwise (fun prev next => comp next prev = false) l) :
    stable_sort comp l = l := by
  induction l with
  | nil => rfl
  | cons x l ih =>
    rw [List.pairwise_cons] at h
    simp only [stable_sort]
    rw [ih h.2]
    exact stable_insert_of_le comp x l h.1

theorem merge_nil_right {X : Type} (comp : X → X → Bool) (l : List X) :
    merge comp l [] = l := by
  induction l with
  | nil => rfl
  | cons x l ih => simp only [merge, merge.mergeInto, ih]

theorem merge_cons_cons {X : Type} (comp : X → X → Bool) (x y : X) (l1 l2 : List X) :
    merge comp (x :: l1) (y :: l2) =
      if comp y x then y :: merge comp (x :: l1) l2 else x :: merge comp l1 (y :: l2) := by
  simp only [merge, merge.mergeInto]

/-- An element of the second range that is less than everything in the first range comes
first. -/
theorem merge_cons_right_lt {X : Type} (comp : X → X → Bool) (y : X) (l1 l2 : List X)
    (h : ∀ z ∈ l1, comp y z = true) : merge comp l1 (y :: l2) = y :: merge comp l1 l2 := by
  cases l1 with
  | nil => rfl
  | cons z l1 =>
    rw [merge_cons_cons, if_pos (h z (List.mem_cons_self _ _))]

theorem stable_insert_merge {X : Type} {comp : X → X → Bool} (hswo : StrictWeakOrdering comp)
    (x : X) (l1 : List X) (hl1 : List.Pairwise (fun prev next => comp next prev = false) l1)
    (hx : ∀ z ∈ l1, comp z x = false) :
    ∀ l2, List.Pairwise (fun prev next => comp next prev = false) l2 →
      stable_insert comp x (merge comp l1 l2) = merge comp (x :: l1) l2 := by
  intro l2
  induction l2 with
  | nil =>
    intro _
    rw [merge_nil_right, merge_nil_right]
    exact stable_insert_of_le comp x l1 hx
  | cons y l2 ih =>
    intro hl2
    have hl2' := List.pairwise_cons.1 hl2
    rw [merge_cons_cons]
    by_cases hyx : comp y x = true
    · rw [if_pos hyx]
      have hlt : ∀ z ∈ l1, comp y z = true := by
        intro z hz
        cases hyz : comp y z with
        | true => rfl
        | false =>
          have := hswo.neg_trans hyz (hx z hz)
          rw [hyx] at this
          exact absurd this (by decide)
      rw [merge_cons_right_lt comp y l1 l2 hlt]
      simp only [stable_insert]
      rw [if_pos hyx, ih hl2'.2]
    · rw [if_neg hyx]
      have hyx' : comp y x = false := by simpa using hyx
      apply stable_insert_of_le
      intro z hz
      have hz' := ((merge_spec hswo l1 hl1 (y :: l2) hl2).2).subset hz
      simp only [List.mem_append, List.mem_cons] at hz'
      rcases hz' with hz' | rfl | hz'
      · exact hx z hz'
      · exact hyx'
      · exact hswo.neg_trans (hl2'.1 z hz') hyx'

/-- Merging two sorted ranges is stably sorting their concatenation. -/
theorem merge_eq_stable_sort {X : Type} {comp : X → X → Bool} (hswo : StrictWeakOrdering comp)
    (l1 : List X) (hl1 : List.Pairwise (fun prev next => comp next prev = false) l1)
    (l2 : List X) (hl2 : List.Pairwise (fun prev next => comp next prev = false) l2) :
    merge comp l1 l2 = stable_sort comp (l1 ++ l2) := by
  induction l1 with
  | nil =>
    simp only [merge, List.nil_append]
    exact (stable_sort_of_sorted comp l2 hl2).symm
  | cons x l1 ih =>
    have hl1' := List.pairwise_cons.1 hl1
    have hsort : stable_sort comp (x :: l1 ++ l2) =
        stable_insert comp x (stable_sort comp (l1 ++ l2)) := rfl
    rw [hsort, ← ih hl1'.2]
    exact (stable_insert_merge hswo x l1 hl1'.2 hl1'.1 l2 hl2).symm

theorem stable_insert_filter {X : Type} (comp : X → X → Bool) (p : X → Bool) (x : X)
    (hp : p x = true → ∀ y, comp y x = true → p y = false) (l : List X) :
    (stable_insert comp x l).filter p = (x :: l).filter p := by
  induction l with
  | nil => rfl
  | cons y l ih =>
    simp only [stable_insert]
    split
    · rename_i hyx
      rw [List.filter_cons, ih]
      by_cases hpx : p x = true
      · have hpy := hp hpx y hyx
        simp [List.filter_cons, hpx, hpy]
      · have hpx' : p x = false := by simpa using hpx
        simp [List.filter_cons, hpx']
    · rfl

/-- A stable sort leaves the elements of one equivalence class in the order they had. -/
theorem stable_sort_filter {X : Type} (comp : X → X → Bool) (p : X → Bool)
    (hp : ∀ x, p x = true → ∀ y, comp y x = true → p y = false) (l : List X) :
    (stable_sort comp l).filter p = l.filter p := by
  induction l with
  | nil => rfl
  | cons x l ih =>
    simp only [stable_sort]
    rw [stable_insert_filter comp p x (hp x), List.filter_cons, List.filter_cons, ih]

theorem equivalent_class {X : Type} {comp : X → X → Bool} (hswo : StrictWeakOrdering comp)
    (v x : X) (hx : (!comp x v && !comp v x) = true) (y : X) (hyx : comp y x = true) :
    (!comp y v && !comp v y) = false := by
  simp only [Bool.and_eq_true, Bool.not_eq_true'] at hx
  cases hy : (!comp y v && !comp v y) with
  | false => rfl
  | true =>
    simp only [Bool.and_eq_true, Bool.not_eq_true'] at hy
    have := (hswo.incomp_trans y v x hy.1 hy.2 hx.2 hx.1).1
    rw [hyx] at this
    exact absurd this (by decide)

end sorted_sequence


namespace sorted_sequence

variable {T Compare : Type} [CompareConcept Compare T]

theorem merge_of_equal [Inhabited Compare] (l1 l2 : adaptor T Compare)
    (hne : CompareConcept.ne l1.d l2.d = false) :
    adaptor.merge l1 l2 = { d := l1.d, c := merge l1.comp l1.c l2.c } := by
  unfold adaptor.merge
  rw [if_neg (by simp [hne])]
  rfl

theorem merge_of_unequal [Inhabited Compare] (l1 l2 : adaptor T Compare)
    (hne : CompareConcept.ne l1.d l2.d = true) :
    adaptor.merge l1 l2 = { d := default, c := [] } := by
  unfold adaptor.merge
  rw [if_pos hne]

/-- C19: for sorted adaptors `A` and `B` whose comparators are equal (`A.d != B.d` is false;
comparators that are equal order alike), `merge(A, B)` carries the comparator of `A`, is
sorted, holds exactly the elements of `A` and of `B` with multiplicity (its size is
`|A| + |B|`), and within every class of equivalent elements those of `A` come first, in their
order, followed by those of `B`, in their order: it is the stable sort of `A ++ B`. -/
theorem C19_merge_equal_comparators [Inhabited Compare] (A B : adaptor T Compare)
    (hswo : StrictWeakOrdering A.comp) (hA : A.I1) (hB : B.I1)
    (hne : CompareConcept.ne A.d B.d = false)
    (hlaw : CompareConcept.ne A.d B.d = false → B.comp = A.comp) :
    (adaptor.merge A B).d = A.d ∧ (adaptor.merge A B).I1 ∧
      (adaptor.merge A B).c.Perm (A.c ++ B.c) ∧
      (adaptor.merge A B).size = A.size + B.size ∧
      (∀ v, (adaptor.merge A B).c.filter (fun x => A.equivalent x v) =
        A.c.filter (fun x => A.equivalent x v) ++ B.c.filter (fun x => A.equivalent x v)) ∧
      (adaptor.merge A B).c = stable_sort A.comp (A.c ++ B.c) := by
  have hB' : List.Chain' (fun prev next => A.comp next prev = false) B.c := by
    rw [← hlaw hne]; exact hB
  have hpA := (chain_iff_pairwise hswo A.c).1 hA
  have hpB := (chain_iff_pairwise hswo B.c).1 hB'
  have hspec := merge_spec hswo A.c hpA B.c hpB
  have hstable := merge_eq_stable_sort hswo A.c hpA B.c hpB
  rw [merge_of_equal A B hne]
  refine ⟨rfl, (chain_iff_pairwise hswo _).2 hspec.1, hspec.2, ?_, fun v => ?_, hstable⟩
  · have := hspec.2.length_eq
    simpa [adaptor.size] using this
  · show (merge A.comp A.c B.c).filter (fun x => A.equivalent x v) = _
    rw [hstable]
    have := stable_sort_filter A.comp (fun x => A.equivalent x v)
      (fun x hx y hyx => equivalent_class hswo v x hx y hyx) (A.c ++ B.c)
    rw [this, List.filter_append]

/-- Witness for C19: `[1,1,3,4,5]` merged with `[2,3,4,5]` under integer order. -/
theorem C19_merge_equal_comparators_witness :
    StrictWeakOrdering exampleAdaptor.comp ∧ exampleAdaptor.I1 ∧ exampleAdaptor4.I1 ∧
      CompareConcept.ne exampleAdaptor.d exampleAdaptor4.d = false ∧
      (adaptor.merge exampleAdaptor exampleAdaptor4).c = [1, 1, 2, 3, 3, 4, 4, 5, 5] ∧
      (adaptor.merge exampleAdaptor exampleAdaptor4).I1 ∧
      (adaptor.merge exampleAdaptor exampleAdaptor4).size =
        exampleAdaptor.size + exampleAdaptor4.size :=
  ⟨default_compare_strictWeakOrdering _, by decide, by decide, by decide, by decide,
    (C19_merge_equal_comparators exampleAdaptor exampleAdaptor4
      (default_compare_strictWeakOrdering _) (by decide) (by decide) (by decide)
      (fun _ => rfl)).2.1,
    (C19_merge_equal_comparators exampleAdaptor exampleAdaptor4
      (default_compare_strictWeakOrdering _) (by decide) (by decide) (by decide)
      (fun _ => rfl)).2.2.2.1⟩

/-- C20: for adaptors `A` and `B` whose comparators are not equal (`A.d != B.d`), whatever they
contain, `merge(A, B)` is the default-constructed adaptor: size 0, with a default-constructed
comparator.  (`merge` takes `A` and `B` by const reference; as a function of the model it
cannot change them.) -/
theorem C20_merge_unequal_comparators [Inhabited Compare] (A B : adaptor T Compare)
    (hne : CompareConcept.ne A.d B.d = true) :
    adaptor.merge A B = { d := default, c := [] } ∧ (adaptor.merge A B).size = 0 ∧
      (adaptor.merge A B).c = [] ∧ (adaptor.merge A B).d = default := by
  rw [merge_of_unequal A B hne]
  exact ⟨rfl, rfl, rfl, rfl⟩

/-- Witness for C20: `[1,2,3]` sorted upwards merged with `[9,8]` sorted downwards. -/
theorem C20_merge_unequal_comparators_witness :
    CompareConcept.ne exampleUp.d exampleDown.d = true ∧
      exampleUp.c = [1, 2, 3] ∧ exampleDown.c = [9, 8] ∧
      (adaptor.merge exampleUp exampleDown).size = 0 ∧
      (adaptor.merge exampleUp exampleDown).d = default :=
  ⟨by decide, by decide, by decide,
    (C20_merge_unequal_comparators exampleUp exampleDown (by decide)).2.1,
    (C20_merge_unequal_comparators exampleUp exampleDown (by decide)).2.2.2⟩

end sorted_sequence


namespace sorted_sequence

theorem filter_class_cons_pos {X : Type} (comp : X → X → Bool) (v a : X) (l : List X)
    (h : (!comp a v && !comp v a) = true) :
    (a :: l).filter (fun x => !comp x v && !comp v x) =
      a :: l.filter (fun x => !comp x v && !comp v x) := by
  rw [List.filter_cons, if_pos h]

theorem filter_class_cons_neg {X : Type} (comp : X → X → Bool) (v a : X) (l : List X)
    (h : (!comp a v && !comp v a) = false) :
    (a :: l).filter (fun x => !comp x v && !comp v x) =
      l.filter (fun x => !comp x v && !comp v x) := by
  rw [List.filter_cons, if_neg (by simp only [h]; decide)]

/-- A sorted sequence is determined by its classes of equivalent elements: two sorted sequences
that list every class in the same order are equal. -/
theorem sorted_stable_unique {X : Type} {comp : X → X → Bool} (hswo : StrictWeakOrdering comp) :
    ∀ l l2 : List X, List.Pairwise (fun prev next => comp next prev = false) l →
      List.Pairwise (fun prev next => comp next prev = false) l2 →
      (∀ v, l.filter (fun x => !comp x v && !comp v x) =
        l2.filter (fun x => !comp x v && !comp v x)) →
      l = l2 := by
  have hrefl : ∀ x : X, (!comp x x && !comp x x) = true := fun x => by
    simp [hswo.irrefl x]
  intro l
  induction l with
  | nil =>
    intro l2 _ _ h
    cases l2 with
    | nil => rfl
    | cons y t2 =>
      have := h y
      rw [filter_class_cons_pos comp y y t2 (hrefl y)] at this
      exact absurd this (by simp)
  | cons x t ih =>
    intro l2 hl hl2 h
    cases l2 with
    | nil =>
      have := h x
      rw [filter_class_cons_pos comp x x t (hrefl x)] at this
      exact absurd this (by simp)
    | cons y t2 =>
      rw [List.pairwise_cons] at hl hl2
      have hyx : comp y x = false := by
        have hy : y ∈ (x :: t).filter (fun z => !comp z y && !comp y z) := by
          rw [h y, filter_class_cons_pos comp y y t2 (hrefl y)]
          exact List.mem_cons_self _ _
        have hy2 := (List.mem_filter.1 hy).1
        rcases List.mem_cons.1 hy2 with rfl | hyt
        · exact hswo.irrefl _
        · exact hl.1 y hyt
      have hxy : comp x y = false := by
        have hx : x ∈ (y :: t2).filter (fun z => !comp z x && !comp x z) := by
          rw [← h x, filter_class_cons_pos comp x x t (hrefl x)]
          exact List.mem_cons_self _ _
        have hx2 := (List.mem_filter.1 hx).1
        rcases List.mem_cons.1 hx2 with rfl | hxt
        · exact hswo.irrefl _
        · exact hl2.1 x hxt
      have hx := h x
      rw [filter_class_cons_pos comp x x t (hrefl x),
        filter_class_cons_pos comp x y t2 (by simp [hyx, hxy])] at hx
      have hxe : x = y := (List.cons.inj hx).1
      subst hxe
      have htail : ∀ v, t.filter (fun z => !comp z v && !comp v z) =
          t2.filter (fun z => !comp z v && !comp v z) := by
        intro v
        have hv := h v
        cases hc : (!comp x v && !comp v x) with
        | true =>
          rw [filter_class_cons_pos comp v x t hc, filter_class_cons_pos comp v x t2 hc] at hv
          exact (List.cons.inj hv).2
        | false =>
          rw [filter_class_cons_neg comp v x t hc, filter_class_cons_neg comp v x t2 hc] at hv
          exact hv
      rw [ih t2 hl.2 hl2.2 htail]

/-- The stable sort of `m` is the only sorted sequence that lists every class of equivalent
elements in the order `m` does. -/
theorem eq_stable_sort_of_filter {X : Type} {comp : X → X → Bool}
    (hswo : StrictWeakOrdering comp) (l m : List X)
    (hl : List.Pairwise (fun prev next => comp next prev = false) l)
    (h : ∀ v, l.filter (fun x => !comp x v && !comp v x) =
      m.filter (fun x => !comp x v && !comp v x)) :
    l = stable_sort comp m := by
  refine sorted_stable_unique hswo l _ hl ((chain_iff_pairwise hswo _).1
    (stable_sort_sorted hswo m)) (fun v => ?_)
  rw [h v, stable_sort_filter comp _ (fun x hx y hyx => equivalent_class hswo v x hx y hyx)]

theorem stable_sort_append_stable_sort {X : Type} {comp : X → X → Bool}
    (hswo : StrictWeakOrdering comp) (l1 l2 : List X) :
    stable_sort comp (l1 ++ stable_sort comp l2) = stable_sort comp (l1 ++ l2) := by
  refine eq_stable_sort_of_filter hswo _ _ ((chain_iff_pairwise hswo _).1
    (stable_sort_sorted hswo _)) (fun v => ?_)
  have hp := fun x hx y hyx => equivalent_class hswo v x hx y hyx
  rw [stable_sort_filter comp _ hp, List.filter_append, List.filter_append,
    stable_sort_filter comp _ hp]

theorem merge_sublist_left {X : Type} (comp : X → X → Bool) (l1 : List X) :
    ∀ l2 : List X, l1.Sublist (merge comp l1 l2) := by
  induction l1 with
  | nil => intro l2; exact List.nil_sublist _
  | cons x l1 ih =>
    intro l2
    induction l2 with
    | nil => rw [merge_nil_right]
    | cons y l2 ih2 =>
      rw [merge_cons_cons]
      split
      · exact List.Sublist.cons _ ih2
      · exact List.Sublist.cons₂ _ (ih _)

theorem merge_sublist_right {X : Type} (comp : X → X → Bool) (l1 : List X) :
    ∀ l2 : List X, l2.Sublist (merge comp l1 l2) := by
  induction l1 with
  | nil => intro l2; exact List.Sublist.refl _
  | cons x l1 ih =>
    intro l2
    induction l2 with
    | nil => exact List.nil_sublist _
    | cons y l2 ih2 =>
      rw [merge_cons_cons]
      split
      · exact List.Sublist.cons₂ _ ih2
      · exact List.Sublist.cons _ (ih _)

end sorted_sequence


namespace sorted_sequence

variable {T Compare : Type} [CompareConcept Compare T]

theorem stable_sort_class {X : Type} {comp : X → X → Bool} (hswo : StrictWeakOrdering comp)
    (l : List X) (v : X) :
    (stable_sort comp l).filter (fun x => !comp x v && !comp v x) =
      l.filter (fun x => !comp x v && !comp v x) :=
  stable_sort_filter comp _ (fun x hx y hyx => equivalent_class hswo v x hx y hyx) l

theorem appendAdaptor_of_equal (a other : adaptor T Compare)
    (heq : CompareConcept.eq other.d a.d = true) :
    a.appendAdaptor other = { d := a.d, c := merge a.comp a.c other.c } := by
  unfold adaptor.appendAdaptor
  split
  · rename_i hempty
    have hnil : other.c = [] := List.isEmpty_iff.1 hempty
    rw [hnil, merge_nil_right]
  · dsimp only
    rw [inplace_merge_whole]

theorem appendAdaptor_of_unequal (a other : adaptor T Compare)
    (hne : CompareConcept.eq other.d a.d = false) :
    a.appendAdaptor other = a.appendContainer other.c := by
  unfold adaptor.appendAdaptor
  split
  · rename_i hempty
    have hnil : other.c = [] := List.isEmpty_iff.1 hempty
    rw [hnil, appendContainer_eq]
    show a = { d := a.d, c := merge a.comp a.c [] }
    rw [merge_nil_right]
  · rw [if_neg (by simp [hne])]

theorem appendContainer_stable (a : adaptor T Compare) (hswo : StrictWeakOrdering a.comp)
    (hs : a.I1) (container : List T) :
    a.appendContainer container = { d := a.d, c := stable_sort a.comp (a.c ++ container) } := by
  rw [appendContainer_eq]
  have hp := (chain_iff_pairwise hswo a.c).1 hs
  have hq := (chain_iff_pairwise hswo _).1 (stable_sort_sorted hswo container)
  rw [merge_eq_stable_sort hswo a.c hp _ hq, stable_sort_append_stable_sort hswo]

end sorted_sequence


namespace sorted_sequence

variable {T Compare : Type} [CompareConcept Compare T]

/-- C21: for sorted adaptors `A` and `B` whose comparators are equal (`B.d == A.d`; comparators
that are equal order alike), `A << B` keeps the comparator of `A`, leaves `A` sorted, holding
exactly the prior elements of `A` and the elements of `B` with multiplicity; within every class of
equivalent elements those of `A` come first, followed by those of `B`; the prior sequence of `A`
and the sequence of `B` both are subsequences of the result (each side keeps its relative
order), which is the stable sort of `A ++ B`; and `A` is unchanged when `B` is empty.  (`B` is
taken by const reference: the function of the model returns the new `A` only.) -/
theorem C21_append_adaptor_equal_comparators (A B : adaptor T Compare)
    (hswo : StrictWeakOrdering A.comp) (hA : A.I1) (hB : B.I1)
    (heq : CompareConcept.eq B.d A.d = true)
    (hlaw : CompareConcept.eq B.d A.d = true → B.comp = A.comp) :
    (A.appendAdaptor B).d = A.d ∧ (A.appendAdaptor B).I1 ∧
      (A.appendAdaptor B).c.Perm (A.c ++ B.c) ∧
      (∀ v, (A.appendAdaptor B).c.filter (fun x => A.equivalent x v) =
        A.c.filter (fun x => A.equivalent x v) ++ B.c.filter (fun x => A.equivalent x v)) ∧
      A.c.Sublist (A.appendAdaptor B).c ∧ B.c.Sublist (A.appendAdaptor B).c ∧
      (A.appendAdaptor B).c = stable_sort A.comp (A.c ++ B.c) ∧
      (B.c = [] → A.appendAdaptor B = A) := by
  have hB2 : List.Chain' (fun prev next => A.comp next prev = false) B.c := by
    rw [← hlaw heq]; exact hB
  have hpA := (chain_iff_pairwise hswo A.c).1 hA
  have hpB := (chain_iff_pairwise hswo B.c).1 hB2
  have hspec := merge_spec hswo A.c hpA B.c hpB
  have hstable := merge_eq_stable_sort hswo A.c hpA B.c hpB
  rw [appendAdaptor_of_equal A B heq]
  refine ⟨rfl, (chain_iff_pairwise hswo _).2 hspec.1, hspec.2, fun v => ?_,
    merge_sublist_left _ _ _, merge_sublist_right _ _ _, hstable, fun hnil => ?_⟩
  · show (merge A.comp A.c B.c).filter (fun x => !A.comp x v && !A.comp v x) = _
    rw [hstable, stable_sort_class hswo, List.filter_append]
    rfl
  · rw [hnil, merge_nil_right]

/-- Witness for C21: `[1,1,3,4,5] << [2,3,4,5]` under integer order. -/
theorem C21_append_adaptor_equal_comparators_witness :
    StrictWeakOrdering exampleAdaptor.comp ∧ exampleAdaptor.I1 ∧ exampleAdaptor4.I1 ∧
      CompareConcept.eq exampleAdaptor4.d exampleAdaptor.d = true ∧
      (exampleAdaptor.appendAdaptor exampleAdaptor4).c = [1, 1, 2, 3, 3, 4, 4, 5, 5] ∧
      (exampleAdaptor.appendAdaptor exampleAdaptor4).I1 ∧
      exampleAdaptor4.c.Sublist (exampleAdaptor.appendAdaptor exampleAdaptor4).c :=
  ⟨default_compare_strictWeakOrdering _, by decide, by decide, by decide, by decide,
    (C21_append_adaptor_equal_comparators exampleAdaptor exampleAdaptor4
      (default_compare_strictWeakOrdering _) (by decide) (by decide) (by decide)
      (fun _ => rfl)).2.1,
    (C21_append_adaptor_equal_comparators exampleAdaptor exampleAdaptor4
      (default_compare_strictWeakOrdering _) (by decide) (by decide) (by decide)
      (fun _ => rfl)).2.2.2.2.2.1⟩

/-- C22: for a sorted adaptor `A` with sequence `S` and any sequence `C`, `A << C` leaves the
sequence of `A` equal to the stable sort, under the comparator of `A`, of `S ++ C`: it is
sorted, holds exactly the elements of `S` and `C` with multiplicity, and lists every class of
equivalent elements with those of `S` first, in their order, followed by those of `C`, in the
order they have in `C`.  The same holds for `A << B` with an adaptor `B` whose comparator is not
equal to the one of `A` (`B.d == A.d` is false), `C` being the sequence of `B`. -/
theorem C22_append_container_stable_sort (A : adaptor T Compare)
    (hswo : StrictWeakOrdering A.comp) (hA : A.I1) (C : List T) :
    (A.appendContainer C).d = A.d ∧
      (A.appendContainer C).c = stable_sort A.comp (A.c ++ C) ∧
      (A.appendContainer C).I1 ∧ (A.appendContainer C).c.Perm (A.c ++ C) ∧
      (∀ v, (A.appendContainer C).c.filter (fun x => A.equivalent x v) =
        A.c.filter (fun x => A.equivalent x v) ++ C.filter (fun x => A.equivalent x v)) ∧
      ∀ B : adaptor T Compare, CompareConcept.eq B.d A.d = false →
        A.appendAdaptor B = A.appendContainer B.c ∧
          (A.appendAdaptor B).c = stable_sort A.comp (A.c ++ B.c) := by
  have hall : ∀ C : List T, A.appendContainer C =
      { d := A.d, c := stable_sort A.comp (A.c ++ C) } := appendContainer_stable A hswo hA
  refine ⟨by rw [hall], by rw [hall], by rw [hall]; exact stable_sort_sorted hswo _,
    by rw [hall]; exact stable_sort_perm _ _, fun v => ?_, fun B hne => ?_⟩
  · rw [hall]
    show (stable_sort A.comp (A.c ++ C)).filter (fun x => !A.comp x v && !A.comp v x) = _
    rw [stable_sort_class hswo, List.filter_append]
    rfl
  · rw [appendAdaptor_of_unequal A B hne, hall]
    exact ⟨rfl, rfl⟩

/-- Witness for C22: `[1,1,3,4,5] << [9,2,7,2]` under integer order. -/
theorem C22_append_container_stable_sort_witness :
    StrictWeakOrdering exampleAdaptor.comp ∧ exampleAdaptor.I1 ∧
      (exampleAdaptor.appendContainer [9, 2, 7, 2]).c = [1, 1, 2, 2, 3, 4, 5, 7, 9] ∧
      (exampleAdaptor.appendContainer [9, 2, 7, 2]).c =
        stable_sort exampleAdaptor.comp (exampleAdaptor.c ++ [9, 2, 7, 2]) :=
  ⟨default_compare_strictWeakOrdering _, by decide, by decide,
    (C22_append_container_stable_sort exampleAdaptor (default_compare_strictWeakOrdering _)
      (by decide) [9, 2, 7, 2]).2.1⟩

/-- C23: construction.  For every sequence `L` and every comparator that is a strict weak
ordering, the adaptor constructed from `L` stores the comparator and holds a sorted permutation
of `L` that lists every class of equivalent elements in the order `L` does (the stable sort of
`L`, the only sequence with these properties); the adaptor constructed from a comparator alone
is empty. -/
theorem C23_construction_stable_sort (L : List T) (compare : Compare)
    (hswo : StrictWeakOrdering (CompareConcept.call compare)) :
    (adaptor.fromContainer L compare).d = compare ∧
      (adaptor.fromContainer L compare).I1 ∧
      (adaptor.fromContainer L compare).c.Perm L ∧
      (∀ v, (adaptor.fromContainer L compare).c.filter
          (fun x => (adaptor.fromContainer L compare).equivalent x v) =
        L.filter (fun x => (adaptor.fromContainer L compare).equivalent x v)) ∧
      (∀ l : List T,
        List.Chain' (fun prev next => CompareConcept.call compare next prev = false) l →
        (∀ v, l.filter (fun x => !CompareConcept.call compare x v &&
            !CompareConcept.call compare v x) =
          L.filter (fun x => !CompareConcept.call compare x v &&
            !CompareConcept.call compare v x)) →
        l = (adaptor.fromContainer L compare).c) ∧
      (adaptor.fromCompare compare : adaptor T Compare).c = [] ∧
      (adaptor.fromCompare compare : adaptor T Compare).size = 0 ∧
      (adaptor.fromCompare compare : adaptor T Compare).d = compare := by
  have hc : (adaptor.fromContainer L compare).c = stable_sort (CompareConcept.call compare) L := by
    unfold adaptor.fromContainer adaptor.sort
    exact sort_whole _ _
  refine ⟨rfl, fromContainer_sorted L compare hswo, ?_, fun v => ?_, fun l hl hf => ?_,
    rfl, rfl, rfl⟩
  · rw [hc]; exact stable_sort_perm _ _
  · rw [hc]
    exact stable_sort_class hswo L v
  · rw [hc]
    exact eq_stable_sort_of_filter hswo l L ((chain_iff_pairwise hswo l).1 hl) hf

/-- Witness for C23: `[5,3,1,4,1]` under ascending integer order gives `[1,1,3,4,5]`. -/
theorem C23_construction_stable_sort_witness :
    StrictWeakOrdering (CompareConcept.call ({} : default_compare Int)) ∧
      (adaptor.fromContainer [5, 3, 1, 4, 1] ({} : default_compare Int)).c = [1, 1, 3, 4, 5] ∧
      (adaptor.fromContainer [5, 3, 1, 4, 1] ({} : default_compare Int)).I1 ∧
      (adaptor.fromContainer [5, 3, 1, 4, 1] ({} : default_compare Int)).c.Perm
        [5, 3, 1, 4, 1] :=
  ⟨default_compare_strictWeakOrdering exampleAdaptor, by decide,
    (C23_construction_stable_sort [5, 3, 1, 4, 1] ({} : default_compare Int)
      (default_compare_strictWeakOrdering exampleAdaptor)).2.1,
    (C23_construction_stable_sort [5, 3, 1, 4, 1] ({} : default_compare Int)
      (default_compare_strictWeakOrdering exampleAdaptor)).2.2.1⟩

end sorted_sequence


namespace sorted_sequence

variable {T Compare : Type} [CompareConcept Compare T]

theorem std_equal_iff {X : Type} [BEq X] (l1 : List X) :
    ∀ l2 : List X, l1.length = l2.length →
      (std_equal l1 l2 = true ↔
        ∀ i (h1 : i < l1.length) (h2 : i < l2.length),
          (l1.get ⟨i, h1⟩ == l2.get ⟨i, h2⟩) = true) := by
  induction l1 with
  | nil =>
    intro l2 _
    simp [std_equal]
  | cons x l1 ih =>
    intro l2 hlen
    cases l2 with
    | nil => simp at hlen
    | cons y l2 =>
      have hlen2 : l1.length = l2.length := by simpa using hlen
      simp only [std_equal]
      constructor
      · intro h i h1 h2
        cases hxy : (x == y) with
        | false => simp [hxy] at h
        | true =>
          simp only [hxy, Bool.not_true, Bool.false_eq_true, if_false] at h
          cases i with
          | zero => exact hxy
          | succ i =>
            exact (ih l2 hlen2).1 h i (by simpa using h1) (by simpa using h2)
      · intro h
        have h0 := h 0 (by simp) (by simp)
        simp only [List.get_eq_getElem, List.getElem_cons_zero] at h0
        simp only [h0, Bool.not_true, Bool.false_eq_true, if_false]
        exact (ih l2 hlen2).2 (fun i h1 h2 => by
          have := h (i + 1) (by simpa using h1) (by simpa using h2)
          simpa using this)

theorem container_eq_iff {X : Type} [BEq X] (l1 l2 : List X) :
    container_eq l1 l2 = true ↔
      l1.length = l2.length ∧
        ∀ i (h1 : i < l1.length) (h2 : i < l2.length),
          (l1.get ⟨i, h1⟩ == l2.get ⟨i, h2⟩) = true := by
  unfold container_eq
  rw [Bool.and_eq_true, beq_iff_eq]
  constructor
  · rintro ⟨hlen, h⟩
    exact ⟨hlen, (std_equal_iff l1 l2 hlen).1 h⟩
  · rintro ⟨hlen, h⟩
    exact ⟨hlen, (std_equal_iff l1 l2 hlen).2 h⟩

/-- C24: for adaptors `A` and `B` of the same type, `A == B` is true exactly when the
comparator of `A` equals the comparator of `B` (by the `operator==` of the comparator type) and
the two element sequences have the same length and are `==` element by element (by the
`operator==` of the element type); `A != B` is the negation of `A == B`. -/
theorem C24_adaptor_equality [BEq T] (A B : adaptor T Compare) :
    (A.eq B = true ↔
      CompareConcept.eq A.d B.d = true ∧ A.c.length = B.c.length ∧
        ∀ i (h1 : i < A.c.length) (h2 : i < B.c.length),
          (A.c.get ⟨i, h1⟩ == B.c.get ⟨i, h2⟩) = true) ∧
      A.ne B = !A.eq B ∧ (A.ne B = true ↔ A.eq B = false) := by
  refine ⟨?_, rfl, ?_⟩
  · unfold adaptor.eq
    rw [Bool.and_eq_true, container_eq_iff]
  · unfold adaptor.ne
    cases A.eq B <;> simp

/-- Witness for C24: `[1,1,3,4,5]` equals itself and differs from `[2,3,4,5]` under the same
comparator type; two bags with the same elements and different comparators differ. -/
theorem C24_adaptor_equality_witness :
    exampleAdaptor.eq exampleAdaptor = true ∧ exampleAdaptor.eq exampleAdaptor4 = false ∧
      exampleAdaptor.ne exampleAdaptor4 = true ∧
      (adaptor.fromContainer [1, 2] ascending).eq
        (adaptor.fromContainer [1, 2] { m_f := { address := 5, target := ascending.m_f.target } })
        = false ∧
      (exampleAdaptor.ne exampleAdaptor = true ↔ exampleAdaptor.eq exampleAdaptor = false) :=
  ⟨by decide, by decide, by decide, by decide,
    (C24_adaptor_equality exampleAdaptor exampleAdaptor).2.2⟩

end sorted_sequence


namespace sorted_sequence

variable {T : Type}

theorem construct_spec (heap : free_store (T → T → Bool)) (g : T → T → Bool) :
    lambda_compare.construct heap (some g) =
      some ({ objects := heap.objects ++ [g] },
        { m_f := { address := heap.objects.length, target := g } }) := rfl

theorem pointsInto_lt {X : Type} (p : shared_ptr X) (heap : free_store X)
    (h : p.pointsInto heap) : p.address < heap.objects.length := by
  unfold shared_ptr.pointsInto at h
  rw [List.get?_eq_some] at h
  exact h.1

theorem pointsInto_make_shared {X : Type} (p : shared_ptr X) (heap : free_store X) (x : X)
    (h : p.pointsInto heap) : p.pointsInto (make_shared heap x).1 := by
  have hlt := pointsInto_lt p heap h
  unfold shared_ptr.pointsInto at h ⊢
  unfold make_shared
  simp only [List.get?_eq_getElem?] at h ⊢
  rw [List.getElem?_append_left hlt]
  exact h

theorem make_shared_pointsInto {X : Type} (heap : free_store X) (x : X) :
    (make_shared heap x).2.pointsInto (make_shared heap x).1 := by
  unfold shared_ptr.pointsInto make_shared
  simp

/-- C25: the equality of `lambda_compare` is identity-based.  Two values compare equal exactly
when their pointers hold the same address (the same predicate object); a copy equals its
original; a value built by a constructor call is unequal to every value that existed before the
call, so two values built by separate constructor calls are unequal, also when built from the
same function; equality is reflexive, symmetric and transitive; `operator!=` is the negation of
`operator==`; and equal values that point into the same store return the same result on every
pair of arguments.  A constructor call keeps the existing values valid and builds a valid
value. -/
theorem C25_lambda_compare_identity :
    (∀ f g : lambda_compare T,
      CompareConcept.eq f g = true ↔ f.m_f.address = g.m_f.address) ∧
    (∀ f : lambda_compare T,
      CompareConcept.eq f.copy f = true ∧ CompareConcept.eq f f.copy = true) ∧
    (∀ (heap : free_store (T → T → Bool)) (g : lambda_compare T) (f : Option (T → T → Bool))
        (heap1 : free_store (T → T → Bool)) (b : lambda_compare T),
      g.m_f.pointsInto heap → lambda_compare.construct heap f = some (heap1, b) →
        CompareConcept.eq g b = false ∧ CompareConcept.eq b g = false ∧
          g.m_f.pointsInto heap1 ∧ b.m_f.pointsInto heap1) ∧
    (∀ (heap heap1 heap2 : free_store (T → T → Bool)) (f : Option (T → T → Bool))
        (a b : lambda_compare T),
      lambda_compare.construct heap f = some (heap1, a) →
        lambda_compare.construct heap1 f = some (heap2, b) →
          CompareConcept.eq a b = false ∧ CompareConcept.ne a b = true) ∧
    (∀ f : lambda_compare T, CompareConcept.eq f f = true) ∧
    (∀ f g : lambda_compare T, CompareConcept.eq f g = CompareConcept.eq g f) ∧
    (∀ f g h : lambda_compare T, CompareConcept.eq f g = true → CompareConcept.eq g h = true →
      CompareConcept.eq f h = true) ∧
    (∀ f g : lambda_compare T, CompareConcept.ne f g = !CompareConcept.eq f g) ∧
    (∀ (heap : free_store (T → T → Bool)) (f g : lambda_compare T),
      f.m_f.pointsInto heap → g.m_f.pointsInto heap → CompareConcept.eq f g = true →
        ∀ x y, CompareConcept.call f x y = CompareConcept.call g x y) := by
  have hfresh : ∀ (heap : free_store (T → T → Bool)) (g : lambda_compare T)
      (f : Option (T → T → Bool)) (heap1 : free_store (T → T → Bool)) (b : lambda_compare T),
      g.m_f.pointsInto heap → lambda_compare.construct heap f = some (heap1, b) →
        CompareConcept.eq g b = false ∧ CompareConcept.eq b g = false ∧
          g.m_f.pointsInto heap1 ∧ b.m_f.pointsInto heap1 := by
    intro heap g f heap1 b hg hc
    cases f with
    | none => exact absurd hc (by simp [lambda_compare.construct])
    | some fn =>
      rw [construct_spec] at hc
      simp only [Option.some.injEq, Prod.mk.injEq] at hc
      obtain ⟨rfl, rfl⟩ := hc
      have hlt := pointsInto_lt _ _ hg
      refine ⟨?_, ?_, pointsInto_make_shared _ heap fn hg, make_shared_pointsInto heap fn⟩
      · show decide (g.m_f.address = heap.objects.length) = false
        exact decide_eq_false (by omega)
      · show decide (heap.objects.length = g.m_f.address) = false
        exact decide_eq_false (by omega)
  refine ⟨fun f g => ?_, fun f => ⟨?_, ?_⟩, hfresh, ?_, fun f => ?_, fun f g => ?_,
    fun f g h hfg hgh => ?_, fun f g => rfl, ?_⟩
  · show decide (f.m_f.address = g.m_f.address) = true ↔ _
    exact decide_eq_true_iff
  · show decide (f.copy.m_f.address = f.m_f.address) = true
    exact decide_eq_true rfl
  · show decide (f.m_f.address = f.copy.m_f.address) = true
    exact decide_eq_true rfl
  · intro heap heap1 heap2 f a b ha hb
    cases f with
    | none => exact absurd ha (by simp [lambda_compare.construct])
    | some fn =>
      have ha2 : a.m_f.pointsInto heap1 := by
        rw [construct_spec] at ha
        simp only [Option.some.injEq, Prod.mk.injEq] at ha
        obtain ⟨rfl, rfl⟩ := ha
        exact make_shared_pointsInto heap fn
      have h := (hfresh heap1 a (some fn) heap2 b ha2 hb).1
      refine ⟨h, ?_⟩
      show (!CompareConcept.eq a b) = true
      rw [h]; rfl
  · show decide (f.m_f.address = f.m_f.address) = true
    exact decide_eq_true rfl
  · show decide (f.m_f.address = g.m_f.address) = decide (g.m_f.address = f.m_f.address)
    exact decide_eq_decide.2 eq_comm
  · have h1 : f.m_f.address = g.m_f.address := of_decide_eq_true hfg
    have h2 : g.m_f.address = h.m_f.address := of_decide_eq_true hgh
    show decide (f.m_f.address = h.m_f.address) = true
    exact decide_eq_true (h1.trans h2)
  · intro heap f g hf hg hfg x y
    have h1 : f.m_f.address = g.m_f.address := of_decide_eq_true hfg
    unfold shared_ptr.pointsInto at hf hg
    rw [h1, hg] at hf
    have h2 : g.m_f.target = f.m_f.target := Option.some.inj hf
    show f.m_f.target x y = g.m_f.target x y
    rw [h2]

/-- Witness for C25: two `lambda_compare` values built one after the other from the same
function in an empty store have the addresses 0 and 1; they are unequal, and a value equals its
copy. -/
theorem C25_lambda_compare_identity_witness :
    lambda_compare.construct emptyStore (some ascending.m_f.target) =
        some ({ objects := [ascending.m_f.target] },
          { m_f := { address := 0, target := ascending.m_f.target } }) ∧
      lambda_compare.construct { objects := [ascending.m_f.target] }
          (some ascending.m_f.target) =
        some ({ objects := [ascending.m_f.target, ascending.m_f.target] },
          { m_f := { address := 1, target := ascending.m_f.target } }) ∧
      CompareConcept.eq
          ({ m_f := { address := 0, target := ascending.m_f.target } } : lambda_compare Int)
          { m_f := { address := 1, target := ascending.m_f.target } } = false ∧
      CompareConcept.ne
          ({ m_f := { address := 0, target := ascending.m_f.target } } : lambda_compare Int)
          { m_f := { address := 1, target := ascending.m_f.target } } = true ∧
      CompareConcept.eq ascending.copy ascending = true ∧
      CompareConcept.eq ascending descending = false :=
  ⟨rfl, rfl,
    ((@C25_lambda_compare_identity Int).2.2.2.1 emptyStore _ _ (some ascending.m_f.target)
      _ _ rfl rfl).1,
    ((@C25_lambda_compare_identity Int).2.2.2.1 emptyStore _ _ (some ascending.m_f.target)
      _ _ rfl rfl).2,
    ((@C25_lambda_compare_identity Int).2.1 ascending).1, by decide⟩

end sorted_sequence


namespace sorted_sequence

variable {T Compare : Type} [CompareConcept Compare T]

theorem stable_sort_stable_sort_append {X : Type} {comp : X → X → Bool}
    (hswo : StrictWeakOrdering comp) (l1 l2 : List X) :
    stable_sort comp (stable_sort comp l1 ++ l2) = stable_sort comp (l1 ++ l2) := by
  refine eq_stable_sort_of_filter hswo _ _ ((chain_iff_pairwise hswo _).1
    (stable_sort_sorted hswo _)) (fun v => ?_)
  rw [stable_sort_class hswo, List.filter_append, List.filter_append, stable_sort_class hswo]

/-- Inserting with `InsertLast` puts the value behind everything it is not less than: the
result is the stable sort of the old sequence followed by the value. -/
theorem insert_last_stable (a : adaptor T Compare) (hswo : StrictWeakOrdering a.comp)
    (hs : a.I1) (v : T) (hint : Int) :
    a.insert v InsertMode.InsertLast hint =
      some (a.insertPosition v InsertMode.InsertLast noHint,
        { d := a.d, c := stable_sort a.comp (a.c ++ [v]) }) := by
  have hir := insertPosition_hint_irrelevant a hswo hs v InsertMode.InsertLast hint
  obtain ⟨h0, hn, hins, -⟩ := insert_result a v InsertMode.InsertLast hint
  rw [hir] at h0 hn hins
  obtain ⟨p, a1, ha1, -, hsorted⟩ := insert_sorted a hswo hs v InsertMode.InsertLast hint
  rw [hins] at ha1
  simp only [Option.some.injEq, Prod.mk.injEq] at ha1
  have hpos := (insertPosition_lower_upper a hswo hs v).2.2.2
  rw [hins]
  generalize a.insertPosition v InsertMode.InsertLast noHint = q at h0 hn hins ha1 hpos
  obtain ⟨k, rfl⟩ := Int.eq_ofNat_of_zero_le h0
  simp only [Int.toNat_ofNat] at ha1 ⊢
  have hsort : List.Pairwise (fun prev next => a.comp next prev = false)
      (a.c.take k ++ v :: a.c.drop k) := by
    rw [← chain_iff_pairwise hswo]
    have := hsorted
    rw [← ha1.2] at this
    exact this
  have hfilter : ∀ w, (a.c.take k ++ v :: a.c.drop k).filter
      (fun x => !a.comp x w && !a.comp w x) =
      (a.c ++ [v]).filter (fun x => !a.comp x w && !a.comp w x) := by
    intro w
    conv_rhs => rw [← List.take_append_drop k a.c]
    simp only [List.filter_append, List.filter_cons, List.filter_nil, List.append_assoc]
    cases hvw : (!a.comp v w && !a.comp w v) with
    | false => simp
    | true =>
      have hdrop : (a.c.drop k).filter (fun x => !a.comp x w && !a.comp w x) = [] := by
        rw [List.filter_eq_nil_iff]
        intro x hx
        obtain ⟨i, hi, hki, rfl⟩ := mem_drop_get.1 hx
        have hat : a.at_ (i : Int) = some (a.c.get ⟨i, hi⟩) := by
          unfold adaptor.at_
          rw [readAt_natCast, List.getElem?_eq_getElem hi]
          rfl
        have hvx : a.comp v (a.c.get ⟨i, hi⟩) = true := (hpos i _ hat).2 (by omega)
        intro hxw
        simp only [Bool.and_eq_true, Bool.not_eq_true'] at hvw hxw
        have := (hswo.incomp_trans v w _ hvw.1 hvw.2 hxw.2 hxw.1).1
        rw [hvx] at this
        exact absurd this (by decide)
      simp [hdrop]
  rw [eq_stable_sort_of_filter hswo _ _ hsort hfilter]

/-- Inserting the elements of `L` one after the other with `InsertLast` into a sorted adaptor
gives the stable sort of the old sequence followed by `L`. -/
theorem insert_each_stable (L : List T) :
    ∀ a : adaptor T Compare, StrictWeakOrdering a.comp → a.I1 →
      L.foldlM (fun (b : adaptor T Compare) v =>
        (b.insert v InsertMode.InsertLast noHint).map Prod.snd) a =
        some { d := a.d, c := stable_sort a.comp (a.c ++ L) } := by
  induction L with
  | nil =>
    intro a hswo hs
    rw [List.append_nil, stable_sort_of_sorted _ _ ((chain_iff_pairwise hswo a.c).1 hs)]
    rfl
  | cons v L ih =>
    intro a hswo hs
    have hstep := ih { d := a.d, c := stable_sort a.comp (a.c ++ [v]) } hswo
      (stable_sort_sorted hswo _)
    rw [List.foldlM_cons, insert_last_stable a hswo hs v noHint]
    show List.foldlM (fun (b : adaptor T Compare) v =>
        (b.insert v InsertMode.InsertLast noHint).map Prod.snd)
      ({ d := a.d, c := stable_sort a.comp (a.c ++ [v]) } : adaptor T Compare) L = _
    rw [hstep]
    show some ({ d := a.d,
                 c := stable_sort a.comp (stable_sort a.comp (a.c ++ [v]) ++ L) } :
      adaptor T Compare) = _
    rw [stable_sort_stable_sort_append hswo]
    simp

end sorted_sequence

namespace FormGenBagModel

open sorted_sequence

variable {QString QVariant : Type}

theorem insertRow_spec (m : FormGenBagModel QString QVariant)
    (hswo : StrictWeakOrdering m.mItems.comp) (hs : m.mItems.I1) (display : QString)
    (data : QVariant) :
    ∃ m1, m.insertRow display data =
        some (m.mItems.insertPosition (display, data) InsertMode.InsertLast noHint, m1) ∧
      m1.mItems =
        { d := m.mItems.d,
          c := stable_sort m.mItems.comp (m.mItems.c ++ [(display, data)]) } := by
  unfold insertRow
  dsimp only
  rw [insert_last_stable m.mItems hswo hs]
  exact ⟨_, rfl, rfl⟩

theorem insertRows_spec (valueString : QVariant → QString) (list : List QVariant) :
    ∀ m : FormGenBagModel QString QVariant, StrictWeakOrdering m.mItems.comp → m.mItems.I1 →
      ∃ m1, insertRows valueString list m = some m1 ∧
        m1.mItems =
          { d := m.mItems.d,
            c := stable_sort m.mItems.comp
              (m.mItems.c ++ list.map (fun v => (valueString v, v))) } := by
  induction list with
  | nil =>
    intro m hswo hs
    refine ⟨m, rfl, ?_⟩
    rw [List.map_nil, List.append_nil,
      stable_sort_of_sorted _ _ ((chain_iff_pairwise hswo _).1 hs)]
  | cons v list ih =>
    intro m hswo hs
    obtain ⟨m1, h1, h2⟩ := insertRow_spec m hswo hs (valueString v) v
    have hcomp : m1.mItems.comp = m.mItems.comp := by rw [h2]; rfl
    obtain ⟨m2, h3, h4⟩ := ih m1 (by rw [hcomp]; exact hswo)
      (by rw [h2]; exact stable_sort_sorted hswo _)
    refine ⟨m2, ?_, ?_⟩
    · unfold insertRows
      rw [h1]
      exact h3
    · rw [h4, hcomp, h2]
      show _ = ({ d := m.mItems.d, c := _ } : adaptor (QString × QVariant) _)
      congr 1
      show stable_sort m.mItems.comp (stable_sort m.mItems.comp (m.mItems.c ++ [(valueString v, v)]) ++ _) = _
      rw [stable_sort_stable_sort_append hswo]
      simp

end FormGenBagModel


namespace sorted_sequence

variable {T Compare : Type} [CompareConcept Compare T]

theorem fromContainer_eq (L : List T) (compare : Compare) :
    adaptor.fromContainer L compare =
      { d := compare, c := stable_sort (CompareConcept.call compare) L } := by
  unfold adaptor.fromContainer adaptor.sort
  dsimp only
  rw [sort_whole]
  rfl

end sorted_sequence

namespace FormGenBagModel

open sorted_sequence

variable {QString QVariant : Type}

theorem index_congr (m m1 : FormGenBagModel QString QVariant)
    (h : m1.mItems.size = m.mItems.size) (row : Int) : m1.index row = m.index row := by
  unfold index rowCount
  rw [h]

theorem editRow_outside [MoveConcept QString] [MoveConcept QVariant]
    (m : FormGenBagModel QString QVariant) (row : Int)
    (h : row < 0 ∨ m.rowCount ≤ row) (display : QString) (data : QVariant) :
    m.editRow row display data = some (-1, m) := by
  unfold editRow
  rw [if_pos (by unfold rowCount at h; omega)]

/-- What `editRow` does on a valid row of a sorted bag: `r` is the row it returns, which is the
row `change` returns and the row holding the pair afterwards; a move is announced exactly when
`r` differs from `row`; the row reported through `dataChanged` is `newRow`, the insert position
before the removal. -/
theorem editRow_spec [MoveConcept QString] [MoveConcept QVariant]
    (m : FormGenBagModel QString QVariant)
    (hswo : StrictWeakOrdering m.mItems.comp) (hs : m.mItems.I1) (row : Int) (h0 : 0 ≤ row)
    (hn : row < m.rowCount) (display : QString) (data : QVariant) :
    ∃ (r : Int) (items : adaptor (QString × QVariant) (lambda_compare (QString × QVariant))),
      m.mItems.change row (display, data) InsertMode.InsertLast noHint = some (r, items) ∧
      items.at_ r = some (display, data) ∧ items.size = m.mItems.size ∧
      r = (if m.mItems.insertPosition (display, data) InsertMode.InsertLast noHint > row then
        m.mItems.insertPosition (display, data) InsertMode.InsertLast noHint - 1
        else m.mItems.insertPosition (display, data) InsertMode.InsertLast noHint) ∧
      (r ≠ row →
        m.mItems.insertPosition (display, data) InsertMode.InsertLast noHint ≠ row ∧
        m.mItems.insertPosition (display, data) InsertMode.InsertLast noHint ≠ row + 1) ∧
      m.editRow row display data = some (r,
        { mItems := items,
          emitted := m.emitted ++
            (if r ≠ row then
              [ModelSignal.beginMoveRows row row
                (m.mItems.insertPosition (display, data) InsertMode.InsertLast noHint),
                ModelSignal.endMoveRows]
            else []) ++
            [ModelSignal.dataChanged
              (m.index (m.mItems.insertPosition (display, data) InsertMode.InsertLast noHint))
              (m.index
                (m.mItems.insertPosition (display, data) InsertMode.InsertLast noHint))] }) := by
  obtain ⟨k, rfl⟩ := Int.eq_ofNat_of_zero_le h0
  have hk : k < m.mItems.c.length := by
    unfold rowCount adaptor.size at hn; omega
  have hrange := insertPosition_range m.mItems (display, data) InsertMode.InsertLast noHint
  obtain ⟨p, hp⟩ := Int.eq_ofNat_of_zero_le hrange.1
  have hpn : p ≤ m.mItems.c.length := by omega
  have hhint : m.mItems.insertPosition (display, data) InsertMode.InsertLast (p : Int) =
      (p : Int) := by
    rw [insertPosition_hint_irrelevant m.mItems hswo hs, hp]
  have hch1 := changeFwdAssign_seq m.mItems k hk (display, data) InsertMode.InsertLast noHint p hp
  have hch2 := changeFwdAssign_seq m.mItems k hk (display, data) InsertMode.InsertLast (p : Int)
    p hhint
  have hlen : (m.mItems.c.eraseIdx k).length = m.mItems.c.length - 1 :=
    List.length_eraseIdx_of_lt hk
  rw [hp]
  generalize hr : (if p ≤ k then p else p - 1) = r at hch1 hch2
  have hrle : r ≤ (m.mItems.c.eraseIdx k).length := by
    rw [hlen, ← hr]; split <;> omega
  refine ⟨(r : Int), _, hch1, ?_, ?_, ?_, ?_, ?_⟩
  · unfold adaptor.at_
    rw [readAt_natCast]
    have hl : ((m.mItems.c.eraseIdx k).take r).length = r := by
      rw [List.length_take]; omega
    rw [List.getElem?_append_right (by omega), hl]
    simp
  · simp only [adaptor.size, List.length_append, List.length_take, List.length_cons,
      List.length_drop, hlen]
    omega
  · rw [← hr]; split <;> split <;> omega
  · intro hne
    rw [← hr] at hne
    split at hne <;> omega
  · unfold editRow
    rw [if_neg (by unfold adaptor.size; omega)]
    dsimp only
    rw [hp]
    have hpost : (if (p : Int) > (k : Int) then (p : Int) - 1 else (p : Int)) = (r : Int) := by
      rw [← hr]; split <;> split <;> omega
    rw [hpost]
    unfold adaptor.change
    rw [hch2]
    simp only [Option.bind_eq_bind, Option.some_bind, pure]
    have hsize : adaptor.size ({ d := m.mItems.d,
                                 c := (m.mItems.c.eraseIdx k).take r ++ (display, data) ::
                                   (m.mItems.c.eraseIdx k).drop r } :
        adaptor (QString × QVariant) (lambda_compare (QString × QVariant))) =
        m.mItems.size := by
      simp only [adaptor.size, List.length_append, List.length_take, List.length_cons,
        List.length_drop, hlen]
      omega
    rw [index_congr m _ hsize]
    by_cases hrk : (r : Int) = (k : Int)
    · simp [hrk]
    · simp [hrk]

end FormGenBagModel


namespace sorted_sequence

variable {T Compare : Type} [CompareConcept Compare T]

/-- C27: incremental build equals bulk build.  For every list `L` and every comparator that is
a strict weak ordering, inserting the elements of `L` one at a time, in list order, with
`insert(value, InsertLast)` into the empty adaptor returns at every step and ends in exactly
the adaptor constructed from `L`, whose sequence is the stable sort of `L`.  The same holds for
the loop of `FormGenListBagComposition::setVaidatedValueImpl` in bag mode, which clears the bag
model and calls `insertRow` for every value of the list: the bag ends as the adaptor
constructed from the list of pairs. -/
theorem C27_incremental_build_equals_bulk (L : List T) (compare : Compare)
    (hswo : StrictWeakOrdering (CompareConcept.call compare)) :
    L.foldlM (fun (b : adaptor T Compare) v =>
        (b.insert v InsertMode.InsertLast noHint).map Prod.snd)
      (adaptor.fromCompare compare) = some (adaptor.fromContainer L compare) ∧
    (adaptor.fromContainer L compare).c = stable_sort (CompareConcept.call compare) L ∧
    ∀ (QString QVariant : Type) (valueString : QVariant → QString)
      (bag : FormGenBagModel QString QVariant) (list : List QVariant),
      StrictWeakOrdering bag.mItems.comp →
        ∃ bag1, bag.setVaidatedValueImpl valueString list = some bag1 ∧
          bag1.mItems =
            adaptor.fromContainer (list.map (fun v => (valueString v, v))) bag.mItems.d := by
  refine ⟨?_, ?_, ?_⟩
  · rw [insert_each_stable L (adaptor.fromCompare compare) hswo List.chain'_nil,
      fromContainer_eq]
    rfl
  · rw [fromContainer_eq]
  · intro QString QVariant valueString bag list hbag
    unfold FormGenBagModel.setVaidatedValueImpl
    split
    · rename_i h
      have hl : list = [] := List.length_eq_zero.1 h.1
      have hc : bag.mItems.c = [] := by
        have := h.2
        unfold FormGenBagModel.rowCount adaptor.size at this
        exact List.length_eq_zero.1 (by omega)
      refine ⟨bag, rfl, ?_⟩
      rw [hl, fromContainer_eq]
      cases hb : bag.mItems with
      | mk d c =>
        rw [hb] at hc
        simp only at hc
        rw [hc]
        rfl
    · obtain ⟨m1, h1, h2⟩ := FormGenBagModel.insertRows_spec valueString list bag.clear
        hbag List.chain'_nil
      refine ⟨m1, h1, ?_⟩
      rw [h2, fromContainer_eq]
      rfl

/-- Witness for C27: inserting 5, 3, 1, 4, 1 one at a time gives `[1,1,3,4,5]`, the adaptor
constructed from `[5,3,1,4,1]`. -/
theorem C27_incremental_build_equals_bulk_witness :
    StrictWeakOrdering (CompareConcept.call ({} : default_compare Int)) ∧
      [5, 3, 1, 4, 1].foldlM (fun (b : adaptor Int (default_compare Int)) v =>
          (b.insert v InsertMode.InsertLast noHint).map Prod.snd)
        (adaptor.fromCompare {}) = some exampleAdaptor ∧
      exampleAdaptor.c = [1, 1, 3, 4, 5] :=
  ⟨default_compare_strictWeakOrdering exampleAdaptor,
    (C27_incremental_build_equals_bulk [5, 3, 1, 4, 1] ({} : default_compare Int)
      (default_compare_strictWeakOrdering exampleAdaptor)).1,
    by decide⟩

/-- C28: `editRow` reports the wrong row through `dataChanged`.  On the bag with the display
strings `a`, `b`, `c`, `editRow(0, "bb", 9)` returns 1, the row at which the pair `("bb", 9)` is
stored after the call (the value `change` returns), and announces the move of row 0 to the
destination 2; the row it reports through `dataChanged` is 2, which holds `("c", 3)`.
`editRow(0, "d", 9)` returns 2 and reports an invalid index; `editRow(0, "ab", 9)` returns 0
without moving and reports row 1; `editRow(2, "0", 9)`, where the insert position is not behind
the row, returns and reports row 0; `editRow(3, "0", 9)`, outside the rows, returns -1 and
changes nothing. -/
theorem C28_editRow_dataChanged_row :
    (exampleModel.editRow 0 "bb" (Qt.QVariant.fromInt 9)).map
        (fun r => (r.1, r.2.mItems.c, r.2.emitted)) =
        some (1,
          [("b", Qt.QVariant.fromInt 2), ("bb", Qt.QVariant.fromInt 9),
            ("c", Qt.QVariant.fromInt 3)],
          [ModelSignal.beginMoveRows 0 0 2, ModelSignal.endMoveRows,
            ModelSignal.dataChanged (some 2) (some 2)]) ∧
      (exampleModel.mItems.change 0 ("bb", Qt.QVariant.fromInt 9) InsertMode.InsertLast
          noHint).map (fun r => (r.1, r.2.c)) =
        some (1,
          [("b", Qt.QVariant.fromInt 2), ("bb", Qt.QVariant.fromInt 9),
            ("c", Qt.QVariant.fromInt 3)]) ∧
      (exampleModel.editRow 0 "d" (Qt.QVariant.fromInt 9)).map
        (fun r => (r.1, r.2.mItems.c, r.2.emitted)) =
        some (2,
          [("b", Qt.QVariant.fromInt 2), ("c", Qt.QVariant.fromInt 3),
            ("d", Qt.QVariant.fromInt 9)],
          [ModelSignal.beginMoveRows 0 0 3, ModelSignal.endMoveRows,
            ModelSignal.dataChanged none none]) ∧
      (exampleModel.editRow 0 "ab" (Qt.QVariant.fromInt 9)).map
        (fun r => (r.1, r.2.mItems.c, r.2.emitted)) =
        some (0,
          [("ab", Qt.QVariant.fromInt 9), ("b", Qt.QVariant.fromInt 2),
            ("c", Qt.QVariant.fromInt 3)],
          [ModelSignal.dataChanged (some 1) (some 1)]) ∧
      (exampleModel.editRow 2 "0" (Qt.QVariant.fromInt 9)).map
        (fun r => (r.1, r.2.mItems.c, r.2.emitted)) =
        some (0,
          [("0", Qt.QVariant.fromInt 9), ("a", Qt.QVariant.fromInt 1),
            ("b", Qt.QVariant.fromInt 2)],
          [ModelSignal.beginMoveRows 2 2 0, ModelSignal.endMoveRows,
            ModelSignal.dataChanged (some 0) (some 0)]) ∧
      (exampleModel.editRow 3 "0" (Qt.QVariant.fromInt 9)).map
        (fun r => (r.1, r.2.mItems.c, r.2.emitted)) =
        some (-1,
          [("a", Qt.QVariant.fromInt 1), ("b", Qt.QVariant.fromInt 2),
            ("c", Qt.QVariant.fromInt 3)], []) := by
  refine ⟨?_, ?_, ?_, ?_, ?_, ?_⟩ <;> decide

end sorted_sequence


namespace MathUtils

open Qt

theorem isSmallerZero_eq (v : QVariant) (hv : v.IsInteger) (hs : ¬ NegativeSChar v) :
    isSmallerZero v = some (decide (v.number < 0)) := by
  obtain ⟨t, n, k⟩ := v
  obtain ⟨h1, h2, h3⟩ := hv
  unfold NegativeSChar at hs
  simp only at h1 h2 h3 hs
  cases t <;>
    simp only [isIntegerMetaType, metaTypeLimits, Bool.false_eq_true] at h1 h2 h3 <;>
    simp only [isSmallerZero, QVariant.toLongLong, isIntegerMetaType, toSigned64, if_true,
      Option.bind_eq_bind, Option.some_bind, pure, Option.some.injEq, decide_eq_decide,
      true_and, not_lt] at hs ⊢ <;>
    first
      | (split <;> omega)
      | (symm; rw [decide_eq_false_iff_not]; omega)

theorem toULongLong_eq (v : QVariant) (hv : v.IsInteger) (h0 : 0 ≤ v.number) :
    v.toULongLong = some v.number := by
  obtain ⟨t, n, k⟩ := v
  obtain ⟨h1, h2, h3⟩ := hv
  simp only at h1 h2 h3 h0
  unfold QVariant.toULongLong toUnsigned64
  simp only [h1, if_true, Option.some.injEq]
  cases t <;> simp only [isIntegerMetaType, metaTypeLimits, Bool.false_eq_true] at h1 h2 h3 <;>
    omega

theorem toLongLong_eq (v : QVariant) (hv : v.IsInteger) (h0 : v.number < 0) :
    v.toLongLong = some v.number := by
  obtain ⟨t, n, k⟩ := v
  obtain ⟨h1, h2, h3⟩ := hv
  simp only at h1 h2 h3 h0
  unfold QVariant.toLongLong toSigned64
  simp only [h1, if_true, Option.some.injEq]
  cases t <;> simp only [isIntegerMetaType, metaTypeLimits, Bool.false_eq_true] at h1 h2 h3 <;>
    (split <;> omega)

/-- The bound a null variant is replaced with is an integer variant like any other. -/
theorem bound_facts (null : Int) (repl bound : QVariant)
    (hrepl : repl.IsInteger ∧ ¬ NegativeSChar repl ∧ repl.number = null)
    (hb : bound.isNull = true ∨ (bound.IsInteger ∧ ¬ NegativeSChar bound)) :
    (if bound.isNull then repl else bound).IsInteger ∧
      ¬ NegativeSChar (if bound.isNull then repl else bound) ∧
      (if bound.isNull then repl else bound).number = boundValue null bound := by
  unfold boundValue
  cases hn : bound.isNull with
  | true => simpa using hrepl
  | false =>
    rcases hb with hb | hb
    · rw [hn] at hb; exact absurd hb (by decide)
    · simpa using hb

/-- Away from negative `signed char` values, `minLeqValLeqMax` is the range check of the
mathematical integers. -/
theorem minLeqValLeqMax_correct (min val max : QVariant)
    (hmin : min.isNull = true ∨ (min.IsInteger ∧ ¬ NegativeSChar min))
    (hval : val.IsInteger ∧ ¬ NegativeSChar val)
    (hmax : max.isNull = true ∨ (max.IsInteger ∧ ¬ NegativeSChar max)) :
    minLeqValLeqMax min val max = some (decide (InRange min val max)) := by
  obtain ⟨h1, h2, h3⟩ := bound_facts (-9223372036854775808)
    (QVariant.fromLongLong (-9223372036854775808)) min
    ⟨by decide, by unfold NegativeSChar; decide, rfl⟩ hmin
  obtain ⟨h4, h5, h6⟩ := bound_facts 18446744073709551615
    (QVariant.fromULongLong 18446744073709551615) max
    ⟨by decide, by unfold NegativeSChar; decide, rfl⟩ hmax
  unfold minLeqValLeqMax InRange
  dsimp only
  generalize (if min.isNull then QVariant.fromLongLong (-9223372036854775808) else min) = lo
    at h1 h2 h3 ⊢
  generalize (if max.isNull then QVariant.fromULongLong 18446744073709551615 else max) = hi
    at h4 h5 h6 ⊢
  simp only [← h3, ← h6]
  simp only [isSmallerZero_eq lo h1 h2, isSmallerZero_eq val hval.1 hval.2,
    isSmallerZero_eq hi h4 h5, Option.bind_eq_bind, Option.some_bind, pure]
  by_cases ha : lo.number < 0 <;> by_cases hb : val.number < 0 <;>
    by_cases hc : hi.number < 0
  all_goals
    simp only [ha, hb, hc, decide_True, decide_False, Bool.not_true, Bool.not_false,
      Bool.false_eq_true, if_true, if_false]
  all_goals
    have e1 := fun h => toLongLong_eq lo h1 h
    have e2 := fun h => toLongLong_eq val hval.1 h
    have e3 := fun h => toLongLong_eq hi h4 h
    have u1 := fun h => toULongLong_eq lo h1 h
    have u2 := fun h => toULongLong_eq val hval.1 h
    have u3 := fun h => toULongLong_eq hi h4 h
    try rw [not_lt] at ha
    try rw [not_lt] at hb
    try rw [not_lt] at hc
    try simp only [e1, e2, e3, u1, u2, u3, ha, hb, hc, Option.some_bind]
    first
      | (split <;>
          (simp only [Option.some.injEq]; symm
           first
             | (rw [decide_eq_true_iff]; omega)
             | (rw [decide_eq_false_iff_not]; omega)
             | (rw [decide_eq_decide]; omega)))
      | (simp only [Option.some.injEq]; symm; rw [decide_eq_false_iff_not]; omega)
      | (simp only [Option.some.injEq, ← Bool.decide_and, decide_eq_decide]; done)
      | (simp only [Option.some.injEq, ← Bool.decide_and, decide_eq_decide]; omega)

/-- C26: `minLeqValLeqMax` is wrong on negative `signed char` values, a type `isIntegerType`
accepts: `isSmallerZero` has no case for `QMetaType::SChar` and answers false for the variant
holding the `signed char` -1.  So with `min` the `signed char` -1, `val` the `int` -1 and `max`
the `int` 5 the function returns false although `-1 <= -1 <= 5`, and with a null `min`, `val`
the `signed char` -1 and `max` the `int` 5 it returns false although `-2^63 <= -1 <= 5`; the
same values stored as `short` give true. -/
theorem C26_minLeqValLeqMax_signed_char :
    isIntegerType (QVariant.fromSChar (-1)) = true ∧ (QVariant.fromSChar (-1)).IsInteger ∧
      (QVariant.fromInt (-1)).IsInteger ∧ (QVariant.fromInt 5).IsInteger ∧
      isSmallerZero (QVariant.fromSChar (-1)) = some false ∧
      minLeqValLeqMax (QVariant.fromSChar (-1)) (QVariant.fromInt (-1)) (QVariant.fromInt 5) =
        some false ∧
      InRange (QVariant.fromSChar (-1)) (QVariant.fromInt (-1)) (QVariant.fromInt 5) ∧
      minLeqValLeqMax QVariant.invalid (QVariant.fromSChar (-1)) (QVariant.fromInt 5) =
        some false ∧
      InRange QVariant.invalid (QVariant.fromSChar (-1)) (QVariant.fromInt 5) ∧
      minLeqValLeqMax { type := QMetaType.Short, is_null := false, number := -1 }
        (QVariant.fromInt (-1)) (QVariant.fromInt 5) = some true ∧
      minLeqValLeqMax QVariant.invalid { type := QMetaType.Short, is_null := false, number := -1 }
        (QVariant.fromInt 5) = some true := by
  refine ⟨?_, ?_, ?_, ?_, ?_, ?_, ?_, ?_, ?_, ?_, ?_⟩ <;> decide

end MathUtils


/-! ## The integer widget: one step of every member -/

namespace Qt

theorem qMax_eq (a b : Int) : qMax a b = max a b := by
  unfold qMax; split <;> omega

theorem qMin_eq (a b : Int) : qMin a b = min a b := by
  unfold qMin; split <;> omega

theorem qBound_eq (lo v hi : Int) : qBound lo v hi = max lo (min hi v) := by
  unfold qBound; rw [qMin_eq, qMax_eq]

theorem spinBox_setValue_mk (a b c v : Int) :
    QSpinBox.setValue { minimum := a, maximum := b, value := c } v =
      ({ minimum := a, maximum := b, value := min b (max a v) },
        decide (min b (max a v) ≠ c)) := by
  have h : QSpinBox.bound { minimum := a, maximum := b, value := c } v = min b (max a v) := by
    simp only [QSpinBox.bound]
    split <;> split <;> omega
  simp only [QSpinBox.setValue, h]

theorem spinBox_setRange_mk (a b c lo hi : Int) :
    QSpinBox.setRange { minimum := a, maximum := b, value := c } lo hi =
      ({ minimum := lo, maximum := max lo hi, value := min (max lo hi) (max lo c) },
        decide (min (max lo hi) (max lo c) ≠ c)) := by
  have hm : (if lo < hi then hi else lo) = max lo hi := by split <;> omega
  have h : ∀ x, QSpinBox.bound { minimum := lo, maximum := max lo hi, value := c } x =
      min (max lo hi) (max lo x) := by
    intro x
    simp only [QSpinBox.bound]
    split <;> split <;> omega
  simp only [QSpinBox.setRange, hm, h]
  by_cases hc : min (max lo hi) (max lo c) = c
  · simp [hc]
  · simp only [ne_eq, hc, not_false_eq_true, ↓reduceIte, QSpinBox.setValue, h, decide_True]
    have : min (max lo hi) (max lo (min (max lo hi) (max lo c))) = min (max lo hi) (max lo c) := by
      omega
    rw [this]
    simp [hc]

theorem spinBox_setMinimum_mk (a b c lo : Int) :
    QSpinBox.setMinimum { minimum := a, maximum := b, value := c } lo =
      ({ minimum := lo, maximum := max lo b, value := min (max lo b) (max lo c) },
        decide (min (max lo b) (max lo c) ≠ c)) := by
  have hm : (if b > lo then b else lo) = max lo b := by split <;> omega
  simp only [QSpinBox.setMinimum, hm, spinBox_setRange_mk]
  have : max lo (max lo b) = max lo b := by omega
  rw [this]

theorem spinBox_setMaximum_mk (a b c hi : Int) :
    QSpinBox.setMaximum { minimum := a, maximum := b, value := c } hi =
      ({ minimum := min a hi, maximum := hi, value := min hi (max (min a hi) c) },
        decide (min hi (max (min a hi) c) ≠ c)) := by
  have hm : (if a < hi then a else hi) = min a hi := by split <;> omega
  simp only [QSpinBox.setMaximum, hm, spinBox_setRange_mk]
  have : max (min a hi) hi = hi := by omega
  rw [this]


theorem slider_setValue_mk (a b c v : Int) :
    QSlider.setValue { minimum := a, maximum := b, value := c } v =
      ({ minimum := a, maximum := b, value := max a (min b v) },
        decide (max a (min b v) ≠ c)) := by
  simp only [QSlider.setValue, QSlider.bound, qMax_eq, qMin_eq]
  by_cases hc : c = max a (min b v)
  · rw [if_pos hc, ← hc]
    simp
  · rw [if_neg hc]
    have hc2 : max a (min b v) ≠ c := fun h => hc h.symm
    simp [hc2]

theorem slider_setRange_mk (a b c lo hi : Int) :
    QSlider.setRange { minimum := a, maximum := b, value := c } lo hi =
      if a ≠ lo ∨ b ≠ max lo hi then
        ({ minimum := lo, maximum := max lo hi, value := max lo (min (max lo hi) c) },
          decide (max lo (min (max lo hi) c) ≠ c))
      else ({ minimum := lo, maximum := max lo hi, value := c }, false) := by
  simp only [QSlider.setRange, qMax_eq, slider_setValue_mk]

theorem slider_setMinimum_mk (a b c lo : Int) :
    QSlider.setMinimum { minimum := a, maximum := b, value := c } lo =
      if a ≠ lo ∨ b ≠ max lo b then
        ({ minimum := lo, maximum := max lo b, value := max lo (min (max lo b) c) },
          decide (max lo (min (max lo b) c) ≠ c))
      else ({ minimum := lo, maximum := max lo b, value := c }, false) := by
  have h : max lo (max b lo) = max lo b := by omega
  simp only [QSlider.setMinimum, qMax_eq, slider_setRange_mk, h]

theorem slider_setMaximum_mk (a b c hi : Int) :
    QSlider.setMaximum { minimum := a, maximum := b, value := c } hi =
      if a ≠ min a hi ∨ b ≠ hi then
        ({ minimum := min a hi, maximum := hi, value := max (min a hi) (min hi c) },
          decide (max (min a hi) (min hi c) ≠ c))
      else ({ minimum := min a hi, maximum := hi, value := c }, false) := by
  have h : max (min a hi) hi = hi := by omega
  simp only [QSlider.setMaximum, qMin_eq, slider_setRange_mk, h]

end Qt

namespace FormGenIntWidget

open Qt

/-! ### The members at a depth bound that is not zero -/

theorem updateInputWidgets_succ (fuel : Nat) (w : FormGenIntWidget) :
    updateInputWidgets (fuel + 1) w =
      (updateSpinBox (checkNewValue fuel) w).bind fun w1 =>
        (updateSlider (checkNewValue fuel) w1).bind fun w2 => some (updatePlain w2) := by
  rfl

theorem checkNewValue_succ (fuel : Nat) (w : FormGenIntWidget) :
    checkNewValue (fuel + 1) w =
      (checkSpinBox (setIntValue fuel) w).bind fun w1 =>
        (checkSlider (setIntValue fuel) w1).bind fun w2 =>
          (checkPlain (setIntValue fuel) w2).bind fun w3 => updateInputWidgets fuel w3 := by
  rfl

theorem setIntValue_succ (fuel : Nat) (w : FormGenIntWidget) (v : Int) :
    setIntValue (fuel + 1) w v =
      if w.mValue = v then some w else updateInputWidgets fuel { w with mValue := v } := by
  rfl

theorem setMinimum_succ (fuel : Nat) (w : FormGenIntWidget) (a : Int) :
    setMinimum (fuel + 1) w a =
      if w.mMinimum = a then some w
      else
        (spinBoxSetMinimum (checkNewValue fuel) { w with mMinimum := a } a).bind fun w1 =>
          (sliderSetMinimum (checkNewValue fuel) w1 a).bind fun w2 =>
            (setMaximum fuel w2 (qMax w2.minimum w2.maximum)).bind fun w3 =>
              setIntValue fuel w3 (qBound w3.minimum w3.mValue w3.maximum) := by
  rfl

theorem setMaximum_succ (fuel : Nat) (w : FormGenIntWidget) (a : Int) :
    setMaximum (fuel + 1) w a =
      if w.mMaximum = a then some w
      else
        (spinBoxSetMaximum (checkNewValue fuel) { w with mMaximum := a } a).bind fun w1 =>
          (sliderSetMaximum (checkNewValue fuel) w1 a).bind fun w2 =>
            (setMinimum fuel w2 (qMin w2.minimum w2.maximum)).bind fun w3 =>
              setIntValue fuel w3 (qBound w3.minimum w3.mValue w3.maximum) := by
  rfl

theorem setValueSet_succ (fuel : Nat) (w : FormGenIntWidget) (b : Bool) :
    setValueSet (fuel + 1) w b =
      if w.mValueSet = b then some w
      else
        (updateInputWidgets fuel { w with mValueSet := b }).bind fun w1 =>
          valueSetBoxSetChecked (setValueSet fuel) w1 b := by
  rfl

/-! ### Steps on a state given by its fields

Each step has the conditions under which it is taken as hypotheses, so that a call can be
followed through the members one step at a time. -/

theorem updateInputWidgets_step (st : InputStyle) (fuel : Nat) (ty : ElementType) (vs : Bool) (cb : Option QCheckBox) (mn mx val : Int)
    (sp : Option QSpinBox) (sl : Option QSlider) (pl : Option QLineEdit) :
    updateInputWidgets (fuel + 1) ⟨ty, vs, cb, st, mn, mx, val, sp, sl, pl⟩ =
      (updateSpinBox (checkNewValue fuel) ⟨ty, vs, cb, st, mn, mx, val, sp, sl, pl⟩).bind fun w1 =>
        (updateSlider (checkNewValue fuel) w1).bind fun w2 => some (updatePlain w2) := by
  rfl

theorem checkNewValue_step (st : InputStyle) (fuel : Nat) (ty : ElementType) (vs : Bool) (cb : Option QCheckBox) (mn mx val : Int)
    (sp : Option QSpinBox) (sl : Option QSlider) (pl : Option QLineEdit) :
    checkNewValue (fuel + 1) ⟨ty, vs, cb, st, mn, mx, val, sp, sl, pl⟩ =
      (checkSpinBox (setIntValue fuel) ⟨ty, vs, cb, st, mn, mx, val, sp, sl, pl⟩).bind fun w1 =>
        (checkSlider (setIntValue fuel) w1).bind fun w2 =>
          (checkPlain (setIntValue fuel) w2).bind fun w3 => updateInputWidgets fuel w3 := by
  rfl

theorem setIntValue_same (st : InputStyle) (fuel : Nat) (ty : ElementType) (vs : Bool) (cb : Option QCheckBox) (mn mx val : Int)
    (sp : Option QSpinBox) (sl : Option QSlider) (pl : Option QLineEdit) (v : Int) (h : val = v) :
    setIntValue (fuel + 1) ⟨ty, vs, cb, st, mn, mx, val, sp, sl, pl⟩ v =
      some ⟨ty, vs, cb, st, mn, mx, val, sp, sl, pl⟩ := by
  rw [setIntValue_succ, if_pos h]

theorem setIntValue_other (st : InputStyle) (fuel : Nat) (ty : ElementType) (vs : Bool) (cb : Option QCheckBox) (mn mx val : Int)
    (sp : Option QSpinBox) (sl : Option QSlider) (pl : Option QLineEdit) (v : Int) (h : val ≠ v) :
    setIntValue (fuel + 1) ⟨ty, vs, cb, st, mn, mx, val, sp, sl, pl⟩ v =
      updateInputWidgets fuel ⟨ty, vs, cb, st, mn, mx, v, sp, sl, pl⟩ := by
  rw [setIntValue_succ, if_neg h]

theorem setMinimum_same (st : InputStyle) (fuel : Nat) (ty : ElementType) (vs : Bool) (cb : Option QCheckBox) (mn mx val : Int)
    (sp : Option QSpinBox) (sl : Option QSlider) (pl : Option QLineEdit) (a : Int) (h : mn = a) :
    setMinimum (fuel + 1) ⟨ty, vs, cb, st, mn, mx, val, sp, sl, pl⟩ a =
      some ⟨ty, vs, cb, st, mn, mx, val, sp, sl, pl⟩ := by
  rw [setMinimum_succ, if_pos h]

theorem setMinimum_other (st : InputStyle) (fuel : Nat) (ty : ElementType) (vs : Bool) (cb : Option QCheckBox) (mn mx val : Int)
    (sp : Option QSpinBox) (sl : Option QSlider) (pl : Option QLineEdit) (a : Int) (h : mn ≠ a) :
    setMinimum (fuel + 1) ⟨ty, vs, cb, st, mn, mx, val, sp, sl, pl⟩ a =
      (spinBoxSetMinimum (checkNewValue fuel) ⟨ty, vs, cb, st, a, mx, val, sp, sl, pl⟩ a).bind fun w1 =>
        (sliderSetMinimum (checkNewValue fuel) w1 a).bind fun w2 =>
          (setMaximum fuel w2 (max w2.mMinimum w2.mMaximum)).bind fun w3 =>
            setIntValue fuel w3 (max w3.mMinimum (min w3.mMaximum w3.mValue)) := by
  rw [setMinimum_succ, if_neg h]
  simp only [minimum, maximum, qBound_eq, qMax_eq]

theorem setMaximum_same (st : InputStyle) (fuel : Nat) (ty : ElementType) (vs : Bool) (cb : Option QCheckBox) (mn mx val : Int)
    (sp : Option QSpinBox) (sl : Option QSlider) (pl : Option QLineEdit) (a : Int) (h : mx = a) :
    setMaximum (fuel + 1) ⟨ty, vs, cb, st, mn, mx, val, sp, sl, pl⟩ a =
      some ⟨ty, vs, cb, st, mn, mx, val, sp, sl, pl⟩ := by
  rw [setMaximum_succ, if_pos h]

theorem setMaximum_other (st : InputStyle) (fuel : Nat) (ty : ElementType) (vs : Bool) (cb : Option QCheckBox) (mn mx val : Int)
    (sp : Option QSpinBox) (sl : Option QSlider) (pl : Option QLineEdit) (a : Int) (h : mx ≠ a) :
    setMaximum (fuel + 1) ⟨ty, vs, cb, st, mn, mx, val, sp, sl, pl⟩ a =
      (spinBoxSetMaximum (checkNewValue fuel) ⟨ty, vs, cb, st, mn, a, val, sp, sl, pl⟩ a).bind fun w1 =>
        (sliderSetMaximum (checkNewValue fuel) w1 a).bind fun w2 =>
          (setMinimum fuel w2 (min w2.mMinimum w2.mMaximum)).bind fun w3 =>
            setIntValue fuel w3 (max w3.mMinimum (min w3.mMaximum w3.mValue)) := by
  rw [setMaximum_succ, if_neg h]
  simp only [minimum, maximum, qBound_eq, qMin_eq]

theorem setValueSet_same (st : InputStyle) (fuel : Nat) (ty : ElementType) (vs : Bool) (cb : Option QCheckBox) (mn mx val : Int)
    (sp : Option QSpinBox) (sl : Option QSlider) (pl : Option QLineEdit) (b : Bool) (h : vs = b) :
    setValueSet (fuel + 1) ⟨ty, vs, cb, st, mn, mx, val, sp, sl, pl⟩ b =
      some ⟨ty, vs, cb, st, mn, mx, val, sp, sl, pl⟩ := by
  rw [setValueSet_succ, if_pos h]

theorem setValueSet_other (st : InputStyle) (fuel : Nat) (ty : ElementType) (vs : Bool) (cb : Option QCheckBox) (mn mx val : Int)
    (sp : Option QSpinBox) (sl : Option QSlider) (pl : Option QLineEdit) (b : Bool) (h : vs ≠ b) :
    setValueSet (fuel + 1) ⟨ty, vs, cb, st, mn, mx, val, sp, sl, pl⟩ b =
      (updateInputWidgets fuel ⟨ty, b, cb, st, mn, mx, val, sp, sl, pl⟩).bind fun w1 =>
        valueSetBoxSetChecked (setValueSet fuel) w1 b := by
  rw [setValueSet_succ, if_neg h]

theorem updateSpinBox_none (slot : FormGenIntWidget → Option FormGenIntWidget) (ty : ElementType) (vs : Bool) (cb : Option QCheckBox) (st : InputStyle) (mn mx val : Int) (sl : Option QSlider) (pl : Option QLineEdit) :
    updateSpinBox slot ⟨ty, vs, cb, st, mn, mx, val, none, sl, pl⟩ =
      some ⟨ty, vs, cb, st, mn, mx, val, none, sl, pl⟩ := by
  rfl

theorem updateSpinBox_quiet (slot : FormGenIntWidget → Option FormGenIntWidget) (ty : ElementType) (vs : Bool) (cb : Option QCheckBox) (st : InputStyle) (mn mx val : Int) (sl : Option QSlider) (pl : Option QLineEdit) (a b c : Int) (h : min b (max a val) = c) :
    updateSpinBox slot ⟨ty, vs, cb, st, mn, mx, val, (some ⟨a, b, c⟩), sl, pl⟩ =
      some ⟨ty, vs, cb, st, mn, mx, val, (some ⟨a, b, c⟩), sl, pl⟩ := by
  simp only [updateSpinBox, spinBox_setValue_mk, spinBoxChanged, h, ne_eq, not_true_eq_false, decide_False,
    Bool.false_eq_true, if_false]

theorem updateSpinBox_emit (slot : FormGenIntWidget → Option FormGenIntWidget) (ty : ElementType) (vs : Bool) (cb : Option QCheckBox) (st : InputStyle) (mn mx val : Int) (sl : Option QSlider) (pl : Option QLineEdit) (a b c : Int) (h : min b (max a val) ≠ c) :
    updateSpinBox slot ⟨ty, vs, cb, st, mn, mx, val, (some ⟨a, b, c⟩), sl, pl⟩ =
      slot ⟨ty, vs, cb, st, mn, mx, val, (some ⟨a, b, min b (max a val)⟩), sl, pl⟩ := by
  simp only [updateSpinBox, spinBox_setValue_mk, spinBoxChanged, h, ne_eq, not_false_eq_true, decide_True, if_true]

theorem updateSlider_none (slot : FormGenIntWidget → Option FormGenIntWidget) (ty : ElementType) (vs : Bool) (cb : Option QCheckBox) (st : InputStyle) (mn mx val : Int) (sp : Option QSpinBox) (pl : Option QLineEdit) :
    updateSlider slot ⟨ty, vs, cb, st, mn, mx, val, sp, none, pl⟩ =
      some ⟨ty, vs, cb, st, mn, mx, val, sp, none, pl⟩ := by
  rfl

theorem updateSlider_quiet (slot : FormGenIntWidget → Option FormGenIntWidget) (ty : ElementType) (vs : Bool) (cb : Option QCheckBox) (st : InputStyle) (mn mx val : Int) (sp : Option QSpinBox) (pl : Option QLineEdit) (a b c : Int) (h : max a (min b val) = c) :
    updateSlider slot ⟨ty, vs, cb, st, mn, mx, val, sp, (some ⟨a, b, c⟩), pl⟩ =
      some ⟨ty, vs, cb, st, mn, mx, val, sp, (some ⟨a, b, c⟩), pl⟩ := by
  simp only [updateSlider, slider_setValue_mk, sliderChanged, h, ne_eq, not_true_eq_false, decide_False,
    Bool.false_eq_true, if_false]

theorem updateSlider_emit (slot : FormGenIntWidget → Option FormGenIntWidget) (ty : ElementType) (vs : Bool) (cb : Option QCheckBox) (st : InputStyle) (mn mx val : Int) (sp : Option QSpinBox) (pl : Option QLineEdit) (a b c : Int) (h : max a (min b val) ≠ c) :
    updateSlider slot ⟨ty, vs, cb, st, mn, mx, val, sp, (some ⟨a, b, c⟩), pl⟩ =
      slot ⟨ty, vs, cb, st, mn, mx, val, sp, (some ⟨a, b, max a (min b val)⟩), pl⟩ := by
  simp only [updateSlider, slider_setValue_mk, sliderChanged, h, ne_eq, not_false_eq_true, decide_True, if_true]

theorem updatePlain_none (ty : ElementType) (vs : Bool) (cb : Option QCheckBox) (st : InputStyle) (mn mx val : Int) (sp : Option QSpinBox) (sl : Option QSlider) :
    updatePlain ⟨ty, vs, cb, st, mn, mx, val, sp, sl, none⟩ =
      ⟨ty, vs, cb, st, mn, mx, val, sp, sl, none⟩ := by
  rfl

theorem updatePlain_some (ty : ElementType) (vs : Bool) (cb : Option QCheckBox) (st : InputStyle) (mn mx val : Int) (sp : Option QSpinBox) (sl : Option QSlider) (le : QLineEdit) :
    updatePlain ⟨ty, vs, cb, st, mn, mx, val, sp, sl, (some le)⟩ =
      ⟨ty, vs, cb, st, mn, mx, val, sp, sl, (some ⟨some val⟩)⟩ := by
  rfl

theorem checkSpinBox_none (f : FormGenIntWidget → Int → Option FormGenIntWidget) (ty : ElementType) (vs : Bool) (cb : Option QCheckBox) (st : InputStyle) (mn mx val : Int) (sl : Option QSlider) (pl : Option QLineEdit) :
    checkSpinBox f ⟨ty, vs, cb, st, mn, mx, val, none, sl, pl⟩ =
      some ⟨ty, vs, cb, st, mn, mx, val, none, sl, pl⟩ := by
  rfl

theorem checkSpinBox_skip (f : FormGenIntWidget → Int → Option FormGenIntWidget) (ty : ElementType) (vs : Bool) (cb : Option QCheckBox) (st : InputStyle) (mn mx val : Int) (sl : Option QSlider) (pl : Option QLineEdit) (a b c : Int) (h : c = val ∨ c ≠ max mn (min mx c)) :
    checkSpinBox f ⟨ty, vs, cb, st, mn, mx, val, (some ⟨a, b, c⟩), sl, pl⟩ =
      some ⟨ty, vs, cb, st, mn, mx, val, (some ⟨a, b, c⟩), sl, pl⟩ := by
  simp only [checkSpinBox, minimum, maximum, qBound_eq]
  rw [if_neg]
  omega

theorem checkSpinBox_fire (f : FormGenIntWidget → Int → Option FormGenIntWidget) (ty : ElementType) (vs : Bool) (cb : Option QCheckBox) (st : InputStyle) (mn mx val : Int) (sl : Option QSlider) (pl : Option QLineEdit) (a b c : Int) (h : c ≠ val ∧ c = max mn (min mx c)) :
    checkSpinBox f ⟨ty, vs, cb, st, mn, mx, val, (some ⟨a, b, c⟩), sl, pl⟩ =
      f ⟨ty, vs, cb, st, mn, mx, val, (some ⟨a, b, c⟩), sl, pl⟩ c := by
  simp only [checkSpinBox, minimum, maximum, qBound_eq]
  rw [if_pos h]

theorem checkSlider_none (f : FormGenIntWidget → Int → Option FormGenIntWidget) (ty : ElementType) (vs : Bool) (cb : Option QCheckBox) (st : InputStyle) (mn mx val : Int) (sp : Option QSpinBox) (pl : Option QLineEdit) :
    checkSlider f ⟨ty, vs, cb, st, mn, mx, val, sp, none, pl⟩ =
      some ⟨ty, vs, cb, st, mn, mx, val, sp, none, pl⟩ := by
  rfl

theorem checkSlider_skip (f : FormGenIntWidget → Int → Option FormGenIntWidget) (ty : ElementType) (vs : Bool) (cb : Option QCheckBox) (st : InputStyle) (mn mx val : Int) (sp : Option QSpinBox) (pl : Option QLineEdit) (a b c : Int) (h : c = val ∨ c ≠ max mn (min mx c)) :
    checkSlider f ⟨ty, vs, cb, st, mn, mx, val, sp, (some ⟨a, b, c⟩), pl⟩ =
      some ⟨ty, vs, cb, st, mn, mx, val, sp, (some ⟨a, b, c⟩), pl⟩ := by
  simp only [checkSlider, minimum, maximum, qBound_eq]
  rw [if_neg]
  omega

theorem checkSlider_fire (f : FormGenIntWidget → Int → Option FormGenIntWidget) (ty : ElementType) (vs : Bool) (cb : Option QCheckBox) (st : InputStyle) (mn mx val : Int) (sp : Option QSpinBox) (pl : Option QLineEdit) (a b c : Int) (h : c ≠ val ∧ c = max mn (min mx c)) :
    checkSlider f ⟨ty, vs, cb, st, mn, mx, val, sp, (some ⟨a, b, c⟩), pl⟩ =
      f ⟨ty, vs, cb, st, mn, mx, val, sp, (some ⟨a, b, c⟩), pl⟩ c := by
  simp only [checkSlider, minimum, maximum, qBound_eq]
  rw [if_pos h]

theorem checkPlain_none (f : FormGenIntWidget → Int → Option FormGenIntWidget) (ty : ElementType) (vs : Bool) (cb : Option QCheckBox) (st : InputStyle) (mn mx val : Int) (sp : Option QSpinBox) (sl : Option QSlider) :
    checkPlain f ⟨ty, vs, cb, st, mn, mx, val, sp, sl, none⟩ =
      some ⟨ty, vs, cb, st, mn, mx, val, sp, sl, none⟩ := by
  rfl

theorem checkPlain_unread (f : FormGenIntWidget → Int → Option FormGenIntWidget) (ty : ElementType) (vs : Bool) (cb : Option QCheckBox) (st : InputStyle) (mn mx val : Int) (sp : Option QSpinBox) (sl : Option QSlider) :
    checkPlain f ⟨ty, vs, cb, st, mn, mx, val, sp, sl, (some ⟨none⟩)⟩ =
      some ⟨ty, vs, cb, st, mn, mx, val, sp, sl, (some ⟨none⟩)⟩ := by
  rfl

theorem checkPlain_skip (f : FormGenIntWidget → Int → Option FormGenIntWidget) (ty : ElementType) (vs : Bool) (cb : Option QCheckBox) (st : InputStyle) (mn mx val : Int) (sp : Option QSpinBox) (sl : Option QSlider) (v : Int) (h : v ≠ max mn (min mx v)) :
    checkPlain f ⟨ty, vs, cb, st, mn, mx, val, sp, sl, (some ⟨some v⟩)⟩ =
      some ⟨ty, vs, cb, st, mn, mx, val, sp, sl, (some ⟨some v⟩)⟩ := by
  simp only [checkPlain, minimum, maximum, qBound_eq]
  rw [if_neg h]

theorem checkPlain_fire (f : FormGenIntWidget → Int → Option FormGenIntWidget) (ty : ElementType) (vs : Bool) (cb : Option QCheckBox) (st : InputStyle) (mn mx val : Int) (sp : Option QSpinBox) (sl : Option QSlider) (v : Int) (h : v = max mn (min mx v)) :
    checkPlain f ⟨ty, vs, cb, st, mn, mx, val, sp, sl, (some ⟨some v⟩)⟩ =
      f ⟨ty, vs, cb, st, mn, mx, val, sp, sl, (some ⟨some v⟩)⟩ v := by
  simp only [checkPlain, minimum, maximum, qBound_eq]
  rw [if_pos h]

theorem spinBoxSetMinimum_none (slot : FormGenIntWidget → Option FormGenIntWidget) (ty : ElementType) (vs : Bool) (cb : Option QCheckBox) (st : InputStyle) (mn mx val : Int) (sl : Option QSlider) (pl : Option QLineEdit) (lo : Int) :
    spinBoxSetMinimum slot ⟨ty, vs, cb, st, mn, mx, val, none, sl, pl⟩ lo =
      some ⟨ty, vs, cb, st, mn, mx, val, none, sl, pl⟩ := by
  rfl

theorem spinBoxSetMinimum_quiet (slot : FormGenIntWidget → Option FormGenIntWidget) (ty : ElementType) (vs : Bool) (cb : Option QCheckBox) (st : InputStyle) (mn mx val : Int) (sl : Option QSlider) (pl : Option QLineEdit) (a b c lo : Int) (h : min (max lo b) (max lo c) = c) :
    spinBoxSetMinimum slot ⟨ty, vs, cb, st, mn, mx, val, (some ⟨a, b, c⟩), sl, pl⟩ lo =
      some ⟨ty, vs, cb, st, mn, mx, val, (some ⟨lo, max lo b, c⟩), sl, pl⟩ := by
  simp only [spinBoxSetMinimum, spinBox_setMinimum_mk, spinBoxChanged, h, ne_eq, not_true_eq_false, decide_False,
    Bool.false_eq_true, if_false]

theorem spinBoxSetMinimum_emit (slot : FormGenIntWidget → Option FormGenIntWidget) (ty : ElementType) (vs : Bool) (cb : Option QCheckBox) (st : InputStyle) (mn mx val : Int) (sl : Option QSlider) (pl : Option QLineEdit) (a b c lo : Int) (h : min (max lo b) (max lo c) ≠ c) :
    spinBoxSetMinimum slot ⟨ty, vs, cb, st, mn, mx, val, (some ⟨a, b, c⟩), sl, pl⟩ lo =
      slot ⟨ty, vs, cb, st, mn, mx, val, (some ⟨lo, max lo b, (min (max lo b) (max lo c))⟩), sl, pl⟩ := by
  simp only [spinBoxSetMinimum, spinBox_setMinimum_mk, spinBoxChanged, h, ne_eq, not_false_eq_true, decide_True, if_true]

theorem spinBoxSetMaximum_none (slot : FormGenIntWidget → Option FormGenIntWidget) (ty : ElementType) (vs : Bool) (cb : Option QCheckBox) (st : InputStyle) (mn mx val : Int) (sl : Option QSlider) (pl : Option QLineEdit) (hi : Int) :
    spinBoxSetMaximum slot ⟨ty, vs, cb, st, mn, mx, val, none, sl, pl⟩ hi =
      some ⟨ty, vs, cb, st, mn, mx, val, none, sl, pl⟩ := by
  rfl

theorem spinBoxSetMaximum_quiet (slot : FormGenIntWidget → Option FormGenIntWidget) (ty : ElementType) (vs : Bool) (cb : Option QCheckBox) (st : InputStyle) (mn mx val : Int) (sl : Option QSlider) (pl : Option QLineEdit) (a b c hi : Int) (h : min hi (max (min a hi) c) = c) :
    spinBoxSetMaximum slot ⟨ty, vs, cb, st, mn, mx, val, (some ⟨a, b, c⟩), sl, pl⟩ hi =
      some ⟨ty, vs, cb, st, mn, mx, val, (some ⟨min a hi, hi, c⟩), sl, pl⟩ := by
  simp only [spinBoxSetMaximum, spinBox_setMaximum_mk, spinBoxChanged, h, ne_eq, not_true_eq_false, decide_False,
    Bool.false_eq_true, if_false]

theorem spinBoxSetMaximum_emit (slot : FormGenIntWidget → Option FormGenIntWidget) (ty : ElementType) (vs : Bool) (cb : Option QCheckBox) (st : InputStyle) (mn mx val : Int) (sl : Option QSlider) (pl : Option QLineEdit) (a b c hi : Int) (h : min hi (max (min a hi) c) ≠ c) :
    spinBoxSetMaximum slot ⟨ty, vs, cb, st, mn, mx, val, (some ⟨a, b, c⟩), sl, pl⟩ hi =
      slot ⟨ty, vs, cb, st, mn, mx, val, (some ⟨min a hi, hi, (min hi (max (min a hi) c))⟩), sl, pl⟩ := by
  simp only [spinBoxSetMaximum, spinBox_setMaximum_mk, spinBoxChanged, h, ne_eq, not_false_eq_true, decide_True, if_true]

theorem sliderSetMinimum_none (slot : FormGenIntWidget → Option FormGenIntWidget) (ty : ElementType) (vs : Bool) (cb : Option QCheckBox) (st : InputStyle) (mn mx val : Int) (sp : Option QSpinBox) (pl : Option QLineEdit) (lo : Int) :
    sliderSetMinimum slot ⟨ty, vs, cb, st, mn, mx, val, sp, none, pl⟩ lo =
      some ⟨ty, vs, cb, st, mn, mx, val, sp, none, pl⟩ := by
  rfl

theorem sliderSetMinimum_quiet (slot : FormGenIntWidget → Option FormGenIntWidget) (ty : ElementType) (vs : Bool) (cb : Option QCheckBox) (st : InputStyle) (mn mx val : Int) (sp : Option QSpinBox) (pl : Option QLineEdit) (a b c lo : Int) (h : ¬ (a ≠ lo ∨ b ≠ max lo b) ∨ max lo (min (max lo b) c) = c) :
    sliderSetMinimum slot ⟨ty, vs, cb, st, mn, mx, val, sp, (some ⟨a, b, c⟩), pl⟩ lo =
      some ⟨ty, vs, cb, st, mn, mx, val, sp, (some ⟨lo, max lo b, c⟩), pl⟩ := by
  simp only [sliderSetMinimum, slider_setMinimum_mk]
  by_cases hr : a ≠ lo ∨ b ≠ max lo b
  · have hb : max lo (min (max lo b) c) = c := by
      rcases h with h | h
      · exact absurd hr h
      · exact h
    rw [if_pos hr]
    simp only [sliderChanged, hb, ne_eq, not_true_eq_false, decide_False, Bool.false_eq_true, if_false]
  · rw [if_neg hr]
    simp only [sliderChanged, Bool.false_eq_true, if_false]

theorem sliderSetMinimum_emit (slot : FormGenIntWidget → Option FormGenIntWidget) (ty : ElementType) (vs : Bool) (cb : Option QCheckBox) (st : InputStyle) (mn mx val : Int) (sp : Option QSpinBox) (pl : Option QLineEdit) (a b c lo : Int) (h : (a ≠ lo ∨ b ≠ max lo b) ∧ max lo (min (max lo b) c) ≠ c) :
    sliderSetMinimum slot ⟨ty, vs, cb, st, mn, mx, val, sp, (some ⟨a, b, c⟩), pl⟩ lo =
      slot ⟨ty, vs, cb, st, mn, mx, val, sp, (some ⟨lo, max lo b, (max lo (min (max lo b) c))⟩), pl⟩ := by
  simp only [sliderSetMinimum, slider_setMinimum_mk]
  rw [if_pos h.1]
  simp only [sliderChanged, h.2, ne_eq, not_false_eq_true, decide_True, if_true]

theorem sliderSetMaximum_none (slot : FormGenIntWidget → Option FormGenIntWidget) (ty : ElementType) (vs : Bool) (cb : Option QCheckBox) (st : InputStyle) (mn mx val : Int) (sp : Option QSpinBox) (pl : Option QLineEdit) (hi : Int) :
    sliderSetMaximum slot ⟨ty, vs, cb, st, mn, mx, val, sp, none, pl⟩ hi =
      some ⟨ty, vs, cb, st, mn, mx, val, sp, none, pl⟩ := by
  rfl

theorem sliderSetMaximum_quiet (slot : FormGenIntWidget → Option FormGenIntWidget) (ty : ElementType) (vs : Bool) (cb : Option QCheckBox) (st : InputStyle) (mn mx val : Int) (sp : Option QSpinBox) (pl : Option QLineEdit) (a b c hi : Int) (h : ¬ (a ≠ min a hi ∨ b ≠ hi) ∨ max (min a hi) (min hi c) = c) :
    sliderSetMaximum slot ⟨ty, vs, cb, st, mn, mx, val, sp, (some ⟨a, b, c⟩), pl⟩ hi =
      some ⟨ty, vs, cb, st, mn, mx, val, sp, (some ⟨min a hi, hi, c⟩), pl⟩ := by
  simp only [sliderSetMaximum, slider_setMaximum_mk]
  by_cases hr : a ≠ min a hi ∨ b ≠ hi
  · have hb : max (min a hi) (min hi c) = c := by
      rcases h with h | h
      · exact absurd hr h
      · exact h
    rw [if_pos hr]
    simp only [sliderChanged, hb, ne_eq, not_true_eq_false, decide_False, Bool.false_eq_true, if_false]
  · rw [if_neg hr]
    simp only [sliderChanged, Bool.false_eq_true, if_false]

theorem sliderSetMaximum_emit (slot : FormGenIntWidget → Option FormGenIntWidget) (ty : ElementType) (vs : Bool) (cb : Option QCheckBox) (st : InputStyle) (mn mx val : Int) (sp : Option QSpinBox) (pl : Option QLineEdit) (a b c hi : Int) (h : (a ≠ min a hi ∨ b ≠ hi) ∧ max (min a hi) (min hi c) ≠ c) :
    sliderSetMaximum slot ⟨ty, vs, cb, st, mn, mx, val, sp, (some ⟨a, b, c⟩), pl⟩ hi =
      slot ⟨ty, vs, cb, st, mn, mx, val, sp, (some ⟨min a hi, hi, (max (min a hi) (min hi c))⟩), pl⟩ := by
  simp only [sliderSetMaximum, slider_setMaximum_mk]
  rw [if_pos h.1]
  simp only [sliderChanged, h.2, ne_eq, not_false_eq_true, decide_True, if_true]

theorem spinBoxSetValue_none (slot : FormGenIntWidget → Option FormGenIntWidget) (ty : ElementType) (vs : Bool) (cb : Option QCheckBox) (st : InputStyle) (mn mx val : Int) (sl : Option QSlider) (pl : Option QLineEdit) (v : Int) :
    spinBoxSetValue slot ⟨ty, vs, cb, st, mn, mx, val, none, sl, pl⟩ v =
      some ⟨ty, vs, cb, st, mn, mx, val, none, sl, pl⟩ := by
  rfl

theorem spinBoxSetValue_quiet (slot : FormGenIntWidget → Option FormGenIntWidget) (ty : ElementType) (vs : Bool) (cb : Option QCheckBox) (st : InputStyle) (mn mx val : Int) (sl : Option QSlider) (pl : Option QLineEdit) (a b c v : Int) (h : min b (max a v) = c) :
    spinBoxSetValue slot ⟨ty, vs, cb, st, mn, mx, val, (some ⟨a, b, c⟩), sl, pl⟩ v =
      some ⟨ty, vs, cb, st, mn, mx, val, (some ⟨a, b, c⟩), sl, pl⟩ := by
  simp only [spinBoxSetValue, spinBox_setValue_mk, spinBoxChanged, h, ne_eq, not_true_eq_false, decide_False,
    Bool.false_eq_true, if_false]

theorem spinBoxSetValue_emit (slot : FormGenIntWidget → Option FormGenIntWidget) (ty : ElementType) (vs : Bool) (cb : Option QCheckBox) (st : InputStyle) (mn mx val : Int) (sl : Option QSlider) (pl : Option QLineEdit) (a b c v : Int) (h : min b (max a v) ≠ c) :
    spinBoxSetValue slot ⟨ty, vs, cb, st, mn, mx, val, (some ⟨a, b, c⟩), sl, pl⟩ v =
      slot ⟨ty, vs, cb, st, mn, mx, val, (some ⟨a, b, min b (max a v)⟩), sl, pl⟩ := by
  simp only [spinBoxSetValue, spinBox_setValue_mk, spinBoxChanged, h, ne_eq, not_false_eq_true, decide_True, if_true]

theorem sliderSetValue_none (slot : FormGenIntWidget → Option FormGenIntWidget) (ty : ElementType) (vs : Bool) (cb : Option QCheckBox) (st : InputStyle) (mn mx val : Int) (sp : Option QSpinBox) (pl : Option QLineEdit) (v : Int) :
    sliderSetValue slot ⟨ty, vs, cb, st, mn, mx, val, sp, none, pl⟩ v =
      some ⟨ty, vs, cb, st, mn, mx, val, sp, none, pl⟩ := by
  rfl

theorem sliderSetValue_quiet (slot : FormGenIntWidget → Option FormGenIntWidget) (ty : ElementType) (vs : Bool) (cb : Option QCheckBox) (st : InputStyle) (mn mx val : Int) (sp : Option QSpinBox) (pl : Option QLineEdit) (a b c v : Int) (h : max a (min b v) = c) :
    sliderSetValue slot ⟨ty, vs, cb, st, mn, mx, val, sp, (some ⟨a, b, c⟩), pl⟩ v =
      some ⟨ty, vs, cb, st, mn, mx, val, sp, (some ⟨a, b, c⟩), pl⟩ := by
  simp only [sliderSetValue, slider_setValue_mk, sliderChanged, h, ne_eq, not_true_eq_false, decide_False,
    Bool.false_eq_true, if_false]

theorem sliderSetValue_emit (slot : FormGenIntWidget → Option FormGenIntWidget) (ty : ElementType) (vs : Bool) (cb : Option QCheckBox) (st : InputStyle) (mn mx val : Int) (sp : Option QSpinBox) (pl : Option QLineEdit) (a b c v : Int) (h : max a (min b v) ≠ c) :
    sliderSetValue slot ⟨ty, vs, cb, st, mn, mx, val, sp, (some ⟨a, b, c⟩), pl⟩ v =
      slot ⟨ty, vs, cb, st, mn, mx, val, sp, (some ⟨a, b, max a (min b v)⟩), pl⟩ := by
  simp only [sliderSetValue, slider_setValue_mk, sliderChanged, h, ne_eq, not_false_eq_true, decide_True, if_true]

theorem plainEdited_none (slot : FormGenIntWidget → Option FormGenIntWidget) (ty : ElementType) (vs : Bool) (cb : Option QCheckBox) (st : InputStyle) (mn mx val : Int) (sp : Option QSpinBox) (sl : Option QSlider) (t : Option Int) :
    plainEdited slot ⟨ty, vs, cb, st, mn, mx, val, sp, sl, none⟩ t =
      some ⟨ty, vs, cb, st, mn, mx, val, sp, sl, none⟩ := by
  rfl

theorem plainEdited_some (slot : FormGenIntWidget → Option FormGenIntWidget) (ty : ElementType) (vs : Bool) (cb : Option QCheckBox) (st : InputStyle) (mn mx val : Int) (sp : Option QSpinBox) (sl : Option QSlider) (le : QLineEdit) (t : Option Int) :
    plainEdited slot ⟨ty, vs, cb, st, mn, mx, val, sp, sl, (some le)⟩ t =
      slot ⟨ty, vs, cb, st, mn, mx, val, sp, sl, (some ⟨t⟩)⟩ := by
  rfl

theorem valueSetBoxSetChecked_none (slot : FormGenIntWidget → Bool → Option FormGenIntWidget) (ty : ElementType) (vs : Bool) (st : InputStyle) (mn mx val : Int) (sp : Option QSpinBox)
    (sl : Option QSlider) (pl : Option QLineEdit) (b : Bool) :
    valueSetBoxSetChecked slot ⟨ty, vs, none, st, mn, mx, val, sp, sl, pl⟩ b =
      some ⟨ty, vs, none, st, mn, mx, val, sp, sl, pl⟩ := by
  rfl

theorem valueSetBoxSetChecked_quiet (slot : FormGenIntWidget → Bool → Option FormGenIntWidget) (ty : ElementType) (vs : Bool) (st : InputStyle) (mn mx val : Int) (sp : Option QSpinBox)
    (sl : Option QSlider) (pl : Option QLineEdit) (c b : Bool) (h : c = b) :
    valueSetBoxSetChecked slot ⟨ty, vs, (some ⟨c⟩), st, mn, mx, val, sp, sl, pl⟩ b =
      some ⟨ty, vs, (some ⟨b⟩), st, mn, mx, val, sp, sl, pl⟩ := by
  subst h
  simp [valueSetBoxSetChecked, QCheckBox.setChecked, valueSetBoxChanged]

theorem valueSetBoxSetChecked_emit (slot : FormGenIntWidget → Bool → Option FormGenIntWidget) (ty : ElementType) (vs : Bool) (st : InputStyle) (mn mx val : Int) (sp : Option QSpinBox)
    (sl : Option QSlider) (pl : Option QLineEdit) (c b : Bool) (h : c ≠ b) :
    valueSetBoxSetChecked slot ⟨ty, vs, (some ⟨c⟩), st, mn, mx, val, sp, sl, pl⟩ b =
      slot ⟨ty, vs, (some ⟨b⟩), st, mn, mx, val, sp, sl, pl⟩ b := by
  simp [valueSetBoxSetChecked, QCheckBox.setChecked, valueSetBoxChanged, h]

end FormGenIntWidget


set_option linter.unreachableTactic false
set_option linter.unusedTactic false

/-! ## The integer widget: every call on a state whose input widgets agree with the fields -/

namespace FormGenIntWidget

open Qt

/-- The call `setMinimum(a)` in a state whose input widgets agree with the fields: the minimum is
`a`, and the maximum and the value are raised to `a` when they are below it. -/
theorem setMinimum_synced (st : InputStyle) (ty : ElementType) (vs : Bool) (mn mx val : Int) (a : Int) (k : Nat)
    (h1 : mn ≤ val) (h2 : val ≤ mx) :
    setMinimum (k + 8) (synced st ty vs mn mx val) a =
      some (synced st ty vs a (max mx a) (max val a)) := by
  cases st
  · by_cases h0 : mn = a <;>
    by_cases h3 : a ≤ val <;>
    by_cases h4 : a ≤ mx <;>
    first
    | (exfalso; omega)
    | (subst_vars; (
        simp (disch := first | omega | decide) only
          [
            synced, step, Option.some_bind, reduceCtorEq, eq_self_iff_true, or_false, false_or,
            true_or, or_true, or_self, ite_true, ite_false, min_eq_left, min_eq_right,
            max_eq_left, max_eq_right, updateInputWidgets_step InputStyle.Spinner,
            checkNewValue_step InputStyle.Spinner, setIntValue_same InputStyle.Spinner,
            setIntValue_other InputStyle.Spinner, setMinimum_same InputStyle.Spinner,
            setMinimum_other InputStyle.Spinner, setMaximum_same InputStyle.Spinner,
            setMaximum_other InputStyle.Spinner, setValueSet_same InputStyle.Spinner,
            setValueSet_other InputStyle.Spinner, updateSpinBox_none, updateSpinBox_quiet,
            updateSpinBox_emit, updateSlider_none, updateSlider_quiet, updateSlider_emit,
            spinBoxSetMinimum_none, spinBoxSetMinimum_quiet, spinBoxSetMinimum_emit,
            spinBoxSetMaximum_none, spinBoxSetMaximum_quiet, spinBoxSetMaximum_emit,
            sliderSetMinimum_none, sliderSetMinimum_quiet, sliderSetMinimum_emit,
            sliderSetMaximum_none, sliderSetMaximum_quiet, sliderSetMaximum_emit,
            spinBoxSetValue_none, spinBoxSetValue_quiet, spinBoxSetValue_emit,
            sliderSetValue_none, sliderSetValue_quiet, sliderSetValue_emit,
            valueSetBoxSetChecked_none, valueSetBoxSetChecked_quiet, valueSetBoxSetChecked_emit,
            checkSpinBox_none, checkSpinBox_skip, checkSpinBox_fire, checkSlider_none,
            checkSlider_skip, checkSlider_fire, checkPlain_none, checkPlain_unread,
            checkPlain_skip, checkPlain_fire, updatePlain_none, updatePlain_some,
            plainEdited_none, plainEdited_some]))
  · by_cases h0 : mn = a <;>
    by_cases h3 : a ≤ val <;>
    by_cases h4 : a ≤ mx <;>
    first
    | (exfalso; omega)
    | (subst_vars; (
        simp (disch := first | omega | decide) only
          [
            synced, step, Option.some_bind, reduceCtorEq, eq_self_iff_true, or_false, false_or,
            true_or, or_true, or_self, ite_true, ite_false, min_eq_left, min_eq_right,
            max_eq_left, max_eq_right, updateInputWidgets_step InputStyle.Slider,
            checkNewValue_step InputStyle.Slider, setIntValue_same InputStyle.Slider,
            setIntValue_other InputStyle.Slider, setMinimum_same InputStyle.Slider,
            setMinimum_other InputStyle.Slider, setMaximum_same InputStyle.Slider,
            setMaximum_other InputStyle.Slider, setValueSet_same InputStyle.Slider,
            setValueSet_other InputStyle.Slider, updateSpinBox_none, updateSpinBox_quiet,
            updateSpinBox_emit, updateSlider_none, updateSlider_quiet, updateSlider_emit,
            spinBoxSetMinimum_none, spinBoxSetMinimum_quiet, spinBoxSetMinimum_emit,
            spinBoxSetMaximum_none, spinBoxSetMaximum_quiet, spinBoxSetMaximum_emit,
            sliderSetMinimum_none, sliderSetMinimum_quiet, sliderSetMinimum_emit,
            sliderSetMaximum_none, sliderSetMaximum_quiet, sliderSetMaximum_emit,
            spinBoxSetValue_none, spinBoxSetValue_quiet, spinBoxSetValue_emit,
            sliderSetValue_none, sliderSetValue_quiet, sliderSetValue_emit,
            valueSetBoxSetChecked_none, valueSetBoxSetChecked_quiet, valueSetBoxSetChecked_emit,
            checkSpinBox_none, checkSpinBox_skip, checkSpinBox_fire, checkSlider_none,
            checkSlider_skip, checkSlider_fire, checkPlain_none, checkPlain_unread,
            checkPlain_skip, checkPlain_fire, updatePlain_none, updatePlain_some,
            plainEdited_none, plainEdited_some]))
  · by_cases h0 : mn = a <;>
    by_cases h3 : a ≤ val <;>
    by_cases h4 : a ≤ mx <;>
    by_cases h5 : mx = val <;>
    first
    | (exfalso; omega)
    | (subst_vars; (
        simp (disch := first | omega | decide) only
          [
            synced, step, Option.some_bind, reduceCtorEq, eq_self_iff_true, or_false, false_or,
            true_or, or_true, or_self, ite_true, ite_false, min_eq_left, min_eq_right,
            max_eq_left, max_eq_right, updateInputWidgets_step InputStyle.SpinnerSlider,
            checkNewValue_step InputStyle.SpinnerSlider,
            setIntValue_same InputStyle.SpinnerSlider,
            setIntValue_other InputStyle.SpinnerSlider, setMinimum_same InputStyle.SpinnerSlider,
            setMinimum_other InputStyle.SpinnerSlider, setMaximum_same InputStyle.SpinnerSlider,
            setMaximum_other InputStyle.SpinnerSlider, setValueSet_same InputStyle.SpinnerSlider,
            setValueSet_other InputStyle.SpinnerSlider, updateSpinBox_none, updateSpinBox_quiet,
            updateSpinBox_emit, updateSlider_none, updateSlider_quiet, updateSlider_emit,
            spinBoxSetMinimum_none, spinBoxSetMinimum_quiet, spinBoxSetMinimum_emit,
            spinBoxSetMaximum_none, spinBoxSetMaximum_quiet, spinBoxSetMaximum_emit,
            sliderSetMinimum_none, sliderSetMinimum_quiet, sliderSetMinimum_emit,
            sliderSetMaximum_none, sliderSetMaximum_quiet, sliderSetMaximum_emit,
            spinBoxSetValue_none, spinBoxSetValue_quiet, spinBoxSetValue_emit,
            sliderSetValue_none, sliderSetValue_quiet, sliderSetValue_emit,
            valueSetBoxSetChecked_none, valueSetBoxSetChecked_quiet, valueSetBoxSetChecked_emit,
            checkSpinBox_none, checkSpinBox_skip, checkSpinBox_fire, checkSlider_none,
            checkSlider_skip, checkSlider_fire, checkPlain_none, checkPlain_unread,
            checkPlain_skip, checkPlain_fire, updatePlain_none, updatePlain_some,
            plainEdited_none, plainEdited_some]))
  · by_cases h0 : mn = a <;>
    by_cases h3 : a ≤ val <;>
    by_cases h4 : a ≤ mx <;>
    first
    | (exfalso; omega)
    | (subst_vars; (
        simp (disch := first | omega | decide) only
          [
            synced, step, Option.some_bind, reduceCtorEq, eq_self_iff_true, or_false, false_or,
            true_or, or_true, or_self, ite_true, ite_false, min_eq_left, min_eq_right,
            max_eq_left, max_eq_right, updateInputWidgets_step InputStyle.Plain,
            checkNewValue_step InputStyle.Plain, setIntValue_same InputStyle.Plain,
            setIntValue_other InputStyle.Plain, setMinimum_same InputStyle.Plain,
            setMinimum_other InputStyle.Plain, setMaximum_same InputStyle.Plain,
            setMaximum_other InputStyle.Plain, setValueSet_same InputStyle.Plain,
            setValueSet_other InputStyle.Plain, updateSpinBox_none, updateSpinBox_quiet,
            updateSpinBox_emit, updateSlider_none, updateSlider_quiet, updateSlider_emit,
            spinBoxSetMinimum_none, spinBoxSetMinimum_quiet, spinBoxSetMinimum_emit,
            spinBoxSetMaximum_none, spinBoxSetMaximum_quiet, spinBoxSetMaximum_emit,
            sliderSetMinimum_none, sliderSetMinimum_quiet, sliderSetMinimum_emit,
            sliderSetMaximum_none, sliderSetMaximum_quiet, sliderSetMaximum_emit,
            spinBoxSetValue_none, spinBoxSetValue_quiet, spinBoxSetValue_emit,
            sliderSetValue_none, sliderSetValue_quiet, sliderSetValue_emit,
            valueSetBoxSetChecked_none, valueSetBoxSetChecked_quiet, valueSetBoxSetChecked_emit,
            checkSpinBox_none, checkSpinBox_skip, checkSpinBox_fire, checkSlider_none,
            checkSlider_skip, checkSlider_fire, checkPlain_none, checkPlain_unread,
            checkPlain_skip, checkPlain_fire, updatePlain_none, updatePlain_some,
            plainEdited_none, plainEdited_some]))

/-- The call `setMaximum(a)` in a state whose input widgets agree with the fields: the maximum is
`a`, and the minimum and the value are lowered to `a` when they are above it. -/
theorem setMaximum_synced (st : InputStyle) (ty : ElementType) (vs : Bool) (mn mx val : Int) (a : Int) (k : Nat)
    (h1 : mn ≤ val) (h2 : val ≤ mx) :
    setMaximum (k + 8) (synced st ty vs mn mx val) a =
      some (synced st ty vs (min mn a) a (min val a)) := by
  cases st
  · by_cases h0 : mx = a <;>
    by_cases h3 : val ≤ a <;>
    by_cases h4 : mn ≤ a <;>
    first
    | (exfalso; omega)
    | (subst_vars; (
        simp (disch := first | omega | decide) only
          [
            synced, step, Option.some_bind, reduceCtorEq, eq_self_iff_true, or_false, false_or,
            true_or, or_true, or_self, ite_true, ite_false, min_eq_left, min_eq_right,
            max_eq_left, max_eq_right, updateInputWidgets_step InputStyle.Spinner,
            checkNewValue_step InputStyle.Spinner, setIntValue_same InputStyle.Spinner,
            setIntValue_other InputStyle.Spinner, setMinimum_same InputStyle.Spinner,
            setMinimum_other InputStyle.Spinner, setMaximum_same InputStyle.Spinner,
            setMaximum_other InputStyle.Spinner, setValueSet_same InputStyle.Spinner,
            setValueSet_other InputStyle.Spinner, updateSpinBox_none, updateSpinBox_quiet,
            updateSpinBox_emit, updateSlider_none, updateSlider_quiet, updateSlider_emit,
            spinBoxSetMinimum_none, spinBoxSetMinimum_quiet, spinBoxSetMinimum_emit,
            spinBoxSetMaximum_none, spinBoxSetMaximum_quiet, spinBoxSetMaximum_emit,
            sliderSetMinimum_none, sliderSetMinimum_quiet, sliderSetMinimum_emit,
            sliderSetMaximum_none, sliderSetMaximum_quiet, sliderSetMaximum_emit,
            spinBoxSetValue_none, spinBoxSetValue_quiet, spinBoxSetValue_emit,
            sliderSetValue_none, sliderSetValue_quiet, sliderSetValue_emit,
            valueSetBoxSetChecked_none, valueSetBoxSetChecked_quiet, valueSetBoxSetChecked_emit,
            checkSpinBox_none, checkSpinBox_skip, checkSpinBox_fire, checkSlider_none,
            checkSlider_skip, checkSlider_fire, checkPlain_none, checkPlain_unread,
            checkPlain_skip, checkPlain_fire, updatePlain_none, updatePlain_some,
            plainEdited_none, plainEdited_some]))
  · by_cases h0 : mx = a <;>
    by_cases h3 : val ≤ a <;>
    by_cases h4 : mn ≤ a <;>
    first
    | (exfalso; omega)
    | (subst_vars; (
        simp (disch := first | omega | decide) only
          [
            synced, step, Option.some_bind, reduceCtorEq, eq_self_iff_true, or_false, false_or,
            true_or, or_true, or_self, ite_true, ite_false, min_eq_left, min_eq_right,
            max_eq_left, max_eq_right, updateInputWidgets_step InputStyle.Slider,
            checkNewValue_step InputStyle.Slider, setIntValue_same InputStyle.Slider,
            setIntValue_other InputStyle.Slider, setMinimum_same InputStyle.Slider,
            setMinimum_other InputStyle.Slider, setMaximum_same InputStyle.Slider,
            setMaximum_other InputStyle.Slider, setValueSet_same InputStyle.Slider,
            setValueSet_other InputStyle.Slider, updateSpinBox_none, updateSpinBox_quiet,
            updateSpinBox_emit, updateSlider_none, updateSlider_quiet, updateSlider_emit,
            spinBoxSetMinimum_none, spinBoxSetMinimum_quiet, spinBoxSetMinimum_emit,
            spinBoxSetMaximum_none, spinBoxSetMaximum_quiet, spinBoxSetMaximum_emit,
            sliderSetMinimum_none, sliderSetMinimum_quiet, sliderSetMinimum_emit,
            sliderSetMaximum_none, sliderSetMaximum_quiet, sliderSetMaximum_emit,
            spinBoxSetValue_none, spinBoxSetValue_quiet, spinBoxSetValue_emit,
            sliderSetValue_none, sliderSetValue_quiet, sliderSetValue_emit,
            valueSetBoxSetChecked_none, valueSetBoxSetChecked_quiet, valueSetBoxSetChecked_emit,
            checkSpinBox_none, checkSpinBox_skip, checkSpinBox_fire, checkSlider_none,
            checkSlider_skip, checkSlider_fire, checkPlain_none, checkPlain_unread,
            checkPlain_skip, checkPlain_fire, updatePlain_none, updatePlain_some,
            plainEdited_none, plainEdited_some]))
  · by_cases h0 : mx = a <;>
    by_cases h3 : val ≤ a <;>
    by_cases h4 : mn ≤ a <;>
    first
    | (exfalso; omega)
    | (subst_vars; (
        simp (disch := first | omega | decide) only
          [
            synced, step, Option.some_bind, reduceCtorEq, eq_self_iff_true, or_false, false_or,
            true_or, or_true, or_self, ite_true, ite_false, min_eq_left, min_eq_right,
            max_eq_left, max_eq_right, updateInputWidgets_step InputStyle.SpinnerSlider,
            checkNewValue_step InputStyle.SpinnerSlider,
            setIntValue_same InputStyle.SpinnerSlider,
            setIntValue_other InputStyle.SpinnerSlider, setMinimum_same InputStyle.SpinnerSlider,
            setMinimum_other InputStyle.SpinnerSlider, setMaximum_same InputStyle.SpinnerSlider,
            setMaximum_other InputStyle.SpinnerSlider, setValueSet_same InputStyle.SpinnerSlider,
            setValueSet_other InputStyle.SpinnerSlider, updateSpinBox_none, updateSpinBox_quiet,
            updateSpinBox_emit, updateSlider_none, updateSlider_quiet, updateSlider_emit,
            spinBoxSetMinimum_none, spinBoxSetMinimum_quiet, spinBoxSetMinimum_emit,
            spinBoxSetMaximum_none, spinBoxSetMaximum_quiet, spinBoxSetMaximum_emit,
            sliderSetMinimum_none, sliderSetMinimum_quiet, sliderSetMinimum_emit,
            sliderSetMaximum_none, sliderSetMaximum_quiet, sliderSetMaximum_emit,
            spinBoxSetValue_none, spinBoxSetValue_quiet, spinBoxSetValue_emit,
            sliderSetValue_none, sliderSetValue_quiet, sliderSetValue_emit,
            valueSetBoxSetChecked_none, valueSetBoxSetChecked_quiet, valueSetBoxSetChecked_emit,
            checkSpinBox_none, checkSpinBox_skip, checkSpinBox_fire, checkSlider_none,
            checkSlider_skip, checkSlider_fire, checkPlain_none, checkPlain_unread,
            checkPlain_skip, checkPlain_fire, updatePlain_none, updatePlain_some,
            plainEdited_none, plainEdited_some]))
  · by_cases h0 : mx = a <;>
    by_cases h3 : val ≤ a <;>
    by_cases h4 : mn ≤ a <;>
    first
    | (exfalso; omega)
    | (subst_vars; (
        simp (disch := first | omega | decide) only
          [
            synced, step, Option.some_bind, reduceCtorEq, eq_self_iff_true, or_false, false_or,
            true_or, or_true, or_self, ite_true, ite_false, min_eq_left, min_eq_right,
            max_eq_left, max_eq_right, updateInputWidgets_step InputStyle.Plain,
            checkNewValue_step InputStyle.Plain, setIntValue_same InputStyle.Plain,
            setIntValue_other InputStyle.Plain, setMinimum_same InputStyle.Plain,
            setMinimum_other InputStyle.Plain, setMaximum_same InputStyle.Plain,
            setMaximum_other InputStyle.Plain, setValueSet_same InputStyle.Plain,
            setValueSet_other InputStyle.Plain, updateSpinBox_none, updateSpinBox_quiet,
            updateSpinBox_emit, updateSlider_none, updateSlider_quiet, updateSlider_emit,
            spinBoxSetMinimum_none, spinBoxSetMinimum_quiet, spinBoxSetMinimum_emit,
            spinBoxSetMaximum_none, spinBoxSetMaximum_quiet, spinBoxSetMaximum_emit,
            sliderSetMinimum_none, sliderSetMinimum_quiet, sliderSetMinimum_emit,
            sliderSetMaximum_none, sliderSetMaximum_quiet, sliderSetMaximum_emit,
            spinBoxSetValue_none, spinBoxSetValue_quiet, spinBoxSetValue_emit,
            sliderSetValue_none, sliderSetValue_quiet, sliderSetValue_emit,
            valueSetBoxSetChecked_none, valueSetBoxSetChecked_quiet, valueSetBoxSetChecked_emit,
            checkSpinBox_none, checkSpinBox_skip, checkSpinBox_fire, checkSlider_none,
            checkSlider_skip, checkSlider_fire, checkPlain_none, checkPlain_unread,
            checkPlain_skip, checkPlain_fire, updatePlain_none, updatePlain_some,
            plainEdited_none, plainEdited_some]))

/-- The call `setIntValue(v)` with a value inside the range, in a state whose input widgets agree
with the fields: the value becomes `v`, except in the style with a spin box and a slider, where
the slot run by the spin box takes the old value back from the slider. -/
theorem setIntValue_synced (st : InputStyle) (ty : ElementType) (vs : Bool) (mn mx val : Int) (v : Int) (k : Nat)
    (h1 : mn ≤ val) (h2 : val ≤ mx) (h3 : mn ≤ v) (h4 : v ≤ mx) :
    setIntValue (k + 8) (synced st ty vs mn mx val) v =
      some (synced st ty vs mn mx (if st = InputStyle.SpinnerSlider then val else v)) := by
  cases st <;>
  by_cases h0 : val = v <;>
  first
  | (exfalso; omega)
  | (subst_vars; (
      simp (disch := first | omega | decide) only
        [
          synced, step, Option.some_bind, reduceCtorEq, eq_self_iff_true, or_false, false_or,
          true_or, or_true, or_self, ite_true, ite_false, min_eq_left, min_eq_right, max_eq_left,
          max_eq_right, updateInputWidgets_step InputStyle.Spinner,
          updateInputWidgets_step InputStyle.Slider,
          updateInputWidgets_step InputStyle.SpinnerSlider,
          updateInputWidgets_step InputStyle.Plain, checkNewValue_step InputStyle.Spinner,
          checkNewValue_step InputStyle.Slider, checkNewValue_step InputStyle.SpinnerSlider,
          checkNewValue_step InputStyle.Plain, setIntValue_same InputStyle.Spinner,
          setIntValue_same InputStyle.Slider, setIntValue_same InputStyle.SpinnerSlider,
          setIntValue_same InputStyle.Plain, setIntValue_other InputStyle.Spinner,
          setIntValue_other InputStyle.Slider, setIntValue_other InputStyle.SpinnerSlider,
          setIntValue_other InputStyle.Plain, setMinimum_same InputStyle.Spinner,
          setMinimum_same InputStyle.Slider, setMinimum_same InputStyle.SpinnerSlider,
          setMinimum_same InputStyle.Plain, setMinimum_other InputStyle.Spinner,
          setMinimum_other InputStyle.Slider, setMinimum_other InputStyle.SpinnerSlider,
          setMinimum_other InputStyle.Plain, setMaximum_same InputStyle.Spinner,
          setMaximum_same InputStyle.Slider, setMaximum_same InputStyle.SpinnerSlider,
          setMaximum_same InputStyle.Plain, setMaximum_other InputStyle.Spinner,
          setMaximum_other InputStyle.Slider, setMaximum_other InputStyle.SpinnerSlider,
          setMaximum_other InputStyle.Plain, setValueSet_same InputStyle.Spinner,
          setValueSet_same InputStyle.Slider, setValueSet_same InputStyle.SpinnerSlider,
          setValueSet_same InputStyle.Plain, setValueSet_other InputStyle.Spinner,
          setValueSet_other InputStyle.Slider, setValueSet_other InputStyle.SpinnerSlider,
          setValueSet_other InputStyle.Plain, updateSpinBox_none, updateSpinBox_quiet,
          updateSpinBox_emit, updateSlider_none, updateSlider_quiet, updateSlider_emit,
          spinBoxSetMinimum_none, spinBoxSetMinimum_quiet, spinBoxSetMinimum_emit,
          spinBoxSetMaximum_none, spinBoxSetMaximum_quiet, spinBoxSetMaximum_emit,
          sliderSetMinimum_none, sliderSetMinimum_quiet, sliderSetMinimum_emit,
          sliderSetMaximum_none, sliderSetMaximum_quiet, sliderSetMaximum_emit,
          spinBoxSetValue_none, spinBoxSetValue_quiet, spinBoxSetValue_emit, sliderSetValue_none,
          sliderSetValue_quiet, sliderSetValue_emit, valueSetBoxSetChecked_none,
          valueSetBoxSetChecked_quiet, valueSetBoxSetChecked_emit, checkSpinBox_none,
          checkSpinBox_skip, checkSpinBox_fire, checkSlider_none, checkSlider_skip,
          checkSlider_fire, checkPlain_none, checkPlain_unread, checkPlain_skip, checkPlain_fire,
          updatePlain_none, updatePlain_some, plainEdited_none, plainEdited_some]))

/-- The slot `checkNewValue()` changes nothing in a state whose input widgets agree with the
fields. -/
theorem checkNewValue_synced (st : InputStyle) (ty : ElementType) (vs : Bool) (mn mx val : Int) (k : Nat)
    (h1 : mn ≤ val) (h2 : val ≤ mx) :
    checkNewValue (k + 8) (synced st ty vs mn mx val) =
      some (synced st ty vs mn mx val) := by
  cases st <;>
  first
  | (exfalso; omega)
  | (subst_vars; (
      simp (disch := first | omega | decide) only
        [
          synced, step, Option.some_bind, reduceCtorEq, eq_self_iff_true, or_false, false_or,
          true_or, or_true, or_self, ite_true, ite_false, min_eq_left, min_eq_right, max_eq_left,
          max_eq_right, updateInputWidgets_step InputStyle.Spinner,
          updateInputWidgets_step InputStyle.Slider,
          updateInputWidgets_step InputStyle.SpinnerSlider,
          updateInputWidgets_step InputStyle.Plain, checkNewValue_step InputStyle.Spinner,
          checkNewValue_step InputStyle.Slider, checkNewValue_step InputStyle.SpinnerSlider,
          checkNewValue_step InputStyle.Plain, setIntValue_same InputStyle.Spinner,
          setIntValue_same InputStyle.Slider, setIntValue_same InputStyle.SpinnerSlider,
          setIntValue_same InputStyle.Plain, setIntValue_other InputStyle.Spinner,
          setIntValue_other InputStyle.Slider, setIntValue_other InputStyle.SpinnerSlider,
          setIntValue_other InputStyle.Plain, setMinimum_same InputStyle.Spinner,
          setMinimum_same InputStyle.Slider, setMinimum_same InputStyle.SpinnerSlider,
          setMinimum_same InputStyle.Plain, setMinimum_other InputStyle.Spinner,
          setMinimum_other InputStyle.Slider, setMinimum_other InputStyle.SpinnerSlider,
          setMinimum_other InputStyle.Plain, setMaximum_same InputStyle.Spinner,
          setMaximum_same InputStyle.Slider, setMaximum_same InputStyle.SpinnerSlider,
          setMaximum_same InputStyle.Plain, setMaximum_other InputStyle.Spinner,
          setMaximum_other InputStyle.Slider, setMaximum_other InputStyle.SpinnerSlider,
          setMaximum_other InputStyle.Plain, setValueSet_same InputStyle.Spinner,
          setValueSet_same InputStyle.Slider, setValueSet_same InputStyle.SpinnerSlider,
          setValueSet_same InputStyle.Plain, setValueSet_other InputStyle.Spinner,
          setValueSet_other InputStyle.Slider, setValueSet_other InputStyle.SpinnerSlider,
          setValueSet_other InputStyle.Plain, updateSpinBox_none, updateSpinBox_quiet,
          updateSpinBox_emit, updateSlider_none, updateSlider_quiet, updateSlider_emit,
          spinBoxSetMinimum_none, spinBoxSetMinimum_quiet, spinBoxSetMinimum_emit,
          spinBoxSetMaximum_none, spinBoxSetMaximum_quiet, spinBoxSetMaximum_emit,
          sliderSetMinimum_none, sliderSetMinimum_quiet, sliderSetMinimum_emit,
          sliderSetMaximum_none, sliderSetMaximum_quiet, sliderSetMaximum_emit,
          spinBoxSetValue_none, spinBoxSetValue_quiet, spinBoxSetValue_emit, sliderSetValue_none,
          sliderSetValue_quiet, sliderSetValue_emit, valueSetBoxSetChecked_none,
          valueSetBoxSetChecked_quiet, valueSetBoxSetChecked_emit, checkSpinBox_none,
          checkSpinBox_skip, checkSpinBox_fire, checkSlider_none, checkSlider_skip,
          checkSlider_fire, checkPlain_none, checkPlain_unread, checkPlain_skip, checkPlain_fire,
          updatePlain_none, updatePlain_some, plainEdited_none, plainEdited_some]))

/-- A new value of the spin box becomes the value of the widget, bound to the range. -/
theorem spinBoxSetValue_synced (st : InputStyle) (ty : ElementType) (vs : Bool) (mn mx val : Int) (v : Int) (k : Nat)
    (h1 : mn ≤ val) (h2 : val ≤ mx) :
    step (k + 8) (synced st ty vs mn mx val) (Call.spinBoxSetValue v) =
      some (synced st ty vs mn mx
        (if st = InputStyle.Spinner ∨ st = InputStyle.SpinnerSlider then max mn (min mx v) else val)) := by
  obtain ⟨c, hc, hc1, hc2⟩ : ∃ c, c = max mn (min mx v) ∧ mn ≤ c ∧ c ≤ mx :=
    ⟨_, rfl, by omega, by omega⟩
  have e1 : min mx (max mn v) = c := by omega
  have e2 : max mn (min mx v) = c := hc.symm
  rw [← hc]
  cases st
  · by_cases h5 : c = val <;>
    first
    | (exfalso; omega)
    | (subst_vars; (
        simp (disch := first | omega | decide) only
          [
            synced, step, Option.some_bind, reduceCtorEq, eq_self_iff_true, or_false, false_or,
            true_or, or_true, or_self, ite_true, ite_false, min_eq_left, min_eq_right,
            max_eq_left, max_eq_right, e1, e2, updateInputWidgets_step InputStyle.Spinner,
            checkNewValue_step InputStyle.Spinner, setIntValue_same InputStyle.Spinner,
            setIntValue_other InputStyle.Spinner, setMinimum_same InputStyle.Spinner,
            setMinimum_other InputStyle.Spinner, setMaximum_same InputStyle.Spinner,
            setMaximum_other InputStyle.Spinner, setValueSet_same InputStyle.Spinner,
            setValueSet_other InputStyle.Spinner, updateSpinBox_none, updateSpinBox_quiet,
            updateSpinBox_emit, updateSlider_none, updateSlider_quiet, updateSlider_emit,
            spinBoxSetMinimum_none, spinBoxSetMinimum_quiet, spinBoxSetMinimum_emit,
            spinBoxSetMaximum_none, spinBoxSetMaximum_quiet, spinBoxSetMaximum_emit,
            sliderSetMinimum_none, sliderSetMinimum_quiet, sliderSetMinimum_emit,
            sliderSetMaximum_none, sliderSetMaximum_quiet, sliderSetMaximum_emit,
            spinBoxSetValue_none, spinBoxSetValue_quiet, spinBoxSetValue_emit,
            sliderSetValue_none, sliderSetValue_quiet, sliderSetValue_emit,
            valueSetBoxSetChecked_none, valueSetBoxSetChecked_quiet, valueSetBoxSetChecked_emit,
            checkSpinBox_none, checkSpinBox_skip, checkSpinBox_fire, checkSlider_none,
            checkSlider_skip, checkSlider_fire, checkPlain_none, checkPlain_unread,
            checkPlain_skip, checkPlain_fire, updatePlain_none, updatePlain_some,
            plainEdited_none, plainEdited_some]))
  · first
    | (exfalso; omega)
    | (subst_vars; (
        simp (disch := first | omega | decide) only
          [
            synced, step, Option.some_bind, reduceCtorEq, eq_self_iff_true, or_false, false_or,
            true_or, or_true, or_self, ite_true, ite_false, min_eq_left, min_eq_right,
            max_eq_left, max_eq_right, e1, e2, updateInputWidgets_step InputStyle.Slider,
            checkNewValue_step InputStyle.Slider, setIntValue_same InputStyle.Slider,
            setIntValue_other InputStyle.Slider, setMinimum_same InputStyle.Slider,
            setMinimum_other InputStyle.Slider, setMaximum_same InputStyle.Slider,
            setMaximum_other InputStyle.Slider, setValueSet_same InputStyle.Slider,
            setValueSet_other InputStyle.Slider, updateSpinBox_none, updateSpinBox_quiet,
            updateSpinBox_emit, updateSlider_none, updateSlider_quiet, updateSlider_emit,
            spinBoxSetMinimum_none, spinBoxSetMinimum_quiet, spinBoxSetMinimum_emit,
            spinBoxSetMaximum_none, spinBoxSetMaximum_quiet, spinBoxSetMaximum_emit,
            sliderSetMinimum_none, sliderSetMinimum_quiet, sliderSetMinimum_emit,
            sliderSetMaximum_none, sliderSetMaximum_quiet, sliderSetMaximum_emit,
            spinBoxSetValue_none, spinBoxSetValue_quiet, spinBoxSetValue_emit,
            sliderSetValue_none, sliderSetValue_quiet, sliderSetValue_emit,
            valueSetBoxSetChecked_none, valueSetBoxSetChecked_quiet, valueSetBoxSetChecked_emit,
            checkSpinBox_none, checkSpinBox_skip, checkSpinBox_fire, checkSlider_none,
            checkSlider_skip, checkSlider_fire, checkPlain_none, checkPlain_unread,
            checkPlain_skip, checkPlain_fire, updatePlain_none, updatePlain_some,
            plainEdited_none, plainEdited_some]))
  · by_cases h5 : c = val <;>
    first
    | (exfalso; omega)
    | (subst_vars; (
        simp (disch := first | omega | decide) only
          [
            synced, step, Option.some_bind, reduceCtorEq, eq_self_iff_true, or_false, false_or,
            true_or, or_true, or_self, ite_true, ite_false, min_eq_left, min_eq_right,
            max_eq_left, max_eq_right, e1, e2, updateInputWidgets_step InputStyle.SpinnerSlider,
            checkNewValue_step InputStyle.SpinnerSlider,
            setIntValue_same InputStyle.SpinnerSlider,
            setIntValue_other InputStyle.SpinnerSlider, setMinimum_same InputStyle.SpinnerSlider,
            setMinimum_other InputStyle.SpinnerSlider, setMaximum_same InputStyle.SpinnerSlider,
            setMaximum_other InputStyle.SpinnerSlider, setValueSet_same InputStyle.SpinnerSlider,
            setValueSet_other InputStyle.SpinnerSlider, updateSpinBox_none, updateSpinBox_quiet,
            updateSpinBox_emit, updateSlider_none, updateSlider_quiet, updateSlider_emit,
            spinBoxSetMinimum_none, spinBoxSetMinimum_quiet, spinBoxSetMinimum_emit,
            spinBoxSetMaximum_none, spinBoxSetMaximum_quiet, spinBoxSetMaximum_emit,
            sliderSetMinimum_none, sliderSetMinimum_quiet, sliderSetMinimum_emit,
            sliderSetMaximum_none, sliderSetMaximum_quiet, sliderSetMaximum_emit,
            spinBoxSetValue_none, spinBoxSetValue_quiet, spinBoxSetValue_emit,
            sliderSetValue_none, sliderSetValue_quiet, sliderSetValue_emit,
            valueSetBoxSetChecked_none, valueSetBoxSetChecked_quiet, valueSetBoxSetChecked_emit,
            checkSpinBox_none, checkSpinBox_skip, checkSpinBox_fire, checkSlider_none,
            checkSlider_skip, checkSlider_fire, checkPlain_none, checkPlain_unread,
            checkPlain_skip, checkPlain_fire, updatePlain_none, updatePlain_some,
            plainEdited_none, plainEdited_some]))
  · first
    | (exfalso; omega)
    | (subst_vars; (
        simp (disch := first | omega | decide) only
          [
            synced, step, Option.some_bind, reduceCtorEq, eq_self_iff_true, or_false, false_or,
            true_or, or_true, or_self, ite_true, ite_false, min_eq_left, min_eq_right,
            max_eq_left, max_eq_right, e1, e2, updateInputWidgets_step InputStyle.Plain,
            checkNewValue_step InputStyle.Plain, setIntValue_same InputStyle.Plain,
            setIntValue_other InputStyle.Plain, setMinimum_same InputStyle.Plain,
            setMinimum_other InputStyle.Plain, setMaximum_same InputStyle.Plain,
            setMaximum_other InputStyle.Plain, setValueSet_same InputStyle.Plain,
            setValueSet_other InputStyle.Plain, updateSpinBox_none, updateSpinBox_quiet,
            updateSpinBox_emit, updateSlider_none, updateSlider_quiet, updateSlider_emit,
            spinBoxSetMinimum_none, spinBoxSetMinimum_quiet, spinBoxSetMinimum_emit,
            spinBoxSetMaximum_none, spinBoxSetMaximum_quiet, spinBoxSetMaximum_emit,
            sliderSetMinimum_none, sliderSetMinimum_quiet, sliderSetMinimum_emit,
            sliderSetMaximum_none, sliderSetMaximum_quiet, sliderSetMaximum_emit,
            spinBoxSetValue_none, spinBoxSetValue_quiet, spinBoxSetValue_emit,
            sliderSetValue_none, sliderSetValue_quiet, sliderSetValue_emit,
            valueSetBoxSetChecked_none, valueSetBoxSetChecked_quiet, valueSetBoxSetChecked_emit,
            checkSpinBox_none, checkSpinBox_skip, checkSpinBox_fire, checkSlider_none,
            checkSlider_skip, checkSlider_fire, checkPlain_none, checkPlain_unread,
            checkPlain_skip, checkPlain_fire, updatePlain_none, updatePlain_some,
            plainEdited_none, plainEdited_some]))

/-- A new value of the slider becomes the value of the widget, bound to the range. -/
theorem sliderSetValue_synced (st : InputStyle) (ty : ElementType) (vs : Bool) (mn mx val : Int) (v : Int) (k : Nat)
    (h1 : mn ≤ val) (h2 : val ≤ mx) :
    step (k + 8) (synced st ty vs mn mx val) (Call.sliderSetValue v) =
      some (synced st ty vs mn mx
        (if st = InputStyle.Slider ∨ st = InputStyle.SpinnerSlider then max mn (min mx v) else val)) := by
  obtain ⟨c, hc, hc1, hc2⟩ : ∃ c, c = max mn (min mx v) ∧ mn ≤ c ∧ c ≤ mx :=
    ⟨_, rfl, by omega, by omega⟩
  have e1 : min mx (max mn v) = c := by omega
  have e2 : max mn (min mx v) = c := hc.symm
  rw [← hc]
  cases st
  · first
    | (exfalso; omega)
    | (subst_vars; (
        simp (disch := first | omega | decide) only
          [
            synced, step, Option.some_bind, reduceCtorEq, eq_self_iff_true, or_false, false_or,
            true_or, or_true, or_self, ite_true, ite_false, min_eq_left, min_eq_right,
            max_eq_left, max_eq_right, e1, e2, updateInputWidgets_step InputStyle.Spinner,
            checkNewValue_step InputStyle.Spinner, setIntValue_same InputStyle.Spinner,
            setIntValue_other InputStyle.Spinner, setMinimum_same InputStyle.Spinner,
            setMinimum_other InputStyle.Spinner, setMaximum_same InputStyle.Spinner,
            setMaximum_other InputStyle.Spinner, setValueSet_same InputStyle.Spinner,
            setValueSet_other InputStyle.Spinner, updateSpinBox_none, updateSpinBox_quiet,
            updateSpinBox_emit, updateSlider_none, updateSlider_quiet, updateSlider_emit,
            spinBoxSetMinimum_none, spinBoxSetMinimum_quiet, spinBoxSetMinimum_emit,
            spinBoxSetMaximum_none, spinBoxSetMaximum_quiet, spinBoxSetMaximum_emit,
            sliderSetMinimum_none, sliderSetMinimum_quiet, sliderSetMinimum_emit,
            sliderSetMaximum_none, sliderSetMaximum_quiet, sliderSetMaximum_emit,
            spinBoxSetValue_none, spinBoxSetValue_quiet, spinBoxSetValue_emit,
            sliderSetValue_none, sliderSetValue_quiet, sliderSetValue_emit,
            valueSetBoxSetChecked_none, valueSetBoxSetChecked_quiet, valueSetBoxSetChecked_emit,
            checkSpinBox_none, checkSpinBox_skip, checkSpinBox_fire, checkSlider_none,
            checkSlider_skip, checkSlider_fire, checkPlain_none, checkPlain_unread,
            checkPlain_skip, checkPlain_fire, updatePlain_none, updatePlain_some,
            plainEdited_none, plainEdited_some]))
  · by_cases h5 : c = val <;>
    first
    | (exfalso; omega)
    | (subst_vars; (
        simp (disch := first | omega | decide) only
          [
            synced, step, Option.some_bind, reduceCtorEq, eq_self_iff_true, or_false, false_or,
            true_or, or_true, or_self, ite_true, ite_false, min_eq_left, min_eq_right,
            max_eq_left, max_eq_right, e1, e2, updateInputWidgets_step InputStyle.Slider,
            checkNewValue_step InputStyle.Slider, setIntValue_same InputStyle.Slider,
            setIntValue_other InputStyle.Slider, setMinimum_same InputStyle.Slider,
            setMinimum_other InputStyle.Slider, setMaximum_same InputStyle.Slider,
            setMaximum_other InputStyle.Slider, setValueSet_same InputStyle.Slider,
            setValueSet_other InputStyle.Slider, updateSpinBox_none, updateSpinBox_quiet,
            updateSpinBox_emit, updateSlider_none, updateSlider_quiet, updateSlider_emit,
            spinBoxSetMinimum_none, spinBoxSetMinimum_quiet, spinBoxSetMinimum_emit,
            spinBoxSetMaximum_none, spinBoxSetMaximum_quiet, spinBoxSetMaximum_emit,
            sliderSetMinimum_none, sliderSetMinimum_quiet, sliderSetMinimum_emit,
            sliderSetMaximum_none, sliderSetMaximum_quiet, sliderSetMaximum_emit,
            spinBoxSetValue_none, spinBoxSetValue_quiet, spinBoxSetValue_emit,
            sliderSetValue_none, sliderSetValue_quiet, sliderSetValue_emit,
            valueSetBoxSetChecked_none, valueSetBoxSetChecked_quiet, valueSetBoxSetChecked_emit,
            checkSpinBox_none, checkSpinBox_skip, checkSpinBox_fire, checkSlider_none,
            checkSlider_skip, checkSlider_fire, checkPlain_none, checkPlain_unread,
            checkPlain_skip, checkPlain_fire, updatePlain_none, updatePlain_some,
            plainEdited_none, plainEdited_some]))
  · by_cases h5 : c = val <;>
    first
    | (exfalso; omega)
    | (subst_vars; (
        simp (disch := first | omega | decide) only
          [
            synced, step, Option.some_bind, reduceCtorEq, eq_self_iff_true, or_false, false_or,
            true_or, or_true, or_self, ite_true, ite_false, min_eq_left, min_eq_right,
            max_eq_left, max_eq_right, e1, e2, updateInputWidgets_step InputStyle.SpinnerSlider,
            checkNewValue_step InputStyle.SpinnerSlider,
            setIntValue_same InputStyle.SpinnerSlider,
            setIntValue_other InputStyle.SpinnerSlider, setMinimum_same InputStyle.SpinnerSlider,
            setMinimum_other InputStyle.SpinnerSlider, setMaximum_same InputStyle.SpinnerSlider,
            setMaximum_other InputStyle.SpinnerSlider, setValueSet_same InputStyle.SpinnerSlider,
            setValueSet_other InputStyle.SpinnerSlider, updateSpinBox_none, updateSpinBox_quiet,
            updateSpinBox_emit, updateSlider_none, updateSlider_quiet, updateSlider_emit,
            spinBoxSetMinimum_none, spinBoxSetMinimum_quiet, spinBoxSetMinimum_emit,
            spinBoxSetMaximum_none, spinBoxSetMaximum_quiet, spinBoxSetMaximum_emit,
            sliderSetMinimum_none, sliderSetMinimum_quiet, sliderSetMinimum_emit,
            sliderSetMaximum_none, sliderSetMaximum_quiet, sliderSetMaximum_emit,
            spinBoxSetValue_none, spinBoxSetValue_quiet, spinBoxSetValue_emit,
            sliderSetValue_none, sliderSetValue_quiet, sliderSetValue_emit,
            valueSetBoxSetChecked_none, valueSetBoxSetChecked_quiet, valueSetBoxSetChecked_emit,
            checkSpinBox_none, checkSpinBox_skip, checkSpinBox_fire, checkSlider_none,
            checkSlider_skip, checkSlider_fire, checkPlain_none, checkPlain_unread,
            checkPlain_skip, checkPlain_fire, updatePlain_none, updatePlain_some,
            plainEdited_none, plainEdited_some]))
  · first
    | (exfalso; omega)
    | (subst_vars; (
        simp (disch := first | omega | decide) only
          [
            synced, step, Option.some_bind, reduceCtorEq, eq_self_iff_true, or_false, false_or,
            true_or, or_true, or_self, ite_true, ite_false, min_eq_left, min_eq_right,
            max_eq_left, max_eq_right, e1, e2, updateInputWidgets_step InputStyle.Plain,
            checkNewValue_step InputStyle.Plain, setIntValue_same InputStyle.Plain,
            setIntValue_other InputStyle.Plain, setMinimum_same InputStyle.Plain,
            setMinimum_other InputStyle.Plain, setMaximum_same InputStyle.Plain,
            setMaximum_other InputStyle.Plain, setValueSet_same InputStyle.Plain,
            setValueSet_other InputStyle.Plain, updateSpinBox_none, updateSpinBox_quiet,
            updateSpinBox_emit, updateSlider_none, updateSlider_quiet, updateSlider_emit,
            spinBoxSetMinimum_none, spinBoxSetMinimum_quiet, spinBoxSetMinimum_emit,
            spinBoxSetMaximum_none, spinBoxSetMaximum_quiet, spinBoxSetMaximum_emit,
            sliderSetMinimum_none, sliderSetMinimum_quiet, sliderSetMinimum_emit,
            sliderSetMaximum_none, sliderSetMaximum_quiet, sliderSetMaximum_emit,
            spinBoxSetValue_none, spinBoxSetValue_quiet, spinBoxSetValue_emit,
            sliderSetValue_none, sliderSetValue_quiet, sliderSetValue_emit,
            valueSetBoxSetChecked_none, valueSetBoxSetChecked_quiet, valueSetBoxSetChecked_emit,
            checkSpinBox_none, checkSpinBox_skip, checkSpinBox_fire, checkSlider_none,
            checkSlider_skip, checkSlider_fire, checkPlain_none, checkPlain_unread,
            checkPlain_skip, checkPlain_fire, updatePlain_none, updatePlain_some,
            plainEdited_none, plainEdited_some]))

/-- A text of the line edit that reads as a number inside the range becomes the value of the
widget; any other text is replaced by the value. -/
theorem plainEdited_synced (st : InputStyle) (ty : ElementType) (vs : Bool) (mn mx val : Int) (t : Option Int) (k : Nat)
    (h1 : mn ≤ val) (h2 : val ≤ mx) :
    step (k + 8) (synced st ty vs mn mx val) (Call.plainEdited t) =
      some (synced st ty vs mn mx
        (match t with
        | some v => if st = InputStyle.Plain ∧ mn ≤ v ∧ v ≤ mx then v else val
        | none => val)) := by
  cases st
  · cases t <;>
    (try simp only [Option.getD_some, Option.getD_none] at *) <;>
    first
    | (exfalso; omega)
    | (subst_vars; (
        simp (disch := first | omega | decide) only
          [
            synced, step, Option.some_bind, reduceCtorEq, eq_self_iff_true, or_false, false_or,
            true_or, or_true, or_self, ite_true, ite_false, min_eq_left, min_eq_right,
            max_eq_left, max_eq_right, true_and, false_and, if_pos, if_neg,
            updateInputWidgets_step InputStyle.Spinner, checkNewValue_step InputStyle.Spinner,
            setIntValue_same InputStyle.Spinner, setIntValue_other InputStyle.Spinner,
            setMinimum_same InputStyle.Spinner, setMinimum_other InputStyle.Spinner,
            setMaximum_same InputStyle.Spinner, setMaximum_other InputStyle.Spinner,
            setValueSet_same InputStyle.Spinner, setValueSet_other InputStyle.Spinner,
            updateSpinBox_none, updateSpinBox_quiet, updateSpinBox_emit, updateSlider_none,
            updateSlider_quiet, updateSlider_emit, spinBoxSetMinimum_none,
            spinBoxSetMinimum_quiet, spinBoxSetMinimum_emit, spinBoxSetMaximum_none,
            spinBoxSetMaximum_quiet, spinBoxSetMaximum_emit, sliderSetMinimum_none,
            sliderSetMinimum_quiet, sliderSetMinimum_emit, sliderSetMaximum_none,
            sliderSetMaximum_quiet, sliderSetMaximum_emit, spinBoxSetValue_none,
            spinBoxSetValue_quiet, spinBoxSetValue_emit, sliderSetValue_none,
            sliderSetValue_quiet, sliderSetValue_emit, valueSetBoxSetChecked_none,
            valueSetBoxSetChecked_quiet, valueSetBoxSetChecked_emit, checkSpinBox_none,
            checkSpinBox_skip, checkSpinBox_fire, checkSlider_none, checkSlider_skip,
            checkSlider_fire, checkPlain_none, checkPlain_unread, checkPlain_skip,
            checkPlain_fire, updatePlain_none, updatePlain_some, plainEdited_none,
            plainEdited_some]))
  · cases t <;>
    (try simp only [Option.getD_some, Option.getD_none] at *) <;>
    first
    | (exfalso; omega)
    | (subst_vars; (
        simp (disch := first | omega | decide) only
          [
            synced, step, Option.some_bind, reduceCtorEq, eq_self_iff_true, or_false, false_or,
            true_or, or_true, or_self, ite_true, ite_false, min_eq_left, min_eq_right,
            max_eq_left, max_eq_right, true_and, false_and, if_pos, if_neg,
            updateInputWidgets_step InputStyle.Slider, checkNewValue_step InputStyle.Slider,
            setIntValue_same InputStyle.Slider, setIntValue_other InputStyle.Slider,
            setMinimum_same InputStyle.Slider, setMinimum_other InputStyle.Slider,
            setMaximum_same InputStyle.Slider, setMaximum_other InputStyle.Slider,
            setValueSet_same InputStyle.Slider, setValueSet_other InputStyle.Slider,
            updateSpinBox_none, updateSpinBox_quiet, updateSpinBox_emit, updateSlider_none,
            updateSlider_quiet, updateSlider_emit, spinBoxSetMinimum_none,
            spinBoxSetMinimum_quiet, spinBoxSetMinimum_emit, spinBoxSetMaximum_none,
            spinBoxSetMaximum_quiet, spinBoxSetMaximum_emit, sliderSetMinimum_none,
            sliderSetMinimum_quiet, sliderSetMinimum_emit, sliderSetMaximum_none,
            sliderSetMaximum_quiet, sliderSetMaximum_emit, spinBoxSetValue_none,
            spinBoxSetValue_quiet, spinBoxSetValue_emit, sliderSetValue_none,
            sliderSetValue_quiet, sliderSetValue_emit, valueSetBoxSetChecked_none,
            valueSetBoxSetChecked_quiet, valueSetBoxSetChecked_emit, checkSpinBox_none,
            checkSpinBox_skip, checkSpinBox_fire, checkSlider_none, checkSlider_skip,
            checkSlider_fire, checkPlain_none, checkPlain_unread, checkPlain_skip,
            checkPlain_fire, updatePlain_none, updatePlain_some, plainEdited_none,
            plainEdited_some]))
  · cases t <;>
    (try simp only [Option.getD_some, Option.getD_none] at *) <;>
    first
    | (exfalso; omega)
    | (subst_vars; (
        simp (disch := first | omega | decide) only
          [
            synced, step, Option.some_bind, reduceCtorEq, eq_self_iff_true, or_false, false_or,
            true_or, or_true, or_self, ite_true, ite_false, min_eq_left, min_eq_right,
            max_eq_left, max_eq_right, true_and, false_and, if_pos, if_neg,
            updateInputWidgets_step InputStyle.SpinnerSlider,
            checkNewValue_step InputStyle.SpinnerSlider,
            setIntValue_same InputStyle.SpinnerSlider,
            setIntValue_other InputStyle.SpinnerSlider, setMinimum_same InputStyle.SpinnerSlider,
            setMinimum_other InputStyle.SpinnerSlider, setMaximum_same InputStyle.SpinnerSlider,
            setMaximum_other InputStyle.SpinnerSlider, setValueSet_same InputStyle.SpinnerSlider,
            setValueSet_other InputStyle.SpinnerSlider, updateSpinBox_none, updateSpinBox_quiet,
            updateSpinBox_emit, updateSlider_none, updateSlider_quiet, updateSlider_emit,
            spinBoxSetMinimum_none, spinBoxSetMinimum_quiet, spinBoxSetMinimum_emit,
            spinBoxSetMaximum_none, spinBoxSetMaximum_quiet, spinBoxSetMaximum_emit,
            sliderSetMinimum_none, sliderSetMinimum_quiet, sliderSetMinimum_emit,
            sliderSetMaximum_none, sliderSetMaximum_quiet, sliderSetMaximum_emit,
            spinBoxSetValue_none, spinBoxSetValue_quiet, spinBoxSetValue_emit,
            sliderSetValue_none, sliderSetValue_quiet, sliderSetValue_emit,
            valueSetBoxSetChecked_none, valueSetBoxSetChecked_quiet, valueSetBoxSetChecked_emit,
            checkSpinBox_none, checkSpinBox_skip, checkSpinBox_fire, checkSlider_none,
            checkSlider_skip, checkSlider_fire, checkPlain_none, checkPlain_unread,
            checkPlain_skip, checkPlain_fire, updatePlain_none, updatePlain_some,
            plainEdited_none, plainEdited_some]))
  · by_cases h3 : mn ≤ t.getD val <;>
    by_cases h4 : t.getD val ≤ mx <;>
    by_cases h5 : t.getD val = val <;>
    cases t <;>
    (try simp only [Option.getD_some, Option.getD_none] at *) <;>
    first
    | (exfalso; omega)
    | (subst_vars; (
        simp (disch := first | omega | decide) only
          [
            synced, step, Option.some_bind, reduceCtorEq, eq_self_iff_true, or_false, false_or,
            true_or, or_true, or_self, ite_true, ite_false, min_eq_left, min_eq_right,
            max_eq_left, max_eq_right, true_and, false_and, if_pos, if_neg,
            updateInputWidgets_step InputStyle.Plain, checkNewValue_step InputStyle.Plain,
            setIntValue_same InputStyle.Plain, setIntValue_other InputStyle.Plain,
            setMinimum_same InputStyle.Plain, setMinimum_other InputStyle.Plain,
            setMaximum_same InputStyle.Plain, setMaximum_other InputStyle.Plain,
            setValueSet_same InputStyle.Plain, setValueSet_other InputStyle.Plain,
            updateSpinBox_none, updateSpinBox_quiet, updateSpinBox_emit, updateSlider_none,
            updateSlider_quiet, updateSlider_emit, spinBoxSetMinimum_none,
            spinBoxSetMinimum_quiet, spinBoxSetMinimum_emit, spinBoxSetMaximum_none,
            spinBoxSetMaximum_quiet, spinBoxSetMaximum_emit, sliderSetMinimum_none,
            sliderSetMinimum_quiet, sliderSetMinimum_emit, sliderSetMaximum_none,
            sliderSetMaximum_quiet, sliderSetMaximum_emit, spinBoxSetValue_none,
            spinBoxSetValue_quiet, spinBoxSetValue_emit, sliderSetValue_none,
            sliderSetValue_quiet, sliderSetValue_emit, valueSetBoxSetChecked_none,
            valueSetBoxSetChecked_quiet, valueSetBoxSetChecked_emit, checkSpinBox_none,
            checkSpinBox_skip, checkSpinBox_fire, checkSlider_none, checkSlider_skip,
            checkSlider_fire, checkPlain_none, checkPlain_unread, checkPlain_skip,
            checkPlain_fire, updatePlain_none, updatePlain_some, plainEdited_none,
            plainEdited_some]))

/-- The call `setValueSet(b)` changes `mValueSet` and the check box, and nothing else, in a state
whose input widgets agree with the fields. -/
theorem setValueSet_synced (st : InputStyle) (ty : ElementType) (vs : Bool) (mn mx val : Int) (b : Bool) (k : Nat)
    (h1 : mn ≤ val) (h2 : val ≤ mx) :
    setValueSet (k + 8) (synced st ty vs mn mx val) b =
      some (synced st ty b mn mx val) := by
  cases st <;> cases ty <;> cases vs <;> cases b <;>
  first
  | (exfalso; omega)
  | (subst_vars; (
      simp (disch := first | omega | decide) only
        [
          synced, step, Option.some_bind, reduceCtorEq, eq_self_iff_true, or_false, false_or,
          true_or, or_true, or_self, ite_true, ite_false, min_eq_left, min_eq_right, max_eq_left,
          max_eq_right, updateInputWidgets_step InputStyle.Spinner,
          updateInputWidgets_step InputStyle.Slider,
          updateInputWidgets_step InputStyle.SpinnerSlider,
          updateInputWidgets_step InputStyle.Plain, checkNewValue_step InputStyle.Spinner,
          checkNewValue_step InputStyle.Slider, checkNewValue_step InputStyle.SpinnerSlider,
          checkNewValue_step InputStyle.Plain, setIntValue_same InputStyle.Spinner,
          setIntValue_same InputStyle.Slider, setIntValue_same InputStyle.SpinnerSlider,
          setIntValue_same InputStyle.Plain, setIntValue_other InputStyle.Spinner,
          setIntValue_other InputStyle.Slider, setIntValue_other InputStyle.SpinnerSlider,
          setIntValue_other InputStyle.Plain, setMinimum_same InputStyle.Spinner,
          setMinimum_same InputStyle.Slider, setMinimum_same InputStyle.SpinnerSlider,
          setMinimum_same InputStyle.Plain, setMinimum_other InputStyle.Spinner,
          setMinimum_other InputStyle.Slider, setMinimum_other InputStyle.SpinnerSlider,
          setMinimum_other InputStyle.Plain, setMaximum_same InputStyle.Spinner,
          setMaximum_same InputStyle.Slider, setMaximum_same InputStyle.SpinnerSlider,
          setMaximum_same InputStyle.Plain, setMaximum_other InputStyle.Spinner,
          setMaximum_other InputStyle.Slider, setMaximum_other InputStyle.SpinnerSlider,
          setMaximum_other InputStyle.Plain, setValueSet_same InputStyle.Spinner,
          setValueSet_same InputStyle.Slider, setValueSet_same InputStyle.SpinnerSlider,
          setValueSet_same InputStyle.Plain, setValueSet_other InputStyle.Spinner,
          setValueSet_other InputStyle.Slider, setValueSet_other InputStyle.SpinnerSlider,
          setValueSet_other InputStyle.Plain, updateSpinBox_none, updateSpinBox_quiet,
          updateSpinBox_emit, updateSlider_none, updateSlider_quiet, updateSlider_emit,
          spinBoxSetMinimum_none, spinBoxSetMinimum_quiet, spinBoxSetMinimum_emit,
          spinBoxSetMaximum_none, spinBoxSetMaximum_quiet, spinBoxSetMaximum_emit,
          sliderSetMinimum_none, sliderSetMinimum_quiet, sliderSetMinimum_emit,
          sliderSetMaximum_none, sliderSetMaximum_quiet, sliderSetMaximum_emit,
          spinBoxSetValue_none, spinBoxSetValue_quiet, spinBoxSetValue_emit, sliderSetValue_none,
          sliderSetValue_quiet, sliderSetValue_emit, valueSetBoxSetChecked_none,
          valueSetBoxSetChecked_quiet, valueSetBoxSetChecked_emit, checkSpinBox_none,
          checkSpinBox_skip, checkSpinBox_fire, checkSlider_none, checkSlider_skip,
          checkSlider_fire, checkPlain_none, checkPlain_unread, checkPlain_skip, checkPlain_fire,
          updatePlain_none, updatePlain_some, plainEdited_none, plainEdited_some]))

/-- Switching the check box of an optional element changes `mValueSet`, and nothing else. -/
theorem valueSetBoxSetChecked_synced (st : InputStyle) (ty : ElementType) (vs : Bool) (mn mx val : Int) (b : Bool) (k : Nat)
    (h1 : mn ≤ val) (h2 : val ≤ mx) :
    step (k + 8) (synced st ty vs mn mx val) (Call.valueSetBoxSetChecked b) =
      some (synced st ty (if ty = ElementType.Optional then b else vs) mn mx val) := by
  cases st <;> cases ty <;> cases vs <;> cases b <;>
  first
  | (exfalso; omega)
  | (subst_vars; (
      simp (disch := first | omega | decide) only
        [
          synced, step, Option.some_bind, reduceCtorEq, eq_self_iff_true, or_false, false_or,
          true_or, or_true, or_self, ite_true, ite_false, min_eq_left, min_eq_right, max_eq_left,
          max_eq_right, updateInputWidgets_step InputStyle.Spinner,
          updateInputWidgets_step InputStyle.Slider,
          updateInputWidgets_step InputStyle.SpinnerSlider,
          updateInputWidgets_step InputStyle.Plain, checkNewValue_step InputStyle.Spinner,
          checkNewValue_step InputStyle.Slider, checkNewValue_step InputStyle.SpinnerSlider,
          checkNewValue_step InputStyle.Plain, setIntValue_same InputStyle.Spinner,
          setIntValue_same InputStyle.Slider, setIntValue_same InputStyle.SpinnerSlider,
          setIntValue_same InputStyle.Plain, setIntValue_other InputStyle.Spinner,
          setIntValue_other InputStyle.Slider, setIntValue_other InputStyle.SpinnerSlider,
          setIntValue_other InputStyle.Plain, setMinimum_same InputStyle.Spinner,
          setMinimum_same InputStyle.Slider, setMinimum_same InputStyle.SpinnerSlider,
          setMinimum_same InputStyle.Plain, setMinimum_other InputStyle.Spinner,
          setMinimum_other InputStyle.Slider, setMinimum_other InputStyle.SpinnerSlider,
          setMinimum_other InputStyle.Plain, setMaximum_same InputStyle.Spinner,
          setMaximum_same InputStyle.Slider, setMaximum_same InputStyle.SpinnerSlider,
          setMaximum_same InputStyle.Plain, setMaximum_other InputStyle.Spinner,
          setMaximum_other InputStyle.Slider, setMaximum_other InputStyle.SpinnerSlider,
          setMaximum_other InputStyle.Plain, setValueSet_same InputStyle.Spinner,
          setValueSet_same InputStyle.Slider, setValueSet_same InputStyle.SpinnerSlider,
          setValueSet_same InputStyle.Plain, setValueSet_other InputStyle.Spinner,
          setValueSet_other InputStyle.Slider, setValueSet_other InputStyle.SpinnerSlider,
          setValueSet_other InputStyle.Plain, updateSpinBox_none, updateSpinBox_quiet,
          updateSpinBox_emit, updateSlider_none, updateSlider_quiet, updateSlider_emit,
          spinBoxSetMinimum_none, spinBoxSetMinimum_quiet, spinBoxSetMinimum_emit,
          spinBoxSetMaximum_none, spinBoxSetMaximum_quiet, spinBoxSetMaximum_emit,
          sliderSetMinimum_none, sliderSetMinimum_quiet, sliderSetMinimum_emit,
          sliderSetMaximum_none, sliderSetMaximum_quiet, sliderSetMaximum_emit,
          spinBoxSetValue_none, spinBoxSetValue_quiet, spinBoxSetValue_emit, sliderSetValue_none,
          sliderSetValue_quiet, sliderSetValue_emit, valueSetBoxSetChecked_none,
          valueSetBoxSetChecked_quiet, valueSetBoxSetChecked_emit, checkSpinBox_none,
          checkSpinBox_skip, checkSpinBox_fire, checkSlider_none, checkSlider_skip,
          checkSlider_fire, checkPlain_none, checkPlain_unread, checkPlain_skip, checkPlain_fire,
          updatePlain_none, updatePlain_some, plainEdited_none, plainEdited_some]))

end FormGenIntWidget


namespace Qt

theorem mem_classStep (accept : Char → Bool) (first last : Position) :
    last ∈ classStep accept first ↔
      ∃ c, first.2 = c :: last.2 ∧ last.1 = first.1 + 1 ∧ accept c = true := by
  obtain ⟨n, s⟩ := first
  obtain ⟨k, r⟩ := last
  cases s with
  | nil => simp [classStep]
  | cons c rest =>
    simp only [classStep]
    split
    · rename_i hc
      simp only [List.mem_singleton, Prod.mk.injEq, List.cons.injEq]
      constructor
      · rintro ⟨rfl, rfl⟩
        exact ⟨c, ⟨rfl, rfl⟩, rfl, hc⟩
      · rintro ⟨c2, ⟨rfl, rfl⟩, rfl, -⟩
        exact ⟨rfl, rfl⟩
    · rename_i hc
      simp only [List.not_mem_nil, List.cons.injEq, false_iff, not_exists, not_and]
      rintro c2 ⟨rfl, rfl⟩ -
      exact hc

theorem mem_iterate_classStep (accept : Char → Bool) (fuel : Nat) :
    ∀ first last : Position, last ∈ iterate (classStep accept) fuel first ↔
      ∃ consumed : List Char, consumed.length ≤ fuel ∧ first.2 = consumed ++ last.2 ∧
        last.1 = first.1 + consumed.length ∧ ∀ c ∈ consumed, accept c = true := by
  induction fuel with
  | zero =>
    intro first last
    simp only [iterate, List.mem_singleton, Nat.le_zero, List.length_eq_zero]
    constructor
    · rintro rfl
      exact ⟨[], rfl, rfl, rfl, fun c hc => absurd hc (List.not_mem_nil c)⟩
    · rintro ⟨consumed, rfl, h1, h2, -⟩
      exact Prod.ext (by simpa using h2) (by simpa using h1.symm)
  | succ fuel ih =>
    intro first last
    simp only [iterate, List.mem_cons, List.mem_flatMap, List.mem_filter, mem_classStep,
      decide_eq_true_eq]
    constructor
    · rintro (rfl | ⟨next, ⟨⟨c, h1, h2, h3⟩, -⟩, hlast⟩)
      · exact ⟨[], Nat.zero_le _, rfl, rfl, fun c hc => absurd hc (List.not_mem_nil c)⟩
      · obtain ⟨consumed, h4, h5, h6, h7⟩ := (ih next last).1 hlast
        refine ⟨c :: consumed, by simp; omega, ?_, ?_, ?_⟩
        · rw [h1, h5]; rfl
        · rw [h6, h2, List.length_cons]; omega
        · intro x hx
          rcases List.mem_cons.1 hx with rfl | hx
          · exact h3
          · exact h7 x hx
    · rintro ⟨consumed, h1, h2, h3, h4⟩
      cases consumed with
      | nil =>
        left
        exact Prod.ext (by simpa using h3) (by simpa using h2.symm)
      | cons c consumed =>
        right
        refine ⟨(first.1 + 1, consumed ++ last.2), ⟨⟨c, h2, rfl, h4 c (List.mem_cons_self _ _)⟩,
          ?_⟩, (ih _ last).2 ⟨consumed, ?_, rfl, ?_, fun x hx => h4 x (List.mem_cons_of_mem _ hx)⟩⟩
        · rw [h2]; simp
        · simpa using h1
        · rw [h3, List.length_cons]; omega

theorem Recognises.congr {p : Pattern} {A B : List Char → Prop} (h : Recognises p A)
    (hAB : ∀ w, A w ↔ B w) : Recognises p B := by
  intro first last
  rw [h first last]
  constructor
  · rintro ⟨w, h1, h2, h3⟩
    exact ⟨w, h1, h2, (hAB w).1 h3⟩
  · rintro ⟨w, h1, h2, h3⟩
    exact ⟨w, h1, h2, (hAB w).2 h3⟩

theorem recognises_class (p : Pattern) (accept : Char → Bool)
    (hp : ∀ at_, p.ends at_ = classStep accept at_) :
    Recognises p (fun w => ∃ c, w = [c] ∧ accept c = true) := by
  intro first last
  rw [hp, mem_classStep]
  constructor
  · rintro ⟨c, h1, h2, h3⟩
    exact ⟨[c], h1, h2, c, rfl, h3⟩
  · rintro ⟨w, h1, h2, c, rfl, h3⟩
    exact ⟨c, h1, h2, h3⟩

theorem recognises_char (c : Char) : Recognises (Pattern.char c) (fun w => w = [c]) := by
  refine (recognises_class (Pattern.char c) (fun x => x == c) (fun _ => rfl)).congr
    (fun w => ?_)
  constructor
  · rintro ⟨x, rfl, hx⟩
    rw [beq_iff_eq] at hx
    rw [hx]
  · rintro rfl
    exact ⟨c, rfl, beq_self_eq_true c⟩

theorem recognises_range (lo hi : Char) :
    Recognises (Pattern.range lo hi) (fun w => ∃ c, w = [c] ∧ lo ≤ c ∧ c ≤ hi) := by
  refine (recognises_class (Pattern.range lo hi)
    (fun x => decide (lo ≤ x) && decide (x ≤ hi)) (fun _ => rfl)).congr (fun w => ?_)
  simp only [Bool.and_eq_true, decide_eq_true_eq]

theorem recognises_set (cs : List Char) :
    Recognises (Pattern.set cs) (fun w => ∃ c, w = [c] ∧ c ∈ cs) := by
  refine (recognises_class (Pattern.set cs) (fun x => cs.contains x)
    (fun _ => rfl)).congr (fun w => ?_)
  simp only [List.contains_eq_any_beq, List.any_eq_true, beq_iff_eq]
  constructor
  · rintro ⟨c, rfl, x, hx, rfl⟩
    exact ⟨c, rfl, hx⟩
  · rintro ⟨c, rfl, hc⟩
    exact ⟨c, rfl, c, hc, rfl⟩

theorem recognises_seq {p q : Pattern} {A B : List Char → Prop} (hp : Recognises p A)
    (hq : Recognises q B) :
    Recognises (Pattern.seq p q) (fun w => ∃ a b, w = a ++ b ∧ A a ∧ B b) := by
  intro first last
  simp only [Pattern.ends, List.mem_flatMap]
  constructor
  · rintro ⟨mid, h1, h2⟩
    obtain ⟨a, ha1, ha2, ha3⟩ := (hp first mid).1 h1
    obtain ⟨b, hb1, hb2, hb3⟩ := (hq mid last).1 h2
    refine ⟨a ++ b, ?_, ?_, a, b, rfl, ha3, hb3⟩
    · rw [ha1, hb1, List.append_assoc]
    · rw [hb2, ha2, List.length_append]; omega
  · rintro ⟨w, h1, h2, a, b, rfl, ha, hb⟩
    refine ⟨(first.1 + a.length, b ++ last.2), (hp first _).2 ⟨a, ?_, rfl, ha⟩,
      (hq _ last).2 ⟨b, rfl, ?_, hb⟩⟩
    · rw [h1, List.append_assoc]
    · rw [h2, List.length_append]; omega

theorem recognises_alt {p q : Pattern} {A B : List Char → Prop} (hp : Recognises p A)
    (hq : Recognises q B) : Recognises (Pattern.alt p q) (fun w => A w ∨ B w) := by
  intro first last
  simp only [Pattern.ends, List.mem_append, hp first last, hq first last]
  constructor
  · rintro (⟨w, h1, h2, h3⟩ | ⟨w, h1, h2, h3⟩)
    · exact ⟨w, h1, h2, Or.inl h3⟩
    · exact ⟨w, h1, h2, Or.inr h3⟩
  · rintro ⟨w, h1, h2, h3 | h3⟩
    · exact Or.inl ⟨w, h1, h2, h3⟩
    · exact Or.inr ⟨w, h1, h2, h3⟩

theorem recognises_opt {p : Pattern} {A : List Char → Prop} (hp : Recognises p A) :
    Recognises (Pattern.opt p) (fun w => w = [] ∨ A w) := by
  intro first last
  simp only [Pattern.ends, List.mem_append, List.mem_singleton, hp first last]
  constructor
  · rintro (⟨w, h1, h2, h3⟩ | rfl)
    · exact ⟨w, h1, h2, Or.inr h3⟩
    · exact ⟨[], rfl, rfl, Or.inl rfl⟩
  · rintro ⟨w, h1, h2, rfl | h3⟩
    · right
      exact Prod.ext (by simpa using h2) (by simpa using h1.symm)
    · exact Or.inl ⟨w, h1, h2, h3⟩

theorem recognises_star_class (p : Pattern) (accept : Char → Bool)
    (hp : ∀ at_, p.ends at_ = classStep accept at_) :
    Recognises (Pattern.star p) (fun w => ∀ c ∈ w, accept c = true) := by
  intro first last
  have hf : p.ends = classStep accept := funext hp
  simp only [Pattern.ends, hf, mem_iterate_classStep]
  constructor
  · rintro ⟨w, -, h1, h2, h3⟩
    exact ⟨w, h1, h2, h3⟩
  · rintro ⟨w, h1, h2, h3⟩
    refine ⟨w, ?_, h1, h2, h3⟩
    rw [h1, List.length_append]; omega

theorem recognises_plus_class (p : Pattern) (accept : Char → Bool)
    (hp : ∀ at_, p.ends at_ = classStep accept at_) :
    Recognises (Pattern.plus p) (fun w => w ≠ [] ∧ ∀ c ∈ w, accept c = true) := by
  intro first last
  have hf : p.ends = classStep accept := funext hp
  simp only [Pattern.ends, hf, List.mem_flatMap, mem_iterate_classStep, mem_classStep]
  constructor
  · rintro ⟨mid, ⟨c, h1, h2, h3⟩, w, -, h4, h5, h6⟩
    refine ⟨c :: w, ?_, ?_, List.cons_ne_nil _ _, ?_⟩
    · rw [h1, h4]; rfl
    · rw [h5, h2, List.length_cons]; omega
    · intro x hx
      rcases List.mem_cons.1 hx with rfl | hx
      · exact h3
      · exact h6 x hx
  · rintro ⟨w, h1, h2, hne, h3⟩
    cases w with
    | nil => exact absurd rfl hne
    | cons c w =>
      refine ⟨(first.1 + 1, w ++ last.2), ⟨c, h1, rfl, h3 c (List.mem_cons_self _ _)⟩,
        w, ?_, rfl, ?_, fun x hx => h3 x (List.mem_cons_of_mem _ hx)⟩
      · simp only [List.length_append]; omega
      · rw [h2, List.length_cons]; omega

end Qt


namespace MathUtils

open Qt

theorem recognises_digits : Recognises (Pattern.star digit) (fun w => ∀ c ∈ w, IsDigit c) := by
  refine (recognises_star_class digit (fun x => decide ('0' ≤ x) && decide (x ≤ '9'))
    (fun _ => rfl)).congr (fun w => ?_)
  simp only [Bool.and_eq_true, decide_eq_true_eq, IsDigit]

theorem recognises_digits1 :
    Recognises (Pattern.plus digit) (fun w => w ≠ [] ∧ ∀ c ∈ w, IsDigit c) := by
  refine (recognises_plus_class digit (fun x => decide ('0' ≤ x) && decide (x ≤ '9'))
    (fun _ => rfl)).congr (fun w => ?_)
  simp only [Bool.and_eq_true, decide_eq_true_eq, IsDigit]

theorem recognises_sign : Recognises signPart IsSign :=
  (recognises_opt (recognises_char '-')).congr (fun _ => Iff.rfl)

theorem recognises_whole : Recognises wholePart IsWhole := by
  refine (recognises_alt (recognises_char '0')
    (recognises_seq (recognises_range '1' '9') recognises_digits)).congr (fun w => ?_)
  unfold IsWhole
  constructor
  · rintro (h | ⟨a, b, rfl, ⟨c, rfl, hc⟩, hb⟩)
    · exact Or.inl h
    · exact Or.inr ⟨c, b, rfl, hc, hb⟩
  · rintro (h | ⟨c, b, rfl, hc, hb⟩)
    · exact Or.inl h
    · exact Or.inr ⟨[c], b, rfl, ⟨c, rfl, hc⟩, hb⟩

theorem recognises_fraction : Recognises fractionPart IsFraction := by
  refine (recognises_opt (recognises_seq (recognises_char '.') recognises_digits1)).congr
    (fun w => ?_)
  unfold IsFraction
  constructor
  · rintro (h | ⟨a, b, rfl, rfl, hne, hb⟩)
    · exact Or.inl h
    · exact Or.inr ⟨b, rfl, hne, hb⟩
  · rintro (h | ⟨b, rfl, hne, hb⟩)
    · exact Or.inl h
    · exact Or.inr ⟨['.'], b, rfl, rfl, hne, hb⟩

theorem recognises_exponent : Recognises exponentPart IsExponent := by
  refine (recognises_opt (recognises_seq (recognises_set ['e', 'E'])
    (recognises_seq (recognises_opt (recognises_set ['+', '-'])) recognises_digits1))).congr
    (fun w => ?_)
  unfold IsExponent
  constructor
  · rintro (h | ⟨a, b, rfl, ⟨e, rfl, he⟩, sg, ds, rfl, hsg, hne, hds⟩)
    · exact Or.inl h
    · refine Or.inr ⟨e, sg, ds, rfl, by simpa using he, ?_, hne, hds⟩
      rcases hsg with rfl | ⟨c, rfl, hc⟩
      · exact Or.inl rfl
      · simp only [List.mem_cons, List.mem_singleton, List.not_mem_nil, or_false] at hc
        rcases hc with rfl | rfl
        · exact Or.inr (Or.inl rfl)
        · exact Or.inr (Or.inr rfl)
  · rintro (h | ⟨e, sg, ds, rfl, he, hsg, hne, hds⟩)
    · exact Or.inl h
    · refine Or.inr ⟨[e], sg ++ ds, rfl, ⟨e, rfl, by simpa using he⟩, sg, ds, rfl, ?_, hne, hds⟩
      rcases hsg with rfl | rfl | rfl
      · exact Or.inl rfl
      · exact Or.inr ⟨'+', rfl, by simp⟩
      · exact Or.inr ⟨'-', rfl, by simp⟩

theorem ends_seq (p q : Pattern) (at_ : Position) :
    (Pattern.seq p q).ends at_ = (p.ends at_).flatMap q.ends := rfl

theorem mem_ends_startOfSubject (first last : Position) :
    last ∈ Pattern.startOfSubject.ends first ↔ first.1 = 0 ∧ last = first := by
  show last ∈ (if first.1 = 0 then [first] else []) ↔ _
  split <;> simp [*]

theorem mem_ends_endOfSubject (first last : Position) :
    last ∈ Pattern.endOfSubject.ends first ↔ first.2 = [] ∧ last = first := by
  show last ∈ (if first.2.isEmpty then [first] else []) ↔ _
  split
  · rename_i h
    simp [List.isEmpty_iff.1 h]
  · rename_i h
    have : first.2 ≠ [] := fun hn => h (by rw [hn]; rfl)
    simp [this]

/-- The pattern `s_decimalLiteral` has a match in a subject exactly when the subject in its
entirety is a decimal literal. -/
theorem hasMatch_decimalLiteral (src : List Char) :
    hasMatch s_decimalLiteral src = true ↔ IsDecimalLiteral src := by
  have hends : ∀ first : Position, (∃ last, last ∈ s_decimalLiteral.ends first) ↔
      first.1 = 0 ∧ IsDecimalLiteral first.2 := by
    intro first
    unfold s_decimalLiteral
    simp only [ends_seq, List.mem_flatMap, mem_ends_startOfSubject, mem_ends_endOfSubject,
      recognises_sign _ _, recognises_whole _ _, recognises_fraction _ _,
      recognises_exponent _ _]
    constructor
    · rintro ⟨last, m0, ⟨h0, rfl⟩, m1, ⟨a, ha1, -, ha⟩, m2, ⟨b, hb1, -, hb⟩, m3,
        ⟨c, hc1, -, hc⟩, m4, ⟨d, hd1, -, hd⟩, hnil, rfl⟩
      refine ⟨h0, a, b, c, d, ?_, ha, hb, hc, hd⟩
      rw [ha1, hb1, hc1, hd1, hnil]
      simp
    · rintro ⟨h0, a, b, c, d, hsrc, ha, hb, hc, hd⟩
      exact ⟨(first.1 + a.length + b.length + c.length + d.length, []), first, ⟨h0, rfl⟩,
        (first.1 + a.length, b ++ c ++ d), ⟨a, by rw [hsrc]; simp, rfl, ha⟩,
        (first.1 + a.length + b.length, c ++ d), ⟨b, by simp, rfl, hb⟩,
        (first.1 + a.length + b.length + c.length, d), ⟨c, rfl, rfl, hc⟩,
        (first.1 + a.length + b.length + c.length + d.length, []), ⟨d, by simp, rfl, hd⟩,
        rfl, rfl⟩
  unfold hasMatch
  simp only [List.any_eq_true, List.mem_range, Bool.not_eq_true', List.isEmpty_eq_false_iff_exists_mem]
  constructor
  · rintro ⟨offset, -, hlast⟩
    obtain ⟨h0, h⟩ := (hends _).1 hlast
    simp only at h0 h
    subst h0
    simpa using h
  · intro h
    exact ⟨0, Nat.succ_pos _, (hends (0, src.drop 0)).2 ⟨rfl, by simpa using h⟩⟩

end MathUtils


namespace MathUtils

open Qt

theorem decimalToFloatB64_spec {F : Type} (convert : RoundingMode → List Char → F × Bool)
    (src : List Char) (round : RoundingMode) (dst : F) :
    ((decimalToFloatB64 convert src round dst).1 = ConversionResult.StringFormatError ↔
      ¬ IsDecimalLiteral src) ∧
    (¬ IsDecimalLiteral src →
      decimalToFloatB64 convert src round dst = (ConversionResult.StringFormatError, dst)) ∧
    (IsDecimalLiteral src →
      decimalToFloatB64 convert src round dst =
        (if (convert round src).2 then ConversionResult.NoError
          else ConversionResult.RangeError, (convert round src).1)) := by
  rw [← hasMatch_decimalLiteral]
  unfold decimalToFloatB64
  cases hm : hasMatch s_decimalLiteral src with
  | false => simp
  | true =>
    cases hok : (convert round src).2 <;> simp [hok]

theorem decimalToFloatB32_spec {F : Type} (convert : RoundingMode → List Char → F × Bool)
    (src : List Char) (round : RoundingMode) (dst : F) :
    ((decimalToFloatB32 convert src round dst).1 = ConversionResult.StringFormatError ↔
      ¬ IsDecimalLiteral src) ∧
    (¬ IsDecimalLiteral src →
      decimalToFloatB32 convert src round dst = (ConversionResult.StringFormatError, dst)) ∧
    (IsDecimalLiteral src →
      decimalToFloatB32 convert src round dst =
        (if (convert round src).2 then ConversionResult.NoError
          else ConversionResult.RangeError, (convert round src).1)) := by
  rw [← hasMatch_decimalLiteral]
  unfold decimalToFloatB32
  cases hm : hasMatch s_decimalLiteral src with
  | false => simp
  | true =>
    cases hok : (convert round src).2 <;> simp [hok]

theorem rejected_examples :
    ∀ s ∈ ["+1", "01", ".5", "1.", " 1", "1e", "", "inf", "nan"],
      hasMatch s_decimalLiteral (String.toList s) = false := by
  decide

theorem accepted_examples :
    ∀ s ∈ ["-0", "0.50", "1E+05"], hasMatch s_decimalLiteral (String.toList s) = true := by
  decide

/-- C29: `decimalToFloatB64` and `decimalToFloatB32` return `StringFormatError` exactly when
the source is not, in its entirety, a literal of the form: optional `-`, then either `0` or a
digit 1-9 followed by any digits, then optionally `.` and at least one digit, then optionally
`e` or `E`, an optional `+` or `-`, and at least one digit; and then `*dst` keeps its value.
For every rounding mode `+1`, `01`, `.5`, `1.`, ` 1`, `1e`, the empty string, `inf` and `nan`
are rejected, and `-0`, `0.50` and `1E+05` pass the format check.  The conversion of an accepted
string to a floating-point number is a parameter (`toDouble`, `toFloat`). -/
theorem C29_decimal_format_check {Double Float32 : Type}
    (toDouble : RoundingMode → List Char → Double × Bool)
    (toFloat : RoundingMode → List Char → Float32 × Bool)
    (round : RoundingMode) (dst64 : Double) (dst32 : Float32) :
    (∀ src : List Char,
      ((decimalToFloatB64 toDouble src round dst64).1 = ConversionResult.StringFormatError ↔
        ¬ IsDecimalLiteral src) ∧
      (¬ IsDecimalLiteral src → (decimalToFloatB64 toDouble src round dst64).2 = dst64) ∧
      ((decimalToFloatB32 toFloat src round dst32).1 = ConversionResult.StringFormatError ↔
        ¬ IsDecimalLiteral src) ∧
      (¬ IsDecimalLiteral src → (decimalToFloatB32 toFloat src round dst32).2 = dst32)) ∧
    (∀ s ∈ ["+1", "01", ".5", "1.", " 1", "1e", "", "inf", "nan"],
      decimalToFloatB64 toDouble (String.toList s) round dst64 =
          (ConversionResult.StringFormatError, dst64) ∧
        decimalToFloatB32 toFloat (String.toList s) round dst32 =
          (ConversionResult.StringFormatError, dst32)) ∧
    (∀ s ∈ ["-0", "0.50", "1E+05"],
      (decimalToFloatB64 toDouble (String.toList s) round dst64).1 ≠
          ConversionResult.StringFormatError ∧
        (decimalToFloatB32 toFloat (String.toList s) round dst32).1 ≠
          ConversionResult.StringFormatError) := by
  refine ⟨fun src => ?_, fun s hs => ?_, fun s hs => ?_⟩
  · have h64 := decimalToFloatB64_spec toDouble src round dst64
    have h32 := decimalToFloatB32_spec toFloat src round dst32
    exact ⟨h64.1, fun h => by rw [h64.2.1 h], h32.1, fun h => by rw [h32.2.1 h]⟩
  · have hno : ¬ IsDecimalLiteral (String.toList s) := by
      rw [← hasMatch_decimalLiteral, rejected_examples s hs]
      decide
    exact ⟨(decimalToFloatB64_spec toDouble _ round dst64).2.1 hno,
      (decimalToFloatB32_spec toFloat _ round dst32).2.1 hno⟩
  · have hyes : IsDecimalLiteral (String.toList s) :=
      (hasMatch_decimalLiteral _).1 (accepted_examples s hs)
    exact ⟨fun h => ((decimalToFloatB64_spec toDouble _ round dst64).1.1 h) hyes,
      fun h => ((decimalToFloatB32_spec toFloat _ round dst32).1.1 h) hyes⟩

/-- Witness for C29, with a conversion that always succeeds with the number 7: `1.` is rejected
and leaves the destination 0, `1E+05` is converted. -/
theorem C29_decimal_format_check_witness :
    decimalToFloatB64 (fun _ _ => ((7 : Int), true)) (String.toList "1.")
        RoundingMode.RoundNearestEven 0 = (ConversionResult.StringFormatError, 0) ∧
      decimalToFloatB64 (fun _ _ => ((7 : Int), true)) (String.toList "1E+05")
        RoundingMode.RoundToInf 0 = (ConversionResult.NoError, 7) ∧
      ((decimalToFloatB64 (fun _ _ => ((7 : Int), true)) (String.toList "1.")
          RoundingMode.RoundNearestEven 0).1 = ConversionResult.StringFormatError ↔
        ¬ IsDecimalLiteral (String.toList "1.")) :=
  ⟨by decide, by decide,
    ((C29_decimal_format_check (fun _ _ => ((7 : Int), true)) (fun _ _ => ((7 : Int), true))
      RoundingMode.RoundNearestEven 0 0).1 (String.toList "1.")).1⟩

end MathUtils


namespace sorted_sequence

/-- The comparison of `std::string` is a strict weak ordering. -/
theorem std_string_strictWeakOrdering : StrictWeakOrdering exampleStrings.comp := by
  have hcomp : exampleStrings.comp =
      fun lhs rhs => decide (codePoints lhs.chars < codePoints rhs.chars) := rfl
  rw [hcomp]
  refine ⟨fun x => ?_, fun x y h => ?_, fun x y z h1 h2 => ?_, fun x y z h1 h2 h3 h4 => ?_⟩
  · simp
  · simp only [decide_eq_true_eq, decide_eq_false_iff_not, not_lt] at h ⊢
    exact le_of_lt h
  · simp only [decide_eq_true_eq] at h1 h2 ⊢
    exact lt_trans h1 h2
  · simp only [decide_eq_false_iff_not, not_lt] at h1 h2 h3 h4 ⊢
    exact ⟨le_trans h3 h1, le_trans h2 h4⟩

/-- C1 (failing input): `removeAll` and `change` can leave an unsorted sequence.  On the sorted
`adaptor<std::vector<std::string>>` holding `a`, `c`, `d`, the call `removeAll("b")` finds an
empty equal range at index 1, removes nothing, and then moves the elements behind the range
onto themselves, `std::move(r.second, end, it)` with `it == r.second`, which empties them: it
returns 0 and leaves `a`, the empty string, the empty string, and the empty string is less than
`a`.  On the same adaptor `change(2, at(1), InsertFirst)` moves `c` from slot 1 to slot 2 and
then assigns its argument, which refers to the emptied slot 1, to slot 1: it returns 1 and
leaves `a`, the empty string, `c`. -/
theorem C1_removeAll_and_change_break_sortedness :
    StrictWeakOrdering exampleStrings.comp ∧ exampleStrings.I1 ∧
      exampleStrings.c = [{ chars := "a" }, { chars := "c" }, { chars := "d" }] ∧
      (exampleStrings.removeAll (const_ref.object { chars := "b" })).map
          (fun r => (r.1, r.2.c, decide r.2.I1)) =
        some (0, [{ chars := "a" }, { chars := "" }, { chars := "" }], false) ∧
      exampleStrings.at_ 1 = some { chars := "c" } ∧
      (exampleStrings.change 2 (const_ref.element 1) InsertMode.InsertFirst noHint).map
          (fun r => (r.1, r.2.c, decide r.2.I1)) =
        some (1, [{ chars := "a" }, { chars := "" }, { chars := "c" }], false) :=
  ⟨std_string_strictWeakOrdering, by decide, by decide, by decide, by decide, by decide⟩

/-- C15 (failing input): `removeAll` does not remove exactly the elements `== v` of the equal
range.  On the sorted bag `[(1,0), (1,1), (1,0)]`, whose comparator looks at the first component
only, `removeAll(at(0))` is asked to remove the two elements `(1,0)`; `std::remove` moves
`(1,1)` onto slot 0, which the argument refers to, and from then on compares with `(1,1)`: the
call returns 1 and leaves `[(1,1), (1,0)]`, whereas with a copy of `at(0)` it returns 2 and
leaves `[(1,1)]`.  On the `adaptor<std::vector<std::string>>` holding `a`, `c`, `d`,
`removeAll("b")` returns 0 and leaves `a` and two empty strings: `c` and `d`, which lie behind
the empty equal range, are not kept.  On the scenario `[1,1,2,3,4,5]`, `removeAll(1)` returns 2
and gives `[2,3,4,5]`. -/
theorem C15_removeAll_aliased_argument_and_self_move :
    StrictWeakOrdering exampleTriple.comp ∧ exampleTriple.I1 ∧
      exampleTriple.c = [(1, 0), (1, 1), (1, 0)] ∧ exampleTriple.at_ 0 = some (1, 0) ∧
      exampleTriple.range (1, 0) = (0, 3) ∧
      (exampleTriple.removeAll (const_ref.element 0)).map (fun r => (r.1, r.2.c)) =
        some (1, [(1, 1), (1, 0)]) ∧
      (exampleTriple.removeAll (const_ref.object (1, 0))).map (fun r => (r.1, r.2.c)) =
        some (2, [(1, 1)]) ∧
      StrictWeakOrdering exampleStrings.comp ∧ exampleStrings.I1 ∧
      exampleStrings.c = [{ chars := "a" }, { chars := "c" }, { chars := "d" }] ∧
      exampleStrings.range { chars := "b" } = (1, 1) ∧
      (exampleStrings.removeAll (const_ref.object { chars := "b" })).map
          (fun r => (r.1, r.2.c)) =
        some (0, [{ chars := "a" }, { chars := "" }, { chars := "" }]) ∧
      (exampleAdaptor6.removeAll (const_ref.object 1)).map (fun r => (r.1, r.2.c)) =
        some (2, [2, 3, 4, 5]) :=
  ⟨byFirst_strictWeakOrdering, by decide, by decide, by decide, by decide, by decide,
    by decide, std_string_strictWeakOrdering, by decide, by decide, by decide, by decide,
    by decide⟩

end sorted_sequence


/-! ## The integer widget: sequences of calls -/

namespace FormGenIntWidget

open Qt

/-- The constructor leaves the input widgets of the style in agreement with the fields:
minimum 0, maximum 100, value 0. -/
theorem construct_synced (st : InputStyle) (ty : ElementType) (k : Nat) :
    construct (k + 8) st ty = some (synced st ty (decide (ty = ElementType.Required)) 0 100 0) := by
  cases st <;> cases ty <;>
  simp (disch := first | omega | decide) only
    [construct, setupStyle, setSpinBox, setSlider, setPlain, QSpinBox.construct,
      QSlider.construct, minimum, maximum, spinBox_setMinimum_mk, spinBox_setMaximum_mk,
      spinBox_setValue_mk, slider_setMinimum_mk, slider_setMaximum_mk, slider_setValue_mk,
      synced, reduceCtorEq, eq_self_iff_true, or_false, false_or, true_or, or_true, or_self,
      ite_true, ite_false, decide_True, decide_False, Option.isSome_none, Option.isNone_none,
      Bool.false_eq_true, false_and, and_true, and_false, if_pos, if_neg,
      min_eq_left, min_eq_right, max_eq_left, max_eq_right, Option.some_bind,
      updateInputWidgets_step InputStyle.Spinner, updateInputWidgets_step InputStyle.Slider,
      updateInputWidgets_step InputStyle.SpinnerSlider, updateInputWidgets_step InputStyle.Plain,
      updateSpinBox_none, updateSpinBox_quiet, updateSlider_none, updateSlider_quiet,
      updatePlain_none, updatePlain_some]

/-- What `setValue` does in a state whose input widgets agree with the fields: the range stays,
the value stays inside the range, and the input widgets agree with the fields afterwards. -/
theorem setValue_synced (st : InputStyle) (ty : ElementType) (vs : Bool) (mn mx val : Int)
    (q : QVariant) (h1 : mn ≤ val) (h2 : val ≤ mx) :
    ∃ (vs1 : Bool) (val1 : Int),
      (∀ k, setValue (k + 8) (synced st ty vs mn mx val) q =
        some (synced st ty vs1 mn mx val1)) ∧ mn ≤ val1 ∧ val1 ≤ mx := by
  by_cases hacc : (synced st ty vs mn mx val).acceptsValue q = true
  · by_cases hvalid : q.isValid = true
    · have himpl : (synced st ty vs mn mx val).acceptsValueImpl q = true := by
        unfold acceptsValue at hacc
        split at hacc
        · rename_i hopt
          rw [hvalid] at hopt
          exact absurd hopt.2 (by decide)
        · exact hacc
      unfold acceptsValueImpl at himpl
      split at himpl
      · cases hti : q.toInt with
        | none => rw [hti] at himpl; simp at himpl
        | some r =>
          obtain ⟨v, ok⟩ := r
          rw [hti] at himpl
          simp only at himpl
          split at himpl
          · have hv : v = qBound mn v mx := of_decide_eq_true himpl
            rw [qBound_eq] at hv
            have hv1 : mn ≤ v := by omega
            have hv2 : v ≤ mx := by omega
            refine ⟨true, if st = InputStyle.SpinnerSlider then val else v, fun k => ?_,
              by split <;> omega, by split <;> omega⟩
            unfold setValue setValidatedValue setVaidatedValueImpl
            rw [hacc, hvalid, hti]
            simp only [Bool.not_true, Bool.false_eq_true, if_false, Option.bind_eq_bind,
              Option.some_bind]
            rw [setIntValue_synced st ty vs mn mx val v k h1 h2 hv1 hv2, Option.some_bind]
            exact setValueSet_synced st ty vs mn mx _ true k (by split <;> omega)
              (by split <;> omega)
          · exact absurd himpl (by decide)
      · exact absurd himpl (by decide)
    · refine ⟨false, val, fun k => ?_, h1, h2⟩
      unfold setValue setValidatedValue
      rw [hacc]
      simp only [Bool.not_true, Bool.false_eq_true, if_false]
      rw [if_pos (by simpa using hvalid)]
      exact setValueSet_synced st ty vs mn mx val false k h1 h2
  · refine ⟨vs, val, fun k => ?_, h1, h2⟩
    unfold setValue
    rw [if_pos (by simpa using hacc)]

/-- The call `setValue(v)` with an `int` inside the range: the value is set, and so is the
value of the widget, except in the style with a spin box and a slider, where the old value
comes back. -/
theorem setValue_fromInt_synced (st : InputStyle) (ty : ElementType) (vs : Bool)
    (mn mx val v : Int) (h1 : mn ≤ val) (h2 : val ≤ mx) (h3 : mn ≤ v) (h4 : v ≤ mx)
    (h5 : -2147483648 ≤ v) (h6 : v < 2147483648) (k : Nat) :
    setValue (k + 8) (synced st ty vs mn mx val) (QVariant.fromInt v) =
      some (synced st ty true mn mx (if st = InputStyle.SpinnerSlider then val else v)) := by
  have hto : (QVariant.fromInt v).toInt = some (v, true) := by
    simp only [QVariant.toInt, QVariant.fromInt, isIntegerMetaType, if_true, toSigned32]
    have : v % 4294967296 = if 0 ≤ v then v else v + 4294967296 := by
      split <;> omega
    split <;> simp only [Option.some.injEq, Prod.mk.injEq, and_true] <;> omega
  have hb : v = qBound mn v mx := by rw [qBound_eq]; omega
  have hacc : (synced st ty vs mn mx val).acceptsValue (QVariant.fromInt v) = true := by
    have hvalid : (QVariant.fromInt v).isValid = true := by
      simp [QVariant.isValid, QVariant.fromInt]
    have hint : MathUtils.isIntegerType (QVariant.fromInt v) = true := rfl
    unfold acceptsValue acceptsValueImpl
    rw [hvalid, hint, hto]
    have hmn : (synced st ty vs mn mx val).minimum = mn := rfl
    have hmx : (synced st ty vs mn mx val).maximum = mx := rfl
    simp only [Bool.not_true, Bool.false_eq_true, and_false, if_false, if_true, hmn, hmx]
    exact decide_eq_true hb
  have hvalid : (QVariant.fromInt v).isValid = true := by
    simp [QVariant.isValid, QVariant.fromInt]
  unfold setValue setValidatedValue setVaidatedValueImpl
  rw [hacc, hvalid, hto]
  simp only [Bool.not_true, Bool.false_eq_true, if_false, Option.bind_eq_bind,
    Option.some_bind]
  rw [setIntValue_synced st ty vs mn mx val v k h1 h2 h3 h4, Option.some_bind]
  exact setValueSet_synced st ty vs mn mx _ true k (by split <;> omega) (by split <;> omega)

/-- Every call, made in a state whose input widgets agree with the fields and whose value is
inside the range, returns, with the same result at every depth bound from 8 on, and leaves such
a state. -/
theorem step_synced (st : InputStyle) (ty : ElementType) (vs : Bool) (mn mx val : Int)
    (call : Call) (h1 : mn ≤ val) (h2 : val ≤ mx) :
    ∃ (vs1 : Bool) (mn1 mx1 val1 : Int),
      (∀ k, step (k + 8) (synced st ty vs mn mx val) call =
        some (synced st ty vs1 mn1 mx1 val1)) ∧ mn1 ≤ val1 ∧ val1 ≤ mx1 := by
  cases call with
  | setMinimum a =>
    exact ⟨vs, a, max mx a, max val a,
      fun k => setMinimum_synced st ty vs mn mx val a k h1 h2, by omega, by omega⟩
  | setMaximum a =>
    exact ⟨vs, min mn a, a, min val a,
      fun k => setMaximum_synced st ty vs mn mx val a k h1 h2, by omega, by omega⟩
  | setValue q =>
    obtain ⟨vs1, val1, h, h3, h4⟩ := setValue_synced st ty vs mn mx val q h1 h2
    exact ⟨vs1, mn, mx, val1, h, h3, h4⟩
  | spinBoxSetValue v =>
    exact ⟨vs, mn, mx, _, fun k => spinBoxSetValue_synced st ty vs mn mx val v k h1 h2,
      by split <;> omega, by split <;> omega⟩
  | sliderSetValue v =>
    exact ⟨vs, mn, mx, _, fun k => sliderSetValue_synced st ty vs mn mx val v k h1 h2,
      by split <;> omega, by split <;> omega⟩
  | plainEdited t =>
    refine ⟨vs, mn, mx, _, fun k => plainEdited_synced st ty vs mn mx val t k h1 h2, ?_, ?_⟩
    · cases t with
      | none => exact h1
      | some v => simp only; split <;> omega
    · cases t with
      | none => exact h2
      | some v => simp only; split <;> omega
  | valueSetBoxSetChecked b =>
    exact ⟨_, mn, mx, val,
      fun k => valueSetBoxSetChecked_synced st ty vs mn mx val b k h1 h2, h1, h2⟩
  | checkNewValue =>
    exact ⟨vs, mn, mx, val, fun k => checkNewValue_synced st ty vs mn mx val k h1 h2, h1, h2⟩

/-- Every sequence of calls, started in a state whose input widgets agree with the fields and
whose value is inside the range, returns, with the same result at every depth bound from 8 on,
and leaves such a state. -/
theorem run_synced (calls : List Call) :
    ∀ (st : InputStyle) (ty : ElementType) (vs : Bool) (mn mx val : Int), mn ≤ val → val ≤ mx →
      ∃ (vs1 : Bool) (mn1 mx1 val1 : Int),
        (∀ k, run (k + 8) calls (synced st ty vs mn mx val) =
          some (synced st ty vs1 mn1 mx1 val1)) ∧ mn1 ≤ val1 ∧ val1 ≤ mx1 := by
  induction calls with
  | nil =>
    intro st ty vs mn mx val h1 h2
    exact ⟨vs, mn, mx, val, fun _ => rfl, h1, h2⟩
  | cons call calls ih =>
    intro st ty vs mn mx val h1 h2
    obtain ⟨vs1, mn1, mx1, val1, hstep, h3, h4⟩ := step_synced st ty vs mn mx val call h1 h2
    obtain ⟨vs2, mn2, mx2, val2, hrun, h5, h6⟩ := ih st ty vs1 mn1 mx1 val1 h3 h4
    refine ⟨vs2, mn2, mx2, val2, fun k => ?_, h5, h6⟩
    show (step (k + 8) (synced st ty vs mn mx val) call).bind (run (k + 8) calls) = _
    rw [hstep k, Option.some_bind]
    exact hrun k

end FormGenIntWidget


namespace FormGenIntWidget

open Qt

/-- C30: `FormGenIntWidget` keeps `minimum <= value <= maximum`, the slots that Qt runs while a
member emits a signal included.  For every input style and element type the constructor
returns a widget with minimum 0, maximum 100 and value 0.  From there every sequence of calls
(`setMinimum`, `setMaximum` and `setValue` with arbitrary arguments; a new value of the spin box
or of the slider, any text left in the line edit, a switch of the check box, each of which runs
`checkNewValue` or `setValueSet` through the connected signal; `checkNewValue` itself) returns:
a depth of 8 nested calls is enough, and every greater bound gives the same state.  In that
state `mMinimum <= mValue <= mMaximum`, and a further `setMinimum` or `setMaximum` with any
argument returns as well (so the mutual recursion of the two ends) and keeps the invariant.
On the style with a spin box and a slider, `setMinimum(200)`, the value 7 typed into the spin
box, and `setMaximum(-5)` end with minimum, value and maximum -5; `setValue(5)` on the new widget leaves
the value 5 with a spin box alone, and leaves it 0 with a spin box and a slider. -/
theorem C30_int_widget_range_invariant :
    (∀ (style : InputStyle) (type : ElementType), ∃ w0 : FormGenIntWidget,
      (∀ k, construct (k + 8) style type = some w0) ∧
      w0.mMinimum = 0 ∧ w0.mMaximum = 100 ∧ w0.mValue = 0 ∧
      ∀ calls : List Call, ∃ w : FormGenIntWidget,
        (∀ k, run (k + 8) calls w0 = some w) ∧
        w.mMinimum ≤ w.mValue ∧ w.mValue ≤ w.mMaximum ∧
        (∀ min : Int, ∃ w1 : FormGenIntWidget, (∀ k, setMinimum (k + 8) w min = some w1) ∧
          w1.mMinimum ≤ w1.mValue ∧ w1.mValue ≤ w1.mMaximum) ∧
        (∀ max : Int, ∃ w1 : FormGenIntWidget, (∀ k, setMaximum (k + 8) w max = some w1) ∧
          w1.mMinimum ≤ w1.mValue ∧ w1.mValue ≤ w1.mMaximum)) ∧
    (∀ k, ((construct (k + 8) InputStyle.SpinnerSlider ElementType.Required).bind
        (run (k + 8) [Call.setMinimum 200, Call.spinBoxSetValue 7,
          Call.setMaximum (-5)])).map (fun w => (w.mMinimum, w.mValue, w.mMaximum)) =
      some (-5, -5, -5)) ∧
    (∀ k, ((construct (k + 8) InputStyle.Spinner ElementType.Required).bind
        (run (k + 8) [Call.setValue (QVariant.fromInt 5)])).map
          (fun w => (w.mMinimum, w.mValue, w.mMaximum)) = some (0, 5, 100)) ∧
    (∀ k, ((construct (k + 8) InputStyle.SpinnerSlider ElementType.Required).bind
        (run (k + 8) [Call.setValue (QVariant.fromInt 5)])).map
          (fun w => (w.mMinimum, w.mValue, w.mMaximum)) = some (0, 0, 100)) := by
  refine ⟨fun style type => ?_, fun k => ?_, fun k => ?_, fun k => ?_⟩
  · refine ⟨_, fun k => construct_synced style type k, rfl, rfl, rfl, fun calls => ?_⟩
    obtain ⟨vs1, mn1, mx1, val1, hrun, h1, h2⟩ :=
      run_synced calls style type (decide (type = ElementType.Required)) 0 100 0
        (by omega) (by omega)
    refine ⟨_, hrun, h1, h2, fun a => ?_, fun a => ?_⟩
    · exact ⟨_, fun k => setMinimum_synced style type vs1 mn1 mx1 val1 a k h1 h2,
        show a ≤ max val1 a by omega, show max val1 a ≤ max mx1 a by omega⟩
    · exact ⟨_, fun k => setMaximum_synced style type vs1 mn1 mx1 val1 a k h1 h2,
        show min mn1 a ≤ min val1 a by omega, show min val1 a ≤ a by omega⟩
  · rw [construct_synced, Option.some_bind]
    have e1 : ∀ w, step (k + 8) w (Call.setMinimum 200) = setMinimum (k + 8) w 200 :=
      fun _ => rfl
    have e2 : ∀ w, step (k + 8) w (Call.setMaximum (-5)) = setMaximum (k + 8) w (-5) :=
      fun _ => rfl
    simp (disch := omega) only [run, e1, e2, Option.bind_eq_bind, Option.some_bind,
      setMinimum_synced, setMaximum_synced, spinBoxSetValue_synced, max_eq_left, max_eq_right,
      min_eq_left, min_eq_right, eq_self_iff_true, or_true, ite_true, Option.map_some']
    simp only [synced]
  · rw [construct_synced, Option.some_bind]
    have e1 : ∀ w q, step (k + 8) w (Call.setValue q) = setValue (k + 8) w q := fun _ _ => rfl
    simp (disch := omega) only [run, e1, Option.bind_eq_bind, Option.some_bind,
      setValue_fromInt_synced, reduceCtorEq, ite_false, Option.map_some']
    simp only [synced]
  · rw [construct_synced, Option.some_bind]
    have e1 : ∀ w q, step (k + 8) w (Call.setValue q) = setValue (k + 8) w q := fun _ _ => rfl
    simp (disch := omega) only [run, e1, Option.bind_eq_bind, Option.some_bind,
      setValue_fromInt_synced, eq_self_iff_true, ite_true, Option.map_some']
    simp only [synced]

end FormGenIntWidget
